import Mathlib

/-!
Verification of the limit-order-book matching engine in
src/limit-order-book/order_book_logic.py.

The Python code is shallowly embedded as pure functions over an explicit
engine state (structure Book).  Modelling conventions, each justified
against the source:

* Prices (Python floats, by convention rounded to cents by the callers)
  are modelled as rationals; level lookup uses exact price equality in
  both the source and the model.

* Python dicts (order_map, queue_map, volume_map) are modelled as
  association lists; the source never iterates over them, it only does
  key lookup, insertion, overwrite and deletion.

* Python objects (Order, deque) are mutable and aliased: the same Order
  object is referenced by order_map and by a price-level deque, and the
  same deque is referenced by queue_map and by a heap entry.  The model
  therefore keeps an object store: field orders maps order_id to the
  current Order record (ids are never reused, so an id identifies an
  object), and field queues maps an allocation counter qid to the
  current deque contents (a list of order ids, head first).  Deques in
  queue_map and in the heaps are referenced by qid.  Store entries are
  never deleted; deleting a dict entry only removes the reference.

* The heapq min-heaps (asks_heap, bids_heap) hold (price_key, deque)
  pairs.  heapq guarantees that the array root is a minimal element and
  heapq.nsmallest is a sorted prefix, so the heap is modelled as a list
  kept sorted by price (ascending for asks, descending for bids, since
  bids are keyed by the negated price), ties kept in insertion order.
  heappush is a stable sorted insertion, heappop removes the head,
  nsmallest k is take k.  Comparison of entries with equal price falls
  through to deque comparison in CPython; for the empty-versus-nonempty
  deque case this orders the empty deque first, which on reachable
  states coincides with insertion order (an empty tombstone entry at a
  price is always older than a later nonempty entry at the same price).
  CPython raises TypeError when two nonempty deques at the same price
  are compared, and KeyError on volume_map[key] -= v with the key
  absent; both only arise in states produced by the tombstone-cleanup
  slip analysed for claim C3.  The model totalises these (stable tie
  order; missing volume_map key read as 0), so every run CPython
  completes is a run of the model, and theorems quantified over
  reachable model states cover all states CPython reaches without an
  exception.

* datetime.datetime.now() is modelled by a logical clock in the state
  that every now() call reads and strictly increases; timestamps are
  naturals.  round(x, 2) on the mid price is modelled by round-half-even
  to two decimals on rationals.

* trade_log entries are the formatted strings of source lines 152-155
  and 216-219; the model keeps the data the string is built from
  (volume, price, taker client and id, maker client and id) as a
  LogEntry record.
-/

namespace LOB

/-- Association-list lookup, the model of Python dict read. -/
def alookup {α β : Type} [DecidableEq α] : List (α × β) → α → Option β
  | [], _ => none
  | (k, v) :: t, k' => if k = k' then some v else alookup t k'

/-- Association-list write, the model of Python dict assignment: replaces
the value at an existing key, otherwise appends the binding. -/
def ainsert {α β : Type} [DecidableEq α] : List (α × β) → α → β → List (α × β)
  | [], k, v => [(k, v)]
  | (k', v') :: t, k, v => if k' = k then (k, v) :: t else (k', v') :: ainsert t k v

/-- Association-list delete, the model of Python del d[k]. -/
def aerase {α β : Type} [DecidableEq α] : List (α × β) → α → List (α × β)
  | [], _ => []
  | (k', v') :: t, k => if k' = k then t else (k', v') :: aerase t k

/-- Side — the enum of order_book_logic.py lines 11-13. -/
inductive Side : Type
  | BUY : Side
  | SELL : Side
deriving DecidableEq, Repr

/-- Order — the record class of order_book_logic.py lines 24-31.  The
timestamp is the logical clock value at construction. -/
structure Order : Type where
  order_id : Nat
  client : String
  side : Side
  price : Rat
  volume : Int
  timestamp : Nat
deriving DecidableEq, Repr

instance : Inhabited Order := ⟨⟨0, "", Side.BUY, 0, 0, 0⟩⟩

/-- Trade — the TypedDict of order_book_logic.py lines 15-22, built at
lines 139-147 and 203-211. -/
structure Trade : Type where
  timestamp : Nat
  price : Rat
  volume : Int
  maker_order_id : Nat
  taker_order_id : Nat
  maker_client : String
  taker_client : String
deriving DecidableEq, Repr

/-- LogEntry — the data interpolated into the trade_log string of
order_book_logic.py lines 152-155 (and identically 216-219). -/
structure LogEntry : Type where
  volume : Int
  price : Rat
  taker_client : String
  taker_order_id : Nat
  maker_client : String
  maker_order_id : Nat
deriving DecidableEq, Repr

/-- Book — the state of an OrderBook instance (order_book_logic.py lines
38-55) together with the object store and the logical clock (see the
module comment). -/
structure Book : Type where
  /-- Object store: order id to current Order record (never deleted). -/
  orders : List (Nat × Order)
  /-- Ids currently present as keys of self.order_map. -/
  order_map : List Nat
  /-- Object store: qid to current deque contents, head first. -/
  queues : List (Nat × List Nat)
  /-- Allocation counter for qids. -/
  next_queue : Nat
  /-- asks_heap: (price, qid) pairs, sorted by ascending price, ties in
  insertion order. -/
  asks_heap : List (Rat × Nat)
  /-- bids_heap: (price, qid) pairs, sorted by descending price (the
  source stores the negated price), ties in insertion order. -/
  bids_heap : List (Rat × Nat)
  /-- queue_map: (price, side) to qid. -/
  queue_map : List ((Rat × Side) × Nat)
  /-- volume_map: (price, side) to total active volume. -/
  volume_map : List ((Rat × Side) × Int)
  /-- self._order_id_counter. -/
  order_id_counter : Nat
  /-- self.trade_log. -/
  trade_log : List LogEntry
  /-- self.price_history: (timestamp, mid price), oldest first. -/
  price_history : List (Nat × Rat)
  /-- History capacity (deque maxlen), constructor default 200. -/
  history_limit : Nat
  /-- self.last_recorded_mid_price. -/
  last_recorded_mid_price : Option Rat
  /-- Logical clock standing for datetime.datetime.now(). -/
  clock : Nat
deriving DecidableEq, Repr

/-- Fresh OrderBook state: OrderBook.__init__ (lines 38-55). -/
def initBook (history_limit : Nat) : Book where
  orders := []
  order_map := []
  queues := []
  next_queue := 0
  asks_heap := []
  bids_heap := []
  queue_map := []
  volume_map := []
  order_id_counter := 1
  trade_log := []
  price_history := []
  history_limit := history_limit
  last_recorded_mid_price := none
  clock := 0

/-- Current record of an order object; ids in play are always in the
store, the default is never reached from reachable states. -/
def getOrder (b : Book) (oid : Nat) : Order :=
  (alookup b.orders oid).getD default

/-- Current contents of a deque object. -/
def queueOf (b : Book) (qid : Nat) : List Nat :=
  (alookup b.queues qid).getD []

/-- volume_map.get(map_key, 0) — source lines 93, 259-262, 369, 382. -/
def vget (vm : List ((Rat × Side) × Int)) (key : Rat × Side) : Int :=
  (alookup vm key).getD 0

/-- get_volume_at_price (source lines 259-262). -/
def get_volume_at_price (b : Book) (price : Rat) (side : Side) : Int :=
  vget b.volume_map (price, side)

/-- Write the volume of one order object in the store. -/
def setVolume (b : Book) (oid : Nat) (v : Int) : Book :=
  { b with orders := ainsert b.orders oid { getOrder b oid with volume := v } }

/-- Membership update standing for self.order_map[order_id] = order. -/
def addId (l : List Nat) (oid : Nat) : List Nat :=
  if oid ∈ l then l else l ++ [oid]

/-- Membership update standing for del self.order_map[order_id]
(the source always guards it with an `in` check). -/
def removeId (l : List Nat) (oid : Nat) : List Nat :=
  l.filter (fun x => x ≠ oid)

/-- heapq.heappush on the asks heap: stable insertion into the
price-ascending list (see the module comment for the tie discipline). -/
def heapInsertAsks : List (Rat × Nat) → (Rat × Nat) → List (Rat × Nat)
  | [], e => [e]
  | x :: t, e => if e.1 < x.1 then e :: x :: t else x :: heapInsertAsks t e

/-- heapq.heappush on the bids heap (keyed by negated price in the
source, hence descending by price here). -/
def heapInsertBids : List (Rat × Nat) → (Rat × Nat) → List (Rat × Nat)
  | [], e => [e]
  | x :: t, e => if x.1 < e.1 then e :: x :: t else x :: heapInsertBids t e

/-- Lazy-cleanup loop of get_best_bid (source lines 364-374): pop heap
entries whose level has no active volume, stop at the first live one.
Returns the remaining heap and the best price. -/
def popStaleBids (vm : List ((Rat × Side) × Int)) :
    List (Rat × Nat) → List (Rat × Nat) × Option Rat
  | [] => ([], none)
  | (p, q) :: t =>
    if 0 < vget vm (p, Side.BUY) then ((p, q) :: t, some p) else popStaleBids vm t

/-- Lazy-cleanup loop of get_best_ask (source lines 378-387). -/
def popStaleAsks (vm : List ((Rat × Side) × Int)) :
    List (Rat × Nat) → List (Rat × Nat) × Option Rat
  | [] => ([], none)
  | (p, q) :: t =>
    if 0 < vget vm (p, Side.SELL) then ((p, q) :: t, some p) else popStaleAsks vm t

/-- get_best_bid (source lines 362-374).  It mutates the book: stale
top entries are popped from the bids heap. -/
def get_best_bid (b : Book) : Book × Option Rat :=
  let r := popStaleBids b.volume_map b.bids_heap
  ({ b with bids_heap := r.1 }, r.2)

/-- get_best_ask (source lines 376-387). -/
def get_best_ask (b : Book) : Book × Option Rat :=
  let r := popStaleAsks b.volume_map b.asks_heap
  ({ b with asks_heap := r.1 }, r.2)

/-! The mid-price arithmetic is written with explicit mkRat fractions
so that concrete traces evaluate inside the kernel; the theorems
ratAdd_eq, ratHalf_eq, ratScale100_eq, ratSub_eq and floor lemmas below
prove each helper equal to the corresponding field operation, so these
are the exact rational operations of the source. -/

/-- x + y as an explicit fraction (see ratAdd_eq). -/
def ratAdd (x y : Rat) : Rat := mkRat (x.num * y.den + y.num * x.den) (x.den * y.den)

/-- x / 2 as an explicit fraction (see ratHalf_eq). -/
def ratHalf (x : Rat) : Rat := mkRat x.num (x.den * 2)

/-- x * 100 as an explicit fraction (see ratScale100_eq). -/
def ratScale100 (x : Rat) : Rat := mkRat (x.num * 100) x.den

/-- x - y as an explicit fraction (see ratSub_eq). -/
def ratSub (x y : Rat) : Rat := mkRat (x.num * y.den - y.num * x.den) (x.den * y.den)

/-- Round-half-even to an integer, the tie behaviour of Python round:
the floor when the fractional part is below one half, the ceiling when
it is above, the even neighbour on a tie.  x.num / x.den is the floor
of x (Rat.floor_eq_div). -/
def roundHalfEven (x : Rat) : Int :=
  let f : Int := x.num / x.den
  let r : Rat := ratSub x (mkRat f 1)
  if r < mkRat 1 2 then f
  else if mkRat 1 2 < r then f + 1
  else if f % 2 = 0 then f else f + 1

/-- Model of Python round(x, 2) on the mid price (source line 70):
round half even at two decimals. -/
def round2 (x : Rat) : Rat := mkRat (roundHalfEven (ratScale100 x)) 100

/-- Append to collections.deque(maxlen=limit): the oldest entries are
dropped from the front so that at most limit entries remain. -/
def pushRing (limit : Nat) (h : List (Nat × Rat)) (x : Nat × Rat) : List (Nat × Rat) :=
  (h ++ [x]).drop ((h.length + 1) - limit)

/-- Mid-price formation rule of _update_price_history (source lines
68-74): the rounded mean when both sides exist, else the single side. -/
def midOf : Option Rat → Option Rat → Option Rat
  | some bb, some ba => some (round2 (ratHalf (ratAdd bb ba)))
  | some bb, none => some bb
  | none, some ba => some ba
  | none, none => none

/-- Recording step of _update_price_history (source lines 76-81): append
(now, mid) when mid exists and differs from the last recorded one. -/
def recordMid (b2 : Book) : Option Rat → Book
  | none => b2
  | some m =>
    if b2.last_recorded_mid_price = some m then b2
    else { b2 with
      price_history := pushRing b2.history_limit b2.price_history (b2.clock, m)
      last_recorded_mid_price := some m
      clock := b2.clock + 1 }

/-- _update_price_history (source lines 63-81): call get_best_bid then
get_best_ask (both with their lazy heap cleanup), then record the mid
price formed from their results. -/
def update_price_history (b : Book) : Book :=
  recordMid (get_best_ask (get_best_bid b).1).1
    (midOf (get_best_bid b).2 (get_best_ask (get_best_bid b).1).2)

/-- _add_order_to_book (source lines 83-104): update volume_map, then
either append to the existing level queue or create a new queue,
register it in queue_map and push it on the side's heap. -/
def add_order_to_book (b : Book) (oid : Nat) : Book :=
  let o := getOrder b oid
  let map_key := (o.price, o.side)
  let b1 := { b with
    volume_map := ainsert b.volume_map map_key (vget b.volume_map map_key + o.volume) }
  match alookup b1.queue_map map_key with
  | none =>
    let qid := b1.next_queue
    let b2 := { b1 with
      queues := ainsert b1.queues qid [oid]
      next_queue := qid + 1
      queue_map := ainsert b1.queue_map map_key qid }
    match o.side with
    | Side.SELL => { b2 with asks_heap := heapInsertAsks b2.asks_heap (o.price, qid) }
    | Side.BUY => { b2 with bids_heap := heapInsertBids b2.bids_heap (o.price, qid) }
  | some qid => { b1 with queues := ainsert b1.queues qid (queueOf b1 qid ++ [oid]) }

/-- Effect of one trade between the incoming taker and the queue head
maker (source lines 133-162, identically 197-227): build the Trade and
the log entry, advance the clock for the trade timestamp, decrement both
order volumes and the maker level's volume_map entry.  CPython raises
KeyError at line 161 when the maker's volume_map key is absent (possible
only in the corrupted states analysed for claim C3); the model reads the
missing value as 0, see the module comment. -/
def tradeUpdates (b : Book) (takerId makerId : Nat) : Book × Trade :=
  let t := getOrder b takerId
  let m := getOrder b makerId
  let trade_volume := min t.volume m.volume
  let trade : Trade := { timestamp := b.clock
                         price := m.price
                         volume := trade_volume
                         maker_order_id := m.order_id
                         taker_order_id := t.order_id
                         maker_client := m.client
                         taker_client := t.client }
  let logE : LogEntry := { volume := trade_volume
                           price := m.price
                           taker_client := t.client
                           taker_order_id := t.order_id
                           maker_client := m.client
                           maker_order_id := m.order_id }
  let b1 : Book := { b with clock := b.clock + 1, trade_log := b.trade_log ++ [logE] }
  let b2 := setVolume b1 takerId (t.volume - trade_volume)
  let b3 := setVolume b2 makerId ((getOrder b2 makerId).volume - trade_volume)
  ({ b3 with volume_map :=
      ainsert b3.volume_map (m.price, m.side) (vget b3.volume_map (m.price, m.side) - trade_volume) },
   trade)

/-- Fully-filled maker removal (source lines 165-170, 230-235): popleft
from the level queue and delete the maker from order_map. -/
def popMaker (b : Book) (makerId qid : Nat) (rest : List Nat) : Book :=
  { b with
    queues := ainsert b.queues qid rest
    order_map := removeId b.order_map makerId }

/-- Inner matching loop over one price-level queue (source lines
131-170; the SELL branch at lines 195-235 is textually identical).
While the queue is nonempty and the taker has volume: trade against the
head, and pop the head when it is fully filled.  The queue contents are
the recursion parameter; every call site keeps the invariant
queueOf b qid = q, so this is the source loop with its own deque made
explicit. -/
def runQueueGo (takerId qid : Nat) (b : Book) : List Nat → Book × List Trade
  | [] => (b, [])
  | makerId :: rest =>
    if 0 < (getOrder b takerId).volume then
      let r := tradeUpdates b takerId makerId
      if (getOrder r.1 makerId).volume = 0 then
        let r2 := runQueueGo takerId qid (popMaker r.1 makerId qid rest) rest
        (r2.1, r.2 :: r2.2)
      else
        (r.1, [r.2])
    else (b, [])

/-- Inner matching loop entry point: run on the current contents of the
level's deque. -/
def runQueue (b : Book) (takerId qid : Nat) : Book × List Trade :=
  runQueueGo takerId qid b (queueOf b qid)

/-- Outer BUY matching loop (source lines 117-179): while the taker has
volume and the asks heap is nonempty and the taker price crosses the
heap root, either discard an empty-queue tombstone root (with the
unconditional queue_map cleanup of line 127) or run the inner loop on
the root's queue and clean up the level if its queue emptied.  The heap
contents are the recursion parameter; every call site keeps the
invariant b.asks_heap = h. -/
def matchBuyGo (takerId : Nat) (b : Book) : List (Rat × Nat) → Book × List Trade
  | [] => (b, [])
  | (price, qid) :: rest =>
    if 0 < (getOrder b takerId).volume ∧ price ≤ (getOrder b takerId).price then
      match queueOf b qid with
      | [] =>
        let b1 : Book := { b with
          asks_heap := rest
          queue_map := aerase b.queue_map (price, Side.SELL) }
        matchBuyGo takerId b1 rest
      | _ :: _ =>
        let r := runQueue b takerId qid
        if queueOf r.1 qid = [] then
          let b2 : Book := { r.1 with
            asks_heap := rest
            queue_map := aerase r.1.queue_map (price, Side.SELL)
            volume_map := if vget r.1.volume_map (price, Side.SELL) ≤ 0
                          then aerase r.1.volume_map (price, Side.SELL)
                          else r.1.volume_map }
          let r2 := matchBuyGo takerId b2 rest
          (r2.1, r.2 ++ r2.2)
        else (r.1, r.2)
    else (b, [])

/-- Outer BUY matching loop entry point. -/
def matchBuy (b : Book) (takerId : Nat) : Book × List Trade :=
  matchBuyGo takerId b b.asks_heap

/-- Outer SELL matching loop (source lines 181-244), symmetric to
matchBuy: the taker crosses while its price is at most the bids root. -/
def matchSellGo (takerId : Nat) (b : Book) : List (Rat × Nat) → Book × List Trade
  | [] => (b, [])
  | (price, qid) :: rest =>
    if 0 < (getOrder b takerId).volume ∧ (getOrder b takerId).price ≤ price then
      match queueOf b qid with
      | [] =>
        let b1 : Book := { b with
          bids_heap := rest
          queue_map := aerase b.queue_map (price, Side.BUY) }
        matchSellGo takerId b1 rest
      | _ :: _ =>
        let r := runQueue b takerId qid
        if queueOf r.1 qid = [] then
          let b2 : Book := { r.1 with
            bids_heap := rest
            queue_map := aerase r.1.queue_map (price, Side.BUY)
            volume_map := if vget r.1.volume_map (price, Side.BUY) ≤ 0
                          then aerase r.1.volume_map (price, Side.BUY)
                          else r.1.volume_map }
          let r2 := matchSellGo takerId b2 rest
          (r2.1, r.2 ++ r2.2)
        else (r.1, r.2)
    else (b, [])

/-- Outer SELL matching loop entry point. -/
def matchSell (b : Book) (takerId : Nat) : Book × List Trade :=
  matchSellGo takerId b b.bids_heap

/-- Admission stage of place_order (source lines 108-111): allocate the
id (lines 57-61), construct the taker record with the current wall
clock, and register it in order_map. -/
def placeStart (b : Book) (client : String) (side : Side) (price : Rat) (volume : Int) :
    Book :=
  { b with
    order_id_counter := b.order_id_counter + 1
    clock := b.clock + 1
    orders := ainsert b.orders b.order_id_counter
      { order_id := b.order_id_counter
        client := client
        side := side
        price := price
        volume := volume
        timestamp := b.clock }
    order_map := addId b.order_map b.order_id_counter }

/-- Matching stage of place_order (lines 116-244): a BUY taker matches
against the asks, a SELL taker against the bids. -/
def placeMatch (b1 : Book) (order_id : Nat) : Side → Book × List Trade
  | Side.BUY => matchBuy b1 order_id
  | Side.SELL => matchSell b1 order_id

/-- Remainder stage of place_order (lines 246-253): a taker with
residual volume rests on its own side, otherwise it is removed from
order_map. -/
def placeRest (b2 : Book) (order_id : Nat) : Book :=
  if 0 < (getOrder b2 order_id).volume then add_order_to_book b2 order_id
  else { b2 with order_map := removeId b2.order_map order_id }

/-- place_order (source lines 106-257): allocate the id, construct and
register the taker, match against the opposite side, rest the remainder
or deregister the taker, update the price history, and return the id
with the executed trades. -/
def place_order (b : Book) (client : String) (side : Side) (price : Rat) (volume : Int) :
    Book × Nat × List Trade :=
  let r := placeMatch (placeStart b client side price volume) b.order_id_counter side
  (update_price_history (placeRest r.1 b.order_id_counter), b.order_id_counter, r.2)

/-- Volume-map step of cancel_order (source lines 297-307): subtract the
order's residual volume when the level key is present, deleting the
entry when it reaches zero; returns the volume_updated flag. -/
def cancelVolumeStep (b : Book) (map_key : Rat × Side) (vol : Int) : Book × Bool :=
  match alookup b.volume_map map_key with
  | some v =>
    ({ b with volume_map :=
        if v - vol ≤ 0 then aerase b.volume_map map_key
        else ainsert b.volume_map map_key (v - vol) }, true)
  | none => (b, false)

/-- Queue-removal step of cancel_order (source lines 310-339): remove
the order from its level queue when the level and the order are found,
deleting the queue_map entry when the queue empties; returns the
queue_became_empty flag.  The not-found case is the logged ValueError
path of lines 330-337. -/
def cancelQueueStep (b : Book) (map_key : Rat × Side) (oid : Nat) : Book × Bool :=
  match alookup b.queue_map map_key with
  | some qid =>
    if oid ∈ queueOf b qid then
      if (queueOf b qid).erase oid = [] then
        ({ b with
            queues := ainsert b.queues qid ((queueOf b qid).erase oid)
            queue_map := aerase b.queue_map map_key }, true)
      else ({ b with queues := ainsert b.queues qid ((queueOf b qid).erase oid) }, false)
    else (b, false)
  | none => (b, false)

/-- cancel_order (source lines 271-359): unknown ids fail (line 273),
zero-volume records are dropped defensively (lines 281-285), otherwise
the volume map, the level queue and order_map are updated and the price
history refreshed when the book changed. -/
def cancel_order (b : Book) (oid : Nat) : Book × Bool :=
  if oid ∉ b.order_map then (b, false)
  else if (getOrder b oid).volume ≤ 0 then
    ({ b with order_map := removeId b.order_map oid }, false)
  else
    let s1 := cancelVolumeStep b ((getOrder b oid).price, (getOrder b oid).side)
                (getOrder b oid).volume
    let s2 := cancelQueueStep s1.1 ((getOrder b oid).price, (getOrder b oid).side) oid
    let bc : Book := { s2.1 with order_map := removeId s2.1.order_map oid }
    (if s1.2 ∨ s2.2 then update_price_history bc else bc, true)

/-- Snapshot accumulation loop for one side (source lines 393-400 and
405-411): walk the best heap entries, keep levels with positive
aggregate volume until the requested count is reached. -/
def snapSide (vm : List ((Rat × Side) × Int)) (side : Side) :
    Nat → List (Rat × Nat) → List (Rat × Int)
  | _, [] => []
  | 0, _ :: _ => []
  | n + 1, (p, _) :: t =>
    let v := vget vm (p, side)
    if 0 < v then (p, v) :: snapSide vm side n t else snapSide vm side (n + 1) t

/-- get_order_book_snapshot (source lines 389-413).  heapq.nsmallest(k)
is the sorted k-prefix of the heap, i.e. take k of the sorted model
heap; for bids the negated keys make that the k highest prices. -/
def get_order_book_snapshot (b : Book) (levels : Nat) : List (Rat × Int) × List (Rat × Int) :=
  (snapSide b.volume_map Side.BUY levels (b.bids_heap.take (levels * 2 + 5)),
   snapSide b.volume_map Side.SELL levels (b.asks_heap.take (levels * 2 + 5)))

/-- External mutating calls of the engine. -/
inductive Op : Type
  | place (client : String) (side : Side) (price : Rat) (volume : Int)
  | cancel (oid : Nat)

/-- Apply one call, keeping the post state. -/
def applyOp (b : Book) : Op → Book
  | Op.place c s p v => (place_order b c s p v).1
  | Op.cancel oid => (cancel_order b oid).1

/-- State after a sequence of calls on a fresh book. -/
def runOps (limit : Nat) (ops : List Op) : Book :=
  ops.foldl applyOp (initBook limit)

/-- Reachability: some sequence of place_order and cancel_order calls
from a fresh book produces this state. -/
def Reachable (b : Book) : Prop := ∃ limit ops, runOps limit ops = b

/-! Derived observation functions used in claim statements. -/

/-- Aggregate volume of the FIFO queue registered for a (price, side)
level in queue_map, 0 when the level has no registered queue: the
right-hand side of the conservation equation of claim C3. -/
def levelQueueVolume (b : Book) (key : Rat × Side) : Int :=
  match alookup b.queue_map key with
  | none => 0
  | some qid => ((queueOf b qid).map (fun oid => (getOrder b oid).volume)).sum

/-! Well-formedness predicates behind the no-crossed-book claim C1 and
the matching-discipline claims. -/

/-- Coherence of one heap entry: every order queued under the entry's
queue object carries the entry's price, the heap's side, and positive
residual volume. -/
def EntryCoh (b : Book) (s : Side) (e : Rat × Nat) : Prop :=
  ∀ oid ∈ queueOf b e.2,
    (getOrder b oid).price = e.1 ∧ (getOrder b oid).side = s ∧ 0 < (getOrder b oid).volume

/-- queue_map labels agree with the heap entries that reference the
same queue object. -/
def QmCoh (b : Book) : Prop :=
  ∀ kv ∈ b.queue_map,
    (∀ e ∈ b.asks_heap, e.2 = kv.2 → e.1 = kv.1.1 ∧ kv.1.2 = Side.SELL) ∧
    (∀ e ∈ b.bids_heap, e.2 = kv.2 → e.1 = kv.1.1 ∧ kv.1.2 = Side.BUY)

/-- Heap-visible no-cross property: a bid level and an ask level that
both hold positive aggregate volume never touch or cross. -/
def NoCross (b : Book) : Prop :=
  ∀ eb ∈ b.bids_heap, ∀ ea ∈ b.asks_heap,
    0 < vget b.volume_map (eb.1, Side.BUY) → 0 < vget b.volume_map (ea.1, Side.SELL) →
    eb.1 < ea.1

/-- Every queue object is duplicate free and no order sits in two
distinct queue objects. -/
def QueuesSane (b : Book) : Prop :=
  (∀ qid, (queueOf b qid).Nodup) ∧
  (∀ qid qid' : Nat, qid ≠ qid' → ∀ oid ∈ queueOf b qid, oid ∉ queueOf b qid')

/-- All queue object references are below the allocation counter. -/
def QidsBound (b : Book) : Prop :=
  (∀ e ∈ b.asks_heap, e.2 < b.next_queue) ∧
  (∀ e ∈ b.bids_heap, e.2 < b.next_queue) ∧
  (∀ kv ∈ b.queue_map, kv.2 < b.next_queue) ∧
  (∀ kv ∈ b.queues, kv.1 < b.next_queue)

/-- The book-shape well-formedness bundle behind claim C1: the asks
heap is sorted by ascending price and the bids heap by descending
price (the model heaps are the sorted heap contents), heap entries
reference pairwise distinct queue objects, every entry is coherent,
queue_map labels are accurate, queue objects are disjoint and
duplicate free, references are bounded, and no pair of live levels
crosses. -/
def HeapsWF (b : Book) : Prop :=
  List.Pairwise (fun x y : Rat × Nat => x.1 ≤ y.1) b.asks_heap ∧
  List.Pairwise (fun x y : Rat × Nat => y.1 ≤ x.1) b.bids_heap ∧
  ((b.asks_heap ++ b.bids_heap).map Prod.snd).Nodup ∧
  (∀ e ∈ b.asks_heap, EntryCoh b Side.SELL e) ∧
  (∀ e ∈ b.bids_heap, EntryCoh b Side.BUY e) ∧
  QmCoh b ∧ QueuesSane b ∧ QidsBound b ∧ NoCross b ∧
  (b.volume_map.map Prod.fst).Nodup

/-- The log entry recorded for a trade (source lines 152-155, 216-219
log one formatted line per executed trade built from the same fields as
the returned trade). -/
def tradeToLog (tr : Trade) : LogEntry :=
  { volume := tr.volume
    price := tr.price
    taker_client := tr.taker_client
    taker_order_id := tr.taker_order_id
    maker_client := tr.maker_client
    maker_order_id := tr.maker_order_id }

/-- Object-store coherence behind claim C5: every order record stored
under an id carries that id in its order_id field (the source stores
each Order object under its own order_id, lines 111 and 108-109), and
every id held by a level queue has a record in the store (queue members
are the ids of admitted orders, which are never deleted from the
store). -/
def StoreCoh (b : Book) : Prop :=
  (∀ (oid : Nat) (r : Order), alookup b.orders oid = some r → r.order_id = oid) ∧
  (∀ qid : Nat, ∀ oid ∈ queueOf b qid, ∃ r : Order, alookup b.orders oid = some r)

/-! Lemmas about the association-list and store primitives. -/

@[simp] theorem alookup_nil {α β : Type} [DecidableEq α] (k : α) :
    alookup ([] : List (α × β)) k = none := rfl

@[simp] theorem alookup_cons {α β : Type} [DecidableEq α] (k' : α) (v' : β) (t : List (α × β))
    (k : α) : alookup ((k', v') :: t) k = if k' = k then some v' else alookup t k := rfl

@[simp] theorem alookup_ainsert_self {α β : Type} [DecidableEq α]
    (l : List (α × β)) (k : α) (v : β) : alookup (ainsert l k v) k = some v := by
  induction l with
  | nil => simp [ainsert]
  | cons h t ih =>
    obtain ⟨k', v'⟩ := h
    by_cases hk : k' = k <;> simp [ainsert, hk, ih]

theorem alookup_ainsert_ne {α β : Type} [DecidableEq α]
    (l : List (α × β)) (k k' : α) (v : β) (h : k ≠ k') :
    alookup (ainsert l k v) k' = alookup l k' := by
  induction l with
  | nil => simp [ainsert, alookup, h]
  | cons hd t ih =>
    obtain ⟨k₀, v₀⟩ := hd
    by_cases hk : k₀ = k
    · subst hk
      simp [ainsert, alookup, h]
    · simp only [ainsert, if_neg hk, alookup_cons]
      by_cases hk' : k₀ = k' <;> simp [hk', ih]

theorem alookup_eq_none_of_not_mem {α β : Type} [DecidableEq α]
    (l : List (α × β)) (k : α) (h : k ∉ l.map Prod.fst) :
    alookup l k = none := by
  induction l with
  | nil => rfl
  | cons hd t ih =>
    obtain ⟨k₀, v₀⟩ := hd
    simp only [List.map_cons, List.mem_cons] at h
    push_neg at h
    simp only [alookup_cons, if_neg (Ne.symm h.1)]
    exact ih h.2

theorem alookup_aerase_self {α β : Type} [DecidableEq α]
    (l : List (α × β)) (k : α) (hl : (l.map Prod.fst).Nodup) :
    alookup (aerase l k) k = none := by
  induction l with
  | nil => rfl
  | cons hd t ih =>
    obtain ⟨k₀, v₀⟩ := hd
    simp only [List.map_cons, List.nodup_cons] at hl
    by_cases hk : k₀ = k
    · subst hk
      simp only [aerase, if_pos rfl]
      exact alookup_eq_none_of_not_mem t k₀ hl.1
    · simp only [aerase, if_neg hk, alookup_cons, if_neg hk]
      exact ih hl.2

theorem alookup_aerase_ne {α β : Type} [DecidableEq α]
    (l : List (α × β)) (k k' : α) (h : k ≠ k') :
    alookup (aerase l k) k' = alookup l k' := by
  induction l with
  | nil => rfl
  | cons hd t ih =>
    obtain ⟨k₀, v₀⟩ := hd
    by_cases hk : k₀ = k
    · subst hk
      simp [aerase, alookup, h]
    · simp only [aerase, if_neg hk, alookup_cons]
      by_cases hk' : k₀ = k' <;> simp [hk', ih]

@[simp] theorem queueOf_popMaker (b : Book) (makerId qid : Nat) (rest : List Nat) :
    queueOf (popMaker b makerId qid rest) qid = rest := by
  simp [queueOf, popMaker]

/-! Branch-level unfolding equations for the matching loops. -/

theorem runQueue_nil (b : Book) (takerId qid : Nat) (hq : queueOf b qid = []) :
    runQueue b takerId qid = (b, []) := by
  simp [runQueue, runQueueGo, hq]

theorem runQueue_stop (b : Book) (takerId qid makerId : Nat) (rest : List Nat)
    (hq : queueOf b qid = makerId :: rest) (hv : ¬ 0 < (getOrder b takerId).volume) :
    runQueue b takerId qid = (b, []) := by
  simp [runQueue, runQueueGo, hq, hv]

theorem runQueue_pop (b : Book) (takerId qid makerId : Nat) (rest : List Nat)
    (hq : queueOf b qid = makerId :: rest) (hv : 0 < (getOrder b takerId).volume)
    (hm : (getOrder (tradeUpdates b takerId makerId).1 makerId).volume = 0) :
    runQueue b takerId qid =
      ((runQueue (popMaker (tradeUpdates b takerId makerId).1 makerId qid rest) takerId qid).1,
       (tradeUpdates b takerId makerId).2 ::
       (runQueue (popMaker (tradeUpdates b takerId makerId).1 makerId qid rest) takerId qid).2) := by
  conv =>
    rhs
    rw [runQueue, queueOf_popMaker]
  simp [runQueue, runQueueGo, hq, hv, hm]

theorem runQueue_stay (b : Book) (takerId qid makerId : Nat) (rest : List Nat)
    (hq : queueOf b qid = makerId :: rest) (hv : 0 < (getOrder b takerId).volume)
    (hm : ¬ (getOrder (tradeUpdates b takerId makerId).1 makerId).volume = 0) :
    runQueue b takerId qid =
      ((tradeUpdates b takerId makerId).1, [(tradeUpdates b takerId makerId).2]) := by
  simp [runQueue, runQueueGo, hq, hv, hm]

theorem matchBuy_nil (b : Book) (takerId : Nat) (hh : b.asks_heap = []) :
    matchBuy b takerId = (b, []) := by
  simp [matchBuy, matchBuyGo, hh]

theorem matchBuy_nocross (b : Book) (takerId : Nat) (price : Rat) (qid : Nat)
    (rest : List (Rat × Nat)) (hh : b.asks_heap = (price, qid) :: rest)
    (hc : ¬ (0 < (getOrder b takerId).volume ∧ price ≤ (getOrder b takerId).price)) :
    matchBuy b takerId = (b, []) := by
  rw [matchBuy, hh]
  simp only [matchBuyGo, if_neg hc]

theorem matchBuy_tombstone (b : Book) (takerId : Nat) (price : Rat) (qid : Nat)
    (rest : List (Rat × Nat)) (hh : b.asks_heap = (price, qid) :: rest)
    (hc : 0 < (getOrder b takerId).volume ∧ price ≤ (getOrder b takerId).price)
    (hq : queueOf b qid = []) :
    matchBuy b takerId =
      matchBuy { b with asks_heap := rest, queue_map := aerase b.queue_map (price, Side.SELL) }
        takerId := by
  rw [matchBuy, hh, matchBuy]
  simp only [matchBuyGo, if_pos hc, hq]

theorem matchBuy_level (b : Book) (takerId : Nat) (price : Rat) (qid : Nat)
    (rest : List (Rat × Nat)) (hh : b.asks_heap = (price, qid) :: rest)
    (hc : 0 < (getOrder b takerId).volume ∧ price ≤ (getOrder b takerId).price)
    (hq : queueOf b qid ≠ []) :
    matchBuy b takerId =
      (if queueOf (runQueue b takerId qid).1 qid = [] then
        ((matchBuy { (runQueue b takerId qid).1 with
            asks_heap := rest
            queue_map := aerase (runQueue b takerId qid).1.queue_map (price, Side.SELL)
            volume_map := if vget (runQueue b takerId qid).1.volume_map (price, Side.SELL) ≤ 0
                          then aerase (runQueue b takerId qid).1.volume_map (price, Side.SELL)
                          else (runQueue b takerId qid).1.volume_map } takerId).1,
         (runQueue b takerId qid).2 ++
         (matchBuy { (runQueue b takerId qid).1 with
            asks_heap := rest
            queue_map := aerase (runQueue b takerId qid).1.queue_map (price, Side.SELL)
            volume_map := if vget (runQueue b takerId qid).1.volume_map (price, Side.SELL) ≤ 0
                          then aerase (runQueue b takerId qid).1.volume_map (price, Side.SELL)
                          else (runQueue b takerId qid).1.volume_map } takerId).2)
      else (runQueue b takerId qid)) := by
  rcases hq2 : queueOf b qid with _ | ⟨head, tail⟩
  · exact absurd hq2 hq
  · rw [matchBuy, hh, matchBuy]
    simp only [matchBuyGo, if_pos hc, hq2]

theorem matchSell_nil (b : Book) (takerId : Nat) (hh : b.bids_heap = []) :
    matchSell b takerId = (b, []) := by
  simp [matchSell, matchSellGo, hh]

theorem matchSell_nocross (b : Book) (takerId : Nat) (price : Rat) (qid : Nat)
    (rest : List (Rat × Nat)) (hh : b.bids_heap = (price, qid) :: rest)
    (hc : ¬ (0 < (getOrder b takerId).volume ∧ (getOrder b takerId).price ≤ price)) :
    matchSell b takerId = (b, []) := by
  rw [matchSell, hh]
  simp only [matchSellGo, if_neg hc]

theorem matchSell_tombstone (b : Book) (takerId : Nat) (price : Rat) (qid : Nat)
    (rest : List (Rat × Nat)) (hh : b.bids_heap = (price, qid) :: rest)
    (hc : 0 < (getOrder b takerId).volume ∧ (getOrder b takerId).price ≤ price)
    (hq : queueOf b qid = []) :
    matchSell b takerId =
      matchSell { b with bids_heap := rest, queue_map := aerase b.queue_map (price, Side.BUY) }
        takerId := by
  rw [matchSell, hh, matchSell]
  simp only [matchSellGo, if_pos hc, hq]

theorem matchSell_level (b : Book) (takerId : Nat) (price : Rat) (qid : Nat)
    (rest : List (Rat × Nat)) (hh : b.bids_heap = (price, qid) :: rest)
    (hc : 0 < (getOrder b takerId).volume ∧ (getOrder b takerId).price ≤ price)
    (hq : queueOf b qid ≠ []) :
    matchSell b takerId =
      (if queueOf (runQueue b takerId qid).1 qid = [] then
        ((matchSell { (runQueue b takerId qid).1 with
            bids_heap := rest
            queue_map := aerase (runQueue b takerId qid).1.queue_map (price, Side.BUY)
            volume_map := if vget (runQueue b takerId qid).1.volume_map (price, Side.BUY) ≤ 0
                          then aerase (runQueue b takerId qid).1.volume_map (price, Side.BUY)
                          else (runQueue b takerId qid).1.volume_map } takerId).1,
         (runQueue b takerId qid).2 ++
         (matchSell { (runQueue b takerId qid).1 with
            bids_heap := rest
            queue_map := aerase (runQueue b takerId qid).1.queue_map (price, Side.BUY)
            volume_map := if vget (runQueue b takerId qid).1.volume_map (price, Side.BUY) ≤ 0
                          then aerase (runQueue b takerId qid).1.volume_map (price, Side.BUY)
                          else (runQueue b takerId qid).1.volume_map } takerId).2)
      else (runQueue b takerId qid)) := by
  rcases hq2 : queueOf b qid with _ | ⟨head, tail⟩
  · exact absurd hq2 hq
  · rw [matchSell, hh, matchSell]
    simp only [matchSellGo, if_pos hc, hq2]

/-! Frame lemmas: which state components each operation leaves alone. -/

theorem tradeUpdates_frame (b : Book) (t m : Nat) :
    (tradeUpdates b t m).1.asks_heap = b.asks_heap ∧
    (tradeUpdates b t m).1.bids_heap = b.bids_heap ∧
    (tradeUpdates b t m).1.queue_map = b.queue_map ∧
    (tradeUpdates b t m).1.queues = b.queues ∧
    (tradeUpdates b t m).1.next_queue = b.next_queue ∧
    (tradeUpdates b t m).1.order_id_counter = b.order_id_counter ∧
    (tradeUpdates b t m).1.price_history = b.price_history ∧
    (tradeUpdates b t m).1.history_limit = b.history_limit ∧
    (tradeUpdates b t m).1.last_recorded_mid_price = b.last_recorded_mid_price ∧
    (tradeUpdates b t m).1.order_map = b.order_map := by
  simp [tradeUpdates, setVolume]

theorem popMaker_frame (b : Book) (makerId qid : Nat) (rest : List Nat) :
    (popMaker b makerId qid rest).asks_heap = b.asks_heap ∧
    (popMaker b makerId qid rest).bids_heap = b.bids_heap ∧
    (popMaker b makerId qid rest).queue_map = b.queue_map ∧
    (popMaker b makerId qid rest).next_queue = b.next_queue ∧
    (popMaker b makerId qid rest).order_id_counter = b.order_id_counter ∧
    (popMaker b makerId qid rest).price_history = b.price_history ∧
    (popMaker b makerId qid rest).history_limit = b.history_limit ∧
    (popMaker b makerId qid rest).last_recorded_mid_price = b.last_recorded_mid_price ∧
    (popMaker b makerId qid rest).orders = b.orders ∧
    (popMaker b makerId qid rest).volume_map = b.volume_map ∧
    (popMaker b makerId qid rest).clock = b.clock ∧
    (popMaker b makerId qid rest).trade_log = b.trade_log := by
  simp [popMaker]

theorem runQueueGo_frame (takerId qid : Nat) (q : List Nat) : ∀ b : Book,
    (runQueueGo takerId qid b q).1.asks_heap = b.asks_heap ∧
    (runQueueGo takerId qid b q).1.bids_heap = b.bids_heap ∧
    (runQueueGo takerId qid b q).1.queue_map = b.queue_map ∧
    (runQueueGo takerId qid b q).1.next_queue = b.next_queue ∧
    (runQueueGo takerId qid b q).1.order_id_counter = b.order_id_counter ∧
    (runQueueGo takerId qid b q).1.price_history = b.price_history ∧
    (runQueueGo takerId qid b q).1.history_limit = b.history_limit ∧
    (runQueueGo takerId qid b q).1.last_recorded_mid_price = b.last_recorded_mid_price := by
  induction q with
  | nil => intro b; simp [runQueueGo]
  | cons makerId rest ih =>
    intro b
    by_cases hv : 0 < (getOrder b takerId).volume
    · by_cases hm : (getOrder (tradeUpdates b takerId makerId).1 makerId).volume = 0
      · simp only [runQueueGo, if_pos hv, hm, if_true]
        obtain ⟨a1, a2, a3, a4, a5, a6, a7, a8, a9, a10⟩ := tradeUpdates_frame b takerId makerId
        obtain ⟨p1, p2, p3, p4, p5, p6, p7, p8, p9, p10, p11, p12⟩ :=
          popMaker_frame (tradeUpdates b takerId makerId).1 makerId qid rest
        obtain ⟨i1, i2, i3, i4, i5, i6, i7, i8⟩ :=
          ih (popMaker (tradeUpdates b takerId makerId).1 makerId qid rest)
        exact ⟨i1.trans (p1.trans a1), i2.trans (p2.trans a2), i3.trans (p3.trans a3),
          i4.trans (p4.trans a5), i5.trans (p5.trans a6), i6.trans (p6.trans a7),
          i7.trans (p7.trans a8), i8.trans (p8.trans a9)⟩
      · simp only [runQueueGo, if_pos hv, hm, if_false]
        obtain ⟨a1, a2, a3, a4, a5, a6, a7, a8, a9, a10⟩ := tradeUpdates_frame b takerId makerId
        exact ⟨a1, a2, a3, a5, a6, a7, a8, a9⟩
    · simp [runQueueGo, hv]

theorem runQueue_frame (b : Book) (takerId qid : Nat) :
    (runQueue b takerId qid).1.asks_heap = b.asks_heap ∧
    (runQueue b takerId qid).1.bids_heap = b.bids_heap ∧
    (runQueue b takerId qid).1.queue_map = b.queue_map ∧
    (runQueue b takerId qid).1.next_queue = b.next_queue ∧
    (runQueue b takerId qid).1.order_id_counter = b.order_id_counter ∧
    (runQueue b takerId qid).1.price_history = b.price_history ∧
    (runQueue b takerId qid).1.history_limit = b.history_limit ∧
    (runQueue b takerId qid).1.last_recorded_mid_price = b.last_recorded_mid_price :=
  runQueueGo_frame takerId qid (queueOf b qid) b

theorem matchBuyGo_frame (takerId : Nat) (h : List (Rat × Nat)) : ∀ b : Book,
    (matchBuyGo takerId b h).1.bids_heap = b.bids_heap ∧
    (matchBuyGo takerId b h).1.next_queue = b.next_queue ∧
    (matchBuyGo takerId b h).1.order_id_counter = b.order_id_counter ∧
    (matchBuyGo takerId b h).1.price_history = b.price_history ∧
    (matchBuyGo takerId b h).1.history_limit = b.history_limit ∧
    (matchBuyGo takerId b h).1.last_recorded_mid_price = b.last_recorded_mid_price := by
  induction h with
  | nil => intro b; simp [matchBuyGo]
  | cons e rest ih =>
    intro b
    obtain ⟨price, qid⟩ := e
    by_cases hc : 0 < (getOrder b takerId).volume ∧ price ≤ (getOrder b takerId).price
    · rcases hq : queueOf b qid with _ | ⟨head, tail⟩
      · simp only [matchBuyGo, if_pos hc, hq]
        exact ih _
      · simp only [matchBuyGo, if_pos hc, hq]
        by_cases hq2 : queueOf (runQueue b takerId qid).1 qid = []
        · rw [if_pos hq2]
          obtain ⟨f1, f2, f3, f4, f5, f6, f7, f8⟩ := runQueue_frame b takerId qid
          obtain ⟨i1, i2, i3, i4, i5, i6⟩ := ih
            { (runQueue b takerId qid).1 with
              asks_heap := rest
              queue_map := aerase (runQueue b takerId qid).1.queue_map (price, Side.SELL)
              volume_map := if vget (runQueue b takerId qid).1.volume_map (price, Side.SELL) ≤ 0
                            then aerase (runQueue b takerId qid).1.volume_map (price, Side.SELL)
                            else (runQueue b takerId qid).1.volume_map }
          exact ⟨i1.trans f2, i2.trans f4, i3.trans f5, i4.trans f6, i5.trans f7, i6.trans f8⟩
        · rw [if_neg hq2]
          obtain ⟨f1, f2, f3, f4, f5, f6, f7, f8⟩ := runQueue_frame b takerId qid
          exact ⟨f2, f4, f5, f6, f7, f8⟩
    · simp [matchBuyGo, hc]

theorem matchBuy_frame (b : Book) (takerId : Nat) :
    (matchBuy b takerId).1.bids_heap = b.bids_heap ∧
    (matchBuy b takerId).1.next_queue = b.next_queue ∧
    (matchBuy b takerId).1.order_id_counter = b.order_id_counter ∧
    (matchBuy b takerId).1.price_history = b.price_history ∧
    (matchBuy b takerId).1.history_limit = b.history_limit ∧
    (matchBuy b takerId).1.last_recorded_mid_price = b.last_recorded_mid_price :=
  matchBuyGo_frame takerId b.asks_heap b

theorem matchSellGo_frame (takerId : Nat) (h : List (Rat × Nat)) : ∀ b : Book,
    (matchSellGo takerId b h).1.asks_heap = b.asks_heap ∧
    (matchSellGo takerId b h).1.next_queue = b.next_queue ∧
    (matchSellGo takerId b h).1.order_id_counter = b.order_id_counter ∧
    (matchSellGo takerId b h).1.price_history = b.price_history ∧
    (matchSellGo takerId b h).1.history_limit = b.history_limit ∧
    (matchSellGo takerId b h).1.last_recorded_mid_price = b.last_recorded_mid_price := by
  induction h with
  | nil => intro b; simp [matchSellGo]
  | cons e rest ih =>
    intro b
    obtain ⟨price, qid⟩ := e
    by_cases hc : 0 < (getOrder b takerId).volume ∧ (getOrder b takerId).price ≤ price
    · rcases hq : queueOf b qid with _ | ⟨head, tail⟩
      · simp only [matchSellGo, if_pos hc, hq]
        exact ih _
      · simp only [matchSellGo, if_pos hc, hq]
        by_cases hq2 : queueOf (runQueue b takerId qid).1 qid = []
        · rw [if_pos hq2]
          obtain ⟨f1, f2, f3, f4, f5, f6, f7, f8⟩ := runQueue_frame b takerId qid
          obtain ⟨i1, i2, i3, i4, i5, i6⟩ := ih
            { (runQueue b takerId qid).1 with
              bids_heap := rest
              queue_map := aerase (runQueue b takerId qid).1.queue_map (price, Side.BUY)
              volume_map := if vget (runQueue b takerId qid).1.volume_map (price, Side.BUY) ≤ 0
                            then aerase (runQueue b takerId qid).1.volume_map (price, Side.BUY)
                            else (runQueue b takerId qid).1.volume_map }
          exact ⟨i1.trans f1, i2.trans f4, i3.trans f5, i4.trans f6, i5.trans f7, i6.trans f8⟩
        · rw [if_neg hq2]
          obtain ⟨f1, f2, f3, f4, f5, f6, f7, f8⟩ := runQueue_frame b takerId qid
          exact ⟨f1, f4, f5, f6, f7, f8⟩
    · simp [matchSellGo, hc]

theorem matchSell_frame (b : Book) (takerId : Nat) :
    (matchSell b takerId).1.asks_heap = b.asks_heap ∧
    (matchSell b takerId).1.next_queue = b.next_queue ∧
    (matchSell b takerId).1.order_id_counter = b.order_id_counter ∧
    (matchSell b takerId).1.price_history = b.price_history ∧
    (matchSell b takerId).1.history_limit = b.history_limit ∧
    (matchSell b takerId).1.last_recorded_mid_price = b.last_recorded_mid_price :=
  matchSellGo_frame takerId b.bids_heap b

theorem add_order_to_book_frame (b : Book) (oid : Nat) :
    (add_order_to_book b oid).order_map = b.order_map ∧
    (add_order_to_book b oid).order_id_counter = b.order_id_counter ∧
    (add_order_to_book b oid).price_history = b.price_history ∧
    (add_order_to_book b oid).history_limit = b.history_limit ∧
    (add_order_to_book b oid).last_recorded_mid_price = b.last_recorded_mid_price ∧
    (add_order_to_book b oid).clock = b.clock ∧
    (add_order_to_book b oid).trade_log = b.trade_log ∧
    (add_order_to_book b oid).orders = b.orders := by
  unfold add_order_to_book
  cases halo : alookup b.queue_map ((getOrder b oid).price, (getOrder b oid).side) with
  | none => cases hs : (getOrder b oid).side <;> simp_all
  | some qid => simp_all

theorem get_best_bid_frame (b : Book) :
    ((get_best_bid b).1.asks_heap = b.asks_heap ∧
     (get_best_bid b).1.queue_map = b.queue_map ∧
     (get_best_bid b).1.volume_map = b.volume_map ∧
     (get_best_bid b).1.queues = b.queues ∧
     (get_best_bid b).1.next_queue = b.next_queue ∧
     (get_best_bid b).1.order_map = b.order_map ∧
     (get_best_bid b).1.orders = b.orders ∧
     (get_best_bid b).1.order_id_counter = b.order_id_counter ∧
     (get_best_bid b).1.price_history = b.price_history ∧
     (get_best_bid b).1.history_limit = b.history_limit ∧
     (get_best_bid b).1.last_recorded_mid_price = b.last_recorded_mid_price ∧
     (get_best_bid b).1.clock = b.clock ∧
     (get_best_bid b).1.trade_log = b.trade_log) := by
  simp [get_best_bid]

theorem get_best_ask_frame (b : Book) :
    ((get_best_ask b).1.bids_heap = b.bids_heap ∧
     (get_best_ask b).1.queue_map = b.queue_map ∧
     (get_best_ask b).1.volume_map = b.volume_map ∧
     (get_best_ask b).1.queues = b.queues ∧
     (get_best_ask b).1.next_queue = b.next_queue ∧
     (get_best_ask b).1.order_map = b.order_map ∧
     (get_best_ask b).1.orders = b.orders ∧
     (get_best_ask b).1.order_id_counter = b.order_id_counter ∧
     (get_best_ask b).1.price_history = b.price_history ∧
     (get_best_ask b).1.history_limit = b.history_limit ∧
     (get_best_ask b).1.last_recorded_mid_price = b.last_recorded_mid_price ∧
     (get_best_ask b).1.clock = b.clock ∧
     (get_best_ask b).1.trade_log = b.trade_log) := by
  simp [get_best_ask]

theorem update_price_history_frame (b : Book) :
    (update_price_history b).orders = b.orders ∧
    (update_price_history b).order_map = b.order_map ∧
    (update_price_history b).queues = b.queues ∧
    (update_price_history b).next_queue = b.next_queue ∧
    (update_price_history b).queue_map = b.queue_map ∧
    (update_price_history b).volume_map = b.volume_map ∧
    (update_price_history b).order_id_counter = b.order_id_counter ∧
    (update_price_history b).trade_log = b.trade_log ∧
    (update_price_history b).history_limit = b.history_limit := by
  unfold update_price_history
  rcases hm : midOf (get_best_bid b).2 (get_best_ask (get_best_bid b).1).2 with _ | m
  · simp [recordMid, get_best_bid, get_best_ask]
  · simp only [recordMid]
    split <;> simp [get_best_bid, get_best_ask]

theorem update_price_history_orders (b : Book) :
    (update_price_history b).orders = b.orders := (update_price_history_frame b).1

theorem update_price_history_order_map (b : Book) :
    (update_price_history b).order_map = b.order_map := (update_price_history_frame b).2.1

theorem update_price_history_queues (b : Book) :
    (update_price_history b).queues = b.queues := (update_price_history_frame b).2.2.1

theorem update_price_history_next_queue (b : Book) :
    (update_price_history b).next_queue = b.next_queue := (update_price_history_frame b).2.2.2.1

theorem update_price_history_queue_map (b : Book) :
    (update_price_history b).queue_map = b.queue_map := (update_price_history_frame b).2.2.2.2.1

theorem update_price_history_volume_map (b : Book) :
    (update_price_history b).volume_map = b.volume_map :=
  (update_price_history_frame b).2.2.2.2.2.1

theorem update_price_history_counter (b : Book) :
    (update_price_history b).order_id_counter = b.order_id_counter :=
  (update_price_history_frame b).2.2.2.2.2.2.1

theorem update_price_history_trade_log (b : Book) :
    (update_price_history b).trade_log = b.trade_log :=
  (update_price_history_frame b).2.2.2.2.2.2.2.1

theorem update_price_history_history_limit (b : Book) :
    (update_price_history b).history_limit = b.history_limit :=
  (update_price_history_frame b).2.2.2.2.2.2.2.2


theorem cancelVolumeStep_frame (b : Book) (k : Rat × Side) (v : Int) :
    (cancelVolumeStep b k v).1.order_map = b.order_map ∧
    (cancelVolumeStep b k v).1.queues = b.queues ∧
    (cancelVolumeStep b k v).1.queue_map = b.queue_map ∧
    (cancelVolumeStep b k v).1.asks_heap = b.asks_heap ∧
    (cancelVolumeStep b k v).1.bids_heap = b.bids_heap ∧
    (cancelVolumeStep b k v).1.orders = b.orders ∧
    (cancelVolumeStep b k v).1.next_queue = b.next_queue ∧
    (cancelVolumeStep b k v).1.order_id_counter = b.order_id_counter ∧
    (cancelVolumeStep b k v).1.price_history = b.price_history ∧
    (cancelVolumeStep b k v).1.history_limit = b.history_limit ∧
    (cancelVolumeStep b k v).1.last_recorded_mid_price = b.last_recorded_mid_price ∧
    (cancelVolumeStep b k v).1.clock = b.clock ∧
    (cancelVolumeStep b k v).1.trade_log = b.trade_log := by
  cases h : alookup b.volume_map k <;> simp [cancelVolumeStep, h]

theorem cancelQueueStep_frame (b : Book) (k : Rat × Side) (oid : Nat) :
    (cancelQueueStep b k oid).1.order_map = b.order_map ∧
    (cancelQueueStep b k oid).1.volume_map = b.volume_map ∧
    (cancelQueueStep b k oid).1.asks_heap = b.asks_heap ∧
    (cancelQueueStep b k oid).1.bids_heap = b.bids_heap ∧
    (cancelQueueStep b k oid).1.orders = b.orders ∧
    (cancelQueueStep b k oid).1.next_queue = b.next_queue ∧
    (cancelQueueStep b k oid).1.order_id_counter = b.order_id_counter ∧
    (cancelQueueStep b k oid).1.price_history = b.price_history ∧
    (cancelQueueStep b k oid).1.history_limit = b.history_limit ∧
    (cancelQueueStep b k oid).1.last_recorded_mid_price = b.last_recorded_mid_price ∧
    (cancelQueueStep b k oid).1.clock = b.clock ∧
    (cancelQueueStep b k oid).1.trade_log = b.trade_log := by
  cases h : alookup b.queue_map k with
  | none => simp [cancelQueueStep, h]
  | some qid =>
    by_cases hm : oid ∈ queueOf b qid
    · by_cases he : (queueOf b qid).erase oid = [] <;> simp [cancelQueueStep, h, hm, he]
    · simp [cancelQueueStep, h, hm]

theorem cancel_order_notin (b : Book) (oid : Nat) (h : oid ∉ b.order_map) :
    cancel_order b oid = (b, false) := by
  simp [cancel_order, h]

theorem cancel_order_true_notin (b b' : Book) (oid : Nat)
    (h : cancel_order b oid = (b', true)) : oid ∉ b'.order_map := by
  by_cases h1 : oid ∈ b.order_map
  · by_cases h2 : (getOrder b oid).volume ≤ 0
    · simp [cancel_order, h1, h2] at h
    · simp [cancel_order, h1, h2] at h
      rw [← h]
      split
      · rw [update_price_history_order_map]
        simp [removeId]
      · simp [removeId]
  · rw [cancel_order_notin b oid h1] at h
    simp at h


/-! Claim C6. -/

/-- C6: for every state, cancel_order with an id not in the order map
returns false and leaves the entire book unchanged, and a second
cancel_order immediately after a successful one returns false and
changes nothing. -/
theorem C6_cancel_unknown_and_idempotent (b : Book) (oid : Nat) :
    (oid ∉ b.order_map → cancel_order b oid = (b, false)) ∧
    (∀ b' : Book, cancel_order b oid = (b', true) → cancel_order b' oid = (b', false)) := by
  refine ⟨cancel_order_notin b oid, ?_⟩
  intro b' h
  exact cancel_order_notin b' oid (cancel_order_true_notin b b' oid h)

/-- Witness for C6: cancelling id 7 on a fresh book fails and is a
no-op, and after placing order 1 and cancelling it, a second cancel of
id 1 fails and is a no-op. -/
theorem C6_witness :
    cancel_order (initBook 200) 7 = (initBook 200, false) ∧
    cancel_order (cancel_order (runOps 200 [Op.place "A" Side.BUY 100 10]) 1).1 1 =
      ((cancel_order (runOps 200 [Op.place "A" Side.BUY 100 10]) 1).1, false) :=
  ⟨(C6_cancel_unknown_and_idempotent (initBook 200) 7).1 (by decide),
   (C6_cancel_unknown_and_idempotent (runOps 200 [Op.place "A" Side.BUY 100 10]) 1).2 _
     (by decide)⟩

/-! Claim C3. -/

/-- C3 fails on the code: after SELL 100x5, SELL 101x5, cancel(2),
SELL 101x3, BUY 101x7 (all prices and volumes positive), order 3 rests
at (101, SELL) with residual volume 1 and volume_map records 1, but
queue_map has no entry for (101, SELL): while discarding the cancelled
level's empty-queue tombstone, place_order (source line 127) deleted the
queue_map entry of the relive level created by order 3.  The sum of
volumes over the level's registered FIFO queue is therefore 0 while
volume_map and get_volume_at_price give 1. -/
theorem C3_conservation_violated_at_failing_input :
    (runOps 200 [Op.place "A" Side.SELL 100 5, Op.place "B" Side.SELL 101 5,
      Op.cancel 2, Op.place "C" Side.SELL 101 3, Op.place "D" Side.BUY 101 7]).order_map
        = [3] ∧
    (getOrder (runOps 200 [Op.place "A" Side.SELL 100 5, Op.place "B" Side.SELL 101 5,
      Op.cancel 2, Op.place "C" Side.SELL 101 3, Op.place "D" Side.BUY 101 7]) 3).price = 101 ∧
    (getOrder (runOps 200 [Op.place "A" Side.SELL 100 5, Op.place "B" Side.SELL 101 5,
      Op.cancel 2, Op.place "C" Side.SELL 101 3, Op.place "D" Side.BUY 101 7]) 3).side
        = Side.SELL ∧
    (getOrder (runOps 200 [Op.place "A" Side.SELL 100 5, Op.place "B" Side.SELL 101 5,
      Op.cancel 2, Op.place "C" Side.SELL 101 3, Op.place "D" Side.BUY 101 7]) 3).volume = 1 ∧
    get_volume_at_price (runOps 200 [Op.place "A" Side.SELL 100 5, Op.place "B" Side.SELL 101 5,
      Op.cancel 2, Op.place "C" Side.SELL 101 3, Op.place "D" Side.BUY 101 7]) 101 Side.SELL
        = 1 ∧
    levelQueueVolume (runOps 200 [Op.place "A" Side.SELL 100 5, Op.place "B" Side.SELL 101 5,
      Op.cancel 2, Op.place "C" Side.SELL 101 3, Op.place "D" Side.BUY 101 7]) (101, Side.SELL)
        = 0 := by
  decide

/-! Claim C4, counterexample part. -/

/-- C4 fails on the code: after SELL 100x5, SELL 101x5, cancel(2),
SELL 101x5, the book has exactly two live ask levels (volume_map is
[(100, SELL) = 5, (101, SELL) = 5]), yet get_order_book_snapshot(5)
lists three ask rows, the 101 level twice — once for the cancelled
level's tombstone heap entry and once for the entry pushed when order 3
recreated the level.  The snapshot is not "exactly the min(levels, live)
best levels". -/
theorem C4_snapshot_duplicate_level :
    (runOps 200 [Op.place "A" Side.SELL 100 5, Op.place "B" Side.SELL 101 5,
      Op.cancel 2, Op.place "C" Side.SELL 101 5]).volume_map
        = [((100, Side.SELL), 5), ((101, Side.SELL), 5)] ∧
    (get_order_book_snapshot (runOps 200 [Op.place "A" Side.SELL 100 5,
      Op.place "B" Side.SELL 101 5, Op.cancel 2, Op.place "C" Side.SELL 101 5]) 5).2
        = [(100, 5), (101, 5), (101, 5)] := by
  decide

/-! Clean-tops invariant: after every mutation the head of each heap is
a live level (update_price_history pops stale tops on both sides), so
the lazy cleanup in get_best_bid and get_best_ask never fires between
operations. -/

theorem popStaleBids_clean (vm : List ((Rat × Side) × Int)) (h : List (Rat × Nat)) :
    ∀ p q t, (popStaleBids vm h).1 = (p, q) :: t → 0 < vget vm (p, Side.BUY) := by
  induction h with
  | nil => intro p q t hh; simp [popStaleBids] at hh
  | cons e rest ih =>
    obtain ⟨pe, qe⟩ := e
    by_cases hv : 0 < vget vm (pe, Side.BUY)
    · intro p q t hh
      simp only [popStaleBids, if_pos hv] at hh
      cases hh
      exact hv
    · intro p q t hh
      simp only [popStaleBids, if_neg hv] at hh
      exact ih p q t hh

theorem popStaleAsks_clean (vm : List ((Rat × Side) × Int)) (h : List (Rat × Nat)) :
    ∀ p q t, (popStaleAsks vm h).1 = (p, q) :: t → 0 < vget vm (p, Side.SELL) := by
  induction h with
  | nil => intro p q t hh; simp [popStaleAsks] at hh
  | cons e rest ih =>
    obtain ⟨pe, qe⟩ := e
    by_cases hv : 0 < vget vm (pe, Side.SELL)
    · intro p q t hh
      simp only [popStaleAsks, if_pos hv] at hh
      cases hh
      exact hv
    · intro p q t hh
      simp only [popStaleAsks, if_neg hv] at hh
      exact ih p q t hh

/-- TopsClean: each heap is empty or its head level has positive
aggregate volume. -/
def TopsClean (b : Book) : Prop :=
  (∀ p q t, b.bids_heap = (p, q) :: t → 0 < vget b.volume_map (p, Side.BUY)) ∧
  (∀ p q t, b.asks_heap = (p, q) :: t → 0 < vget b.volume_map (p, Side.SELL))

theorem popStaleBids_of_clean (vm : List ((Rat × Side) × Int)) (h : List (Rat × Nat))
    (hc : ∀ p q t, h = (p, q) :: t → 0 < vget vm (p, Side.BUY)) :
    popStaleBids vm h = (h, h.head?.map Prod.fst) := by
  cases h with
  | nil => simp [popStaleBids]
  | cons e rest =>
    obtain ⟨pe, qe⟩ := e
    have := hc pe qe rest rfl
    simp [popStaleBids, this]

theorem popStaleAsks_of_clean (vm : List ((Rat × Side) × Int)) (h : List (Rat × Nat))
    (hc : ∀ p q t, h = (p, q) :: t → 0 < vget vm (p, Side.SELL)) :
    popStaleAsks vm h = (h, h.head?.map Prod.fst) := by
  cases h with
  | nil => simp [popStaleAsks]
  | cons e rest =>
    obtain ⟨pe, qe⟩ := e
    have := hc pe qe rest rfl
    simp [popStaleAsks, this]

/-- On a clean-tops state the lazy cleanup of get_best_bid does not fire
and the state is returned unchanged. -/
theorem get_best_bid_of_clean (b : Book) (hb : TopsClean b) :
    get_best_bid b = (b, b.bids_heap.head?.map Prod.fst) := by
  rw [get_best_bid, popStaleBids_of_clean b.volume_map b.bids_heap hb.1]

/-- On a clean-tops state the lazy cleanup of get_best_ask does not fire
and the state is returned unchanged. -/
theorem get_best_ask_of_clean (b : Book) (hb : TopsClean b) :
    get_best_ask b = (b, b.asks_heap.head?.map Prod.fst) := by
  rw [get_best_ask, popStaleAsks_of_clean b.volume_map b.asks_heap hb.2]

theorem recordMid_heaps_vm (b : Book) (mid : Option Rat) :
    (recordMid b mid).bids_heap = b.bids_heap ∧
    (recordMid b mid).asks_heap = b.asks_heap ∧
    (recordMid b mid).volume_map = b.volume_map := by
  cases mid with
  | none => simp [recordMid]
  | some m =>
    by_cases hl : b.last_recorded_mid_price = some m <;> simp [recordMid, hl]

/-- update_price_history leaves both heaps with clean tops: get_best_bid
and get_best_ask pop every stale top entry. -/
theorem topsClean_update_price_history (b : Book) : TopsClean (update_price_history b) := by
  rw [update_price_history]
  obtain ⟨hb, ha, hv⟩ := recordMid_heaps_vm (get_best_ask (get_best_bid b).1).1
    (midOf (get_best_bid b).2 (get_best_ask (get_best_bid b).1).2)
  constructor
  · intro p q t hh
    rw [hb] at hh
    rw [hv]
    have hbids : (get_best_ask (get_best_bid b).1).1.bids_heap = (get_best_bid b).1.bids_heap :=
      (get_best_ask_frame (get_best_bid b).1).1
    rw [hbids] at hh
    have hvm2 : (get_best_ask (get_best_bid b).1).1.volume_map = b.volume_map := by
      rw [(get_best_ask_frame (get_best_bid b).1).2.2.1, (get_best_bid_frame b).2.2.1]
    rw [hvm2]
    have hbid1 : (get_best_bid b).1.bids_heap = (popStaleBids b.volume_map b.bids_heap).1 := by
      rw [get_best_bid]
    rw [hbid1] at hh
    exact popStaleBids_clean b.volume_map b.bids_heap p q t hh
  · intro p q t hh
    rw [ha] at hh
    rw [hv]
    have hvm2 : (get_best_ask (get_best_bid b).1).1.volume_map = b.volume_map := by
      rw [(get_best_ask_frame (get_best_bid b).1).2.2.1, (get_best_bid_frame b).2.2.1]
    rw [hvm2]
    have hask1 : (get_best_ask (get_best_bid b).1).1.asks_heap =
        (popStaleAsks (get_best_bid b).1.volume_map (get_best_bid b).1.asks_heap).1 := by
      rw [get_best_ask]
    rw [hask1] at hh
    have hvm1 : (get_best_bid b).1.volume_map = b.volume_map := (get_best_bid_frame b).2.2.1
    rw [hvm1] at hh
    exact popStaleAsks_clean b.volume_map (get_best_bid b).1.asks_heap p q t hh

/-- place_order always ends in update_price_history, so it leaves clean
tops. -/
theorem topsClean_place (b : Book) (c : String) (s : Side) (p : Rat) (v : Int) :
    TopsClean (place_order b c s p v).1 :=
  topsClean_update_price_history _

/-- cancel_order leaves clean tops: either it runs update_price_history,
or it changed neither the heaps nor the volume map. -/
theorem topsClean_cancel (b : Book) (oid : Nat) (hb : TopsClean b) :
    TopsClean (cancel_order b oid).1 := by
  rw [cancel_order]
  by_cases h1 : oid ∉ b.order_map
  · simpa [h1] using hb
  · by_cases h2 : (getOrder b oid).volume ≤ 0
    · simp only [h1, if_false, h2, if_true, reduceIte]
      exact hb
    · simp only [h1, if_false, h2, reduceIte]
      by_cases hf : (cancelVolumeStep b ((getOrder b oid).price, (getOrder b oid).side)
            (getOrder b oid).volume).2 = true ∨
          (cancelQueueStep (cancelVolumeStep b ((getOrder b oid).price, (getOrder b oid).side)
              (getOrder b oid).volume).1
            ((getOrder b oid).price, (getOrder b oid).side) oid).2 = true
      · rw [if_pos hf]
        exact topsClean_update_price_history _
      · rw [if_neg hf]
        push_neg at hf
        obtain ⟨hf1, hf2⟩ := hf
        -- volume_updated is false, so the volume map was not touched;
        -- queue_became_empty is false, and neither flag set means the
        -- heaps and volume map of the final state are those of b
        have e1 : (cancelVolumeStep b ((getOrder b oid).price, (getOrder b oid).side)
            (getOrder b oid).volume).1.volume_map = b.volume_map := by
          rcases hvm : alookup b.volume_map ((getOrder b oid).price, (getOrder b oid).side) with
            _ | v
          · simp [cancelVolumeStep, hvm]
          · simp [cancelVolumeStep, hvm] at hf1
        constructor
        · intro p q t hh
          dsimp only at hh ⊢
          rw [(cancelQueueStep_frame _ _ _).2.2.2.1, (cancelVolumeStep_frame _ _ _).2.2.2.2.1]
            at hh
          rw [(cancelQueueStep_frame _ _ _).2.1, e1]
          exact hb.1 p q t hh
        · intro p q t hh
          dsimp only at hh ⊢
          rw [(cancelQueueStep_frame _ _ _).2.2.1, (cancelVolumeStep_frame _ _ _).2.2.2.1] at hh
          rw [(cancelQueueStep_frame _ _ _).2.1, e1]
          exact hb.2 p q t hh

theorem topsClean_init (limit : Nat) : TopsClean (initBook limit) := by
  constructor <;> intro p q t hh <;> simp [initBook] at hh

theorem topsClean_applyOp (b : Book) (op : Op) (hb : TopsClean b) : TopsClean (applyOp b op) := by
  cases op with
  | place c s p v => exact topsClean_place b c s p v
  | cancel oid => exact topsClean_cancel b oid hb

/-- Every reachable state has clean tops. -/
theorem topsClean_reachable (b : Book) (hb : Reachable b) : TopsClean b := by
  obtain ⟨limit, ops, rfl⟩ := hb
  rw [runOps]
  induction ops using List.reverseRecOn with
  | nil => exact topsClean_init limit
  | append_singleton ops op ih =>
    rw [List.foldl_append, List.foldl_cons, List.foldl_nil]
    exact topsClean_applyOp _ op ih

/-! Price-history invariant bundle: strictly increasing timestamps, no
consecutive duplicate prices, bounded length, and agreement between the
last recorded entry, last_recorded_mid_price and the current mid. -/

/-- Value returned by get_best_bid, as a pure observation. -/
def bestBidVal (b : Book) : Option Rat := (get_best_bid b).2

/-- Value returned by get_best_ask, as a pure observation. -/
def bestAskVal (b : Book) : Option Rat := (get_best_ask b).2

/-- Current mid price of a book, the value _update_price_history forms. -/
def bestMid (b : Book) : Option Rat := midOf (bestBidVal b) (bestAskVal b)

theorem popStaleBids_val (vm : List ((Rat × Side) × Int)) (h : List (Rat × Nat)) :
    (popStaleBids vm h).2 = (popStaleBids vm h).1.head?.map Prod.fst := by
  induction h with
  | nil => simp [popStaleBids]
  | cons e rest ih =>
    obtain ⟨pe, qe⟩ := e
    by_cases hv : 0 < vget vm (pe, Side.BUY) <;> simp [popStaleBids, hv, ih]

theorem popStaleAsks_val (vm : List ((Rat × Side) × Int)) (h : List (Rat × Nat)) :
    (popStaleAsks vm h).2 = (popStaleAsks vm h).1.head?.map Prod.fst := by
  induction h with
  | nil => simp [popStaleAsks]
  | cons e rest ih =>
    obtain ⟨pe, qe⟩ := e
    by_cases hv : 0 < vget vm (pe, Side.SELL) <;> simp [popStaleAsks, hv, ih]

/-- get_best_ask reads only the asks heap and the volume map. -/
theorem bestAskVal_congr (b b' : Book) (ha : b'.asks_heap = b.asks_heap)
    (hv : b'.volume_map = b.volume_map) : bestAskVal b' = bestAskVal b := by
  simp [bestAskVal, get_best_ask, ha, hv]

/-- get_best_bid reads only the bids heap and the volume map. -/
theorem bestBidVal_congr (b b' : Book) (ha : b'.bids_heap = b.bids_heap)
    (hv : b'.volume_map = b.volume_map) : bestBidVal b' = bestBidVal b := by
  simp [bestBidVal, get_best_bid, ha, hv]

/-- The two get_best reads inside _update_price_history leave the mid
price of the state unchanged: lazy cleanup only discards dead entries. -/
theorem bestMid_after_reads (b : Book) :
    bestMid (get_best_ask (get_best_bid b).1).1 = bestMid b ∧
    (get_best_ask (get_best_bid b).1).2 = bestAskVal b ∧
    (get_best_bid b).2 = bestBidVal b := by
  have hask2 : (get_best_ask (get_best_bid b).1).2 = bestAskVal b := by
    have := bestAskVal_congr b (get_best_bid b).1 (get_best_bid_frame b).1
      (get_best_bid_frame b).2.2.1
    simpa [bestAskVal] using this
  refine ⟨?_, hask2, rfl⟩
  have hbids : (get_best_ask (get_best_bid b).1).1.bids_heap =
      (popStaleBids b.volume_map b.bids_heap).1 := by
    rw [(get_best_ask_frame (get_best_bid b).1).1]
    rfl
  have hasks : (get_best_ask (get_best_bid b).1).1.asks_heap =
      (popStaleAsks b.volume_map b.asks_heap).1 := by
    have e0 : (get_best_bid b).1.asks_heap = b.asks_heap := (get_best_bid_frame b).1
    have e1 : (get_best_bid b).1.volume_map = b.volume_map := (get_best_bid_frame b).2.2.1
    show (popStaleAsks (get_best_bid b).1.volume_map (get_best_bid b).1.asks_heap).1 =
      (popStaleAsks b.volume_map b.asks_heap).1
    rw [e0, e1]
  have hvm : (get_best_ask (get_best_bid b).1).1.volume_map = b.volume_map := by
    rw [(get_best_ask_frame (get_best_bid b).1).2.2.1, (get_best_bid_frame b).2.2.1]
  unfold bestMid
  congr 1
  · -- best bid of the doubly-read state equals the original best bid
    show (popStaleBids (get_best_ask (get_best_bid b).1).1.volume_map
      (get_best_ask (get_best_bid b).1).1.bids_heap).2 = bestBidVal b
    rw [hbids, hvm]
    rw [popStaleBids_of_clean b.volume_map (popStaleBids b.volume_map b.bids_heap).1
      (popStaleBids_clean b.volume_map b.bids_heap)]
    exact (popStaleBids_val b.volume_map b.bids_heap).symm
  · -- best ask of the doubly-read state equals the original best ask
    show (popStaleAsks (get_best_ask (get_best_bid b).1).1.volume_map
      (get_best_ask (get_best_bid b).1).1.asks_heap).2 = bestAskVal b
    rw [hasks, hvm]
    rw [popStaleAsks_of_clean b.volume_map (popStaleAsks b.volume_map b.asks_heap).1
      (popStaleAsks_clean b.volume_map b.asks_heap)]
    exact (popStaleAsks_val b.volume_map b.asks_heap).symm
theorem getLast?_drop_ne_nil {α : Type} (l : List α) (k : Nat) (hne : l.drop k ≠ []) :
    (l.drop k).getLast? = l.getLast? := by
  obtain ⟨t, ht⟩ := List.drop_suffix k l
  conv =>
    rhs
    rw [← ht]
  rw [List.getLast?_append]
  rcases hl : (l.drop k).getLast? with _ | e
  · exact absurd (List.getLast?_eq_none_iff.mp hl) hne
  · rfl

/-- Core shape of the price history: strictly increasing timestamps, no
two consecutive equal prices, bounded length, last entry agreeing with
last_recorded_mid_price, all timestamps in the past of the clock. -/
def HistCore (b : Book) : Prop :=
  b.price_history.Chain' (fun x y => x.1 < y.1) ∧
  b.price_history.Chain' (fun x y => x.2 ≠ y.2) ∧
  b.price_history.length ≤ b.history_limit ∧
  (∀ e, b.price_history.getLast? = some e → b.last_recorded_mid_price = some e.2) ∧
  (∀ e ∈ b.price_history, e.1 < b.clock)

/-- History invariant: the core shape plus agreement of the recorded mid
price with the current book mid. -/
def HistInv (b : Book) : Prop :=
  HistCore b ∧ ∀ m, bestMid b = some m → b.last_recorded_mid_price = some m

theorem histCore_recordMid (b : Book) (mid : Option Rat) (hc : HistCore b) :
    HistCore (recordMid b mid) ∧
    (∀ m, mid = some m → (recordMid b mid).last_recorded_mid_price = some m) := by
  obtain ⟨h1, h2, h3, h4, h5⟩ := hc
  cases mid with
  | none => exact ⟨⟨h1, h2, h3, h4, h5⟩, fun m hm => by cases hm⟩
  | some m =>
    by_cases hl : b.last_recorded_mid_price = some m
    · rw [recordMid, if_pos hl]
      exact ⟨⟨h1, h2, h3, h4, h5⟩, fun m' hm' => by cases hm'; exact hl⟩
    · rw [recordMid, if_neg hl]
      have hmem : ∀ e, e ∈ pushRing b.history_limit b.price_history (b.clock, m) →
          e ∈ b.price_history ∨ e = (b.clock, m) := by
        intro e he
        have := List.mem_of_mem_drop he
        rcases List.mem_append.mp this with h | h
        · exact Or.inl h
        · exact Or.inr (List.mem_singleton.mp h)
      have happtimes : (b.price_history ++ [(b.clock, m)]).Chain'
          (fun x y => x.1 < y.1) := by
        rw [List.chain'_append]
        refine ⟨h1, List.chain'_singleton _, ?_⟩
        intro x hx y hy
        rw [List.head?_cons, Option.mem_def, Option.some_inj] at hy
        subst hy
        obtain ⟨hne, hxl⟩ := List.mem_getLast?_eq_getLast hx
        exact h5 x (hxl ▸ List.getLast_mem hne)
      have happrices : (b.price_history ++ [(b.clock, m)]).Chain'
          (fun x y => x.2 ≠ y.2) := by
        rw [List.chain'_append]
        refine ⟨h2, List.chain'_singleton _, ?_⟩
        intro x hx y hy
        rw [List.head?_cons, Option.mem_def, Option.some_inj] at hy
        subst hy
        have hx4 := h4 x (Option.mem_def.mp hx)
        intro hxe
        have hxm : x.2 = m := by simpa using hxe
        rw [hxm] at hx4
        exact hl hx4
      refine ⟨⟨happtimes.drop _, happrices.drop _, ?_, ?_, ?_⟩, fun m' hm' => by cases hm'; rfl⟩
      · show (pushRing b.history_limit b.price_history (b.clock, m)).length ≤ b.history_limit
        rw [pushRing, List.length_drop, List.length_append]
        simp only [List.length_singleton]
        omega
      · intro e he
        by_cases hk : pushRing b.history_limit b.price_history (b.clock, m) = []
        · rw [hk] at he
          cases he
        · rw [pushRing] at he hk
          rw [getLast?_drop_ne_nil _ _ hk, List.getLast?_concat] at he
          cases he
          rfl
      · intro e he
        rcases hmem e he with h | h
        · exact Nat.lt_succ_of_lt (h5 e h)
        · rw [h]
          exact Nat.lt_succ_self _

theorem histCore_congr (b b' : Book) (h1 : b'.price_history = b.price_history)
    (h2 : b'.history_limit = b.history_limit)
    (h3 : b'.last_recorded_mid_price = b.last_recorded_mid_price)
    (h4 : b.clock ≤ b'.clock) (hc : HistCore b) : HistCore b' := by
  obtain ⟨c1, c2, c3, c4, c5⟩ := hc
  refine ⟨?_, ?_, ?_, ?_, ?_⟩
  · rw [h1]; exact c1
  · rw [h1]; exact c2
  · rw [h1, h2]; exact c3
  · rw [h1, h3]; exact c4
  · rw [h1]
    intro e he
    exact Nat.lt_of_lt_of_le (c5 e he) h4

theorem bestMid_congr (b b' : Book) (hb : b'.bids_heap = b.bids_heap)
    (ha : b'.asks_heap = b.asks_heap) (hv : b'.volume_map = b.volume_map) :
    bestMid b' = bestMid b := by
  rw [bestMid, bestMid, bestBidVal_congr b b' hb hv, bestAskVal_congr b b' ha hv]

/-- update_price_history re-establishes the full history invariant from
the core shape alone. -/
theorem histInv_update_price_history (b : Book) (hc : HistCore b) :
    HistInv (update_price_history b) := by
  obtain ⟨hmid2, hask, hbid⟩ := bestMid_after_reads b
  have hb2core : HistCore (get_best_ask (get_best_bid b).1).1 := by
    refine histCore_congr b _ ?_ ?_ ?_ ?_ hc
    · rw [(get_best_ask_frame _).2.2.2.2.2.2.2.2.1, (get_best_bid_frame _).2.2.2.2.2.2.2.2.1]
    · rw [(get_best_ask_frame _).2.2.2.2.2.2.2.2.2.1,
        (get_best_bid_frame _).2.2.2.2.2.2.2.2.2.1]
    · rw [(get_best_ask_frame _).2.2.2.2.2.2.2.2.2.2.1,
        (get_best_bid_frame _).2.2.2.2.2.2.2.2.2.2.1]
    · rw [(get_best_ask_frame _).2.2.2.2.2.2.2.2.2.2.2.1,
        (get_best_bid_frame b).2.2.2.2.2.2.2.2.2.2.2.1]
  have hmidarg : midOf (get_best_bid b).2 (get_best_ask (get_best_bid b).1).2 = bestMid b := by
    rw [hask, hbid]
    rfl
  obtain ⟨hcore, hrec⟩ := histCore_recordMid (get_best_ask (get_best_bid b).1).1
    (midOf (get_best_bid b).2 (get_best_ask (get_best_bid b).1).2) hb2core
  refine ⟨hcore, ?_⟩
  intro m hm
  rw [update_price_history] at hm
  obtain ⟨e1, e2, e3⟩ := recordMid_heaps_vm (get_best_ask (get_best_bid b).1).1
    (midOf (get_best_bid b).2 (get_best_ask (get_best_bid b).1).2)
  rw [bestMid_congr _ _ e1 e2 e3, hmid2, ← hmidarg] at hm
  exact hrec m hm

theorem tradeUpdates_clock (b : Book) (t m : Nat) :
    (tradeUpdates b t m).1.clock = b.clock + 1 := by
  simp [tradeUpdates, setVolume]

theorem runQueueGo_clock (takerId qid : Nat) (q : List Nat) : ∀ b : Book,
    b.clock ≤ (runQueueGo takerId qid b q).1.clock := by
  induction q with
  | nil => intro b; simp [runQueueGo]
  | cons makerId rest ih =>
    intro b
    by_cases hv : 0 < (getOrder b takerId).volume
    · by_cases hm : (getOrder (tradeUpdates b takerId makerId).1 makerId).volume = 0
      · simp only [runQueueGo, if_pos hv, hm, if_true]
        have h1 := ih (popMaker (tradeUpdates b takerId makerId).1 makerId qid rest)
        have h2 : (popMaker (tradeUpdates b takerId makerId).1 makerId qid rest).clock =
            b.clock + 1 := by
          rw [(popMaker_frame _ _ _ _).2.2.2.2.2.2.2.2.2.2.1, tradeUpdates_clock]
        omega
      · simp only [runQueueGo, if_pos hv, hm, if_false]
        rw [tradeUpdates_clock]
        exact Nat.le_succ _
    · simp [runQueueGo, hv]

theorem matchBuyGo_clock (takerId : Nat) (h : List (Rat × Nat)) : ∀ b : Book,
    b.clock ≤ (matchBuyGo takerId b h).1.clock := by
  induction h with
  | nil => intro b; simp [matchBuyGo]
  | cons e rest ih =>
    intro b
    obtain ⟨price, qid⟩ := e
    by_cases hc : 0 < (getOrder b takerId).volume ∧ price ≤ (getOrder b takerId).price
    · rcases hq : queueOf b qid with _ | ⟨head, tail⟩
      · simp only [matchBuyGo, if_pos hc, hq]
        exact ih { b with asks_heap := rest, queue_map := aerase b.queue_map (price, Side.SELL) }
      · simp only [matchBuyGo, if_pos hc, hq]
        by_cases hq2 : queueOf (runQueue b takerId qid).1 qid = []
        · rw [if_pos hq2]
          exact Nat.le_trans (runQueueGo_clock takerId qid (queueOf b qid) b)
            (ih { (runQueue b takerId qid).1 with
              asks_heap := rest
              queue_map := aerase (runQueue b takerId qid).1.queue_map (price, Side.SELL)
              volume_map := if vget (runQueue b takerId qid).1.volume_map (price, Side.SELL) ≤ 0
                            then aerase (runQueue b takerId qid).1.volume_map (price, Side.SELL)
                            else (runQueue b takerId qid).1.volume_map })
        · rw [if_neg hq2]
          exact runQueueGo_clock takerId qid (queueOf b qid) b
    · simp [matchBuyGo, hc]

theorem matchSellGo_clock (takerId : Nat) (h : List (Rat × Nat)) : ∀ b : Book,
    b.clock ≤ (matchSellGo takerId b h).1.clock := by
  induction h with
  | nil => intro b; simp [matchSellGo]
  | cons e rest ih =>
    intro b
    obtain ⟨price, qid⟩ := e
    by_cases hc : 0 < (getOrder b takerId).volume ∧ (getOrder b takerId).price ≤ price
    · rcases hq : queueOf b qid with _ | ⟨head, tail⟩
      · simp only [matchSellGo, if_pos hc, hq]
        exact ih { b with bids_heap := rest, queue_map := aerase b.queue_map (price, Side.BUY) }
      · simp only [matchSellGo, if_pos hc, hq]
        by_cases hq2 : queueOf (runQueue b takerId qid).1 qid = []
        · rw [if_pos hq2]
          exact Nat.le_trans (runQueueGo_clock takerId qid (queueOf b qid) b)
            (ih { (runQueue b takerId qid).1 with
              bids_heap := rest
              queue_map := aerase (runQueue b takerId qid).1.queue_map (price, Side.BUY)
              volume_map := if vget (runQueue b takerId qid).1.volume_map (price, Side.BUY) ≤ 0
                            then aerase (runQueue b takerId qid).1.volume_map (price, Side.BUY)
                            else (runQueue b takerId qid).1.volume_map })
        · rw [if_neg hq2]
          exact runQueueGo_clock takerId qid (queueOf b qid) b
    · simp [matchSellGo, hc]

/-- The book state place_order passes to its final
update_price_history keeps the history core shape. -/
theorem placeMatch_frame (b1 : Book) (oid : Nat) (s : Side) :
    (placeMatch b1 oid s).1.next_queue = b1.next_queue ∧
    (placeMatch b1 oid s).1.order_id_counter = b1.order_id_counter ∧
    (placeMatch b1 oid s).1.price_history = b1.price_history ∧
    (placeMatch b1 oid s).1.history_limit = b1.history_limit ∧
    (placeMatch b1 oid s).1.last_recorded_mid_price = b1.last_recorded_mid_price ∧
    b1.clock ≤ (placeMatch b1 oid s).1.clock := by
  cases s
  · obtain ⟨f1, f2, f3, f4, f5, f6⟩ := matchBuy_frame b1 oid
    exact ⟨f2, f3, f4, f5, f6, matchBuyGo_clock oid b1.asks_heap b1⟩
  · obtain ⟨f1, f2, f3, f4, f5, f6⟩ := matchSell_frame b1 oid
    exact ⟨f2, f3, f4, f5, f6, matchSellGo_clock oid b1.bids_heap b1⟩

theorem placeRest_frame (b2 : Book) (oid : Nat) :
    (placeRest b2 oid).price_history = b2.price_history ∧
    (placeRest b2 oid).history_limit = b2.history_limit ∧
    (placeRest b2 oid).last_recorded_mid_price = b2.last_recorded_mid_price ∧
    (placeRest b2 oid).clock = b2.clock ∧
    (placeRest b2 oid).order_id_counter = b2.order_id_counter ∧
    (placeRest b2 oid).trade_log = b2.trade_log ∧
    (placeRest b2 oid).orders = b2.orders := by
  rw [placeRest]
  split
  · obtain ⟨a1, a2, a3, a4, a5, a6, a7, a8⟩ := add_order_to_book_frame b2 oid
    exact ⟨a3, a4, a5, a6, a2, a7, a8⟩
  · exact ⟨rfl, rfl, rfl, rfl, rfl, rfl, rfl⟩

/-- place_order preserves the history invariant (its core is even
re-established from the core shape alone). -/
theorem histInv_place (b : Book) (c : String) (s : Side) (p : Rat) (v : Int)
    (hc : HistCore b) : HistInv (place_order b c s p v).1 := by
  apply histInv_update_price_history
  have h1 : HistCore (placeStart b c s p v) :=
    histCore_congr b _ rfl rfl rfl (Nat.le_succ _) hc
  have h2 : HistCore (placeMatch (placeStart b c s p v) b.order_id_counter s).1 := by
    obtain ⟨f1, f2, f3, f4, f5, f6⟩ := placeMatch_frame (placeStart b c s p v)
      b.order_id_counter s
    exact histCore_congr _ _ f3 f4 f5 f6 h1
  obtain ⟨g1, g2, g3, g4, g5, g6, g7⟩ :=
    placeRest_frame (placeMatch (placeStart b c s p v) b.order_id_counter s).1
      b.order_id_counter
  exact histCore_congr _ _ g1 g2 g3 (Nat.le_of_eq g4.symm) h2

/-- cancel_order preserves the history invariant. -/
theorem histInv_cancel (b : Book) (oid : Nat) (hb : HistInv b) :
    HistInv (cancel_order b oid).1 := by
  rw [cancel_order]
  by_cases h1 : oid ∉ b.order_map
  · simpa [h1] using hb
  · by_cases h2 : (getOrder b oid).volume ≤ 0
    · simp only [h1, if_false, h2, if_true, reduceIte]
      obtain ⟨hc, hm⟩ := hb
      refine ⟨histCore_congr b _ rfl rfl rfl (Nat.le_refl _) hc, ?_⟩
      intro m hmm
      exact hm m hmm
    · simp only [h1, if_false, h2, reduceIte]
      by_cases hf : (cancelVolumeStep b ((getOrder b oid).price, (getOrder b oid).side)
            (getOrder b oid).volume).2 = true ∨
          (cancelQueueStep (cancelVolumeStep b ((getOrder b oid).price, (getOrder b oid).side)
              (getOrder b oid).volume).1
            ((getOrder b oid).price, (getOrder b oid).side) oid).2 = true
      · rw [if_pos hf]
        apply histInv_update_price_history
        refine histCore_congr b _ ?_ ?_ ?_ ?_ hb.1
        · dsimp only
          rw [(cancelQueueStep_frame _ _ _).2.2.2.2.2.2.2.1,
            (cancelVolumeStep_frame _ _ _).2.2.2.2.2.2.2.2.1]
        · dsimp only
          rw [(cancelQueueStep_frame _ _ _).2.2.2.2.2.2.2.2.1,
            (cancelVolumeStep_frame _ _ _).2.2.2.2.2.2.2.2.2.1]
        · dsimp only
          rw [(cancelQueueStep_frame _ _ _).2.2.2.2.2.2.2.2.2.1,
            (cancelVolumeStep_frame _ _ _).2.2.2.2.2.2.2.2.2.2.1]
        · dsimp only
          rw [(cancelQueueStep_frame _ _ _).2.2.2.2.2.2.2.2.2.2.1,
            (cancelVolumeStep_frame _ _ _).2.2.2.2.2.2.2.2.2.2.2.1]
      · rw [if_neg hf]
        push_neg at hf
        obtain ⟨hf1, hf2⟩ := hf
        have e1 : (cancelVolumeStep b ((getOrder b oid).price, (getOrder b oid).side)
            (getOrder b oid).volume).1.volume_map = b.volume_map := by
          rcases hvm : alookup b.volume_map ((getOrder b oid).price, (getOrder b oid).side) with
            _ | v
          · simp [cancelVolumeStep, hvm]
          · simp [cancelVolumeStep, hvm] at hf1
        obtain ⟨hc, hm⟩ := hb
        constructor
        · refine histCore_congr b _ ?_ ?_ ?_ ?_ hc
          · dsimp only
            rw [(cancelQueueStep_frame _ _ _).2.2.2.2.2.2.2.1,
              (cancelVolumeStep_frame _ _ _).2.2.2.2.2.2.2.2.1]
          · dsimp only
            rw [(cancelQueueStep_frame _ _ _).2.2.2.2.2.2.2.2.1,
              (cancelVolumeStep_frame _ _ _).2.2.2.2.2.2.2.2.2.1]
          · dsimp only
            rw [(cancelQueueStep_frame _ _ _).2.2.2.2.2.2.2.2.2.1,
              (cancelVolumeStep_frame _ _ _).2.2.2.2.2.2.2.2.2.2.1]
          · dsimp only
            rw [(cancelQueueStep_frame _ _ _).2.2.2.2.2.2.2.2.2.2.1,
              (cancelVolumeStep_frame _ _ _).2.2.2.2.2.2.2.2.2.2.2.1]
        · intro m hmm
          have hbm : bestMid { (cancelQueueStep (cancelVolumeStep b
              ((getOrder b oid).price, (getOrder b oid).side) (getOrder b oid).volume).1
              ((getOrder b oid).price, (getOrder b oid).side) oid).1 with
              order_map := removeId (cancelQueueStep (cancelVolumeStep b
                ((getOrder b oid).price, (getOrder b oid).side) (getOrder b oid).volume).1
                ((getOrder b oid).price, (getOrder b oid).side) oid).1.order_map oid } =
              bestMid b := by
            apply bestMid_congr
            · dsimp only
              rw [(cancelQueueStep_frame _ _ _).2.2.2.1,
                (cancelVolumeStep_frame _ _ _).2.2.2.2.1]
            · dsimp only
              rw [(cancelQueueStep_frame _ _ _).2.2.1, (cancelVolumeStep_frame _ _ _).2.2.2.1]
            · dsimp only
              rw [(cancelQueueStep_frame _ _ _).2.1, e1]
          rw [hbm] at hmm
          have := hm m hmm
          dsimp only
          rw [(cancelQueueStep_frame _ _ _).2.2.2.2.2.2.2.2.2.1,
            (cancelVolumeStep_frame _ _ _).2.2.2.2.2.2.2.2.2.2.1]
          exact this

theorem histInv_init (limit : Nat) : HistInv (initBook limit) := by
  constructor
  · refine ⟨?_, ?_, ?_, ?_, ?_⟩ <;> simp [initBook]
  · intro m hm
    simp [bestMid, bestBidVal, bestAskVal, get_best_bid, get_best_ask, initBook,
      popStaleBids, popStaleAsks, midOf] at hm

theorem histInv_applyOp (b : Book) (op : Op) (hb : HistInv b) : HistInv (applyOp b op) := by
  cases op with
  | place c s p v => exact histInv_place b c s p v hb.1
  | cancel oid => exact histInv_cancel b oid hb

/-- Every reachable state satisfies the history invariant. -/
theorem histInv_reachable (b : Book) (hb : Reachable b) : HistInv b := by
  obtain ⟨limit, ops, rfl⟩ := hb
  rw [runOps]
  induction ops using List.reverseRecOn with
  | nil => exact histInv_init limit
  | append_singleton ops op ih =>
    rw [List.foldl_append, List.foldl_cons, List.foldl_nil]
    exact histInv_applyOp _ op ih

/-! Bounds on identifiers: every id in the order map, the object store
and the level queues is below the id counter, so freshly allocated ids
are unused. -/

theorem mem_ainsert {α β : Type} [DecidableEq α] (l : List (α × β)) (k : α) (v : β)
    (kv : α × β) (h : kv ∈ ainsert l k v) : kv = (k, v) ∨ kv ∈ l := by
  induction l with
  | nil => simpa [ainsert] using h
  | cons hd t ih =>
    obtain ⟨k0, v0⟩ := hd
    by_cases hk : k0 = k
    · subst hk
      rcases List.mem_cons.mp (by simpa [ainsert] using h) with h1 | h1
      · exact Or.inl h1
      · exact Or.inr (List.mem_cons_of_mem _ h1)
    · rcases List.mem_cons.mp (by simpa [ainsert, hk] using h) with h1 | h1
      · exact Or.inr (h1 ▸ List.mem_cons_self _ _)
      · rcases ih h1 with h2 | h2
        · exact Or.inl h2
        · exact Or.inr (List.mem_cons_of_mem _ h2)

theorem alookup_mem {α β : Type} [DecidableEq α] (l : List (α × β)) (k : α) (v : β)
    (h : alookup l k = some v) : (k, v) ∈ l := by
  induction l with
  | nil => cases h
  | cons hd t ih =>
    obtain ⟨k0, v0⟩ := hd
    by_cases hk : k0 = k
    · subst hk
      rw [alookup_cons, if_pos rfl, Option.some_inj] at h
      exact h ▸ List.mem_cons_self _ _
    · rw [alookup_cons, if_neg hk] at h
      exact List.mem_cons_of_mem _ (ih h)

theorem mem_addId (l : List Nat) (oid x : Nat) (h : x ∈ addId l oid) : x ∈ l ∨ x = oid := by
  rw [addId] at h
  split at h
  · exact Or.inl h
  · rcases List.mem_append.mp h with h1 | h1
    · exact Or.inl h1
    · exact Or.inr (List.mem_singleton.mp h1)

theorem mem_removeId (l : List Nat) (oid x : Nat) (h : x ∈ removeId l oid) : x ∈ l :=
  List.mem_of_mem_filter h

theorem removeId_of_notin (l : List Nat) (oid : Nat) (h : oid ∉ l) : removeId l oid = l := by
  induction l with
  | nil => rfl
  | cons hd t ih =>
    rw [List.mem_cons] at h
    push_neg at h
    have hne : hd ≠ oid := fun he => h.1 he.symm
    rw [removeId, List.filter_cons, if_pos (by simpa using hne)]
    rw [removeId] at ih
    rw [ih h.2]

/-- All id references in the book are below the bound C. -/
def StoreBound (C : Nat) (b : Book) : Prop :=
  (∀ oid ∈ b.order_map, oid < C) ∧
  (∀ kv ∈ b.orders, kv.1 < C) ∧
  (∀ kv ∈ b.queues, ∀ oid ∈ kv.2, oid < C)
theorem storeBound_mono (C C' : Nat) (h : C ≤ C') (b : Book) (hb : StoreBound C b) :
    StoreBound C' b :=
  ⟨fun oid ho => Nat.lt_of_lt_of_le (hb.1 oid ho) h,
   fun kv hk => Nat.lt_of_lt_of_le (hb.2.1 kv hk) h,
   fun kv hk oid ho => Nat.lt_of_lt_of_le (hb.2.2 kv hk oid ho) h⟩

theorem queueOf_bound (C : Nat) (b : Book) (qid : Nat) (hb : StoreBound C b) :
    ∀ oid ∈ queueOf b qid, oid < C := by
  intro oid ho
  rw [queueOf] at ho
  rcases hl : alookup b.queues qid with _ | l
  · rw [hl] at ho
    cases ho
  · rw [hl] at ho
    exact hb.2.2 (qid, l) (alookup_mem b.queues qid l hl) oid ho

theorem tradeUpdates_bound (C : Nat) (b : Book) (t m : Nat) (hb : StoreBound C b)
    (ht : t < C) (hm : m < C) : StoreBound C (tradeUpdates b t m).1 := by
  obtain ⟨h1, h2, h3⟩ := hb
  refine ⟨?_, ?_, ?_⟩
  · intro oid ho
    rw [(tradeUpdates_frame b t m).2.2.2.2.2.2.2.2.2] at ho
    exact h1 oid ho
  · intro kv hk
    simp only [tradeUpdates, setVolume] at hk
    rcases mem_ainsert _ _ _ kv hk with h | h
    · rw [h]; exact hm
    · rcases mem_ainsert _ _ _ kv h with h' | h'
      · rw [h']; exact ht
      · exact h2 kv h'
  · intro kv hk
    rw [(tradeUpdates_frame b t m).2.2.2.1] at hk
    exact h3 kv hk

theorem popMaker_bound (C : Nat) (b : Book) (makerId qid : Nat) (rest : List Nat)
    (hb : StoreBound C b) (hrest : ∀ oid ∈ rest, oid < C) :
    StoreBound C (popMaker b makerId qid rest) := by
  obtain ⟨h1, h2, h3⟩ := hb
  refine ⟨?_, ?_, ?_⟩
  · intro oid ho
    rw [popMaker] at ho
    exact h1 oid (mem_removeId _ _ _ ho)
  · intro kv hk
    rw [(popMaker_frame b makerId qid rest).2.2.2.2.2.2.2.2.1] at hk
    exact h2 kv hk
  · intro kv hk
    rw [popMaker] at hk
    rcases mem_ainsert _ _ _ kv hk with h | h
    · rw [h]; exact hrest
    · exact h3 kv h

theorem runQueueGo_bound (C takerId qid : Nat) (q : List Nat) : ∀ b : Book,
    StoreBound C b → takerId < C → (∀ oid ∈ q, oid < C) →
    StoreBound C (runQueueGo takerId qid b q).1 := by
  induction q with
  | nil => intro b hb _ _; simpa [runQueueGo] using hb
  | cons makerId rest ih =>
    intro b hb ht hq
    have hmk : makerId < C := hq makerId (List.mem_cons_self _ _)
    have hrest : ∀ oid ∈ rest, oid < C := fun oid ho => hq oid (List.mem_cons_of_mem _ ho)
    by_cases hv : 0 < (getOrder b takerId).volume
    · by_cases hm : (getOrder (tradeUpdates b takerId makerId).1 makerId).volume = 0
      · simp only [runQueueGo, if_pos hv, hm, if_true]
        exact ih _ (popMaker_bound C _ makerId qid rest
          (tradeUpdates_bound C b takerId makerId hb ht hmk) hrest) ht hrest
      · simp only [runQueueGo, if_pos hv, hm, if_false]
        exact tradeUpdates_bound C b takerId makerId hb ht hmk
    · simpa [runQueueGo, hv] using hb

theorem matchBuyGo_bound (C takerId : Nat) (h : List (Rat × Nat)) : ∀ b : Book,
    StoreBound C b → takerId < C → StoreBound C (matchBuyGo takerId b h).1 := by
  induction h with
  | nil => intro b hb _; simpa [matchBuyGo] using hb
  | cons e rest ih =>
    intro b hb ht
    obtain ⟨price, qid⟩ := e
    by_cases hc : 0 < (getOrder b takerId).volume ∧ price ≤ (getOrder b takerId).price
    · rcases hq : queueOf b qid with _ | ⟨head, tail⟩
      · simp only [matchBuyGo, if_pos hc, hq]
        exact ih _ ⟨hb.1, hb.2.1, hb.2.2⟩ ht
      · simp only [matchBuyGo, if_pos hc, hq]
        have hrun : StoreBound C (runQueue b takerId qid).1 :=
          runQueueGo_bound C takerId qid (queueOf b qid) b hb ht (queueOf_bound C b qid hb)
        by_cases hq2 : queueOf (runQueue b takerId qid).1 qid = []
        · rw [if_pos hq2]
          exact ih _ ⟨hrun.1, hrun.2.1, hrun.2.2⟩ ht
        · rw [if_neg hq2]
          exact hrun
    · simpa [matchBuyGo, hc] using hb

theorem matchSellGo_bound (C takerId : Nat) (h : List (Rat × Nat)) : ∀ b : Book,
    StoreBound C b → takerId < C → StoreBound C (matchSellGo takerId b h).1 := by
  induction h with
  | nil => intro b hb _; simpa [matchSellGo] using hb
  | cons e rest ih =>
    intro b hb ht
    obtain ⟨price, qid⟩ := e
    by_cases hc : 0 < (getOrder b takerId).volume ∧ (getOrder b takerId).price ≤ price
    · rcases hq : queueOf b qid with _ | ⟨head, tail⟩
      · simp only [matchSellGo, if_pos hc, hq]
        exact ih _ ⟨hb.1, hb.2.1, hb.2.2⟩ ht
      · simp only [matchSellGo, if_pos hc, hq]
        have hrun : StoreBound C (runQueue b takerId qid).1 :=
          runQueueGo_bound C takerId qid (queueOf b qid) b hb ht (queueOf_bound C b qid hb)
        by_cases hq2 : queueOf (runQueue b takerId qid).1 qid = []
        · rw [if_pos hq2]
          exact ih _ ⟨hrun.1, hrun.2.1, hrun.2.2⟩ ht
        · rw [if_neg hq2]
          exact hrun
    · simpa [matchSellGo, hc] using hb

theorem add_order_to_book_bound (C : Nat) (b : Book) (oid : Nat) (hb : StoreBound C b)
    (ho : oid < C) : StoreBound C (add_order_to_book b oid) := by
  obtain ⟨h1, h2, h3⟩ := hb
  rw [add_order_to_book]
  cases halo : alookup b.queue_map ((getOrder b oid).price, (getOrder b oid).side) with
  | none =>
    cases hs : (getOrder b oid).side
    · refine ⟨h1, h2, ?_⟩
      intro kv hk
      rcases mem_ainsert _ _ _ kv (by simpa [hs, halo] using hk) with hkv | hkv
      · rw [hkv]
        intro x hx
        rw [List.mem_singleton.mp hx]
        exact ho
      · exact h3 kv hkv
    · refine ⟨h1, h2, ?_⟩
      intro kv hk
      rcases mem_ainsert _ _ _ kv (by simpa [hs, halo] using hk) with hkv | hkv
      · rw [hkv]
        intro x hx
        rw [List.mem_singleton.mp hx]
        exact ho
      · exact h3 kv hkv
  | some qid =>
    refine ⟨h1, h2, ?_⟩
    intro kv hk
    rcases mem_ainsert _ _ _ kv (by simpa [halo] using hk) with hkv | hkv
    · rw [hkv]
      intro x hx
      rcases List.mem_append.mp hx with hx1 | hx1
      · exact queueOf_bound C b qid ⟨h1, h2, h3⟩ x hx1
      · rw [List.mem_singleton.mp hx1]
        exact ho
    · exact h3 kv hkv

/-- All id references are below the current order id counter. -/
def IdsBound (b : Book) : Prop := StoreBound b.order_id_counter b

theorem idsBound_place (b : Book) (c : String) (s : Side) (p : Rat) (v : Int)
    (hb : IdsBound b) : IdsBound (place_order b c s p v).1 := by
  have hstart : StoreBound (b.order_id_counter + 1) (placeStart b c s p v) := by
    obtain ⟨h1, h2, h3⟩ := hb
    refine ⟨?_, ?_, ?_⟩
    · intro oid ho
      rcases mem_addId _ _ _ ho with h | h
      · exact Nat.lt_succ_of_lt (h1 oid h)
      · rw [h]; exact Nat.lt_succ_self _
    · intro kv hk
      rcases mem_ainsert _ _ _ kv hk with h | h
      · rw [h]; exact Nat.lt_succ_self _
      · exact Nat.lt_succ_of_lt (h2 kv h)
    · intro kv hk
      exact fun oid ho => Nat.lt_succ_of_lt (h3 kv hk oid ho)
  have hmatch : StoreBound (b.order_id_counter + 1)
      (placeMatch (placeStart b c s p v) b.order_id_counter s).1 := by
    cases s
    · exact matchBuyGo_bound _ _ _ _ hstart (Nat.lt_succ_self _)
    · exact matchSellGo_bound _ _ _ _ hstart (Nat.lt_succ_self _)
  have hrest : StoreBound (b.order_id_counter + 1)
      (placeRest (placeMatch (placeStart b c s p v) b.order_id_counter s).1
        b.order_id_counter) := by
    rw [placeRest]
    split
    · exact add_order_to_book_bound _ _ _ hmatch (Nat.lt_succ_self _)
    · obtain ⟨h1, h2, h3⟩ := hmatch
      exact ⟨fun oid ho => h1 oid (mem_removeId _ _ _ ho), h2, h3⟩
  have hcnt : (place_order b c s p v).1.order_id_counter = b.order_id_counter + 1 := by
    show (update_price_history _).order_id_counter = _
    rw [update_price_history_counter, (placeRest_frame _ _).2.2.2.2.1]
    rcases s with _ | _
    · exact (matchBuy_frame _ _).2.2.1
    · exact (matchSell_frame _ _).2.2.1
  rw [IdsBound, hcnt]
  obtain ⟨h1, h2, h3⟩ := hrest
  refine ⟨?_, ?_, ?_⟩
  · intro oid ho
    replace ho : oid ∈ (update_price_history (placeRest
        (placeMatch (placeStart b c s p v) b.order_id_counter s).1
        b.order_id_counter)).order_map := ho
    rw [update_price_history_order_map] at ho
    exact h1 oid ho
  · intro kv hk
    replace hk : kv ∈ (update_price_history (placeRest
        (placeMatch (placeStart b c s p v) b.order_id_counter s).1
        b.order_id_counter)).orders := hk
    rw [update_price_history_orders] at hk
    exact h2 kv hk
  · intro kv hk
    replace hk : kv ∈ (update_price_history (placeRest
        (placeMatch (placeStart b c s p v) b.order_id_counter s).1
        b.order_id_counter)).queues := hk
    rw [update_price_history_queues] at hk
    exact h3 kv hk

theorem idsBound_cancel (b : Book) (oid : Nat) (hb : IdsBound b) :
    IdsBound (cancel_order b oid).1 := by
  rw [cancel_order]
  by_cases h1 : oid ∉ b.order_map
  · simpa [h1] using hb
  · by_cases h2 : (getOrder b oid).volume ≤ 0
    · simp only [h1, if_false, h2, if_true, reduceIte]
      exact ⟨fun x hx => hb.1 x (mem_removeId _ _ _ hx), hb.2.1, hb.2.2⟩
    · simp only [h1, if_false, h2, reduceIte]
      have hs1 : StoreBound b.order_id_counter (cancelVolumeStep b
          ((getOrder b oid).price, (getOrder b oid).side) (getOrder b oid).volume).1 := by
        obtain ⟨c1, c2, c3⟩ := hb
        refine ⟨?_, ?_, ?_⟩
        · intro x hx
          rw [(cancelVolumeStep_frame _ _ _).1] at hx
          exact c1 x hx
        · intro kv hk
          rw [(cancelVolumeStep_frame _ _ _).2.2.2.2.2.1] at hk
          exact c2 kv hk
        · intro kv hk
          rw [(cancelVolumeStep_frame _ _ _).2.1] at hk
          exact c3 kv hk
      have hs2 : StoreBound b.order_id_counter (cancelQueueStep (cancelVolumeStep b
          ((getOrder b oid).price, (getOrder b oid).side) (getOrder b oid).volume).1
          ((getOrder b oid).price, (getOrder b oid).side) oid).1 := by
        obtain ⟨c1, c2, c3⟩ := hs1
        rw [cancelQueueStep]
        set ba := (cancelVolumeStep b ((getOrder b oid).price, (getOrder b oid).side)
          (getOrder b oid).volume).1
        cases halo : alookup ba.queue_map ((getOrder b oid).price, (getOrder b oid).side) with
        | none => exact ⟨c1, c2, c3⟩
        | some qid =>
          by_cases hmem : oid ∈ queueOf ba qid
          · have hq : ∀ x ∈ (queueOf ba qid).erase oid, x < b.order_id_counter := by
              intro x hx
              exact queueOf_bound _ ba qid ⟨c1, c2, c3⟩ x (List.mem_of_mem_erase hx)
            by_cases he : (queueOf ba qid).erase oid = []
            · simp only [hmem, if_true, he, reduceIte]
              refine ⟨c1, c2, ?_⟩
              intro kv hk
              rcases mem_ainsert _ _ _ kv hk with hkv | hkv
              · rw [hkv]
                intro x hx
                cases hx
              · exact c3 kv hkv
            · simp only [hmem, if_true, he, reduceIte]
              refine ⟨c1, c2, ?_⟩
              intro kv hk
              rcases mem_ainsert _ _ _ kv hk with hkv | hkv
              · rw [hkv]
                intro x hx
                exact hq x hx
              · exact c3 kv hkv
          · simp only [hmem, if_false, reduceIte]
            exact ⟨c1, c2, c3⟩
      have hbc : StoreBound b.order_id_counter { (cancelQueueStep (cancelVolumeStep b
          ((getOrder b oid).price, (getOrder b oid).side) (getOrder b oid).volume).1
          ((getOrder b oid).price, (getOrder b oid).side) oid).1 with
          order_map := removeId (cancelQueueStep (cancelVolumeStep b
            ((getOrder b oid).price, (getOrder b oid).side) (getOrder b oid).volume).1
            ((getOrder b oid).price, (getOrder b oid).side) oid).1.order_map oid } :=
        ⟨fun x hx => hs2.1 x (mem_removeId _ _ _ hx), hs2.2.1, hs2.2.2⟩
      split
      · rw [IdsBound]
        have e1 := update_price_history_counter ({ (cancelQueueStep (cancelVolumeStep b
          ((getOrder b oid).price, (getOrder b oid).side) (getOrder b oid).volume).1
          ((getOrder b oid).price, (getOrder b oid).side) oid).1 with
          order_map := removeId (cancelQueueStep (cancelVolumeStep b
            ((getOrder b oid).price, (getOrder b oid).side) (getOrder b oid).volume).1
            ((getOrder b oid).price, (getOrder b oid).side) oid).1.order_map oid })
        rw [e1]
        have e2 : (cancelQueueStep (cancelVolumeStep b
            ((getOrder b oid).price, (getOrder b oid).side) (getOrder b oid).volume).1
            ((getOrder b oid).price, (getOrder b oid).side) oid).1.order_id_counter =
            b.order_id_counter := by
          rw [(cancelQueueStep_frame _ _ _).2.2.2.2.2.2.1,
            (cancelVolumeStep_frame _ _ _).2.2.2.2.2.2.2.1]
        rw [e2]
        obtain ⟨c1, c2, c3⟩ := hbc
        refine ⟨?_, ?_, ?_⟩
        · intro x hx
          rw [update_price_history_order_map] at hx
          exact c1 x hx
        · intro kv hk
          rw [update_price_history_orders] at hk
          exact c2 kv hk
        · intro kv hk
          rw [update_price_history_queues] at hk
          exact c3 kv hk
      · rw [IdsBound]
        have e2 : (cancelQueueStep (cancelVolumeStep b
            ((getOrder b oid).price, (getOrder b oid).side) (getOrder b oid).volume).1
            ((getOrder b oid).price, (getOrder b oid).side) oid).1.order_id_counter =
            b.order_id_counter := by
          rw [(cancelQueueStep_frame _ _ _).2.2.2.2.2.2.1,
            (cancelVolumeStep_frame _ _ _).2.2.2.2.2.2.2.1]
        show StoreBound _ _
        dsimp only
        rw [e2]
        exact hbc

theorem idsBound_init (limit : Nat) : IdsBound (initBook limit) := by
  refine ⟨?_, ?_, ?_⟩ <;> intro x hx <;> simp [initBook] at hx

/-- Every reachable state has all its id references below the counter. -/
theorem idsBound_reachable (b : Book) (hb : Reachable b) : IdsBound b := by
  obtain ⟨limit, ops, rfl⟩ := hb
  rw [runOps]
  induction ops using List.reverseRecOn with
  | nil => exact idsBound_init limit
  | append_singleton ops op ih =>
    rw [List.foldl_append, List.foldl_cons, List.foldl_nil]
    cases op with
    | place c s p v => exact idsBound_place _ c s p v ih
    | cancel oid => exact idsBound_cancel _ oid ih

theorem topsClean_congr (b b' : Book) (h1 : b'.bids_heap = b.bids_heap)
    (h2 : b'.asks_heap = b.asks_heap) (h3 : b'.volume_map = b.volume_map)
    (hb : TopsClean b) : TopsClean b' := by
  constructor
  · intro p q t hh
    rw [h3]
    exact hb.1 p q t (h1 ▸ hh)
  · intro p q t hh
    rw [h3]
    exact hb.2 p q t (h2 ▸ hh)

theorem recordMid_of_agree (b : Book) (mid : Option Rat)
    (hm : ∀ m, mid = some m → b.last_recorded_mid_price = some m) :
    recordMid b mid = b := by
  cases mid with
  | none => rfl
  | some m => rw [recordMid, if_pos (hm m rfl)]

/-- On a clean-tops state whose recorded mid agrees with the current
mid, _update_price_history is the identity. -/
theorem update_price_history_of_clean (b : Book) (ht : TopsClean b)
    (hm : ∀ m, bestMid b = some m → b.last_recorded_mid_price = some m) :
    update_price_history b = b := by
  have hmid : midOf (b.bids_heap.head?.map Prod.fst) (b.asks_heap.head?.map Prod.fst) =
      bestMid b := by
    rw [bestMid, bestBidVal, bestAskVal, get_best_bid_of_clean b ht, get_best_ask_of_clean b ht]
  rw [update_price_history, get_best_bid_of_clean b ht]
  dsimp only
  rw [get_best_ask_of_clean b ht]
  dsimp only
  rw [hmid]
  exact recordMid_of_agree b (bestMid b) hm

/-! Claim C10. -/

/-- C10: on reachable states the lazy cleanup inside get_best_bid and
get_best_ask never fires, the reads return the state unchanged, and
therefore every subsequent operation returns exactly what it would have
returned without the read. -/
theorem C10_get_best_reads_are_pure (b : Book) (hb : Reachable b) :
    (get_best_bid b).1 = b ∧ (get_best_ask b).1 = b ∧
    (∀ c s p v, place_order (get_best_bid b).1 c s p v = place_order b c s p v ∧
      place_order (get_best_ask b).1 c s p v = place_order b c s p v) ∧
    (∀ oid, cancel_order (get_best_bid b).1 oid = cancel_order b oid ∧
      cancel_order (get_best_ask b).1 oid = cancel_order b oid) ∧
    (∀ levels, get_order_book_snapshot (get_best_bid b).1 levels =
        get_order_book_snapshot b levels ∧
      get_order_book_snapshot (get_best_ask b).1 levels = get_order_book_snapshot b levels) ∧
    (∀ p s, get_volume_at_price (get_best_bid b).1 p s = get_volume_at_price b p s ∧
      get_volume_at_price (get_best_ask b).1 p s = get_volume_at_price b p s) ∧
    get_best_ask (get_best_bid b).1 = get_best_ask b ∧
    get_best_bid (get_best_ask b).1 = get_best_bid b := by
  have ht := topsClean_reachable b hb
  have e1 : (get_best_bid b).1 = b := by rw [get_best_bid_of_clean b ht]
  have e2 : (get_best_ask b).1 = b := by rw [get_best_ask_of_clean b ht]
  refine ⟨e1, e2, ?_, ?_, ?_, ?_, ?_, ?_⟩
  · intro c s p v
    rw [e1, e2]
    exact ⟨rfl, rfl⟩
  · intro oid
    rw [e1, e2]
    exact ⟨rfl, rfl⟩
  · intro levels
    rw [e1, e2]
    exact ⟨rfl, rfl⟩
  · intro p s
    rw [e1, e2]
    exact ⟨rfl, rfl⟩
  · rw [e1]
  · rw [e2]

/-- Witness for C10 at a concrete reachable two-order book. -/
theorem C10_witness :
    (get_best_bid (runOps 200 [Op.place "A" Side.BUY 100 10,
      Op.place "B" Side.SELL 101 5])).1 =
      runOps 200 [Op.place "A" Side.BUY 100 10, Op.place "B" Side.SELL 101 5] ∧
    (get_best_ask (runOps 200 [Op.place "A" Side.BUY 100 10,
      Op.place "B" Side.SELL 101 5])).1 =
      runOps 200 [Op.place "A" Side.BUY 100 10, Op.place "B" Side.SELL 101 5] :=
  ⟨(C10_get_best_reads_are_pure _ ⟨200, [Op.place "A" Side.BUY 100 10,
      Op.place "B" Side.SELL 101 5], rfl⟩).1,
   (C10_get_best_reads_are_pure _ ⟨200, [Op.place "A" Side.BUY 100 10,
      Op.place "B" Side.SELL 101 5], rfl⟩).2.1⟩

/-! Claim C9. -/

theorem matchBuyGo_novol (takerId : Nat) (h : List (Rat × Nat)) (b : Book)
    (hv : ¬ 0 < (getOrder b takerId).volume) : matchBuyGo takerId b h = (b, []) := by
  cases h with
  | nil => rfl
  | cons e rest =>
    obtain ⟨price, qid⟩ := e
    rw [matchBuyGo]
    rw [if_neg (fun hc => hv hc.1)]

theorem matchSellGo_novol (takerId : Nat) (h : List (Rat × Nat)) (b : Book)
    (hv : ¬ 0 < (getOrder b takerId).volume) : matchSellGo takerId b h = (b, []) := by
  cases h with
  | nil => rfl
  | cons e rest =>
    obtain ⟨price, qid⟩ := e
    rw [matchSellGo]
    rw [if_neg (fun hc => hv hc.1)]

theorem removeId_addId (l : List Nat) (oid : Nat) (h : oid ∉ l) :
    removeId (addId l oid) oid = l := by
  rw [addId, if_neg h, removeId, List.filter_append]
  rw [show List.filter (fun x => decide (x ≠ oid)) [oid] = [] by simp]
  rw [List.append_nil]
  exact removeId_of_notin l oid h

/-- C9: placing an order with nonpositive volume returns the fresh id
with no trades, changes no observable of the book, and still consumes
the id: the next place_order returns the successor id. -/
theorem C9_nonpositive_volume_place (b : Book) (hb : Reachable b) (c : String) (s : Side)
    (p : Rat) (v : Int) (hv : v ≤ 0) :
    (place_order b c s p v).2.1 = b.order_id_counter ∧
    (place_order b c s p v).2.2 = [] ∧
    (place_order b c s p v).1.order_map = b.order_map ∧
    (place_order b c s p v).1.queues = b.queues ∧
    (place_order b c s p v).1.queue_map = b.queue_map ∧
    (place_order b c s p v).1.volume_map = b.volume_map ∧
    (place_order b c s p v).1.asks_heap = b.asks_heap ∧
    (place_order b c s p v).1.bids_heap = b.bids_heap ∧
    (place_order b c s p v).1.price_history = b.price_history ∧
    (place_order b c s p v).1.last_recorded_mid_price = b.last_recorded_mid_price ∧
    (place_order b c s p v).1.trade_log = b.trade_log ∧
    (place_order b c s p v).1.order_id_counter = b.order_id_counter + 1 ∧
    (∀ c2 s2 p2 v2, (place_order (place_order b c s p v).1 c2 s2 p2 v2).2.1 =
      b.order_id_counter + 1) := by
  have hids := idsBound_reachable b hb
  have ht := topsClean_reachable b hb
  have hh := histInv_reachable b hb
  have hvol : (getOrder (placeStart b c s p v) b.order_id_counter).volume = v := by
    rw [getOrder, placeStart]
    dsimp only
    rw [alookup_ainsert_self]
    rfl
  have hnv : ¬ 0 < (getOrder (placeStart b c s p v) b.order_id_counter).volume := by
    rw [hvol]
    omega
  have hmatch : placeMatch (placeStart b c s p v) b.order_id_counter s =
      (placeStart b c s p v, []) := by
    cases s
    · exact matchBuyGo_novol _ _ _ hnv
    · exact matchSellGo_novol _ _ _ hnv
  have hnotin : b.order_id_counter ∉ b.order_map := fun hmem =>
    Nat.lt_irrefl _ (hids.1 _ hmem)
  have hrest : placeRest (placeMatch (placeStart b c s p v) b.order_id_counter s).1
      b.order_id_counter =
      { placeStart b c s p v with order_map := b.order_map } := by
    rw [hmatch]
    dsimp only
    rw [placeRest, if_neg (by rw [hvol]; omega)]
    rw [placeStart]
    dsimp only
    rw [removeId_addId b.order_map b.order_id_counter hnotin]
  have hupd : update_price_history { placeStart b c s p v with order_map := b.order_map } =
      { placeStart b c s p v with order_map := b.order_map } := by
    apply update_price_history_of_clean
    · exact topsClean_congr b _ rfl rfl rfl ht
    · intro m hm
      rw [bestMid_congr b { placeStart b c s p v with order_map := b.order_map } rfl rfl rfl]
        at hm
      exact hh.2 m hm
  have hfinal : (place_order b c s p v).1 =
      { placeStart b c s p v with order_map := b.order_map } := by
    show update_price_history (placeRest
      (placeMatch (placeStart b c s p v) b.order_id_counter s).1 b.order_id_counter) = _
    rw [hrest, hupd]
  have htrades : (place_order b c s p v).2.2 = [] := by
    show (placeMatch (placeStart b c s p v) b.order_id_counter s).2 = []
    rw [hmatch]
  refine ⟨rfl, htrades, ?_⟩
  rw [hfinal]
  exact ⟨rfl, rfl, rfl, rfl, rfl, rfl, rfl, rfl, rfl, rfl, fun c2 s2 p2 v2 => rfl⟩

/-- Witness for C9: placing volume 0 on a one-order book is a no-op that
still consumes id 2. -/
theorem C9_witness :
    (place_order (runOps 200 [Op.place "A" Side.BUY 100 10]) "Z" Side.BUY 50 0).2.2 = [] ∧
    (place_order (runOps 200 [Op.place "A" Side.BUY 100 10]) "Z" Side.BUY 50 0).1.volume_map =
      (runOps 200 [Op.place "A" Side.BUY 100 10]).volume_map ∧
    (place_order (runOps 200 [Op.place "A" Side.BUY 100 10]) "Z" Side.BUY 50 0).2.1 =
      (runOps 200 [Op.place "A" Side.BUY 100 10]).order_id_counter :=
  ⟨(C9_nonpositive_volume_place _ ⟨200, [Op.place "A" Side.BUY 100 10], rfl⟩ "Z" Side.BUY 50 0
      (by decide)).2.1,
   (C9_nonpositive_volume_place _ ⟨200, [Op.place "A" Side.BUY 100 10], rfl⟩ "Z" Side.BUY 50 0
      (by decide)).2.2.2.2.2.1,
   (C9_nonpositive_volume_place _ ⟨200, [Op.place "A" Side.BUY 100 10], rfl⟩ "Z" Side.BUY 50 0
      (by decide)).1⟩
/-! Claim C7. -/

theorem update_price_history_rule (b3 : Book) :
    (update_price_history b3).price_history =
      match bestMid (update_price_history b3) with
      | none => b3.price_history
      | some m => if b3.last_recorded_mid_price = some m then b3.price_history
                  else pushRing b3.history_limit b3.price_history (b3.clock, m) := by
  obtain ⟨hmid2, hask, hbid⟩ := bestMid_after_reads b3
  have harg : midOf (get_best_bid b3).2 (get_best_ask (get_best_bid b3).1).2 = bestMid b3 := by
    rw [hask, hbid]
    rfl
  have hres : bestMid (update_price_history b3) = bestMid b3 := by
    rw [update_price_history]
    obtain ⟨e1, e2, e3⟩ := recordMid_heaps_vm (get_best_ask (get_best_bid b3).1).1
      (midOf (get_best_bid b3).2 (get_best_ask (get_best_bid b3).1).2)
    rw [bestMid_congr _ _ e1 e2 e3]
    exact hmid2
  rw [hres]
  have hhist : (get_best_ask (get_best_bid b3).1).1.price_history = b3.price_history := by
    rw [(get_best_ask_frame _).2.2.2.2.2.2.2.2.1, (get_best_bid_frame _).2.2.2.2.2.2.2.2.1]
  have hlim : (get_best_ask (get_best_bid b3).1).1.history_limit = b3.history_limit := by
    rw [(get_best_ask_frame _).2.2.2.2.2.2.2.2.2.1, (get_best_bid_frame _).2.2.2.2.2.2.2.2.2.1]
  have hlast : (get_best_ask (get_best_bid b3).1).1.last_recorded_mid_price =
      b3.last_recorded_mid_price := by
    rw [(get_best_ask_frame _).2.2.2.2.2.2.2.2.2.2.1,
      (get_best_bid_frame _).2.2.2.2.2.2.2.2.2.2.1]
  have hclk : (get_best_ask (get_best_bid b3).1).1.clock = b3.clock := by
    rw [(get_best_ask_frame _).2.2.2.2.2.2.2.2.2.2.2.1,
      (get_best_bid_frame b3).2.2.2.2.2.2.2.2.2.2.2.1]
  rw [update_price_history, harg]
  cases hm : bestMid b3 with
  | none => rw [recordMid]; exact hhist
  | some m =>
    rw [recordMid]
    dsimp only
    by_cases hl : b3.last_recorded_mid_price = some m
    · rw [if_pos (by rw [hlast]; exact hl), if_pos hl]
      exact hhist
    · rw [if_neg (by rw [hlast]; exact hl), if_neg hl]
      dsimp only
      rw [hhist, hlim, hclk]

theorem update_price_history_rule_rel (b3 : Book) (hist : List (Nat × Rat)) (lim : Nat)
    (last : Option Rat) (clk : Nat) (e1 : b3.price_history = hist)
    (e2 : b3.history_limit = lim) (e3 : b3.last_recorded_mid_price = last)
    (e4 : b3.clock = clk) :
    (update_price_history b3).price_history =
      match bestMid (update_price_history b3) with
      | none => hist
      | some m => if last = some m then hist else pushRing lim hist (clk, m) := by
  rw [update_price_history_rule b3, e1, e2, e3, e4]

/-- C7: in every reachable state the price history has strictly
increasing timestamps, no two consecutive equal prices, and length at
most history_limit; and after each place_order or cancel_order the
history is extended by exactly the recording rule: a point (now, mid)
is appended exactly when the mid price (round2 of the mean of best bid
and best ask when both exist, else the single best) exists and differs
from the last recorded mid, the oldest point being evicted at the
capacity. -/
theorem C7_price_history (b : Book) (hb : Reachable b) :
    b.price_history.Chain' (fun x y => x.1 < y.1) ∧
    b.price_history.Chain' (fun x y => x.2 ≠ y.2) ∧
    b.price_history.length ≤ b.history_limit ∧
    (∀ c s p v, ∃ t,
      (place_order b c s p v).1.price_history =
        match bestMid (place_order b c s p v).1 with
        | none => b.price_history
        | some m => if b.last_recorded_mid_price = some m then b.price_history
                    else pushRing b.history_limit b.price_history (t, m)) ∧
    (∀ oid, ∃ t,
      (cancel_order b oid).1.price_history =
        match bestMid (cancel_order b oid).1 with
        | none => b.price_history
        | some m => if b.last_recorded_mid_price = some m then b.price_history
                    else pushRing b.history_limit b.price_history (t, m)) := by
  obtain ⟨⟨h1, h2, h3, h4, h5⟩, hml⟩ := histInv_reachable b hb
  refine ⟨h1, h2, h3, ?_, ?_⟩
  · intro c s p v
    refine ⟨(placeRest (placeMatch (placeStart b c s p v) b.order_id_counter s).1
      b.order_id_counter).clock, ?_⟩
    refine update_price_history_rule_rel _ b.price_history b.history_limit
      b.last_recorded_mid_price _ ?_ ?_ ?_ rfl
    · rw [(placeRest_frame _ _).1, (placeMatch_frame _ _ _).2.2.1]
      rfl
    · rw [(placeRest_frame _ _).2.1, (placeMatch_frame _ _ _).2.2.2.1]
      rfl
    · rw [(placeRest_frame _ _).2.2.1, (placeMatch_frame _ _ _).2.2.2.2.1]
      rfl
  · intro oid
    refine ⟨b.clock, ?_⟩
    rw [cancel_order]
    by_cases hn : oid ∉ b.order_map
    · rw [if_pos hn]
      dsimp only
      cases hm : bestMid b with
      | none => rfl
      | some m =>
        dsimp only
        rw [if_pos (hml m hm)]
    · rw [if_neg hn]
      by_cases hz : (getOrder b oid).volume ≤ 0
      · rw [if_pos hz]
        dsimp only
        have hbm : bestMid { b with order_map := removeId b.order_map oid } = bestMid b :=
          bestMid_congr b _ rfl rfl rfl
        rw [hbm]
        cases hm : bestMid b with
        | none => rfl
        | some m =>
          dsimp only
          rw [if_pos (hml m hm)]
      · rw [if_neg hz]
        dsimp only
        split
        · -- update_price_history branch
          refine update_price_history_rule_rel _ b.price_history b.history_limit
            b.last_recorded_mid_price b.clock ?_ ?_ ?_ ?_
          · dsimp only
            rw [(cancelQueueStep_frame _ _ _).2.2.2.2.2.2.2.1,
              (cancelVolumeStep_frame _ _ _).2.2.2.2.2.2.2.2.1]
          · dsimp only
            rw [(cancelQueueStep_frame _ _ _).2.2.2.2.2.2.2.2.1,
              (cancelVolumeStep_frame _ _ _).2.2.2.2.2.2.2.2.2.1]
          · dsimp only
            rw [(cancelQueueStep_frame _ _ _).2.2.2.2.2.2.2.2.2.1,
              (cancelVolumeStep_frame _ _ _).2.2.2.2.2.2.2.2.2.2.1]
          · dsimp only
            rw [(cancelQueueStep_frame _ _ _).2.2.2.2.2.2.2.2.2.2.1,
              (cancelVolumeStep_frame _ _ _).2.2.2.2.2.2.2.2.2.2.2.1]
        · -- no update: the book observables feeding the mid are unchanged
          rename_i hf
          push_neg at hf
          obtain ⟨hf1, hf2⟩ := hf
          have e1 : (cancelVolumeStep b ((getOrder b oid).price, (getOrder b oid).side)
              (getOrder b oid).volume).1.volume_map = b.volume_map := by
            rcases hvm : alookup b.volume_map ((getOrder b oid).price, (getOrder b oid).side)
              with _ | v
            · simp [cancelVolumeStep, hvm]
            · simp [cancelVolumeStep, hvm] at hf1
          have hbm : bestMid { (cancelQueueStep (cancelVolumeStep b
              ((getOrder b oid).price, (getOrder b oid).side) (getOrder b oid).volume).1
              ((getOrder b oid).price, (getOrder b oid).side) oid).1 with
              order_map := removeId (cancelQueueStep (cancelVolumeStep b
                ((getOrder b oid).price, (getOrder b oid).side) (getOrder b oid).volume).1
                ((getOrder b oid).price, (getOrder b oid).side) oid).1.order_map oid } =
              bestMid b := by
            apply bestMid_congr
            · dsimp only
              rw [(cancelQueueStep_frame _ _ _).2.2.2.1,
                (cancelVolumeStep_frame _ _ _).2.2.2.2.1]
            · dsimp only
              rw [(cancelQueueStep_frame _ _ _).2.2.1, (cancelVolumeStep_frame _ _ _).2.2.2.1]
            · dsimp only
              rw [(cancelQueueStep_frame _ _ _).2.1, e1]
          have ehist : ({ (cancelQueueStep (cancelVolumeStep b
              ((getOrder b oid).price, (getOrder b oid).side) (getOrder b oid).volume).1
              ((getOrder b oid).price, (getOrder b oid).side) oid).1 with
              order_map := removeId (cancelQueueStep (cancelVolumeStep b
                ((getOrder b oid).price, (getOrder b oid).side) (getOrder b oid).volume).1
                ((getOrder b oid).price, (getOrder b oid).side) oid).1.order_map oid } :
              Book).price_history = b.price_history := by
            dsimp only
            rw [(cancelQueueStep_frame _ _ _).2.2.2.2.2.2.2.1,
              (cancelVolumeStep_frame _ _ _).2.2.2.2.2.2.2.2.1]
          rw [hbm, ehist]
          cases hm : bestMid b with
          | none => rfl
          | some m =>
            dsimp only
            rw [if_pos (hml m hm)]

/-- Witness for C7 at a concrete reachable book with one bid and one
resting ask. -/
theorem C7_witness :
    (runOps 200 [Op.place "A" Side.BUY 100 10,
      Op.place "C" Side.SELL 101 5]).price_history.Chain' (fun x y => x.1 < y.1) ∧
    (runOps 200 [Op.place "A" Side.BUY 100 10,
      Op.place "C" Side.SELL 101 5]).price_history.Chain' (fun x y => x.2 ≠ y.2) ∧
    (runOps 200 [Op.place "A" Side.BUY 100 10,
      Op.place "C" Side.SELL 101 5]).price_history.length ≤
      (runOps 200 [Op.place "A" Side.BUY 100 10,
        Op.place "C" Side.SELL 101 5]).history_limit :=
  ⟨(C7_price_history _ ⟨200, [Op.place "A" Side.BUY 100 10, Op.place "C" Side.SELL 101 5],
      rfl⟩).1,
   (C7_price_history _ ⟨200, [Op.place "A" Side.BUY 100 10, Op.place "C" Side.SELL 101 5],
      rfl⟩).2.1,
   (C7_price_history _ ⟨200, [Op.place "A" Side.BUY 100 10, Op.place "C" Side.SELL 101 5],
      rfl⟩).2.2.1⟩

/-! Heap-order and reference lemmas feeding the claim C1 bundle. -/

theorem heapInsertAsks_perm (h : List (Rat × Nat)) (e : Rat × Nat) :
    (heapInsertAsks h e).Perm (e :: h) := by
  induction h with
  | nil => simp [heapInsertAsks]
  | cons x t ih =>
    rw [heapInsertAsks]
    by_cases hx : e.1 < x.1
    · rw [if_pos hx]
    · rw [if_neg hx]
      exact (ih.cons x).trans (List.Perm.swap e x t)

theorem heapInsertBids_perm (h : List (Rat × Nat)) (e : Rat × Nat) :
    (heapInsertBids h e).Perm (e :: h) := by
  induction h with
  | nil => simp [heapInsertBids]
  | cons x t ih =>
    rw [heapInsertBids]
    by_cases hx : x.1 < e.1
    · rw [if_pos hx]
    · rw [if_neg hx]
      exact (ih.cons x).trans (List.Perm.swap e x t)

theorem heapInsertAsks_sorted (h : List (Rat × Nat)) (e : Rat × Nat)
    (hs : List.Pairwise (fun x y : Rat × Nat => x.1 ≤ y.1) h) :
    List.Pairwise (fun x y : Rat × Nat => x.1 ≤ y.1) (heapInsertAsks h e) := by
  induction h with
  | nil => simp [heapInsertAsks]
  | cons x t ih =>
    rw [List.pairwise_cons] at hs
    rw [heapInsertAsks]
    by_cases hx : e.1 < x.1
    · rw [if_pos hx]
      refine List.Pairwise.cons ?_ (List.Pairwise.cons hs.1 hs.2)
      intro y hy
      rcases List.mem_cons.mp hy with hy' | hy'
      · rw [hy']; exact le_of_lt hx
      · exact le_trans (le_of_lt hx) (hs.1 y hy')
    · rw [if_neg hx]
      refine List.Pairwise.cons ?_ (ih hs.2)
      intro y hy
      have hy2 := (heapInsertAsks_perm t e).mem_iff.mp hy
      rcases List.mem_cons.mp hy2 with hy' | hy'
      · rw [hy']; exact le_of_not_lt hx
      · exact hs.1 y hy'

theorem heapInsertBids_sorted (h : List (Rat × Nat)) (e : Rat × Nat)
    (hs : List.Pairwise (fun x y : Rat × Nat => y.1 ≤ x.1) h) :
    List.Pairwise (fun x y : Rat × Nat => y.1 ≤ x.1) (heapInsertBids h e) := by
  induction h with
  | nil => simp [heapInsertBids]
  | cons x t ih =>
    rw [List.pairwise_cons] at hs
    rw [heapInsertBids]
    by_cases hx : x.1 < e.1
    · rw [if_pos hx]
      refine List.Pairwise.cons ?_ (List.Pairwise.cons hs.1 hs.2)
      intro y hy
      rcases List.mem_cons.mp hy with hy' | hy'
      · rw [hy']; exact le_of_lt hx
      · exact le_trans (hs.1 y hy') (le_of_lt hx)
    · rw [if_neg hx]
      refine List.Pairwise.cons ?_ (ih hs.2)
      intro y hy
      have hy2 := (heapInsertBids_perm t e).mem_iff.mp hy
      rcases List.mem_cons.mp hy2 with hy' | hy'
      · rw [hy']; exact le_of_not_lt hx
      · exact hs.1 y hy'

theorem popStaleAsks_suffix (vm : List ((Rat × Side) × Int)) (h : List (Rat × Nat)) :
    (popStaleAsks vm h).1 <:+ h := by
  induction h with
  | nil => simp [popStaleAsks]
  | cons x t ih =>
    obtain ⟨p, q⟩ := x
    rw [popStaleAsks]
    by_cases hv : 0 < vget vm (p, Side.SELL)
    · rw [if_pos hv]
    · rw [if_neg hv]
      exact ih.trans (List.suffix_cons (p, q) t)

theorem popStaleBids_suffix (vm : List ((Rat × Side) × Int)) (h : List (Rat × Nat)) :
    (popStaleBids vm h).1 <:+ h := by
  induction h with
  | nil => simp [popStaleBids]
  | cons x t ih =>
    obtain ⟨p, q⟩ := x
    rw [popStaleBids]
    by_cases hv : 0 < vget vm (p, Side.BUY)
    · rw [if_pos hv]
    · rw [if_neg hv]
      exact ih.trans (List.suffix_cons (p, q) t)

theorem popStaleAsks_best (vm : List ((Rat × Side) × Int)) (h : List (Rat × Nat))
    (p : Rat) (hp : (popStaleAsks vm h).2 = some p) :
    (∃ q, (p, q) ∈ h) ∧ 0 < vget vm (p, Side.SELL) := by
  induction h with
  | nil => simp [popStaleAsks] at hp
  | cons x t ih =>
    obtain ⟨p', q'⟩ := x
    rw [popStaleAsks] at hp
    by_cases hv : 0 < vget vm (p', Side.SELL)
    · rw [if_pos hv] at hp
      obtain rfl : p' = p := Option.some_injective _ hp
      exact ⟨⟨q', List.mem_cons_self _ _⟩, hv⟩
    · rw [if_neg hv] at hp
      obtain ⟨⟨q, hq⟩, hpos⟩ := ih hp
      exact ⟨⟨q, List.mem_cons_of_mem _ hq⟩, hpos⟩

theorem popStaleBids_best (vm : List ((Rat × Side) × Int)) (h : List (Rat × Nat))
    (p : Rat) (hp : (popStaleBids vm h).2 = some p) :
    (∃ q, (p, q) ∈ h) ∧ 0 < vget vm (p, Side.BUY) := by
  induction h with
  | nil => simp [popStaleBids] at hp
  | cons x t ih =>
    obtain ⟨p', q'⟩ := x
    rw [popStaleBids] at hp
    by_cases hv : 0 < vget vm (p', Side.BUY)
    · rw [if_pos hv] at hp
      obtain rfl : p' = p := Option.some_injective _ hp
      exact ⟨⟨q', List.mem_cons_self _ _⟩, hv⟩
    · rw [if_neg hv] at hp
      obtain ⟨⟨q, hq⟩, hpos⟩ := ih hp
      exact ⟨⟨q, List.mem_cons_of_mem _ hq⟩, hpos⟩

theorem mem_aerase {α β : Type} [DecidableEq α] (l : List (α × β)) (k : α) (kv : α × β)
    (h : kv ∈ aerase l k) : kv ∈ l := by
  induction l with
  | nil => simpa [aerase] using h
  | cons x t ih =>
    rw [aerase] at h
    by_cases hx : x.1 = k
    · rw [if_pos hx] at h
      exact List.mem_cons_of_mem _ h
    · rw [if_neg hx] at h
      rcases List.mem_cons.mp h with h' | h'
      · rw [h']; exact List.mem_cons_self _ _
      · exact List.mem_cons_of_mem _ (ih h')

theorem alookup_none_of_key_bound (l : List (Nat × List Nat)) (n : Nat)
    (hb : ∀ kv ∈ l, kv.1 < n) : alookup l n = none := by
  apply alookup_eq_none_of_not_mem
  intro hmem
  obtain ⟨kv, hkv, he⟩ := List.exists_of_mem_map hmem
  exact absurd (he ▸ hb kv hkv) (lt_irrefl n)

/-! Record-stability lemmas: matching only rewrites volumes, never a
price or a side, and the inner loop consumes its queue front to back. -/

theorem getOrder_congr (b b' : Book) (h : b'.orders = b.orders) (oid : Nat) :
    getOrder b' oid = getOrder b oid := by
  rw [getOrder, getOrder, h]

theorem getOrder_setVolume_self (b : Book) (oid : Nat) (v : Int) :
    getOrder (setVolume b oid v) oid = { getOrder b oid with volume := v } := by
  simp [getOrder, setVolume]

theorem getOrder_setVolume_ne (b : Book) (oid oid' : Nat) (v : Int) (h : oid' ≠ oid) :
    getOrder (setVolume b oid v) oid' = getOrder b oid' := by
  rw [getOrder, getOrder, setVolume]
  dsimp only
  rw [alookup_ainsert_ne _ _ _ _ (Ne.symm h)]

theorem setVolume_priceSide (b : Book) (oid : Nat) (v : Int) (oid' : Nat) :
    (getOrder (setVolume b oid v) oid').price = (getOrder b oid').price ∧
    (getOrder (setVolume b oid v) oid').side = (getOrder b oid').side ∧
    (getOrder (setVolume b oid v) oid').order_id = (getOrder b oid').order_id := by
  by_cases h : oid' = oid
  · subst h
    rw [getOrder_setVolume_self]
    exact ⟨rfl, rfl, rfl⟩
  · rw [getOrder_setVolume_ne _ _ _ _ h]
    exact ⟨rfl, rfl, rfl⟩

theorem tradeUpdates_getOrder_other (b : Book) (t m oid : Nat) (h1 : oid ≠ t)
    (h2 : oid ≠ m) : getOrder (tradeUpdates b t m).1 oid = getOrder b oid := by
  show getOrder (setVolume (setVolume _ t _) m _) oid = getOrder b oid
  rw [getOrder_setVolume_ne _ _ _ _ h2, getOrder_setVolume_ne _ _ _ _ h1]
  exact getOrder_congr _ _ rfl oid

theorem tradeUpdates_getOrder_taker (b : Book) (t m : Nat) (h : t ≠ m) :
    getOrder (tradeUpdates b t m).1 t =
      { getOrder b t with
        volume := (getOrder b t).volume -
          min (getOrder b t).volume (getOrder b m).volume } := by
  show getOrder (setVolume (setVolume _ t _) m _) t = _
  rw [getOrder_setVolume_ne _ _ _ _ h, getOrder_setVolume_self]
  rfl

theorem tradeUpdates_getOrder_maker (b : Book) (t m : Nat) (h : t ≠ m) :
    getOrder (tradeUpdates b t m).1 m =
      { getOrder b m with
        volume := (getOrder b m).volume -
          min (getOrder b t).volume (getOrder b m).volume } := by
  show getOrder (setVolume (setVolume _ t _) m _) m = _
  rw [getOrder_setVolume_self, getOrder_setVolume_ne _ _ _ _ (Ne.symm h)]
  rfl

theorem tradeUpdates_priceSide (b : Book) (t m oid : Nat) :
    (getOrder (tradeUpdates b t m).1 oid).price = (getOrder b oid).price ∧
    (getOrder (tradeUpdates b t m).1 oid).side = (getOrder b oid).side ∧
    (getOrder (tradeUpdates b t m).1 oid).order_id = (getOrder b oid).order_id := by
  have h3 := setVolume_priceSide (setVolume { b with
      clock := b.clock + 1
      trade_log := b.trade_log ++ [{ volume := min (getOrder b t).volume (getOrder b m).volume
                                     price := (getOrder b m).price
                                     taker_client := (getOrder b t).client
                                     taker_order_id := (getOrder b t).order_id
                                     maker_client := (getOrder b m).client
                                     maker_order_id := (getOrder b m).order_id }] } t
      ((getOrder b t).volume - min (getOrder b t).volume (getOrder b m).volume)) m
      ((getOrder (setVolume { b with
        clock := b.clock + 1
        trade_log := b.trade_log ++ [{ volume := min (getOrder b t).volume (getOrder b m).volume
                                       price := (getOrder b m).price
                                       taker_client := (getOrder b t).client
                                       taker_order_id := (getOrder b t).order_id
                                       maker_client := (getOrder b m).client
                                       maker_order_id := (getOrder b m).order_id }] } t
        ((getOrder b t).volume - min (getOrder b t).volume (getOrder b m).volume)) m).volume -
        min (getOrder b t).volume (getOrder b m).volume) oid
  have h2 := setVolume_priceSide { b with
      clock := b.clock + 1
      trade_log := b.trade_log ++ [{ volume := min (getOrder b t).volume (getOrder b m).volume
                                     price := (getOrder b m).price
                                     taker_client := (getOrder b t).client
                                     taker_order_id := (getOrder b t).order_id
                                     maker_client := (getOrder b m).client
                                     maker_order_id := (getOrder b m).order_id }] } t
      ((getOrder b t).volume - min (getOrder b t).volume (getOrder b m).volume) oid
  exact ⟨h3.1.trans h2.1, h3.2.1.trans h2.2.1, h3.2.2.trans h2.2.2⟩

theorem tradeUpdates_vget (b : Book) (t m : Nat) (k : Rat × Side) :
    vget (tradeUpdates b t m).1.volume_map k =
      if k = ((getOrder b m).price, (getOrder b m).side)
      then vget b.volume_map k - min (getOrder b t).volume (getOrder b m).volume
      else vget b.volume_map k := by
  by_cases hk : k = ((getOrder b m).price, (getOrder b m).side)
  · rw [if_pos hk]
    subst hk
    show vget (ainsert _ _ _) _ = _
    rw [vget, alookup_ainsert_self, Option.getD_some]
    rfl
  · rw [if_neg hk]
    show vget (ainsert _ _ _) _ = _
    rw [vget, alookup_ainsert_ne _ _ _ _ (fun he => hk he.symm), vget]
    rfl

theorem queueOf_tradeUpdates (b : Book) (t m qid : Nat) :
    queueOf (tradeUpdates b t m).1 qid = queueOf b qid := by
  rw [queueOf, queueOf, (tradeUpdates_frame b t m).2.2.2.1]

theorem queueOf_popMaker_ne (b : Book) (makerId qid qid2 : Nat) (rest : List Nat)
    (h : qid2 ≠ qid) :
    queueOf (popMaker b makerId qid rest) qid2 = queueOf b qid2 := by
  rw [queueOf, queueOf, popMaker]
  dsimp only
  rw [alookup_ainsert_ne _ _ _ _ (Ne.symm h)]

theorem runQueueGo_priceSide (takerId qid : Nat) (q : List Nat) : ∀ b : Book, ∀ oid : Nat,
    (getOrder (runQueueGo takerId qid b q).1 oid).price = (getOrder b oid).price ∧
    (getOrder (runQueueGo takerId qid b q).1 oid).side = (getOrder b oid).side ∧
    (getOrder (runQueueGo takerId qid b q).1 oid).order_id = (getOrder b oid).order_id := by
  induction q with
  | nil => intro b oid; exact ⟨rfl, rfl, rfl⟩
  | cons makerId rest ih =>
    intro b oid
    by_cases hv : 0 < (getOrder b takerId).volume
    · by_cases hm : (getOrder (tradeUpdates b takerId makerId).1 makerId).volume = 0
      · simp only [runQueueGo, if_pos hv, hm, if_true]
        have h1 := ih (popMaker (tradeUpdates b takerId makerId).1 makerId qid rest) oid
        have h2 := getOrder_congr (tradeUpdates b takerId makerId).1
          (popMaker (tradeUpdates b takerId makerId).1 makerId qid rest)
          (popMaker_frame _ _ _ _).2.2.2.2.2.2.2.2.1 oid
        have h3 := tradeUpdates_priceSide b takerId makerId oid
        rw [h2] at h1
        exact ⟨h1.1.trans h3.1, h1.2.1.trans h3.2.1, h1.2.2.trans h3.2.2⟩
      · simp only [runQueueGo, if_pos hv, hm, if_false]
        exact tradeUpdates_priceSide b takerId makerId oid
    · have hr : runQueueGo takerId qid b (makerId :: rest) = (b, []) := by
        simp only [runQueueGo, if_neg hv]
      rw [hr]
      exact ⟨rfl, rfl, rfl⟩

theorem runQueueGo_queueOf (takerId qid : Nat) (q : List Nat) : ∀ b : Book,
    queueOf b qid = q →
    (∀ qid2, qid2 ≠ qid → queueOf (runQueueGo takerId qid b q).1 qid2 = queueOf b qid2) ∧
    ∃ k, queueOf (runQueueGo takerId qid b q).1 qid = q.drop k := by
  induction q with
  | nil =>
    intro b hb
    exact ⟨fun _ _ => rfl, ⟨0, hb⟩⟩
  | cons makerId rest ih =>
    intro b hb
    by_cases hv : 0 < (getOrder b takerId).volume
    · by_cases hm : (getOrder (tradeUpdates b takerId makerId).1 makerId).volume = 0
      · simp only [runQueueGo, if_pos hv, hm, if_true]
        obtain ⟨ih1, k, ih2⟩ := ih (popMaker (tradeUpdates b takerId makerId).1 makerId qid rest)
          (queueOf_popMaker _ _ _ _)
        refine ⟨fun qid2 h2 => ?_, ⟨k + 1, ih2⟩⟩
        rw [ih1 qid2 h2, queueOf_popMaker_ne _ _ _ _ _ h2, queueOf_tradeUpdates]
      · simp only [runQueueGo, if_pos hv, hm, if_false]
        exact ⟨fun qid2 _ => queueOf_tradeUpdates b takerId makerId qid2,
          ⟨0, (queueOf_tradeUpdates b takerId makerId qid).trans hb⟩⟩
    · have hr : runQueueGo takerId qid b (makerId :: rest) = (b, []) := by
        simp only [runQueueGo, if_neg hv]
      rw [hr]
      exact ⟨fun _ _ => rfl, ⟨0, hb⟩⟩

theorem runQueueGo_exit (takerId qid : Nat) (q : List Nat) : ∀ b : Book,
    queueOf b qid = q → takerId ∉ q →
    queueOf (runQueueGo takerId qid b q).1 qid ≠ [] →
    (getOrder (runQueueGo takerId qid b q).1 takerId).volume ≤ 0 := by
  induction q with
  | nil =>
    intro b hb ht hne
    exact absurd hb hne
  | cons makerId rest ih =>
    intro b hb ht hne
    have htm : takerId ≠ makerId := fun he => ht (he ▸ List.mem_cons_self _ _)
    have htr : takerId ∉ rest := fun h => ht (List.mem_cons_of_mem _ h)
    by_cases hv : 0 < (getOrder b takerId).volume
    · by_cases hm : (getOrder (tradeUpdates b takerId makerId).1 makerId).volume = 0
      · simp only [runQueueGo, if_pos hv, hm, if_true] at hne ⊢
        exact ih _ (queueOf_popMaker _ _ _ _) htr hne
      · simp only [runQueueGo, if_pos hv, hm, if_false] at hne ⊢
        rw [tradeUpdates_getOrder_taker b _ _ htm]
        rw [tradeUpdates_getOrder_maker b _ _ htm] at hm
        dsimp only at hm ⊢
        rcases min_cases (getOrder b takerId).volume (getOrder b makerId).volume with
          ⟨he, _⟩ | ⟨he, _⟩
        · rw [he]
          exact le_of_eq (sub_self _)
        · rw [he] at hm
          exact absurd (sub_self _) hm
    · simp only [runQueueGo, if_neg hv]
      exact le_of_not_lt hv

theorem mem_fst_ainsert {α β : Type} [DecidableEq α] (l : List (α × β)) (k : α) (v : β)
    (x : α) (h : x ∈ (ainsert l k v).map Prod.fst) : x = k ∨ x ∈ l.map Prod.fst := by
  obtain ⟨kv, hkv, he⟩ := List.exists_of_mem_map h
  rcases mem_ainsert _ _ _ kv hkv with h' | h'
  · left
    rw [← he, h']
  · right
    exact he ▸ List.mem_map_of_mem _ h'

theorem ainsert_fst_nodup {α β : Type} [DecidableEq α] (l : List (α × β)) (k : α)
    (v : β) (h : (l.map Prod.fst).Nodup) : ((ainsert l k v).map Prod.fst).Nodup := by
  induction l with
  | nil => simp [ainsert]
  | cons x t ih =>
    rw [List.map_cons, List.nodup_cons] at h
    rw [ainsert]
    by_cases hx : x.1 = k
    · rw [if_pos hx]
      rw [List.map_cons, List.nodup_cons]
      exact ⟨hx ▸ h.1, h.2⟩
    · rw [if_neg hx]
      rw [List.map_cons, List.nodup_cons]
      refine ⟨?_, ih h.2⟩
      intro hmem
      rcases mem_fst_ainsert _ _ _ _ hmem with h' | h'
      · exact hx h'
      · exact h.1 h'

theorem aerase_sublist {α β : Type} [DecidableEq α] (l : List (α × β)) (k : α) :
    List.Sublist (aerase l k) l := by
  induction l with
  | nil => exact List.Sublist.refl _
  | cons x t ih =>
    rw [aerase]
    by_cases hx : x.1 = k
    · rw [if_pos hx]
      exact List.sublist_cons_self _ _
    · rw [if_neg hx]
      exact ih.cons₂ x

theorem vget_aerase_self (vm : List ((Rat × Side) × Int)) (k : Rat × Side)
    (h : (vm.map Prod.fst).Nodup) : vget (aerase vm k) k = 0 := by
  rw [vget, alookup_aerase_self _ _ h, Option.getD_none]

/-- Master preservation lemma for the inner matching loop: the queue
front is consumed with every traded maker keeping the level's price and
side and positive volume while queued, untouched orders keep their
records, queue sanity and taker freshness survive, and aggregate
volumes only move at the level's own key, downward. -/
theorem runQueueGo_WF (takerId qid : Nat) (price : Rat) (s : Side) (q : List Nat) :
    ∀ b : Book, queueOf b qid = q →
    (∀ oid ∈ q, (getOrder b oid).price = price ∧ (getOrder b oid).side = s ∧
      0 < (getOrder b oid).volume) →
    (∀ qid2, takerId ∉ queueOf b qid2) →
    (∀ qid2, (queueOf b qid2).Nodup) →
    (∀ qid2 qid3 : Nat, qid2 ≠ qid3 → ∀ oid ∈ queueOf b qid2, oid ∉ queueOf b qid3) →
    (b.volume_map.map Prod.fst).Nodup →
    (∀ oid, oid ≠ takerId → oid ∉ q →
      getOrder (runQueueGo takerId qid b q).1 oid = getOrder b oid) ∧
    (∀ oid ∈ queueOf (runQueueGo takerId qid b q).1 qid,
      (getOrder (runQueueGo takerId qid b q).1 oid).price = price ∧
      (getOrder (runQueueGo takerId qid b q).1 oid).side = s ∧
      0 < (getOrder (runQueueGo takerId qid b q).1 oid).volume) ∧
    (∀ qid2, (queueOf (runQueueGo takerId qid b q).1 qid2).Nodup) ∧
    (∀ qid2 qid3 : Nat, qid2 ≠ qid3 →
      ∀ oid ∈ queueOf (runQueueGo takerId qid b q).1 qid2,
        oid ∉ queueOf (runQueueGo takerId qid b q).1 qid3) ∧
    (∀ qid2, takerId ∉ queueOf (runQueueGo takerId qid b q).1 qid2) ∧
    (∀ k : Rat × Side, 0 < vget (runQueueGo takerId qid b q).1.volume_map k →
      0 < vget b.volume_map k) ∧
    (∀ k : Rat × Side, k ≠ (price, s) →
      vget (runQueueGo takerId qid b q).1.volume_map k = vget b.volume_map k) ∧
    (∀ kv ∈ (runQueueGo takerId qid b q).1.queues,
      kv.1 ∈ b.queues.map Prod.fst ∨ kv.1 = qid) ∧
    ((runQueueGo takerId qid b q).1.volume_map.map Prod.fst).Nodup := by
  induction q with
  | nil =>
    intro b hq hcoh hT hnd hdisj hvmn
    refine ⟨fun _ _ _ => rfl, ?_, hnd, hdisj, hT, fun _ h => h, fun _ _ => rfl,
      fun kv hk => Or.inl (List.mem_map_of_mem _ hk), hvmn⟩
    intro oid ho
    rw [show (runQueueGo takerId qid b []).1 = b from rfl] at ho
    rw [hq] at ho
    cases ho
  | cons makerId rest ih =>
    intro b hq hcoh hT hnd hdisj hvmn
    have hvmn2 : ((tradeUpdates b takerId makerId).1.volume_map.map Prod.fst).Nodup :=
      ainsert_fst_nodup _ _ _ hvmn
    have hmq : makerId ∈ queueOf b qid := by
      rw [hq]
      exact List.mem_cons_self _ _
    have htm : takerId ≠ makerId := fun he => hT qid (he ▸ hmq)
    have hmrest : makerId ∉ rest := by
      have := hnd qid
      rw [hq, List.nodup_cons] at this
      exact this.1
    have hco := hcoh makerId (List.mem_cons_self _ _)
    have hkey : ((getOrder b makerId).price, (getOrder b makerId).side) =
        ((price, s) : Rat × Side) := by
      rw [hco.1, hco.2.1]
    have hvg : ∀ k : Rat × Side, vget (tradeUpdates b takerId makerId).1.volume_map k =
        if k = (price, s)
        then vget b.volume_map k -
          min (getOrder b takerId).volume (getOrder b makerId).volume
        else vget b.volume_map k := by
      intro k
      rw [tradeUpdates_vget, hkey]
    by_cases hv : 0 < (getOrder b takerId).volume
    · have hmin : 0 < min (getOrder b takerId).volume (getOrder b makerId).volume :=
        lt_min hv hco.2.2
      by_cases hm : (getOrder (tradeUpdates b takerId makerId).1 makerId).volume = 0
      · simp only [runQueueGo, if_pos hv, hm, if_true]
        have hgo : ∀ oid, oid ≠ takerId → oid ≠ makerId →
            getOrder (popMaker (tradeUpdates b takerId makerId).1 makerId qid rest) oid =
              getOrder b oid := by
          intro oid h1 h2
          have he := getOrder_congr (tradeUpdates b takerId makerId).1
            (popMaker (tradeUpdates b takerId makerId).1 makerId qid rest)
            (popMaker_frame _ _ _ _).2.2.2.2.2.2.2.2.1 oid
          rw [he]
          exact tradeUpdates_getOrder_other b _ _ oid h1 h2
        have hqo : ∀ qid2, qid2 ≠ qid →
            queueOf (popMaker (tradeUpdates b takerId makerId).1 makerId qid rest) qid2 =
              queueOf b qid2 := by
          intro qid2 h2
          rw [queueOf_popMaker_ne _ _ _ _ _ h2, queueOf_tradeUpdates]
        have hvg2 : ∀ k : Rat × Side,
            vget (popMaker (tradeUpdates b takerId makerId).1 makerId qid rest).volume_map k =
              vget (tradeUpdates b takerId makerId).1.volume_map k := by
          intro k
          rw [(popMaker_frame _ _ _ _).2.2.2.2.2.2.2.2.2.1]
        obtain ⟨i1, i2, i3, i4, i5, i6, i7, i8, i9⟩ :=
          ih (popMaker (tradeUpdates b takerId makerId).1 makerId qid rest)
            (queueOf_popMaker _ _ _ _)
            (by
              intro oid ho
              have h2 : oid ≠ makerId := fun he => hmrest (he ▸ ho)
              have h1 : oid ≠ takerId := by
                intro he
                exact hT qid (he ▸ (hq ▸ List.mem_cons_of_mem _ ho))
              rw [hgo oid h1 h2]
              exact hcoh oid (List.mem_cons_of_mem _ ho))
            (by
              intro qid2
              by_cases h2 : qid2 = qid
              · rw [h2, queueOf_popMaker]
                intro hmem
                exact hT qid (hq ▸ List.mem_cons_of_mem _ hmem)
              · rw [hqo qid2 h2]
                exact hT qid2)
            (by
              intro qid2
              by_cases h2 : qid2 = qid
              · rw [h2, queueOf_popMaker]
                have := hnd qid
                rw [hq, List.nodup_cons] at this
                exact this.2
              · rw [hqo qid2 h2]
                exact hnd qid2)
            (by
              intro qid2 qid3 h23 oid ho
              by_cases h2 : qid2 = qid
              · rw [h2, queueOf_popMaker] at ho
                have h23' : qid ≠ qid3 := h2 ▸ h23
                rw [hqo qid3 (Ne.symm h23')]
                exact hdisj qid qid3 h23' oid (hq ▸ List.mem_cons_of_mem _ ho)
              · rw [hqo qid2 h2] at ho
                by_cases h3 : qid3 = qid
                · rw [h3, queueOf_popMaker]
                  intro hmem
                  exact hdisj qid2 qid (h3 ▸ h23) oid ho (hq ▸ List.mem_cons_of_mem _ hmem)
                · rw [hqo qid3 h3]
                  exact hdisj qid2 qid3 h23 oid ho)
            hvmn2
        refine ⟨?_, i2, i3, i4, i5, ?_, ?_, ?_, i9⟩
        · intro oid h1 h2
          have h2m : oid ≠ makerId := fun he => h2 (he ▸ List.mem_cons_self _ _)
          have h2r : oid ∉ rest := fun hr => h2 (List.mem_cons_of_mem _ hr)
          rw [i1 oid h1 h2r, hgo oid h1 h2m]
        · intro k hk
          have := i6 k hk
          rw [hvg2 k, hvg k] at this
          by_cases hks : k = (price, s)
          · rw [if_pos hks] at this
            linarith
          · rwa [if_neg hks] at this
        · intro k hk
          rw [i7 k hk, hvg2 k, hvg k, if_neg hk]
        · intro kv hk
          rcases i8 kv hk with h' | h'
          · rw [popMaker, (tradeUpdates_frame b takerId makerId).2.2.2.1] at h'
            dsimp only at h'
            rcases mem_fst_ainsert _ _ _ _ h' with h'' | h''
            · exact Or.inr h''
            · exact Or.inl h''
          · exact Or.inr h'
      · simp only [runQueueGo, if_pos hv, hm, if_false]
        have hmk := tradeUpdates_getOrder_maker b takerId makerId htm
        refine ⟨?_, ?_, ?_, ?_, ?_, ?_, ?_, ?_, hvmn2⟩
        · intro oid h1 h2
          have h2m : oid ≠ makerId := fun he => h2 (he ▸ List.mem_cons_self _ _)
          exact tradeUpdates_getOrder_other b _ _ oid h1 h2m
        · intro oid ho
          rw [queueOf_tradeUpdates, hq] at ho
          rcases List.mem_cons.mp ho with ho' | ho'
          · rw [ho', hmk]
            refine ⟨hco.1, hco.2.1, ?_⟩
            dsimp only
            rw [hmk] at hm
            dsimp only at hm
            exact lt_of_le_of_ne (sub_nonneg.mpr (min_le_right _ _)) (Ne.symm hm)
          · have h2m : oid ≠ makerId := fun he => hmrest (he ▸ ho')
            have h1 : oid ≠ takerId := by
              intro he
              exact hT qid (he ▸ (hq ▸ List.mem_cons_of_mem _ ho'))
            rw [tradeUpdates_getOrder_other b _ _ oid h1 h2m]
            exact hcoh oid (List.mem_cons_of_mem _ ho')
        · intro qid2
          rw [queueOf_tradeUpdates]
          exact hnd qid2
        · intro qid2 qid3 h23 oid ho
          rw [queueOf_tradeUpdates] at ho
          rw [queueOf_tradeUpdates]
          exact hdisj qid2 qid3 h23 oid ho
        · intro qid2
          rw [queueOf_tradeUpdates]
          exact hT qid2
        · intro k hk
          rw [hvg k] at hk
          by_cases hks : k = (price, s)
          · rw [if_pos hks] at hk
            linarith
          · rwa [if_neg hks] at hk
        · intro k hk
          rw [hvg k, if_neg hk]
        · intro kv hk
          rw [(tradeUpdates_frame b takerId makerId).2.2.2.1] at hk
          exact Or.inl (List.mem_map_of_mem _ hk)
    · have hr : runQueueGo takerId qid b (makerId :: rest) = (b, []) := by
        simp only [runQueueGo, if_neg hv]
      rw [hr]
      refine ⟨fun _ _ _ => rfl, ?_, hnd, hdisj, hT, fun _ h => h, fun _ _ => rfl,
        fun kv hk => Or.inl (List.mem_map_of_mem _ hk), hvmn⟩
      intro oid ho
      exact hcoh oid (hq ▸ ho)

/-- The level-cleanup state built by the BUY matching loop after consuming
the best ask level is again well-formed.  This is the state passed to the
recursive call of matchBuyGo. -/
theorem matchBuy_step_WF (takerId : Nat) (b : Book) (price : Rat) (qid : Nat)
    (rest : List (Rat × Nat)) (hh : b.asks_heap = (price, qid) :: rest)
    (hwf : HeapsWF b) (hT : ∀ q2, takerId ∉ queueOf b q2) :
    HeapsWF { (runQueueGo takerId qid b (queueOf b qid)).1 with
      asks_heap := rest
      queue_map := aerase (runQueueGo takerId qid b (queueOf b qid)).1.queue_map
        (price, Side.SELL)
      volume_map := if vget (runQueueGo takerId qid b (queueOf b qid)).1.volume_map
            (price, Side.SELL) ≤ 0
          then aerase (runQueueGo takerId qid b (queueOf b qid)).1.volume_map
            (price, Side.SELL)
          else (runQueueGo takerId qid b (queueOf b qid)).1.volume_map } := by
  obtain ⟨ws1, ws2, wn, wca, wcb, wqm, wqs, wqb, wnc, wvm⟩ := hwf
  have hmemh : ((price, qid) : Rat × Nat) ∈ b.asks_heap := by
    rw [hh]
    exact List.mem_cons_self _ _
  have hsnd : qid ∉ ((rest ++ b.bids_heap).map Prod.snd) := by
    have hw := wn
    rw [hh, List.cons_append, List.map_cons, List.nodup_cons] at hw
    exact hw.1
  have hqrest : ∀ e2 ∈ rest, e2.2 ≠ qid := by
    intro e2 he2 heq
    exact hsnd (heq ▸ List.mem_map_of_mem Prod.snd (List.mem_append_left _ he2))
  have hqbids : ∀ e2 ∈ b.bids_heap, e2.2 ≠ qid := by
    intro e2 he2 heq
    exact hsnd (heq ▸ List.mem_map_of_mem Prod.snd (List.mem_append_right _ he2))
  have hsubl : List.Sublist ((rest ++ b.bids_heap).map Prod.snd)
      ((b.asks_heap ++ b.bids_heap).map Prod.snd) := by
    rw [hh, List.cons_append]
    exact (List.sublist_cons_self _ _).map Prod.snd
  have hcohq : ∀ oid ∈ queueOf b qid, (getOrder b oid).price = price ∧
      (getOrder b oid).side = Side.SELL ∧ 0 < (getOrder b oid).volume :=
    wca (price, qid) hmemh
  obtain ⟨w1, w2, w3, w4, w5, w6, w7, w8, w9⟩ :=
    runQueueGo_WF takerId qid price Side.SELL (queueOf b qid) b rfl hcohq hT
      wqs.1 wqs.2 wvm
  obtain ⟨qne, kd, qdrop⟩ := runQueueGo_queueOf takerId qid (queueOf b qid) b rfl
  obtain ⟨f1, f2, f3, f4, f5, f6, f7, f8⟩ :=
    runQueueGo_frame takerId qid (queueOf b qid) b
  have hcohR : ∀ (s0 : Side) (e2 : Rat × Nat), e2.2 ≠ qid → EntryCoh b s0 e2 →
      EntryCoh (runQueueGo takerId qid b (queueOf b qid)).1 s0 e2 := by
    intro s0 e2 hne hco2 oid ho
    rw [qne e2.2 hne] at ho
    have h1 : oid ≠ takerId := fun he => hT e2.2 (he ▸ ho)
    have h2 : oid ∉ queueOf b qid := wqs.2 e2.2 qid hne oid ho
    rw [w1 oid h1 h2]
    exact hco2 oid ho
  have hrefl : ∀ k : Rat × Side,
      0 < vget (if vget (runQueueGo takerId qid b (queueOf b qid)).1.volume_map
            (price, Side.SELL) ≤ 0
          then aerase (runQueueGo takerId qid b (queueOf b qid)).1.volume_map
            (price, Side.SELL)
          else (runQueueGo takerId qid b (queueOf b qid)).1.volume_map) k →
      0 < vget (runQueueGo takerId qid b (queueOf b qid)).1.volume_map k := by
    intro k hk
    by_cases hcs : vget (runQueueGo takerId qid b (queueOf b qid)).1.volume_map
        (price, Side.SELL) ≤ 0
    · rw [if_pos hcs] at hk
      by_cases hks : k = (price, Side.SELL)
      · rw [hks, vget_aerase_self _ _ w9] at hk
        exact absurd hk (lt_irrefl 0)
      · rw [vget, alookup_aerase_ne _ _ _ (fun he => hks he.symm)] at hk
        exact hk
    · rwa [if_neg hcs] at hk
  have hbuyeq : ∀ k : Rat × Side, k.2 = Side.BUY →
      vget (if vget (runQueueGo takerId qid b (queueOf b qid)).1.volume_map
            (price, Side.SELL) ≤ 0
          then aerase (runQueueGo takerId qid b (queueOf b qid)).1.volume_map
            (price, Side.SELL)
          else (runQueueGo takerId qid b (queueOf b qid)).1.volume_map) k =
        vget (runQueueGo takerId qid b (queueOf b qid)).1.volume_map k := by
    intro k hk
    have hks : k ≠ (price, Side.SELL) := fun he => Side.noConfusion (he ▸ hk)
    by_cases hcs : vget (runQueueGo takerId qid b (queueOf b qid)).1.volume_map
        (price, Side.SELL) ≤ 0
    · rw [if_pos hcs, vget, alookup_aerase_ne _ _ _ (fun he => hks he.symm), vget]
    · rw [if_neg hcs]
  have ws1' : List.Pairwise (fun x y : Rat × Nat => x.1 ≤ y.1)
      (((price, qid) : Rat × Nat) :: rest) := hh ▸ ws1
  refine ⟨ws1'.of_cons, ?_, ?_, ?_, ?_, ?_, ⟨w3, w4⟩, ?_, ?_, ?_⟩
  · show List.Pairwise _ (runQueueGo takerId qid b (queueOf b qid)).1.bids_heap
    rw [f2]
    exact ws2
  · show ((rest ++ (runQueueGo takerId qid b (queueOf b qid)).1.bids_heap).map
      Prod.snd).Nodup
    rw [f2]
    exact wn.sublist hsubl
  · intro e2 he2
    exact hcohR Side.SELL e2 (hqrest e2 he2)
      (wca e2 (hh ▸ List.mem_cons_of_mem _ he2))
  · intro e2 he2
    have he2' : e2 ∈ (runQueueGo takerId qid b (queueOf b qid)).1.bids_heap := he2
    rw [f2] at he2'
    exact hcohR Side.BUY e2 (hqbids e2 he2') (wcb e2 he2')
  · intro kv hk
    have hk2 := mem_aerase _ _ _ hk
    rw [f3] at hk2
    obtain ⟨hx, hy⟩ := wqm kv hk2
    constructor
    · intro e2 he2
      exact hx e2 (hh ▸ List.mem_cons_of_mem _ he2)
    · intro e2 he2
      have he2' : e2 ∈ (runQueueGo takerId qid b (queueOf b qid)).1.bids_heap := he2
      rw [f2] at he2'
      exact hy e2 he2'
  · obtain ⟨q1, q2, q3, q4⟩ := wqb
    refine ⟨?_, ?_, ?_, ?_⟩
    · intro e2 he2
      show e2.2 < (runQueueGo takerId qid b (queueOf b qid)).1.next_queue
      rw [f4]
      exact q1 e2 (hh ▸ List.mem_cons_of_mem _ he2)
    · intro e2 he2
      show e2.2 < (runQueueGo takerId qid b (queueOf b qid)).1.next_queue
      have he2' : e2 ∈ (runQueueGo takerId qid b (queueOf b qid)).1.bids_heap := he2
      rw [f2] at he2'
      rw [f4]
      exact q2 e2 he2'
    · intro kv hk
      show kv.2 < (runQueueGo takerId qid b (queueOf b qid)).1.next_queue
      have hk2 := mem_aerase _ _ _ hk
      rw [f3] at hk2
      rw [f4]
      exact q3 kv hk2
    · intro kv hk
      show kv.1 < (runQueueGo takerId qid b (queueOf b qid)).1.next_queue
      rw [f4]
      rcases w8 kv hk with h' | h'
      · obtain ⟨kv', hkv', he⟩ := List.exists_of_mem_map h'
        exact he ▸ q4 kv' hkv'
      · rw [h']
        exact q1 (price, qid) hmemh
  · intro eb heb ea hea hb1 ha1
    have heb' : eb ∈ (runQueueGo takerId qid b (queueOf b qid)).1.bids_heap := heb
    rw [f2] at heb'
    have hb2 := hb1
    rw [show vget (if vget (runQueueGo takerId qid b (queueOf b qid)).1.volume_map
          (price, Side.SELL) ≤ 0
        then aerase (runQueueGo takerId qid b (queueOf b qid)).1.volume_map
          (price, Side.SELL)
        else (runQueueGo takerId qid b (queueOf b qid)).1.volume_map)
        (eb.1, Side.BUY) =
        vget (runQueueGo takerId qid b (queueOf b qid)).1.volume_map
        (eb.1, Side.BUY) from hbuyeq (eb.1, Side.BUY) rfl] at hb2
    rw [w7 (eb.1, Side.BUY)
      (fun he => Side.noConfusion (congrArg Prod.snd he))] at hb2
    have ha2 := hrefl (ea.1, Side.SELL) ha1
    exact wnc eb heb' ea (hh ▸ List.mem_cons_of_mem _ hea) hb2
      (w6 (ea.1, Side.SELL) ha2)
  · show ((if vget (runQueueGo takerId qid b (queueOf b qid)).1.volume_map
          (price, Side.SELL) ≤ 0
        then aerase (runQueueGo takerId qid b (queueOf b qid)).1.volume_map
          (price, Side.SELL)
        else (runQueueGo takerId qid b (queueOf b qid)).1.volume_map).map
        Prod.fst).Nodup
    by_cases hcs : vget (runQueueGo takerId qid b (queueOf b qid)).1.volume_map
        (price, Side.SELL) ≤ 0
    · rw [if_pos hcs]
      exact w9.sublist ((aerase_sublist _ _).map _)
    · rw [if_neg hcs]
      exact w9

/-- Master preservation lemma for the outer BUY matching loop: the
well-formedness bundle survives, the taker stays unqueued, the asks
heap is only consumed from the front, aggregate volumes never turn
positive from nonpositive, bid-side aggregates are untouched, and no
order's price or side changes. -/
theorem matchBuyGo_WF (takerId : Nat) (h : List (Rat × Nat)) : ∀ b : Book,
    b.asks_heap = h → HeapsWF b → (∀ qid, takerId ∉ queueOf b qid) →
    HeapsWF (matchBuyGo takerId b h).1 ∧
    (∀ qid, takerId ∉ queueOf (matchBuyGo takerId b h).1 qid) ∧
    (matchBuyGo takerId b h).1.asks_heap <:+ h ∧
    (∀ k : Rat × Side, 0 < vget (matchBuyGo takerId b h).1.volume_map k →
      0 < vget b.volume_map k) ∧
    (∀ k : Rat × Side, k.2 = Side.BUY →
      vget (matchBuyGo takerId b h).1.volume_map k = vget b.volume_map k) ∧
    (∀ oid, (getOrder (matchBuyGo takerId b h).1 oid).price = (getOrder b oid).price ∧
      (getOrder (matchBuyGo takerId b h).1 oid).side = (getOrder b oid).side ∧
      (getOrder (matchBuyGo takerId b h).1 oid).order_id = (getOrder b oid).order_id) := by
  induction h with
  | nil =>
    intro b hh hwf hT
    refine ⟨hwf, hT, ?_, fun _ hk => hk, fun _ _ => rfl, fun _ => ⟨rfl, rfl, rfl⟩⟩
    show b.asks_heap <:+ []
    rw [hh]
  | cons e rest ih =>
    intro b hh hwf hT
    obtain ⟨price, qid⟩ := e
    obtain ⟨ws1, ws2, wn, wca, wcb, wqm, wqs, wqb, wnc, wvm⟩ := hwf
    have hmemh : ((price, qid) : Rat × Nat) ∈ b.asks_heap := by
      rw [hh]
      exact List.mem_cons_self _ _
    have hsnd : qid ∉ ((rest ++ b.bids_heap).map Prod.snd) := by
      have hw := wn
      rw [hh, List.cons_append, List.map_cons, List.nodup_cons] at hw
      exact hw.1
    have hqrest : ∀ e2 ∈ rest, e2.2 ≠ qid := by
      intro e2 he2 heq
      exact hsnd (heq ▸ List.mem_map_of_mem Prod.snd (List.mem_append_left _ he2))
    have hqbids : ∀ e2 ∈ b.bids_heap, e2.2 ≠ qid := by
      intro e2 he2 heq
      exact hsnd (heq ▸ List.mem_map_of_mem Prod.snd (List.mem_append_right _ he2))
    have hsubl : List.Sublist ((rest ++ b.bids_heap).map Prod.snd)
        ((b.asks_heap ++ b.bids_heap).map Prod.snd) := by
      rw [hh, List.cons_append]
      exact (List.sublist_cons_self _ _).map Prod.snd
    by_cases hc : 0 < (getOrder b takerId).volume ∧ price ≤ (getOrder b takerId).price
    · rcases hq : queueOf b qid with _ | ⟨head, tail⟩
      · simp only [matchBuyGo, if_pos hc, hq]
        obtain ⟨j1, j2, j3, j4, j5, j6⟩ := ih { b with
            asks_heap := rest
            queue_map := aerase b.queue_map (price, Side.SELL) } rfl
          (by
            have ws1' : List.Pairwise (fun x y : Rat × Nat => x.1 ≤ y.1)
                (((price, qid) : Rat × Nat) :: rest) := hh ▸ ws1
            refine ⟨ws1'.of_cons, ws2, wn.sublist hsubl, ?_, ?_, ?_, wqs, ?_, ?_, wvm⟩
            · intro e2 he2
              exact wca e2 (hh ▸ List.mem_cons_of_mem _ he2)
            · intro e2 he2
              exact wcb e2 he2
            · intro kv hk
              obtain ⟨hx, hy⟩ := wqm kv (mem_aerase _ _ _ hk)
              exact ⟨fun e2 he2 => hx e2 (hh ▸ List.mem_cons_of_mem _ he2), hy⟩
            · obtain ⟨q1, q2, q3, q4⟩ := wqb
              refine ⟨?_, q2, ?_, q4⟩
              · intro e2 he2
                exact q1 e2 (hh ▸ List.mem_cons_of_mem _ he2)
              · intro kv hk
                exact q3 kv (mem_aerase _ _ _ hk)
            · intro eb heb ea hea hb1 ha1
              exact wnc eb heb ea (hh ▸ List.mem_cons_of_mem _ hea) hb1 ha1)
          hT
        exact ⟨j1, j2, j3.trans (List.suffix_cons _ _), j4, j5, j6⟩
      · simp only [matchBuyGo, if_pos hc, hq]
        simp only [runQueue]
        have hcohq : ∀ oid ∈ queueOf b qid, (getOrder b oid).price = price ∧
            (getOrder b oid).side = Side.SELL ∧ 0 < (getOrder b oid).volume :=
          wca (price, qid) hmemh
        obtain ⟨w1, w2, w3, w4, w5, w6, w7, w8, w9⟩ :=
          runQueueGo_WF takerId qid price Side.SELL (queueOf b qid) b rfl hcohq hT
            wqs.1 wqs.2 wvm
        obtain ⟨qne, kd, qdrop⟩ := runQueueGo_queueOf takerId qid (queueOf b qid) b rfl
        obtain ⟨f1, f2, f3, f4, f5, f6, f7, f8⟩ :=
          runQueueGo_frame takerId qid (queueOf b qid) b
        have hps := runQueueGo_priceSide takerId qid (queueOf b qid) b
        have hcohR : ∀ (s0 : Side) (e2 : Rat × Nat), e2.2 ≠ qid → EntryCoh b s0 e2 →
            EntryCoh (runQueueGo takerId qid b (queueOf b qid)).1 s0 e2 := by
          intro s0 e2 hne hco2 oid ho
          rw [qne e2.2 hne] at ho
          have h1 : oid ≠ takerId := fun he => hT e2.2 (he ▸ ho)
          have h2 : oid ∉ queueOf b qid := wqs.2 e2.2 qid hne oid ho
          rw [w1 oid h1 h2]
          exact hco2 oid ho
        have hqmR : QmCoh (runQueueGo takerId qid b (queueOf b qid)).1 := by
          intro kv hk
          rw [f3] at hk
          obtain ⟨hx, hy⟩ := wqm kv hk
          constructor
          · intro e2 he2
            rw [f1] at he2
            exact hx e2 he2
          · intro e2 he2
            rw [f2] at he2
            exact hy e2 he2
        have hqbR : QidsBound (runQueueGo takerId qid b (queueOf b qid)).1 := by
          obtain ⟨q1, q2, q3, q4⟩ := wqb
          refine ⟨?_, ?_, ?_, ?_⟩
          · intro e2 he2
            rw [f1] at he2
            rw [f4]
            exact q1 e2 he2
          · intro e2 he2
            rw [f2] at he2
            rw [f4]
            exact q2 e2 he2
          · intro kv hk
            rw [f3] at hk
            rw [f4]
            exact q3 kv hk
          · intro kv hk
            rw [f4]
            rcases w8 kv hk with h' | h'
            · obtain ⟨kv', hkv', he⟩ := List.exists_of_mem_map h'
              exact he ▸ q4 kv' hkv'
            · rw [h']
              exact q1 (price, qid) hmemh
        have hncR : NoCross (runQueueGo takerId qid b (queueOf b qid)).1 := by
          intro eb heb ea hea hb1 ha1
          rw [f2] at heb
          rw [f1] at hea
          refine wnc eb heb ea hea ?_ (w6 (ea.1, Side.SELL) ha1)
          rw [w7 (eb.1, Side.BUY)
            (fun he => Side.noConfusion (congrArg Prod.snd he))] at hb1
          exact hb1
        have hwfR : HeapsWF (runQueueGo takerId qid b (queueOf b qid)).1 := by
          refine ⟨?_, ?_, ?_, ?_, ?_, hqmR, ⟨w3, w4⟩, hqbR, hncR, w9⟩
          · rw [f1]
            exact ws1
          · rw [f2]
            exact ws2
          · rw [f1, f2]
            exact wn
          · intro e2 he2
            rw [f1, hh] at he2
            rcases List.mem_cons.mp he2 with he' | he'
            · rw [he']
              intro oid ho
              exact w2 oid ho
            · exact hcohR Side.SELL e2 (hqrest e2 he') (wca e2 (hh ▸ List.mem_cons_of_mem _ he'))
          · intro e2 he2
            rw [f2] at he2
            exact hcohR Side.BUY e2 (hqbids e2 he2) (wcb e2 he2)
        by_cases hq2 : queueOf (runQueueGo takerId qid b (queueOf b qid)).1 qid = []
        · rw [if_pos hq2]
          have hrefl : ∀ k : Rat × Side,
              0 < vget (if vget (runQueueGo takerId qid b (queueOf b qid)).1.volume_map
                    (price, Side.SELL) ≤ 0
                  then aerase (runQueueGo takerId qid b (queueOf b qid)).1.volume_map
                    (price, Side.SELL)
                  else (runQueueGo takerId qid b (queueOf b qid)).1.volume_map) k →
              0 < vget (runQueueGo takerId qid b (queueOf b qid)).1.volume_map k := by
            intro k hk
            by_cases hcs : vget (runQueueGo takerId qid b (queueOf b qid)).1.volume_map
                (price, Side.SELL) ≤ 0
            · rw [if_pos hcs] at hk
              by_cases hks : k = (price, Side.SELL)
              · rw [hks, vget_aerase_self _ _ w9] at hk
                exact absurd hk (lt_irrefl 0)
              · rw [vget, alookup_aerase_ne _ _ _ (fun he => hks he.symm)] at hk
                exact hk
            · rwa [if_neg hcs] at hk
          have hbuyeq : ∀ k : Rat × Side, k.2 = Side.BUY →
              vget (if vget (runQueueGo takerId qid b (queueOf b qid)).1.volume_map
                    (price, Side.SELL) ≤ 0
                  then aerase (runQueueGo takerId qid b (queueOf b qid)).1.volume_map
                    (price, Side.SELL)
                  else (runQueueGo takerId qid b (queueOf b qid)).1.volume_map) k =
                vget (runQueueGo takerId qid b (queueOf b qid)).1.volume_map k := by
            intro k hk
            have hks : k ≠ (price, Side.SELL) := fun he => Side.noConfusion (he ▸ hk)
            by_cases hcs : vget (runQueueGo takerId qid b (queueOf b qid)).1.volume_map
                (price, Side.SELL) ≤ 0
            · rw [if_pos hcs, vget, alookup_aerase_ne _ _ _ (fun he => hks he.symm), vget]
            · rw [if_neg hcs]
          obtain ⟨j1, j2, j3, j4, j5, j6⟩ := ih
            { (runQueueGo takerId qid b (queueOf b qid)).1 with
              asks_heap := rest
              queue_map := aerase (runQueueGo takerId qid b (queueOf b qid)).1.queue_map
                (price, Side.SELL)
              volume_map := if vget (runQueueGo takerId qid b (queueOf b qid)).1.volume_map
                    (price, Side.SELL) ≤ 0
                  then aerase (runQueueGo takerId qid b (queueOf b qid)).1.volume_map
                    (price, Side.SELL)
                  else (runQueueGo takerId qid b (queueOf b qid)).1.volume_map }
            rfl
            (matchBuy_step_WF takerId b price qid rest hh
              ⟨ws1, ws2, wn, wca, wcb, wqm, wqs, wqb, wnc, wvm⟩ hT)
            w5
          refine ⟨j1, j2, j3.trans (List.suffix_cons _ _), ?_, ?_, ?_⟩
          · intro k hk
            exact w6 k (hrefl k (j4 k hk))
          · intro k hk
            rw [j5 k hk, hbuyeq k hk, w7 k (fun he => Side.noConfusion (he ▸ hk))]
          · intro oid
            exact ⟨(j6 oid).1.trans (hps oid).1, (j6 oid).2.1.trans (hps oid).2.1,
              (j6 oid).2.2.trans (hps oid).2.2⟩
        · rw [if_neg hq2]
          refine ⟨hwfR, w5, ?_, w6, ?_, hps⟩
          · have he : (runQueueGo takerId qid b (queueOf b qid)).1.asks_heap =
                ((price, qid) : Rat × Nat) :: rest := f1.trans hh
            rw [he]
          · intro k hk
            exact w7 k (fun he => Side.noConfusion (he ▸ hk))
    · have hr : matchBuyGo takerId b ((price, qid) :: rest) = (b, []) := by
        simp only [matchBuyGo, if_neg hc]
      rw [hr]
      refine ⟨⟨ws1, ws2, wn, wca, wcb, wqm, wqs, wqb, wnc, wvm⟩, hT, ?_,
        fun _ hk => hk, fun _ _ => rfl, fun _ => ⟨rfl, rfl, rfl⟩⟩
      show b.asks_heap <:+ (price, qid) :: rest
      rw [hh]

/-- The level-cleanup state built by the SELL matching loop after consuming
the best bid level is again well-formed. -/
theorem matchSell_step_WF (takerId : Nat) (b : Book) (price : Rat) (qid : Nat)
    (rest : List (Rat × Nat)) (hh : b.bids_heap = (price, qid) :: rest)
    (hwf : HeapsWF b) (hT : ∀ q2, takerId ∉ queueOf b q2) :
    HeapsWF { (runQueueGo takerId qid b (queueOf b qid)).1 with
      bids_heap := rest
      queue_map := aerase (runQueueGo takerId qid b (queueOf b qid)).1.queue_map
        (price, Side.BUY)
      volume_map := if vget (runQueueGo takerId qid b (queueOf b qid)).1.volume_map
            (price, Side.BUY) ≤ 0
          then aerase (runQueueGo takerId qid b (queueOf b qid)).1.volume_map
            (price, Side.BUY)
          else (runQueueGo takerId qid b (queueOf b qid)).1.volume_map } := by
  obtain ⟨ws1, ws2, wn, wca, wcb, wqm, wqs, wqb, wnc, wvm⟩ := hwf
  have hmemh : ((price, qid) : Rat × Nat) ∈ b.bids_heap := by
    rw [hh]
    exact List.mem_cons_self _ _
  have hw := wn
  rw [hh, List.map_append, List.map_cons, List.nodup_append] at hw
  obtain ⟨hw1, hw2, hw3⟩ := hw
  have hqasks : ∀ e2 ∈ b.asks_heap, e2.2 ≠ qid := by
    intro e2 he2 heq
    exact hw3 (List.mem_map_of_mem Prod.snd he2) (heq ▸ List.mem_cons_self _ _)
  have hqrest : ∀ e2 ∈ rest, e2.2 ≠ qid := by
    intro e2 he2 heq
    rw [List.nodup_cons] at hw2
    have hmm : e2.2 ∈ rest.map Prod.snd := List.mem_map_of_mem Prod.snd he2
    rw [heq] at hmm
    exact hw2.1 hmm
  have hsubl : List.Sublist ((b.asks_heap ++ rest).map Prod.snd)
      ((b.asks_heap ++ b.bids_heap).map Prod.snd) := by
    rw [hh]
    exact ((List.sublist_cons_self _ _).append_left b.asks_heap).map Prod.snd
  have hcohq : ∀ oid ∈ queueOf b qid, (getOrder b oid).price = price ∧
      (getOrder b oid).side = Side.BUY ∧ 0 < (getOrder b oid).volume :=
    wcb (price, qid) hmemh
  obtain ⟨w1, w2, w3, w4, w5, w6, w7, w8, w9⟩ :=
    runQueueGo_WF takerId qid price Side.BUY (queueOf b qid) b rfl hcohq hT
      wqs.1 wqs.2 wvm
  obtain ⟨qne, kd, qdrop⟩ := runQueueGo_queueOf takerId qid (queueOf b qid) b rfl
  obtain ⟨f1, f2, f3, f4, f5, f6, f7, f8⟩ :=
    runQueueGo_frame takerId qid (queueOf b qid) b
  have hcohR : ∀ (s0 : Side) (e2 : Rat × Nat), e2.2 ≠ qid → EntryCoh b s0 e2 →
      EntryCoh (runQueueGo takerId qid b (queueOf b qid)).1 s0 e2 := by
    intro s0 e2 hne hco2 oid ho
    rw [qne e2.2 hne] at ho
    have h1 : oid ≠ takerId := fun he => hT e2.2 (he ▸ ho)
    have h2 : oid ∉ queueOf b qid := wqs.2 e2.2 qid hne oid ho
    rw [w1 oid h1 h2]
    exact hco2 oid ho
  have hrefl : ∀ k : Rat × Side,
      0 < vget (if vget (runQueueGo takerId qid b (queueOf b qid)).1.volume_map
            (price, Side.BUY) ≤ 0
          then aerase (runQueueGo takerId qid b (queueOf b qid)).1.volume_map
            (price, Side.BUY)
          else (runQueueGo takerId qid b (queueOf b qid)).1.volume_map) k →
      0 < vget (runQueueGo takerId qid b (queueOf b qid)).1.volume_map k := by
    intro k hk
    by_cases hcs : vget (runQueueGo takerId qid b (queueOf b qid)).1.volume_map
        (price, Side.BUY) ≤ 0
    · rw [if_pos hcs] at hk
      by_cases hks : k = (price, Side.BUY)
      · rw [hks, vget_aerase_self _ _ w9] at hk
        exact absurd hk (lt_irrefl 0)
      · rw [vget, alookup_aerase_ne _ _ _ (fun he => hks he.symm)] at hk
        exact hk
    · rwa [if_neg hcs] at hk
  have hselleq : ∀ k : Rat × Side, k.2 = Side.SELL →
      vget (if vget (runQueueGo takerId qid b (queueOf b qid)).1.volume_map
            (price, Side.BUY) ≤ 0
          then aerase (runQueueGo takerId qid b (queueOf b qid)).1.volume_map
            (price, Side.BUY)
          else (runQueueGo takerId qid b (queueOf b qid)).1.volume_map) k =
        vget (runQueueGo takerId qid b (queueOf b qid)).1.volume_map k := by
    intro k hk
    have hks : k ≠ (price, Side.BUY) := fun he => Side.noConfusion (he ▸ hk)
    by_cases hcs : vget (runQueueGo takerId qid b (queueOf b qid)).1.volume_map
        (price, Side.BUY) ≤ 0
    · rw [if_pos hcs, vget, alookup_aerase_ne _ _ _ (fun he => hks he.symm), vget]
    · rw [if_neg hcs]
  have ws2' : List.Pairwise (fun x y : Rat × Nat => y.1 ≤ x.1)
      (((price, qid) : Rat × Nat) :: rest) := hh ▸ ws2
  refine ⟨?_, ws2'.of_cons, ?_, ?_, ?_, ?_, ⟨w3, w4⟩, ?_, ?_, ?_⟩
  · show List.Pairwise _ (runQueueGo takerId qid b (queueOf b qid)).1.asks_heap
    rw [f1]
    exact ws1
  · show (((runQueueGo takerId qid b (queueOf b qid)).1.asks_heap ++ rest).map
      Prod.snd).Nodup
    rw [f1]
    exact wn.sublist hsubl
  · intro e2 he2
    have he2' : e2 ∈ (runQueueGo takerId qid b (queueOf b qid)).1.asks_heap := he2
    rw [f1] at he2'
    exact hcohR Side.SELL e2 (hqasks e2 he2') (wca e2 he2')
  · intro e2 he2
    exact hcohR Side.BUY e2 (hqrest e2 he2)
      (wcb e2 (hh ▸ List.mem_cons_of_mem _ he2))
  · intro kv hk
    have hk2 := mem_aerase _ _ _ hk
    rw [f3] at hk2
    obtain ⟨hx, hy⟩ := wqm kv hk2
    constructor
    · intro e2 he2
      have he2' : e2 ∈ (runQueueGo takerId qid b (queueOf b qid)).1.asks_heap := he2
      rw [f1] at he2'
      exact hx e2 he2'
    · intro e2 he2
      exact hy e2 (hh ▸ List.mem_cons_of_mem _ he2)
  · obtain ⟨q1, q2, q3, q4⟩ := wqb
    refine ⟨?_, ?_, ?_, ?_⟩
    · intro e2 he2
      show e2.2 < (runQueueGo takerId qid b (queueOf b qid)).1.next_queue
      have he2' : e2 ∈ (runQueueGo takerId qid b (queueOf b qid)).1.asks_heap := he2
      rw [f1] at he2'
      rw [f4]
      exact q1 e2 he2'
    · intro e2 he2
      show e2.2 < (runQueueGo takerId qid b (queueOf b qid)).1.next_queue
      rw [f4]
      exact q2 e2 (hh ▸ List.mem_cons_of_mem _ he2)
    · intro kv hk
      show kv.2 < (runQueueGo takerId qid b (queueOf b qid)).1.next_queue
      have hk2 := mem_aerase _ _ _ hk
      rw [f3] at hk2
      rw [f4]
      exact q3 kv hk2
    · intro kv hk
      show kv.1 < (runQueueGo takerId qid b (queueOf b qid)).1.next_queue
      rw [f4]
      rcases w8 kv hk with h' | h'
      · obtain ⟨kv', hkv', he⟩ := List.exists_of_mem_map h'
        exact he ▸ q4 kv' hkv'
      · rw [h']
        exact q2 (price, qid) hmemh
  · intro eb heb ea hea hb1 ha1
    have hea' : ea ∈ (runQueueGo takerId qid b (queueOf b qid)).1.asks_heap := hea
    rw [f1] at hea'
    have ha2 := ha1
    rw [show vget (if vget (runQueueGo takerId qid b (queueOf b qid)).1.volume_map
          (price, Side.BUY) ≤ 0
        then aerase (runQueueGo takerId qid b (queueOf b qid)).1.volume_map
          (price, Side.BUY)
        else (runQueueGo takerId qid b (queueOf b qid)).1.volume_map)
        (ea.1, Side.SELL) =
        vget (runQueueGo takerId qid b (queueOf b qid)).1.volume_map
        (ea.1, Side.SELL) from hselleq (ea.1, Side.SELL) rfl] at ha2
    rw [w7 (ea.1, Side.SELL)
      (fun he => Side.noConfusion (congrArg Prod.snd he))] at ha2
    have hb2 := hrefl (eb.1, Side.BUY) hb1
    exact wnc eb (hh ▸ List.mem_cons_of_mem _ heb) ea hea'
      (w6 (eb.1, Side.BUY) hb2) ha2
  · show ((if vget (runQueueGo takerId qid b (queueOf b qid)).1.volume_map
          (price, Side.BUY) ≤ 0
        then aerase (runQueueGo takerId qid b (queueOf b qid)).1.volume_map
          (price, Side.BUY)
        else (runQueueGo takerId qid b (queueOf b qid)).1.volume_map).map
        Prod.fst).Nodup
    by_cases hcs : vget (runQueueGo takerId qid b (queueOf b qid)).1.volume_map
        (price, Side.BUY) ≤ 0
    · rw [if_pos hcs]
      exact w9.sublist ((aerase_sublist _ _).map _)
    · rw [if_neg hcs]
      exact w9

/-- Master preservation lemma for the outer SELL matching loop,
symmetric to matchBuyGo_WF. -/
theorem matchSellGo_WF (takerId : Nat) (h : List (Rat × Nat)) : ∀ b : Book,
    b.bids_heap = h → HeapsWF b → (∀ qid, takerId ∉ queueOf b qid) →
    HeapsWF (matchSellGo takerId b h).1 ∧
    (∀ qid, takerId ∉ queueOf (matchSellGo takerId b h).1 qid) ∧
    (matchSellGo takerId b h).1.bids_heap <:+ h ∧
    (∀ k : Rat × Side, 0 < vget (matchSellGo takerId b h).1.volume_map k →
      0 < vget b.volume_map k) ∧
    (∀ k : Rat × Side, k.2 = Side.SELL →
      vget (matchSellGo takerId b h).1.volume_map k = vget b.volume_map k) ∧
    (∀ oid, (getOrder (matchSellGo takerId b h).1 oid).price = (getOrder b oid).price ∧
      (getOrder (matchSellGo takerId b h).1 oid).side = (getOrder b oid).side ∧
      (getOrder (matchSellGo takerId b h).1 oid).order_id = (getOrder b oid).order_id) := by
  induction h with
  | nil =>
    intro b hh hwf hT
    refine ⟨hwf, hT, ?_, fun _ hk => hk, fun _ _ => rfl, fun _ => ⟨rfl, rfl, rfl⟩⟩
    show b.bids_heap <:+ []
    rw [hh]
  | cons e rest ih =>
    intro b hh hwf hT
    obtain ⟨price, qid⟩ := e
    obtain ⟨ws1, ws2, wn, wca, wcb, wqm, wqs, wqb, wnc, wvm⟩ := hwf
    have hmemh : ((price, qid) : Rat × Nat) ∈ b.bids_heap := by
      rw [hh]
      exact List.mem_cons_self _ _
    have hw := wn
    rw [hh, List.map_append, List.map_cons, List.nodup_append] at hw
    obtain ⟨hw1, hw2, hw3⟩ := hw
    have hqasks : ∀ e2 ∈ b.asks_heap, e2.2 ≠ qid := by
      intro e2 he2 heq
      exact hw3 (List.mem_map_of_mem Prod.snd he2) (heq ▸ List.mem_cons_self _ _)
    have hqrest : ∀ e2 ∈ rest, e2.2 ≠ qid := by
      intro e2 he2 heq
      rw [List.nodup_cons] at hw2
      have hmm : e2.2 ∈ rest.map Prod.snd := List.mem_map_of_mem Prod.snd he2
      rw [heq] at hmm
      exact hw2.1 hmm
    have hsubl : List.Sublist ((b.asks_heap ++ rest).map Prod.snd)
        ((b.asks_heap ++ b.bids_heap).map Prod.snd) := by
      rw [hh]
      exact ((List.sublist_cons_self _ _).append_left b.asks_heap).map Prod.snd
    by_cases hc : 0 < (getOrder b takerId).volume ∧ (getOrder b takerId).price ≤ price
    · rcases hq : queueOf b qid with _ | ⟨head, tail⟩
      · simp only [matchSellGo, if_pos hc, hq]
        obtain ⟨j1, j2, j3, j4, j5, j6⟩ := ih { b with
            bids_heap := rest
            queue_map := aerase b.queue_map (price, Side.BUY) } rfl
          (by
            have ws2' : List.Pairwise (fun x y : Rat × Nat => y.1 ≤ x.1)
                (((price, qid) : Rat × Nat) :: rest) := hh ▸ ws2
            refine ⟨ws1, ws2'.of_cons, wn.sublist hsubl, ?_, ?_, ?_, wqs, ?_, ?_, wvm⟩
            · intro e2 he2
              exact wca e2 he2
            · intro e2 he2
              exact wcb e2 (hh ▸ List.mem_cons_of_mem _ he2)
            · intro kv hk
              obtain ⟨hx, hy⟩ := wqm kv (mem_aerase _ _ _ hk)
              exact ⟨hx, fun e2 he2 => hy e2 (hh ▸ List.mem_cons_of_mem _ he2)⟩
            · obtain ⟨q1, q2, q3, q4⟩ := wqb
              refine ⟨q1, ?_, ?_, q4⟩
              · intro e2 he2
                exact q2 e2 (hh ▸ List.mem_cons_of_mem _ he2)
              · intro kv hk
                exact q3 kv (mem_aerase _ _ _ hk)
            · intro eb heb ea hea hb1 ha1
              exact wnc eb (hh ▸ List.mem_cons_of_mem _ heb) ea hea hb1 ha1)
          hT
        exact ⟨j1, j2, j3.trans (List.suffix_cons _ _), j4, j5, j6⟩
      · simp only [matchSellGo, if_pos hc, hq]
        simp only [runQueue]
        have hcohq : ∀ oid ∈ queueOf b qid, (getOrder b oid).price = price ∧
            (getOrder b oid).side = Side.BUY ∧ 0 < (getOrder b oid).volume :=
          wcb (price, qid) hmemh
        obtain ⟨w1, w2, w3, w4, w5, w6, w7, w8, w9⟩ :=
          runQueueGo_WF takerId qid price Side.BUY (queueOf b qid) b rfl hcohq hT
            wqs.1 wqs.2 wvm
        obtain ⟨qne, kd, qdrop⟩ := runQueueGo_queueOf takerId qid (queueOf b qid) b rfl
        obtain ⟨f1, f2, f3, f4, f5, f6, f7, f8⟩ :=
          runQueueGo_frame takerId qid (queueOf b qid) b
        have hps := runQueueGo_priceSide takerId qid (queueOf b qid) b
        have hcohR : ∀ (s0 : Side) (e2 : Rat × Nat), e2.2 ≠ qid → EntryCoh b s0 e2 →
            EntryCoh (runQueueGo takerId qid b (queueOf b qid)).1 s0 e2 := by
          intro s0 e2 hne hco2 oid ho
          rw [qne e2.2 hne] at ho
          have h1 : oid ≠ takerId := fun he => hT e2.2 (he ▸ ho)
          have h2 : oid ∉ queueOf b qid := wqs.2 e2.2 qid hne oid ho
          rw [w1 oid h1 h2]
          exact hco2 oid ho
        have hqmR : QmCoh (runQueueGo takerId qid b (queueOf b qid)).1 := by
          intro kv hk
          rw [f3] at hk
          obtain ⟨hx, hy⟩ := wqm kv hk
          constructor
          · intro e2 he2
            rw [f1] at he2
            exact hx e2 he2
          · intro e2 he2
            rw [f2] at he2
            exact hy e2 he2
        have hqbR : QidsBound (runQueueGo takerId qid b (queueOf b qid)).1 := by
          obtain ⟨q1, q2, q3, q4⟩ := wqb
          refine ⟨?_, ?_, ?_, ?_⟩
          · intro e2 he2
            rw [f1] at he2
            rw [f4]
            exact q1 e2 he2
          · intro e2 he2
            rw [f2] at he2
            rw [f4]
            exact q2 e2 he2
          · intro kv hk
            rw [f3] at hk
            rw [f4]
            exact q3 kv hk
          · intro kv hk
            rw [f4]
            rcases w8 kv hk with h' | h'
            · obtain ⟨kv', hkv', he⟩ := List.exists_of_mem_map h'
              exact he ▸ q4 kv' hkv'
            · rw [h']
              exact q2 (price, qid) hmemh
        have hncR : NoCross (runQueueGo takerId qid b (queueOf b qid)).1 := by
          intro eb heb ea hea hb1 ha1
          rw [f2] at heb
          rw [f1] at hea
          refine wnc eb heb ea hea (w6 (eb.1, Side.BUY) hb1) ?_
          rw [w7 (ea.1, Side.SELL)
            (fun he => Side.noConfusion (congrArg Prod.snd he))] at ha1
          exact ha1
        have hwfR : HeapsWF (runQueueGo takerId qid b (queueOf b qid)).1 := by
          refine ⟨?_, ?_, ?_, ?_, ?_, hqmR, ⟨w3, w4⟩, hqbR, hncR, w9⟩
          · rw [f1]
            exact ws1
          · rw [f2]
            exact ws2
          · rw [f1, f2]
            exact wn
          · intro e2 he2
            rw [f1] at he2
            exact hcohR Side.SELL e2 (hqasks e2 he2) (wca e2 he2)
          · intro e2 he2
            rw [f2, hh] at he2
            rcases List.mem_cons.mp he2 with he' | he'
            · rw [he']
              intro oid ho
              exact w2 oid ho
            · exact hcohR Side.BUY e2 (hqrest e2 he') (wcb e2 (hh ▸ List.mem_cons_of_mem _ he'))
        by_cases hq2 : queueOf (runQueueGo takerId qid b (queueOf b qid)).1 qid = []
        · rw [if_pos hq2]
          have hrefl : ∀ k : Rat × Side,
              0 < vget (if vget (runQueueGo takerId qid b (queueOf b qid)).1.volume_map
                    (price, Side.BUY) ≤ 0
                  then aerase (runQueueGo takerId qid b (queueOf b qid)).1.volume_map
                    (price, Side.BUY)
                  else (runQueueGo takerId qid b (queueOf b qid)).1.volume_map) k →
              0 < vget (runQueueGo takerId qid b (queueOf b qid)).1.volume_map k := by
            intro k hk
            by_cases hcs : vget (runQueueGo takerId qid b (queueOf b qid)).1.volume_map
                (price, Side.BUY) ≤ 0
            · rw [if_pos hcs] at hk
              by_cases hks : k = (price, Side.BUY)
              · rw [hks, vget_aerase_self _ _ w9] at hk
                exact absurd hk (lt_irrefl 0)
              · rw [vget, alookup_aerase_ne _ _ _ (fun he => hks he.symm)] at hk
                exact hk
            · rwa [if_neg hcs] at hk
          have hselleq : ∀ k : Rat × Side, k.2 = Side.SELL →
              vget (if vget (runQueueGo takerId qid b (queueOf b qid)).1.volume_map
                    (price, Side.BUY) ≤ 0
                  then aerase (runQueueGo takerId qid b (queueOf b qid)).1.volume_map
                    (price, Side.BUY)
                  else (runQueueGo takerId qid b (queueOf b qid)).1.volume_map) k =
                vget (runQueueGo takerId qid b (queueOf b qid)).1.volume_map k := by
            intro k hk
            have hks : k ≠ (price, Side.BUY) := fun he => Side.noConfusion (he ▸ hk)
            by_cases hcs : vget (runQueueGo takerId qid b (queueOf b qid)).1.volume_map
                (price, Side.BUY) ≤ 0
            · rw [if_pos hcs, vget, alookup_aerase_ne _ _ _ (fun he => hks he.symm), vget]
            · rw [if_neg hcs]
          obtain ⟨j1, j2, j3, j4, j5, j6⟩ := ih
            { (runQueueGo takerId qid b (queueOf b qid)).1 with
              bids_heap := rest
              queue_map := aerase (runQueueGo takerId qid b (queueOf b qid)).1.queue_map
                (price, Side.BUY)
              volume_map := if vget (runQueueGo takerId qid b (queueOf b qid)).1.volume_map
                    (price, Side.BUY) ≤ 0
                  then aerase (runQueueGo takerId qid b (queueOf b qid)).1.volume_map
                    (price, Side.BUY)
                  else (runQueueGo takerId qid b (queueOf b qid)).1.volume_map }
            rfl
            (matchSell_step_WF takerId b price qid rest hh
              ⟨ws1, ws2, wn, wca, wcb, wqm, wqs, wqb, wnc, wvm⟩ hT)
            w5
          refine ⟨j1, j2, j3.trans (List.suffix_cons _ _), ?_, ?_, ?_⟩
          · intro k hk
            exact w6 k (hrefl k (j4 k hk))
          · intro k hk
            rw [j5 k hk, hselleq k hk, w7 k (fun he => Side.noConfusion (he ▸ hk))]
          · intro oid
            exact ⟨(j6 oid).1.trans (hps oid).1, (j6 oid).2.1.trans (hps oid).2.1,
              (j6 oid).2.2.trans (hps oid).2.2⟩
        · rw [if_neg hq2]
          refine ⟨hwfR, w5, ?_, w6, ?_, hps⟩
          · have he : (runQueueGo takerId qid b (queueOf b qid)).1.bids_heap =
                ((price, qid) : Rat × Nat) :: rest := f2.trans hh
            rw [he]
          · intro k hk
            exact w7 k (fun he => Side.noConfusion (he ▸ hk))
    · have hr : matchSellGo takerId b ((price, qid) :: rest) = (b, []) := by
        simp only [matchSellGo, if_neg hc]
      rw [hr]
      refine ⟨⟨ws1, ws2, wn, wca, wcb, wqm, wqs, wqb, wnc, wvm⟩, hT, ?_,
        fun _ hk => hk, fun _ _ => rfl, fun _ => ⟨rfl, rfl, rfl⟩⟩
      show b.bids_heap <:+ (price, qid) :: rest
      rw [hh]

/-- Taker freshness survives the inner loop: queues only shrink. -/
theorem runQueueGo_taker_notin (takerId qid : Nat) (b : Book)
    (hT : ∀ qid2, takerId ∉ queueOf b qid2) :
    ∀ qid2, takerId ∉ queueOf (runQueueGo takerId qid b (queueOf b qid)).1 qid2 := by
  obtain ⟨qne, kd, qdrop⟩ := runQueueGo_queueOf takerId qid (queueOf b qid) b rfl
  intro qid2
  by_cases h2 : qid2 = qid
  · rw [h2, qdrop]
    intro hm
    exact hT qid (List.mem_of_mem_drop hm)
  · rw [qne qid2 h2]
    exact hT qid2

/-- Exit property of the BUY matching loop: if the taker leaves the
loop with residual volume, every ask level still on the heap is
strictly above the taker's price. -/
theorem matchBuyGo_exit (takerId : Nat) (h : List (Rat × Nat)) : ∀ b : Book,
    b.asks_heap = h → List.Pairwise (fun x y : Rat × Nat => x.1 ≤ y.1) h →
    (∀ qid, takerId ∉ queueOf b qid) →
    0 < (getOrder (matchBuyGo takerId b h).1 takerId).volume →
    ∀ e ∈ (matchBuyGo takerId b h).1.asks_heap, (getOrder b takerId).price < e.1 := by
  induction h with
  | nil =>
    intro b hh hs hT hv e he
    have : (matchBuyGo takerId b []).1.asks_heap = b.asks_heap := rfl
    rw [this, hh] at he
    cases he
  | cons e0 rest ih =>
    intro b hh hs hT hv e he
    obtain ⟨price, qid⟩ := e0
    by_cases hc : 0 < (getOrder b takerId).volume ∧ price ≤ (getOrder b takerId).price
    · rcases hq : queueOf b qid with _ | ⟨head, tail⟩
      · simp only [matchBuyGo, if_pos hc, hq] at hv he
        exact ih { b with
            asks_heap := rest
            queue_map := aerase b.queue_map (price, Side.SELL) } rfl hs.of_cons hT hv e he
      · simp only [matchBuyGo, if_pos hc, hq] at hv he
        simp only [runQueue] at hv he
        by_cases hq2 : queueOf (runQueueGo takerId qid b (queueOf b qid)).1 qid = []
        · rw [if_pos hq2] at hv he
          have hT2 := runQueueGo_taker_notin takerId qid b hT
          have hps := runQueueGo_priceSide takerId qid (queueOf b qid) b takerId
          have := ih
            { (runQueueGo takerId qid b (queueOf b qid)).1 with
              asks_heap := rest
              queue_map := aerase (runQueueGo takerId qid b (queueOf b qid)).1.queue_map
                (price, Side.SELL)
              volume_map := if vget (runQueueGo takerId qid b (queueOf b qid)).1.volume_map
                    (price, Side.SELL) ≤ 0
                  then aerase (runQueueGo takerId qid b (queueOf b qid)).1.volume_map
                    (price, Side.SELL)
                  else (runQueueGo takerId qid b (queueOf b qid)).1.volume_map }
            rfl hs.of_cons hT2 hv e he
          rw [show (getOrder { (runQueueGo takerId qid b (queueOf b qid)).1 with
              asks_heap := rest
              queue_map := aerase (runQueueGo takerId qid b (queueOf b qid)).1.queue_map
                (price, Side.SELL)
              volume_map := if vget (runQueueGo takerId qid b (queueOf b qid)).1.volume_map
                    (price, Side.SELL) ≤ 0
                  then aerase (runQueueGo takerId qid b (queueOf b qid)).1.volume_map
                    (price, Side.SELL)
                  else (runQueueGo takerId qid b (queueOf b qid)).1.volume_map } takerId).price =
              (getOrder b takerId).price from hps.1] at this
          exact this
        · rw [if_neg hq2] at hv he
          exact absurd (runQueueGo_exit takerId qid (queueOf b qid) b rfl (hT qid) hq2)
            (not_le.mpr hv)
    · have hr : matchBuyGo takerId b ((price, qid) :: rest) = (b, []) := by
        simp only [matchBuyGo, if_neg hc]
      rw [hr] at hv he
      push_neg at hc
      have hpp : (getOrder b takerId).price < price := hc hv
      have heb : e ∈ b.asks_heap := he
      rw [hh] at heb
      rcases List.mem_cons.mp heb with he' | he'
      · rw [he']
        exact hpp
      · rw [List.pairwise_cons] at hs
        exact lt_of_lt_of_le hpp (hs.1 e he')

/-- Exit property of the SELL matching loop, symmetric. -/
theorem matchSellGo_exit (takerId : Nat) (h : List (Rat × Nat)) : ∀ b : Book,
    b.bids_heap = h → List.Pairwise (fun x y : Rat × Nat => y.1 ≤ x.1) h →
    (∀ qid, takerId ∉ queueOf b qid) →
    0 < (getOrder (matchSellGo takerId b h).1 takerId).volume →
    ∀ e ∈ (matchSellGo takerId b h).1.bids_heap, e.1 < (getOrder b takerId).price := by
  induction h with
  | nil =>
    intro b hh hs hT hv e he
    have : (matchSellGo takerId b []).1.bids_heap = b.bids_heap := rfl
    rw [this, hh] at he
    cases he
  | cons e0 rest ih =>
    intro b hh hs hT hv e he
    obtain ⟨price, qid⟩ := e0
    by_cases hc : 0 < (getOrder b takerId).volume ∧ (getOrder b takerId).price ≤ price
    · rcases hq : queueOf b qid with _ | ⟨head, tail⟩
      · simp only [matchSellGo, if_pos hc, hq] at hv he
        exact ih { b with
            bids_heap := rest
            queue_map := aerase b.queue_map (price, Side.BUY) } rfl hs.of_cons hT hv e he
      · simp only [matchSellGo, if_pos hc, hq] at hv he
        simp only [runQueue] at hv he
        by_cases hq2 : queueOf (runQueueGo takerId qid b (queueOf b qid)).1 qid = []
        · rw [if_pos hq2] at hv he
          have hT2 := runQueueGo_taker_notin takerId qid b hT
          have hps := runQueueGo_priceSide takerId qid (queueOf b qid) b takerId
          have := ih
            { (runQueueGo takerId qid b (queueOf b qid)).1 with
              bids_heap := rest
              queue_map := aerase (runQueueGo takerId qid b (queueOf b qid)).1.queue_map
                (price, Side.BUY)
              volume_map := if vget (runQueueGo takerId qid b (queueOf b qid)).1.volume_map
                    (price, Side.BUY) ≤ 0
                  then aerase (runQueueGo takerId qid b (queueOf b qid)).1.volume_map
                    (price, Side.BUY)
                  else (runQueueGo takerId qid b (queueOf b qid)).1.volume_map }
            rfl hs.of_cons hT2 hv e he
          rw [show (getOrder { (runQueueGo takerId qid b (queueOf b qid)).1 with
              bids_heap := rest
              queue_map := aerase (runQueueGo takerId qid b (queueOf b qid)).1.queue_map
                (price, Side.BUY)
              volume_map := if vget (runQueueGo takerId qid b (queueOf b qid)).1.volume_map
                    (price, Side.BUY) ≤ 0
                  then aerase (runQueueGo takerId qid b (queueOf b qid)).1.volume_map
                    (price, Side.BUY)
                  else (runQueueGo takerId qid b (queueOf b qid)).1.volume_map } takerId).price =
              (getOrder b takerId).price from hps.1] at this
          exact this
        · rw [if_neg hq2] at hv he
          exact absurd (runQueueGo_exit takerId qid (queueOf b qid) b rfl (hT qid) hq2)
            (not_le.mpr hv)
    · have hr : matchSellGo takerId b ((price, qid) :: rest) = (b, []) := by
        simp only [matchSellGo, if_neg hc]
      rw [hr] at hv he
      push_neg at hc
      have hpp : price < (getOrder b takerId).price := hc hv
      have heb : e ∈ b.bids_heap := he
      rw [hh] at heb
      rcases List.mem_cons.mp heb with he' | he'
      · rw [he']
        exact hpp
      · rw [List.pairwise_cons] at hs
        exact lt_of_le_of_lt (hs.1 e he') hpp

/-- Resting a fresh positive-volume order keeps the book well formed;
the non-crossing hypotheses say the rested price does not touch or
cross the opposite heap. -/
theorem add_order_to_book_WF (b : Book) (oid : Nat) (hwf : HeapsWF b)
    (hvol : 0 < (getOrder b oid).volume)
    (hfresh : ∀ qid, oid ∉ queueOf b qid)
    (hncb : (getOrder b oid).side = Side.BUY →
      ∀ e ∈ b.asks_heap, (getOrder b oid).price < e.1)
    (hncs : (getOrder b oid).side = Side.SELL →
      ∀ e ∈ b.bids_heap, e.1 < (getOrder b oid).price) :
    HeapsWF (add_order_to_book b oid) := by
  obtain ⟨ws1, ws2, wn, wca, wcb, wqm, wqs, wqb, wnc, wvm⟩ := hwf
  obtain ⟨q1, q2, q3, q4⟩ := wqb
  cases halo : alookup b.queue_map ((getOrder b oid).price, (getOrder b oid).side) with
  | some qid =>
    have heq : add_order_to_book b oid = { b with
        volume_map := ainsert b.volume_map ((getOrder b oid).price, (getOrder b oid).side)
          (vget b.volume_map ((getOrder b oid).price, (getOrder b oid).side) +
            (getOrder b oid).volume)
        queues := ainsert b.queues qid (queueOf b qid ++ [oid]) } := by
      rw [add_order_to_book]
      simp only [halo]
      rfl
    rw [heq]
    have hbind := alookup_mem b.queue_map _ _ halo
    obtain ⟨hx, hy⟩ := wqm _ hbind
    have hqself : ∀ x : Nat, queueOf { b with
        volume_map := ainsert b.volume_map ((getOrder b oid).price, (getOrder b oid).side)
          (vget b.volume_map ((getOrder b oid).price, (getOrder b oid).side) +
            (getOrder b oid).volume)
        queues := ainsert b.queues qid (queueOf b qid ++ [oid]) } x =
        if x = qid then queueOf b qid ++ [oid] else queueOf b x := by
      intro x
      by_cases hx2 : x = qid
      · rw [if_pos hx2, hx2, queueOf]
        dsimp only
        rw [alookup_ainsert_self]
        rfl
      · rw [if_neg hx2, queueOf, queueOf]
        dsimp only
        rw [alookup_ainsert_ne _ _ _ _ (fun he => hx2 he.symm)]
        rfl
    have hvg : ∀ k : Rat × Side, k ≠ ((getOrder b oid).price, (getOrder b oid).side) →
        vget (ainsert b.volume_map ((getOrder b oid).price, (getOrder b oid).side)
          (vget b.volume_map ((getOrder b oid).price, (getOrder b oid).side) +
            (getOrder b oid).volume)) k = vget b.volume_map k := by
      intro k hk
      rw [vget, alookup_ainsert_ne _ _ _ _ (fun he => hk he.symm), vget]
    refine ⟨ws1, ws2, wn, ?_, ?_, ?_, ?_, ⟨q1, q2, q3, ?_⟩, ?_, ainsert_fst_nodup _ _ _ wvm⟩
    · intro e2 he2 oid2 ho2
      rw [hqself e2.2] at ho2
      by_cases h2 : e2.2 = qid
      · rw [if_pos h2] at ho2
        rcases List.mem_append.mp ho2 with ho' | ho'
        · rw [← h2] at ho'
          exact wca e2 he2 oid2 ho'
        · obtain ⟨he1, he2s⟩ := hx e2 he2 h2
          rw [List.mem_singleton.mp ho']
          exact ⟨he1.symm, he2s, hvol⟩
      · rw [if_neg h2] at ho2
        exact wca e2 he2 oid2 ho2
    · intro e2 he2 oid2 ho2
      rw [hqself e2.2] at ho2
      by_cases h2 : e2.2 = qid
      · rw [if_pos h2] at ho2
        rcases List.mem_append.mp ho2 with ho' | ho'
        · rw [← h2] at ho'
          exact wcb e2 he2 oid2 ho'
        · obtain ⟨he1, he2s⟩ := hy e2 he2 h2
          rw [List.mem_singleton.mp ho']
          exact ⟨he1.symm, he2s, hvol⟩
      · rw [if_neg h2] at ho2
        exact wcb e2 he2 oid2 ho2
    · intro kv hk
      exact wqm kv hk
    · refine ⟨fun x => ?_, fun x y hxy oid2 ho2 => ?_⟩
      · rw [hqself x]
        by_cases h2 : x = qid
        · rw [if_pos h2]
          rw [List.nodup_append]
          refine ⟨wqs.1 qid, List.nodup_singleton _, ?_⟩
          intro a ha hb
          rw [List.mem_singleton.mp hb] at ha
          exact hfresh qid ha
        · rw [if_neg h2]
          exact wqs.1 x
      · rw [hqself x] at ho2
        rw [hqself y]
        by_cases h2 : x = qid
        · rw [if_pos h2] at ho2
          rw [if_neg (h2 ▸ hxy).symm]
          rcases List.mem_append.mp ho2 with ho' | ho'
          · exact wqs.2 qid y (h2 ▸ hxy) oid2 (h2 ▸ ho')
          · rw [List.mem_singleton.mp ho']
            exact hfresh y
        · rw [if_neg h2] at ho2
          by_cases h3 : y = qid
          · rw [if_pos h3]
            intro hmem
            rcases List.mem_append.mp hmem with ho' | ho'
            · exact wqs.2 x qid (h3 ▸ hxy) oid2 ho2 ho'
            · rw [List.mem_singleton.mp ho'] at ho2
              exact hfresh x ho2
          · rw [if_neg h3]
            exact wqs.2 x y hxy oid2 ho2
    · intro kv hk
      rcases mem_ainsert _ _ _ kv hk with hk' | hk'
      · rw [hk']
        exact q3 _ hbind
      · exact q4 kv hk'
    · intro eb heb ea hea hb1 ha1
      cases hs : (getOrder b oid).side with
      | BUY =>
        have ha1' : 0 < vget b.volume_map (ea.1, Side.SELL) := by
          rw [hvg (ea.1, Side.SELL) (by
            rw [hs]
            exact fun he => Side.noConfusion (congrArg Prod.snd he))] at ha1
          exact ha1
        by_cases hkb : ((eb.1, Side.BUY) : Rat × Side) =
            ((getOrder b oid).price, (getOrder b oid).side)
        · have hbp : eb.1 = (getOrder b oid).price := congrArg Prod.fst hkb
          rw [hbp]
          exact hncb hs ea hea
        · rw [hvg _ hkb] at hb1
          exact wnc eb heb ea hea hb1 ha1'
      | SELL =>
        have hb1' : 0 < vget b.volume_map (eb.1, Side.BUY) := by
          rw [hvg (eb.1, Side.BUY) (by
            rw [hs]
            exact fun he => Side.noConfusion (congrArg Prod.snd he))] at hb1
          exact hb1
        by_cases hka : ((ea.1, Side.SELL) : Rat × Side) =
            ((getOrder b oid).price, (getOrder b oid).side)
        · have hap : ea.1 = (getOrder b oid).price := congrArg Prod.fst hka
          rw [hap]
          exact hncs hs eb heb
        · rw [hvg _ hka] at ha1
          exact wnc eb heb ea hea hb1' ha1
  | none =>
    have hq0a : ∀ e ∈ b.asks_heap, e.2 ≠ b.next_queue :=
      fun e he heq => absurd (heq ▸ q1 e he) (lt_irrefl _)
    have hq0b : ∀ e ∈ b.bids_heap, e.2 ≠ b.next_queue :=
      fun e he heq => absurd (heq ▸ q2 e he) (lt_irrefl _)
    have hq0snd : b.next_queue ∉ ((b.asks_heap ++ b.bids_heap).map Prod.snd) := by
      intro hm
      obtain ⟨e, he, heq⟩ := List.exists_of_mem_map hm
      rcases List.mem_append.mp he with he' | he'
      · exact hq0a e he' heq
      · exact hq0b e he' heq
    cases hs : (getOrder b oid).side with
    | SELL =>
      have halo' : alookup b.queue_map ((getOrder b oid).price, Side.SELL) = none := by
        rw [← hs]
        exact halo
      have heq : add_order_to_book b oid = { b with
          volume_map := ainsert b.volume_map ((getOrder b oid).price, Side.SELL)
            (vget b.volume_map ((getOrder b oid).price, Side.SELL) + (getOrder b oid).volume)
          queues := ainsert b.queues b.next_queue [oid]
          next_queue := b.next_queue + 1
          queue_map := ainsert b.queue_map ((getOrder b oid).price, Side.SELL) b.next_queue
          asks_heap := heapInsertAsks b.asks_heap ((getOrder b oid).price, b.next_queue) } := by
        rw [add_order_to_book]
        simp only [hs, halo']
      rw [heq]
      have hqself : ∀ x : Nat, queueOf { b with
          volume_map := ainsert b.volume_map ((getOrder b oid).price, Side.SELL)
            (vget b.volume_map ((getOrder b oid).price, Side.SELL) + (getOrder b oid).volume)
          queues := ainsert b.queues b.next_queue [oid]
          next_queue := b.next_queue + 1
          queue_map := ainsert b.queue_map ((getOrder b oid).price, Side.SELL) b.next_queue
          asks_heap := heapInsertAsks b.asks_heap ((getOrder b oid).price, b.next_queue) } x =
          if x = b.next_queue then [oid] else queueOf b x := by
        intro x
        by_cases hx2 : x = b.next_queue
        · rw [if_pos hx2, hx2, queueOf]
          dsimp only
          rw [alookup_ainsert_self]
          rfl
        · rw [if_neg hx2, queueOf, queueOf]
          dsimp only
          rw [alookup_ainsert_ne _ _ _ _ (fun he => hx2 he.symm)]
      have hvg : ∀ k : Rat × Side, k ≠ ((getOrder b oid).price, Side.SELL) →
          vget (ainsert b.volume_map ((getOrder b oid).price, Side.SELL)
            (vget b.volume_map ((getOrder b oid).price, Side.SELL) +
              (getOrder b oid).volume)) k = vget b.volume_map k := by
        intro k hk
        rw [vget, alookup_ainsert_ne _ _ _ _ (fun he => hk he.symm), vget]
      have hmemi : ∀ e2 ∈ heapInsertAsks b.asks_heap ((getOrder b oid).price, b.next_queue),
          e2 = ((getOrder b oid).price, b.next_queue) ∨ e2 ∈ b.asks_heap := by
        intro e2 he2
        exact List.mem_cons.mp ((heapInsertAsks_perm _ _).mem_iff.mp he2)
      refine ⟨heapInsertAsks_sorted _ _ ws1, ws2, ?_, ?_, ?_, ?_, ?_, ?_, ?_,
        ainsert_fst_nodup _ _ _ wvm⟩
      · have hperm : ((heapInsertAsks b.asks_heap ((getOrder b oid).price, b.next_queue) ++
            b.bids_heap).map Prod.snd).Perm
            (b.next_queue :: (b.asks_heap ++ b.bids_heap).map Prod.snd) := by
          have hp := ((heapInsertAsks_perm b.asks_heap
            ((getOrder b oid).price, b.next_queue)).append_right b.bids_heap).map Prod.snd
          rw [List.cons_append, List.map_cons] at hp
          exact hp
        rw [hperm.nodup_iff]
        rw [List.nodup_cons]
        exact ⟨hq0snd, wn⟩
      · intro e2 he2 oid2 ho2
        rw [hqself e2.2] at ho2
        rcases hmemi e2 he2 with he' | he'
        · rw [he'] at ho2 ⊢
          rw [if_pos rfl] at ho2
          rw [List.mem_singleton.mp ho2]
          exact ⟨rfl, hs, hvol⟩
        · rw [if_neg (hq0a e2 he')] at ho2
          exact wca e2 he' oid2 ho2
      · intro e2 he2 oid2 ho2
        rw [hqself e2.2] at ho2
        rw [if_neg (hq0b e2 he2)] at ho2
        exact wcb e2 he2 oid2 ho2
      · intro kv hk
        rcases mem_ainsert _ _ _ kv hk with hk' | hk'
        · constructor
          · intro e2 he2 hesnd
            rcases hmemi e2 he2 with he' | he'
            · rw [hk', he']
              exact ⟨rfl, rfl⟩
            · rw [hk'] at hesnd
              exact absurd hesnd (hq0a e2 he')
          · intro e2 he2 hesnd
            rw [hk'] at hesnd
            exact absurd hesnd (hq0b e2 he2)
        · obtain ⟨hx, hy⟩ := wqm kv hk'
          constructor
          · intro e2 he2 hesnd
            rcases hmemi e2 he2 with he' | he'
            · rw [he'] at hesnd
              have h3 := q3 kv hk'
              rw [← hesnd] at h3
              exact absurd h3 (lt_irrefl _)
            · exact hx e2 he' hesnd
          · intro e2 he2 hesnd
            exact hy e2 he2 hesnd
      · refine ⟨fun x => ?_, fun x y hxy oid2 ho2 => ?_⟩
        · rw [hqself x]
          by_cases h2 : x = b.next_queue
          · rw [if_pos h2]
            exact List.nodup_singleton _
          · rw [if_neg h2]
            exact wqs.1 x
        · rw [hqself x] at ho2
          rw [hqself y]
          by_cases h2 : x = b.next_queue
          · rw [if_pos h2] at ho2
            rw [if_neg (h2 ▸ hxy).symm]
            rw [List.mem_singleton.mp ho2]
            exact hfresh y
          · rw [if_neg h2] at ho2
            by_cases h3 : y = b.next_queue
            · rw [if_pos h3]
              intro hmem
              rw [List.mem_singleton.mp hmem] at ho2
              exact hfresh x ho2
            · rw [if_neg h3]
              exact wqs.2 x y hxy oid2 ho2
      · refine ⟨?_, ?_, ?_, ?_⟩
        · intro e2 he2
          show e2.2 < b.next_queue + 1
          rcases hmemi e2 he2 with he' | he'
          · rw [he']
            exact Nat.lt_succ_self _
          · exact Nat.lt_succ_of_lt (q1 e2 he')
        · intro e2 he2
          exact Nat.lt_succ_of_lt (q2 e2 he2)
        · intro kv hk
          show kv.2 < b.next_queue + 1
          rcases mem_ainsert _ _ _ kv hk with hk' | hk'
          · rw [hk']
            exact Nat.lt_succ_self _
          · exact Nat.lt_succ_of_lt (q3 kv hk')
        · intro kv hk
          show kv.1 < b.next_queue + 1
          rcases mem_ainsert _ _ _ kv hk with hk' | hk'
          · rw [hk']
            exact Nat.lt_succ_self _
          · exact Nat.lt_succ_of_lt (q4 kv hk')
      · intro eb heb ea hea hb1 ha1
        have hb1' : 0 < vget b.volume_map (eb.1, Side.BUY) := by
          rw [hvg (eb.1, Side.BUY)
            (fun he => Side.noConfusion (congrArg Prod.snd he))] at hb1
          exact hb1
        rcases hmemi ea hea with he' | he'
        · have hap : ea.1 = (getOrder b oid).price := by
            rw [he']
          rw [hap]
          exact hncs hs eb heb
        · by_cases hka : ((ea.1, Side.SELL) : Rat × Side) =
              ((getOrder b oid).price, Side.SELL)
          · have hap : ea.1 = (getOrder b oid).price := congrArg Prod.fst hka
            rw [hap]
            exact hncs hs eb heb
          · rw [hvg _ hka] at ha1
            exact wnc eb heb ea he' hb1' ha1
    | BUY =>
      have halo' : alookup b.queue_map ((getOrder b oid).price, Side.BUY) = none := by
        rw [← hs]
        exact halo
      have heq : add_order_to_book b oid = { b with
          volume_map := ainsert b.volume_map ((getOrder b oid).price, Side.BUY)
            (vget b.volume_map ((getOrder b oid).price, Side.BUY) + (getOrder b oid).volume)
          queues := ainsert b.queues b.next_queue [oid]
          next_queue := b.next_queue + 1
          queue_map := ainsert b.queue_map ((getOrder b oid).price, Side.BUY) b.next_queue
          bids_heap := heapInsertBids b.bids_heap ((getOrder b oid).price, b.next_queue) } := by
        rw [add_order_to_book]
        simp only [hs, halo']
      rw [heq]
      have hqself : ∀ x : Nat, queueOf { b with
          volume_map := ainsert b.volume_map ((getOrder b oid).price, Side.BUY)
            (vget b.volume_map ((getOrder b oid).price, Side.BUY) + (getOrder b oid).volume)
          queues := ainsert b.queues b.next_queue [oid]
          next_queue := b.next_queue + 1
          queue_map := ainsert b.queue_map ((getOrder b oid).price, Side.BUY) b.next_queue
          bids_heap := heapInsertBids b.bids_heap ((getOrder b oid).price, b.next_queue) } x =
          if x = b.next_queue then [oid] else queueOf b x := by
        intro x
        by_cases hx2 : x = b.next_queue
        · rw [if_pos hx2, hx2, queueOf]
          dsimp only
          rw [alookup_ainsert_self]
          rfl
        · rw [if_neg hx2, queueOf, queueOf]
          dsimp only
          rw [alookup_ainsert_ne _ _ _ _ (fun he => hx2 he.symm)]
      have hvg : ∀ k : Rat × Side, k ≠ ((getOrder b oid).price, Side.BUY) →
          vget (ainsert b.volume_map ((getOrder b oid).price, Side.BUY)
            (vget b.volume_map ((getOrder b oid).price, Side.BUY) +
              (getOrder b oid).volume)) k = vget b.volume_map k := by
        intro k hk
        rw [vget, alookup_ainsert_ne _ _ _ _ (fun he => hk he.symm), vget]
      have hmemi : ∀ e2 ∈ heapInsertBids b.bids_heap ((getOrder b oid).price, b.next_queue),
          e2 = ((getOrder b oid).price, b.next_queue) ∨ e2 ∈ b.bids_heap := by
        intro e2 he2
        exact List.mem_cons.mp ((heapInsertBids_perm _ _).mem_iff.mp he2)
      refine ⟨ws1, heapInsertBids_sorted _ _ ws2, ?_, ?_, ?_, ?_, ?_, ?_, ?_,
        ainsert_fst_nodup _ _ _ wvm⟩
      · have hperm : ((b.asks_heap ++
            heapInsertBids b.bids_heap ((getOrder b oid).price, b.next_queue)).map
            Prod.snd).Perm
            (b.next_queue :: (b.asks_heap ++ b.bids_heap).map Prod.snd) := by
          have hp := ((heapInsertBids_perm b.bids_heap
            ((getOrder b oid).price, b.next_queue)).append_left b.asks_heap).map Prod.snd
          refine hp.trans ?_
          rw [List.map_append, List.map_append, List.map_cons]
          exact (List.perm_middle).trans (List.Perm.refl _)
        rw [hperm.nodup_iff]
        rw [List.nodup_cons]
        exact ⟨hq0snd, wn⟩
      · intro e2 he2 oid2 ho2
        rw [hqself e2.2] at ho2
        rw [if_neg (hq0a e2 he2)] at ho2
        exact wca e2 he2 oid2 ho2
      · intro e2 he2 oid2 ho2
        rw [hqself e2.2] at ho2
        rcases hmemi e2 he2 with he' | he'
        · rw [he'] at ho2 ⊢
          rw [if_pos rfl] at ho2
          rw [List.mem_singleton.mp ho2]
          exact ⟨rfl, hs, hvol⟩
        · rw [if_neg (hq0b e2 he')] at ho2
          exact wcb e2 he' oid2 ho2
      · intro kv hk
        rcases mem_ainsert _ _ _ kv hk with hk' | hk'
        · constructor
          · intro e2 he2 hesnd
            rw [hk'] at hesnd
            exact absurd hesnd (hq0a e2 he2)
          · intro e2 he2 hesnd
            rcases hmemi e2 he2 with he' | he'
            · rw [hk', he']
              exact ⟨rfl, rfl⟩
            · rw [hk'] at hesnd
              exact absurd hesnd (hq0b e2 he')
        · obtain ⟨hx, hy⟩ := wqm kv hk'
          constructor
          · intro e2 he2 hesnd
            exact hx e2 he2 hesnd
          · intro e2 he2 hesnd
            rcases hmemi e2 he2 with he' | he'
            · rw [he'] at hesnd
              have h3 := q3 kv hk'
              rw [← hesnd] at h3
              exact absurd h3 (lt_irrefl _)
            · exact hy e2 he' hesnd
      · refine ⟨fun x => ?_, fun x y hxy oid2 ho2 => ?_⟩
        · rw [hqself x]
          by_cases h2 : x = b.next_queue
          · rw [if_pos h2]
            exact List.nodup_singleton _
          · rw [if_neg h2]
            exact wqs.1 x
        · rw [hqself x] at ho2
          rw [hqself y]
          by_cases h2 : x = b.next_queue
          · rw [if_pos h2] at ho2
            rw [if_neg (h2 ▸ hxy).symm]
            rw [List.mem_singleton.mp ho2]
            exact hfresh y
          · rw [if_neg h2] at ho2
            by_cases h3 : y = b.next_queue
            · rw [if_pos h3]
              intro hmem
              rw [List.mem_singleton.mp hmem] at ho2
              exact hfresh x ho2
            · rw [if_neg h3]
              exact wqs.2 x y hxy oid2 ho2
      · refine ⟨?_, ?_, ?_, ?_⟩
        · intro e2 he2
          exact Nat.lt_succ_of_lt (q1 e2 he2)
        · intro e2 he2
          show e2.2 < b.next_queue + 1
          rcases hmemi e2 he2 with he' | he'
          · rw [he']
            exact Nat.lt_succ_self _
          · exact Nat.lt_succ_of_lt (q2 e2 he')
        · intro kv hk
          show kv.2 < b.next_queue + 1
          rcases mem_ainsert _ _ _ kv hk with hk' | hk'
          · rw [hk']
            exact Nat.lt_succ_self _
          · exact Nat.lt_succ_of_lt (q3 kv hk')
        · intro kv hk
          show kv.1 < b.next_queue + 1
          rcases mem_ainsert _ _ _ kv hk with hk' | hk'
          · rw [hk']
            exact Nat.lt_succ_self _
          · exact Nat.lt_succ_of_lt (q4 kv hk')
      · intro eb heb ea hea hb1 ha1
        have ha1' : 0 < vget b.volume_map (ea.1, Side.SELL) := by
          rw [hvg (ea.1, Side.SELL)
            (fun he => Side.noConfusion (congrArg Prod.snd he))] at ha1
          exact ha1
        rcases hmemi eb heb with he' | he'
        · have hbp : eb.1 = (getOrder b oid).price := by
            rw [he']
          rw [hbp]
          exact hncb hs ea hea
        · by_cases hkb : ((eb.1, Side.BUY) : Rat × Side) =
              ((getOrder b oid).price, Side.BUY)
          · have hbp : eb.1 = (getOrder b oid).price := congrArg Prod.fst hkb
            rw [hbp]
            exact hncb hs ea hea
          · rw [hvg _ hkb] at hb1
            exact wnc eb he' ea hea hb1 ha1'

/-- HeapsWF only looks at seven fields. -/
theorem heapsWF_congr (b b' : Book) (ha : b'.asks_heap = b.asks_heap)
    (hb : b'.bids_heap = b.bids_heap) (hq : b'.queues = b.queues)
    (ho : b'.orders = b.orders) (hm : b'.queue_map = b.queue_map)
    (hv : b'.volume_map = b.volume_map) (hn : b'.next_queue = b.next_queue)
    (hwf : HeapsWF b) : HeapsWF b' := by
  obtain ⟨ws1, ws2, wn, wca, wcb, wqm, wqs, wqb, wnc, wvm⟩ := hwf
  have hqof : ∀ x, queueOf b' x = queueOf b x := by
    intro x
    rw [queueOf, queueOf, hq]
  have hgo : ∀ x, getOrder b' x = getOrder b x := getOrder_congr b b' ho
  have hcoh : ∀ (s0 : Side) (e : Rat × Nat), EntryCoh b s0 e → EntryCoh b' s0 e := by
    intro s0 e hce oid hoid
    rw [hqof] at hoid
    rw [hgo]
    exact hce oid hoid
  refine ⟨ha ▸ ws1, hb ▸ ws2, ?_, ?_, ?_, ?_, ?_, ?_, ?_, hv ▸ wvm⟩
  · rw [ha, hb]
    exact wn
  · intro e he
    rw [ha] at he
    exact hcoh Side.SELL e (wca e he)
  · intro e he
    rw [hb] at he
    exact hcoh Side.BUY e (wcb e he)
  · intro kv hk
    rw [hm] at hk
    obtain ⟨hx, hy⟩ := wqm kv hk
    constructor
    · intro e he
      rw [ha] at he
      exact hx e he
    · intro e he
      rw [hb] at he
      exact hy e he
  · refine ⟨fun x => ?_, fun x y hxy oid hoid => ?_⟩
    · rw [hqof]
      exact wqs.1 x
    · rw [hqof] at hoid
      rw [hqof]
      exact wqs.2 x y hxy oid hoid
  · obtain ⟨q1, q2, q3, q4⟩ := wqb
    refine ⟨?_, ?_, ?_, ?_⟩
    · intro e he
      rw [ha] at he
      rw [hn]
      exact q1 e he
    · intro e he
      rw [hb] at he
      rw [hn]
      exact q2 e he
    · intro kv hk
      rw [hm] at hk
      rw [hn]
      exact q3 kv hk
    · intro kv hk
      rw [hq] at hk
      rw [hn]
      exact q4 kv hk
  · intro eb heb ea hea hb1 ha1
    rw [hb] at heb
    rw [ha] at hea
    rw [hv] at hb1 ha1
    exact wnc eb heb ea hea hb1 ha1

/-- Popping heap prefixes keeps the bundle. -/
theorem heapsWF_subheaps (b : Book) (asksNew bidsNew : List (Rat × Nat))
    (hsa : asksNew <:+ b.asks_heap) (hsb : bidsNew <:+ b.bids_heap) (hwf : HeapsWF b) :
    HeapsWF { b with asks_heap := asksNew, bids_heap := bidsNew } := by
  obtain ⟨ws1, ws2, wn, wca, wcb, wqm, wqs, wqb, wnc, wvm⟩ := hwf
  have hina : ∀ e ∈ asksNew, e ∈ b.asks_heap := fun e he => hsa.subset he
  have hinb : ∀ e ∈ bidsNew, e ∈ b.bids_heap := fun e he => hsb.subset he
  refine ⟨ws1.sublist hsa.sublist, ws2.sublist hsb.sublist, ?_, ?_, ?_, ?_, wqs, ?_, ?_, wvm⟩
  · exact wn.sublist ((hsa.sublist.append hsb.sublist).map Prod.snd)
  · intro e he
    exact wca e (hina e he)
  · intro e he
    exact wcb e (hinb e he)
  · intro kv hk
    obtain ⟨hx, hy⟩ := wqm kv hk
    exact ⟨fun e he => hx e (hina e he), fun e he => hy e (hinb e he)⟩
  · obtain ⟨q1, q2, q3, q4⟩ := wqb
    exact ⟨fun e he => q1 e (hina e he), fun e he => q2 e (hinb e he), q3, q4⟩
  · intro eb heb ea hea hb1 ha1
    exact wnc eb (hinb eb heb) ea (hina ea hea) hb1 ha1

theorem update_price_history_asks (b : Book) :
    (update_price_history b).asks_heap = (popStaleAsks b.volume_map b.asks_heap).1 := by
  rw [update_price_history]
  exact ((recordMid_heaps_vm _ _).2.1).trans rfl

theorem update_price_history_bids (b : Book) :
    (update_price_history b).bids_heap = (popStaleBids b.volume_map b.bids_heap).1 := by
  rw [update_price_history]
  exact ((recordMid_heaps_vm _ _).1).trans rfl

theorem update_price_history_WF (b : Book) (hwf : HeapsWF b) :
    HeapsWF (update_price_history b) := by
  have h1 := heapsWF_subheaps b (popStaleAsks b.volume_map b.asks_heap).1
    (popStaleBids b.volume_map b.bids_heap).1 (popStaleAsks_suffix _ _)
    (popStaleBids_suffix _ _) hwf
  exact heapsWF_congr
    { b with
      asks_heap := (popStaleAsks b.volume_map b.asks_heap).1
      bids_heap := (popStaleBids b.volume_map b.bids_heap).1 }
    (update_price_history b)
    (update_price_history_asks b) (update_price_history_bids b)
    (update_price_history_queues b) (update_price_history_orders b)
    (update_price_history_queue_map b) (update_price_history_volume_map b)
    (update_price_history_next_queue b) h1

theorem placeStart_getOrder_self (b : Book) (c : String) (s : Side) (p : Rat) (v : Int) :
    getOrder (placeStart b c s p v) b.order_id_counter =
      { order_id := b.order_id_counter
        client := c
        side := s
        price := p
        volume := v
        timestamp := b.clock } := by
  rw [getOrder, placeStart]
  dsimp only
  rw [alookup_ainsert_self]
  rfl

theorem placeStart_getOrder_ne (b : Book) (c : String) (s : Side) (p : Rat) (v : Int)
    (oid : Nat) (h : oid ≠ b.order_id_counter) :
    getOrder (placeStart b c s p v) oid = getOrder b oid := by
  rw [getOrder, getOrder, placeStart]
  dsimp only
  rw [alookup_ainsert_ne _ _ _ _ (Ne.symm h)]

theorem placeStart_taker_fresh (b : Book) (c : String) (s : Side) (p : Rat) (v : Int)
    (hids : IdsBound b) :
    ∀ qid, b.order_id_counter ∉ queueOf (placeStart b c s p v) qid := by
  intro qid hmem
  have : queueOf (placeStart b c s p v) qid = queueOf b qid := rfl
  rw [this] at hmem
  exact absurd (queueOf_bound b.order_id_counter b qid hids _ hmem) (lt_irrefl _)

theorem placeStart_WF (b : Book) (c : String) (s : Side) (p : Rat) (v : Int)
    (hwf : HeapsWF b) (hids : IdsBound b) : HeapsWF (placeStart b c s p v) := by
  obtain ⟨ws1, ws2, wn, wca, wcb, wqm, wqs, wqb, wnc, wvm⟩ := hwf
  have hqof : ∀ x, queueOf (placeStart b c s p v) x = queueOf b x := fun _ => rfl
  have hcoh : ∀ (s0 : Side) (e : Rat × Nat), EntryCoh b s0 e →
      EntryCoh (placeStart b c s p v) s0 e := by
    intro s0 e hce oid hoid
    rw [hqof] at hoid
    have hne : oid ≠ b.order_id_counter := fun heq =>
      absurd (heq ▸ queueOf_bound b.order_id_counter b e.2 hids oid hoid) (lt_irrefl _)
    rw [placeStart_getOrder_ne b c s p v oid hne]
    exact hce oid hoid
  refine ⟨ws1, ws2, wn, ?_, ?_, wqm, ?_, wqb, wnc, wvm⟩
  · intro e he
    exact hcoh Side.SELL e (wca e he)
  · intro e he
    exact hcoh Side.BUY e (wcb e he)
  · refine ⟨fun x => ?_, fun x y hxy oid hoid => ?_⟩
    · rw [hqof]
      exact wqs.1 x
    · rw [hqof] at hoid
      rw [hqof]
      exact wqs.2 x y hxy oid hoid

theorem cancelVolumeStep_WF (b : Book) (k : Rat × Side) (vol : Int) (hvol : 0 < vol)
    (hwf : HeapsWF b) : HeapsWF (cancelVolumeStep b k vol).1 := by
  obtain ⟨ws1, ws2, wn, wca, wcb, wqm, wqs, wqb, wnc, wvm⟩ := hwf
  rw [cancelVolumeStep]
  cases halo : alookup b.volume_map k with
  | none => exact ⟨ws1, ws2, wn, wca, wcb, wqm, wqs, wqb, wnc, wvm⟩
  | some v =>
    dsimp only
    have hvk : vget b.volume_map k = v := by
      rw [vget, halo, Option.getD_some]
    have hrefl : ∀ k2 : Rat × Side,
        0 < vget (if v - vol ≤ 0 then aerase b.volume_map k
          else ainsert b.volume_map k (v - vol)) k2 → 0 < vget b.volume_map k2 := by
      intro k2 hk2
      by_cases hks : k2 = k
      · rw [hks] at hk2 ⊢
        by_cases hc : v - vol ≤ 0
        · rw [if_pos hc, vget_aerase_self _ _ wvm] at hk2
          exact absurd hk2 (lt_irrefl 0)
        · rw [if_neg hc, vget, alookup_ainsert_self, Option.getD_some] at hk2
          rw [hvk]
          linarith
      · have : vget (if v - vol ≤ 0 then aerase b.volume_map k
            else ainsert b.volume_map k (v - vol)) k2 = vget b.volume_map k2 := by
          by_cases hc : v - vol ≤ 0
          · rw [if_pos hc, vget, alookup_aerase_ne _ _ _ (fun he => hks he.symm), vget]
          · rw [if_neg hc, vget, alookup_ainsert_ne _ _ _ _ (fun he => hks he.symm), vget]
        rw [this] at hk2
        exact hk2
    refine ⟨ws1, ws2, wn, wca, wcb, wqm, wqs, wqb, ?_, ?_⟩
    · intro eb heb ea hea hb1 ha1
      exact wnc eb heb ea hea (hrefl _ hb1) (hrefl _ ha1)
    · by_cases hc : v - vol ≤ 0
      · rw [if_pos hc]
        exact wvm.sublist ((aerase_sublist _ _).map _)
      · rw [if_neg hc]
        exact ainsert_fst_nodup _ _ _ wvm

theorem cancelQueueStep_WF (b : Book) (k : Rat × Side) (oid : Nat)
    (hwf : HeapsWF b) : HeapsWF (cancelQueueStep b k oid).1 := by
  obtain ⟨ws1, ws2, wn, wca, wcb, wqm, wqs, wqb, wnc, wvm⟩ := hwf
  obtain ⟨q1, q2, q3, q4⟩ := wqb
  rw [cancelQueueStep]
  cases halo : alookup b.queue_map k with
  | none => exact ⟨ws1, ws2, wn, wca, wcb, wqm, wqs, ⟨q1, q2, q3, q4⟩, wnc, wvm⟩
  | some qid =>
    dsimp only
    have hbind := alookup_mem b.queue_map _ _ halo
    by_cases hmem : oid ∈ queueOf b qid
    · rw [if_pos hmem]
      have hqof : ∀ (X : Book), X.queues = ainsert b.queues qid ((queueOf b qid).erase oid) →
          ∀ x, queueOf X x =
            if x = qid then (queueOf b qid).erase oid else queueOf b x := by
        intro X hX x
        by_cases hx2 : x = qid
        · rw [if_pos hx2, hx2, queueOf, hX, alookup_ainsert_self]
          rfl
        · rw [if_neg hx2, queueOf, hX, alookup_ainsert_ne _ _ _ _ (fun he => hx2 he.symm)]
          rfl
      have hqsane : ∀ (X : Book), X.queues = ainsert b.queues qid ((queueOf b qid).erase oid) →
          QueuesSane X := by
        intro X hX
        refine ⟨fun x => ?_, fun x y hxy oid2 ho2 => ?_⟩
        · rw [hqof X hX x]
          by_cases hx2 : x = qid
          · rw [if_pos hx2]
            exact (wqs.1 qid).erase oid
          · rw [if_neg hx2]
            exact wqs.1 x
        · rw [hqof X hX x] at ho2
          rw [hqof X hX y]
          by_cases hx2 : x = qid
          · rw [if_pos hx2] at ho2
            rw [if_neg (hx2 ▸ hxy).symm]
            exact wqs.2 qid y (hx2 ▸ hxy) oid2 (List.mem_of_mem_erase ho2)
          · rw [if_neg hx2] at ho2
            by_cases hy2 : y = qid
            · rw [if_pos hy2]
              intro hmem2
              exact wqs.2 x qid (hy2 ▸ hxy) oid2 ho2 (List.mem_of_mem_erase hmem2)
            · rw [if_neg hy2]
              exact wqs.2 x y hxy oid2 ho2
      have hcoh : ∀ (X : Book), X.queues = ainsert b.queues qid ((queueOf b qid).erase oid) →
          X.orders = b.orders →
          ∀ (s0 : Side) (e : Rat × Nat), EntryCoh b s0 e → EntryCoh X s0 e := by
        intro X hX hXo s0 e hce oid2 ho2
        rw [hqof X hX e.2] at ho2
        rw [getOrder_congr b X hXo]
        by_cases hx2 : e.2 = qid
        · rw [if_pos hx2] at ho2
          have := List.mem_of_mem_erase ho2
          rw [← hx2] at this
          exact hce oid2 this
        · rw [if_neg hx2] at ho2
          exact hce oid2 ho2
      have hqb : ∀ (X : Book), X.queues = ainsert b.queues qid ((queueOf b qid).erase oid) →
          X.next_queue = b.next_queue →
          ∀ kv ∈ X.queues, kv.1 < X.next_queue := by
        intro X hX hXn kv hk
        rw [hXn]
        rw [hX] at hk
        rcases mem_ainsert _ _ _ kv hk with hk' | hk'
        · rw [hk']
          exact q3 _ hbind
        · exact q4 kv hk'
      by_cases hemp : (queueOf b qid).erase oid = []
      · rw [if_pos hemp]
        refine ⟨ws1, ws2, wn, ?_, ?_, ?_, hqsane _ rfl, ⟨q1, q2, ?_, hqb _ rfl rfl⟩, wnc, wvm⟩
        · intro e he
          exact hcoh { b with
              queues := ainsert b.queues qid ((queueOf b qid).erase oid)
              queue_map := aerase b.queue_map k } rfl rfl Side.SELL e (wca e he)
        · intro e he
          exact hcoh { b with
              queues := ainsert b.queues qid ((queueOf b qid).erase oid)
              queue_map := aerase b.queue_map k } rfl rfl Side.BUY e (wcb e he)
        · intro kv hk
          exact wqm kv (mem_aerase _ _ _ hk)
        · intro kv hk
          exact q3 kv (mem_aerase _ _ _ hk)
      · rw [if_neg hemp]
        refine ⟨ws1, ws2, wn, ?_, ?_, wqm, hqsane _ rfl, ⟨q1, q2, q3, hqb _ rfl rfl⟩, wnc, wvm⟩
        · intro e he
          exact hcoh { b with
              queues := ainsert b.queues qid ((queueOf b qid).erase oid) } rfl rfl
            Side.SELL e (wca e he)
        · intro e he
          exact hcoh { b with
              queues := ainsert b.queues qid ((queueOf b qid).erase oid) } rfl rfl
            Side.BUY e (wcb e he)
    · rw [if_neg hmem]
      exact ⟨ws1, ws2, wn, wca, wcb, wqm, wqs, ⟨q1, q2, q3, q4⟩, wnc, wvm⟩

theorem add_order_asks_of_buy (b : Book) (oid : Nat)
    (hs : (getOrder b oid).side = Side.BUY) :
    (add_order_to_book b oid).asks_heap = b.asks_heap := by
  rw [add_order_to_book]
  cases halo : alookup b.queue_map ((getOrder b oid).price, (getOrder b oid).side) with
  | none => simp only [halo, hs]
  | some qid => simp only [halo]

theorem add_order_bids_of_sell (b : Book) (oid : Nat)
    (hs : (getOrder b oid).side = Side.SELL) :
    (add_order_to_book b oid).bids_heap = b.bids_heap := by
  rw [add_order_to_book]
  cases halo : alookup b.queue_map ((getOrder b oid).price, (getOrder b oid).side) with
  | none => simp only [halo, hs]
  | some qid => simp only [halo]

theorem placeRest_orders (b2 : Book) (oid : Nat) :
    (placeRest b2 oid).orders = b2.orders := by
  rw [placeRest]
  split
  · exact (add_order_to_book_frame _ _).2.2.2.2.2.2.2
  · rfl

/-- place_order keeps the book well formed. -/
theorem place_order_WF (b : Book) (c : String) (s : Side) (p : Rat) (v : Int)
    (hwf : HeapsWF b) (hids : IdsBound b) : HeapsWF (place_order b c s p v).1 := by
  cases s with
  | BUY =>
    have hwf1 := placeStart_WF b c Side.BUY p v hwf hids
    have hT1 := placeStart_taker_fresh b c Side.BUY p v hids
    obtain ⟨m1, m2, m3, m4, m5, m6⟩ := matchBuyGo_WF b.order_id_counter
      (placeStart b c Side.BUY p v).asks_heap (placeStart b c Side.BUY p v) rfl hwf1 hT1
    show HeapsWF (update_price_history (placeRest (matchBuyGo b.order_id_counter
      (placeStart b c Side.BUY p v) (placeStart b c Side.BUY p v).asks_heap).1
      b.order_id_counter))
    apply update_price_history_WF
    rw [placeRest]
    split
    · rename_i hv2
      apply add_order_to_book_WF _ _ m1 hv2 m2
      · intro _ e he
        have hexit := matchBuyGo_exit b.order_id_counter
          (placeStart b c Side.BUY p v).asks_heap (placeStart b c Side.BUY p v) rfl
          hwf1.1 hT1 hv2 e he
        rw [(m6 b.order_id_counter).1]
        exact hexit
      · intro hside
        exfalso
        have h1 : (getOrder (matchBuyGo b.order_id_counter (placeStart b c Side.BUY p v)
            (placeStart b c Side.BUY p v).asks_heap).1 b.order_id_counter).side =
            Side.BUY := by
          rw [(m6 b.order_id_counter).2.1, placeStart_getOrder_self]
        rw [h1] at hside
        exact Side.noConfusion hside
    · exact heapsWF_congr _ _ rfl rfl rfl rfl rfl rfl rfl m1
  | SELL =>
    have hwf1 := placeStart_WF b c Side.SELL p v hwf hids
    have hT1 := placeStart_taker_fresh b c Side.SELL p v hids
    obtain ⟨m1, m2, m3, m4, m5, m6⟩ := matchSellGo_WF b.order_id_counter
      (placeStart b c Side.SELL p v).bids_heap (placeStart b c Side.SELL p v) rfl hwf1 hT1
    show HeapsWF (update_price_history (placeRest (matchSellGo b.order_id_counter
      (placeStart b c Side.SELL p v) (placeStart b c Side.SELL p v).bids_heap).1
      b.order_id_counter))
    apply update_price_history_WF
    rw [placeRest]
    split
    · rename_i hv2
      apply add_order_to_book_WF _ _ m1 hv2 m2
      · intro hside
        exfalso
        have h1 : (getOrder (matchSellGo b.order_id_counter (placeStart b c Side.SELL p v)
            (placeStart b c Side.SELL p v).bids_heap).1 b.order_id_counter).side =
            Side.SELL := by
          rw [(m6 b.order_id_counter).2.1, placeStart_getOrder_self]
        rw [h1] at hside
        exact Side.noConfusion hside
      · intro _ e he
        have hexit := matchSellGo_exit b.order_id_counter
          (placeStart b c Side.SELL p v).bids_heap (placeStart b c Side.SELL p v) rfl
          hwf1.2.1 hT1 hv2 e he
        rw [(m6 b.order_id_counter).1]
        exact hexit
    · exact heapsWF_congr _ _ rfl rfl rfl rfl rfl rfl rfl m1

/-- cancel_order keeps the book well formed. -/
theorem cancel_order_WF (b : Book) (oid : Nat) (hwf : HeapsWF b) :
    HeapsWF (cancel_order b oid).1 := by
  rw [cancel_order]
  by_cases hn : oid ∉ b.order_map
  · rw [if_pos hn]
    exact hwf
  · rw [if_neg hn]
    by_cases hz : (getOrder b oid).volume ≤ 0
    · rw [if_pos hz]
      exact heapsWF_congr b _ rfl rfl rfl rfl rfl rfl rfl hwf
    · rw [if_neg hz]
      dsimp only
      have h1 := cancelVolumeStep_WF b ((getOrder b oid).price, (getOrder b oid).side)
        (getOrder b oid).volume (lt_of_not_le hz) hwf
      have h2 := cancelQueueStep_WF (cancelVolumeStep b
        ((getOrder b oid).price, (getOrder b oid).side) (getOrder b oid).volume).1
        ((getOrder b oid).price, (getOrder b oid).side) oid h1
      have h3 := heapsWF_congr _ _ rfl rfl rfl rfl rfl rfl rfl h2
      split
      · exact update_price_history_WF _ h3
      · exact h3

theorem heapsWF_init (limit : Nat) : HeapsWF (initBook limit) := by
  refine ⟨List.Pairwise.nil, List.Pairwise.nil, List.nodup_nil, ?_, ?_, ?_, ⟨?_, ?_⟩,
    ⟨?_, ?_, ?_, ?_⟩, ?_, List.nodup_nil⟩
  · intro e he
    exact absurd he (List.not_mem_nil _)
  · intro e he
    exact absurd he (List.not_mem_nil _)
  · intro kv hk
    exact absurd hk (List.not_mem_nil _)
  · intro qid
    exact List.nodup_nil
  · intro x y hxy o ho
    exact absurd ho (List.not_mem_nil _)
  · intro e he
    exact absurd he (List.not_mem_nil _)
  · intro e he
    exact absurd he (List.not_mem_nil _)
  · intro kv hk
    exact absurd hk (List.not_mem_nil _)
  · intro kv hk
    exact absurd hk (List.not_mem_nil _)
  · intro eb heb
    exact absurd heb (List.not_mem_nil _)

theorem heapsWF_applyOp (b : Book) (op : Op) (hids : IdsBound b) (hwf : HeapsWF b) :
    HeapsWF (applyOp b op) := by
  cases op with
  | place c s p v => exact place_order_WF b c s p v hwf hids
  | cancel oid => exact cancel_order_WF b oid hwf

/-- Every reachable state is well formed. -/
theorem heapsWF_reachable (b : Book) (hb : Reachable b) : HeapsWF b := by
  obtain ⟨limit, ops, rfl⟩ := hb
  rw [runOps]
  induction ops using List.reverseRecOn with
  | nil => exact heapsWF_init limit
  | append_singleton ops op ih =>
    rw [List.foldl_append, List.foldl_cons, List.foldl_nil]
    exact heapsWF_applyOp _ op (idsBound_reachable _ ⟨limit, ops, rfl⟩) ih

/-- C1: in every reachable state the book is not crossed: whenever
get_best_bid and get_best_ask both return a price, best bid < best ask;
and a freshly placed order that leaves residual volume rests at a price
that does not cross the opposite side's live best level (for a BUY
taker the post-place best ask stays strictly above its price,
symmetrically for SELL). -/
theorem C1_no_crossed_book (b : Book) (hb : Reachable b) :
    (∀ pb pa : Rat, (get_best_bid b).2 = some pb → (get_best_ask b).2 = some pa →
      pb < pa) ∧
    (∀ (c : String) (p : Rat) (v : Int),
      0 < (getOrder (place_order b c Side.BUY p v).1
        (place_order b c Side.BUY p v).2.1).volume →
      ∀ pa : Rat, (get_best_ask (place_order b c Side.BUY p v).1).2 = some pa → p < pa) ∧
    (∀ (c : String) (p : Rat) (v : Int),
      0 < (getOrder (place_order b c Side.SELL p v).1
        (place_order b c Side.SELL p v).2.1).volume →
      ∀ pb : Rat, (get_best_bid (place_order b c Side.SELL p v).1).2 = some pb →
        pb < p) := by
  have hwf := heapsWF_reachable b hb
  have hids := idsBound_reachable b hb
  refine ⟨?_, ?_, ?_⟩
  · intro pb pa hpb hpa
    obtain ⟨⟨qb, hqb⟩, hposb⟩ := popStaleBids_best b.volume_map b.bids_heap pb hpb
    obtain ⟨⟨qa, hqa⟩, hposa⟩ := popStaleAsks_best b.volume_map b.asks_heap pa hpa
    exact hwf.2.2.2.2.2.2.2.2.1 (pb, qb) hqb (pa, qa) hqa hposb hposa
  · intro c p v hv pa hpa
    have hwf1 := placeStart_WF b c Side.BUY p v hwf hids
    have hT1 := placeStart_taker_fresh b c Side.BUY p v hids
    obtain ⟨m1, m2, m3, m4, m5, m6⟩ := matchBuyGo_WF b.order_id_counter
      (placeStart b c Side.BUY p v).asks_heap (placeStart b c Side.BUY p v) rfl hwf1 hT1
    have horders : (place_order b c Side.BUY p v).1.orders =
        (matchBuyGo b.order_id_counter (placeStart b c Side.BUY p v)
          (placeStart b c Side.BUY p v).asks_heap).1.orders := by
      show (update_price_history (placeRest _ _)).orders = _
      rw [update_price_history_orders, placeRest_orders]
      rfl
    have hvM : 0 < (getOrder (matchBuyGo b.order_id_counter (placeStart b c Side.BUY p v)
        (placeStart b c Side.BUY p v).asks_heap).1 b.order_id_counter).volume := by
      rw [getOrder_congr _ _ horders] at hv
      exact hv
    have hexit := matchBuyGo_exit b.order_id_counter
      (placeStart b c Side.BUY p v).asks_heap (placeStart b c Side.BUY p v) rfl
      hwf1.1 hT1 hvM
    obtain ⟨⟨qa, hqa⟩, _⟩ := popStaleAsks_best (place_order b c Side.BUY p v).1.volume_map
      (place_order b c Side.BUY p v).1.asks_heap pa hpa
    have hsuf : (place_order b c Side.BUY p v).1.asks_heap <:+
        (placeRest (matchBuyGo b.order_id_counter (placeStart b c Side.BUY p v)
          (placeStart b c Side.BUY p v).asks_heap).1 b.order_id_counter).asks_heap := by
      show (update_price_history (placeRest _ _)).asks_heap <:+ _
      rw [update_price_history_asks]
      exact popStaleAsks_suffix _ _
    have hmem2 := hsuf.subset hqa
    have hside : (getOrder (matchBuyGo b.order_id_counter (placeStart b c Side.BUY p v)
        (placeStart b c Side.BUY p v).asks_heap).1 b.order_id_counter).side = Side.BUY := by
      rw [(m6 b.order_id_counter).2.1, placeStart_getOrder_self]
    have hrest : (placeRest (matchBuyGo b.order_id_counter (placeStart b c Side.BUY p v)
        (placeStart b c Side.BUY p v).asks_heap).1 b.order_id_counter).asks_heap =
        (matchBuyGo b.order_id_counter (placeStart b c Side.BUY p v)
          (placeStart b c Side.BUY p v).asks_heap).1.asks_heap := by
      by_cases hvr : 0 < (getOrder (matchBuyGo b.order_id_counter
          (placeStart b c Side.BUY p v) (placeStart b c Side.BUY p v).asks_heap).1
          b.order_id_counter).volume
      · rw [placeRest, if_pos hvr]
        exact add_order_asks_of_buy _ _ hside
      · rw [placeRest, if_neg hvr]
    rw [hrest] at hmem2
    have hfin := hexit (pa, qa) hmem2
    rw [placeStart_getOrder_self] at hfin
    exact hfin
  · intro c p v hv pb hpb
    have hwf1 := placeStart_WF b c Side.SELL p v hwf hids
    have hT1 := placeStart_taker_fresh b c Side.SELL p v hids
    obtain ⟨m1, m2, m3, m4, m5, m6⟩ := matchSellGo_WF b.order_id_counter
      (placeStart b c Side.SELL p v).bids_heap (placeStart b c Side.SELL p v) rfl hwf1 hT1
    have horders : (place_order b c Side.SELL p v).1.orders =
        (matchSellGo b.order_id_counter (placeStart b c Side.SELL p v)
          (placeStart b c Side.SELL p v).bids_heap).1.orders := by
      show (update_price_history (placeRest _ _)).orders = _
      rw [update_price_history_orders, placeRest_orders]
      rfl
    have hvM : 0 < (getOrder (matchSellGo b.order_id_counter (placeStart b c Side.SELL p v)
        (placeStart b c Side.SELL p v).bids_heap).1 b.order_id_counter).volume := by
      rw [getOrder_congr _ _ horders] at hv
      exact hv
    have hexit := matchSellGo_exit b.order_id_counter
      (placeStart b c Side.SELL p v).bids_heap (placeStart b c Side.SELL p v) rfl
      hwf1.2.1 hT1 hvM
    obtain ⟨⟨qb, hqb⟩, _⟩ := popStaleBids_best (place_order b c Side.SELL p v).1.volume_map
      (place_order b c Side.SELL p v).1.bids_heap pb hpb
    have hsuf : (place_order b c Side.SELL p v).1.bids_heap <:+
        (placeRest (matchSellGo b.order_id_counter (placeStart b c Side.SELL p v)
          (placeStart b c Side.SELL p v).bids_heap).1 b.order_id_counter).bids_heap := by
      show (update_price_history (placeRest _ _)).bids_heap <:+ _
      rw [update_price_history_bids]
      exact popStaleBids_suffix _ _
    have hmem2 := hsuf.subset hqb
    have hside : (getOrder (matchSellGo b.order_id_counter (placeStart b c Side.SELL p v)
        (placeStart b c Side.SELL p v).bids_heap).1 b.order_id_counter).side = Side.SELL := by
      rw [(m6 b.order_id_counter).2.1, placeStart_getOrder_self]
    have hrest : (placeRest (matchSellGo b.order_id_counter (placeStart b c Side.SELL p v)
        (placeStart b c Side.SELL p v).bids_heap).1 b.order_id_counter).bids_heap =
        (matchSellGo b.order_id_counter (placeStart b c Side.SELL p v)
          (placeStart b c Side.SELL p v).bids_heap).1.bids_heap := by
      by_cases hvr : 0 < (getOrder (matchSellGo b.order_id_counter
          (placeStart b c Side.SELL p v) (placeStart b c Side.SELL p v).bids_heap).1
          b.order_id_counter).volume
      · rw [placeRest, if_pos hvr]
        exact add_order_bids_of_sell _ _ hside
      · rw [placeRest, if_neg hvr]
    rw [hrest] at hmem2
    have hfin := hexit (pb, qb) hmem2
    rw [placeStart_getOrder_self] at hfin
    exact hfin

/-- Witness for C1 at a concrete reachable book: one bid at 100 and one
ask at 101 give best bid 100 < best ask 101, and a BUY at 100.5 that
rests keeps the best ask 101 strictly above its price. -/
theorem C1_witness : (100 : Rat) < 101 ∧ mkRat 201 2 < 101 := by
  have h1 : (get_best_bid (runOps 200 [Op.place "A" Side.BUY 100 10,
      Op.place "C" Side.SELL 101 5])).2 = some 100 := by decide
  have h2 : (get_best_ask (runOps 200 [Op.place "A" Side.BUY 100 10,
      Op.place "C" Side.SELL 101 5])).2 = some 101 := by decide
  have h3 : 0 < (getOrder (place_order (runOps 200 [Op.place "A" Side.BUY 100 10,
      Op.place "C" Side.SELL 101 5]) "B" Side.BUY (mkRat 201 2) 3).1
      (place_order (runOps 200 [Op.place "A" Side.BUY 100 10,
        Op.place "C" Side.SELL 101 5]) "B" Side.BUY (mkRat 201 2) 3).2.1).volume := by decide
  have h4 : (get_best_ask (place_order (runOps 200 [Op.place "A" Side.BUY 100 10,
      Op.place "C" Side.SELL 101 5]) "B" Side.BUY (mkRat 201 2) 3).1).2 = some 101 := by decide
  exact ⟨(C1_no_crossed_book (runOps 200 [Op.place "A" Side.BUY 100 10,
      Op.place "C" Side.SELL 101 5])
      ⟨200, [Op.place "A" Side.BUY 100 10, Op.place "C" Side.SELL 101 5], rfl⟩).1
      100 101 h1 h2,
    (C1_no_crossed_book (runOps 200 [Op.place "A" Side.BUY 100 10,
      Op.place "C" Side.SELL 101 5])
      ⟨200, [Op.place "A" Side.BUY 100 10, Op.place "C" Side.SELL 101 5], rfl⟩).2.1
      "B" (mkRat 201 2) 3 h3 101 h4⟩

/-! Bridging lemmas: the explicit-fraction helpers used on the
mid-price path are exactly the rational field operations, so
roundHalfEven, round2 and midOf compute round((best_bid+best_ask)/2, 2)
of the source. -/

theorem ratAdd_eq (x y : Rat) : ratAdd x y = x + y := by
  have hx : ((x.den : Rat)) ≠ 0 := Nat.cast_ne_zero.mpr x.den_nz
  have hy : ((y.den : Rat)) ≠ 0 := Nat.cast_ne_zero.mpr y.den_nz
  rw [ratAdd, Rat.mkRat_eq_div]
  conv_rhs => rw [← Rat.num_div_den x, ← Rat.num_div_den y]
  push_cast
  field_simp

theorem ratHalf_eq (x : Rat) : ratHalf x = x / 2 := by
  have hx : ((x.den : Rat)) ≠ 0 := Nat.cast_ne_zero.mpr x.den_nz
  rw [ratHalf, Rat.mkRat_eq_div]
  conv_rhs => rw [← Rat.num_div_den x]
  push_cast
  field_simp

theorem ratScale100_eq (x : Rat) : ratScale100 x = x * 100 := by
  have hx : ((x.den : Rat)) ≠ 0 := Nat.cast_ne_zero.mpr x.den_nz
  rw [ratScale100, Rat.mkRat_eq_div]
  conv_rhs => rw [← Rat.num_div_den x]
  push_cast
  field_simp

theorem ratSub_eq (x y : Rat) : ratSub x y = x - y := by
  have hx : ((x.den : Rat)) ≠ 0 := Nat.cast_ne_zero.mpr x.den_nz
  have hy : ((y.den : Rat)) ≠ 0 := Nat.cast_ne_zero.mpr y.den_nz
  rw [ratSub, Rat.mkRat_eq_div]
  conv_rhs => rw [← Rat.num_div_den x, ← Rat.num_div_den y]
  push_cast
  field_simp
  ring

theorem mkRat_one_den (n : Int) : mkRat n 1 = (n : Rat) := by
  rw [Rat.mkRat_eq_div]
  norm_num

theorem mkRat_half : mkRat 1 2 = (1 / 2 : Rat) := by
  rw [Rat.mkRat_eq_div]
  norm_num

/-- roundHalfEven is the round-half-to-even rule written with the floor
function of the field. -/
theorem roundHalfEven_eq (x : Rat) :
    roundHalfEven x =
      if x - ⌊x⌋ < 1 / 2 then ⌊x⌋
      else if (1 / 2 : Rat) < x - ⌊x⌋ then ⌊x⌋ + 1
      else if ⌊x⌋ % 2 = 0 then ⌊x⌋ else ⌊x⌋ + 1 := by
  simp only [roundHalfEven]
  have h1 : (x.num / (x.den : Int)) = ⌊x⌋ := Rat.floor_def.symm
  rw [h1, ratSub_eq, mkRat_one_den, mkRat_half]

/-- round2 is round(·, 2): scale by 100, round half even, rescale. -/
theorem round2_eq (x : Rat) :
    round2 x = ((roundHalfEven (x * 100) : Int) : Rat) / 100 := by
  rw [round2, ratScale100_eq, Rat.mkRat_eq_div]
  norm_num

/-- The two-sided mid is round2 of the arithmetic mean. -/
theorem midOf_some_some (bb ba : Rat) :
    midOf (some bb) (some ba) = some (round2 ((bb + ba) / 2)) := by
  simp only [midOf, ratHalf_eq, ratAdd_eq]

/-! Claim C4, amended part: what the snapshot does guarantee. -/

theorem snapSide_sound (vm : List ((Rat × Side) × Int)) (side : Side) :
    ∀ (n : Nat) (h : List (Rat × Nat)), ∀ pv ∈ snapSide vm side n h,
      pv.2 = vget vm (pv.1, side) ∧ 0 < pv.2 := by
  intro n h
  induction h generalizing n with
  | nil =>
    intro pv hpv
    cases n <;> cases hpv
  | cons e t ih =>
    intro pv hpv
    obtain ⟨p, q⟩ := e
    cases n with
    | zero => cases hpv
    | succ m =>
      rw [snapSide] at hpv
      by_cases hv : 0 < vget vm (p, side)
      · rw [if_pos hv] at hpv
        rcases List.mem_cons.mp hpv with h' | h'
        · rw [h']
          exact ⟨rfl, hv⟩
        · exact ih m pv h'
      · rw [if_neg hv] at hpv
        exact ih (m + 1) pv hpv

theorem snapSide_length (vm : List ((Rat × Side) × Int)) (side : Side) :
    ∀ (n : Nat) (h : List (Rat × Nat)), (snapSide vm side n h).length ≤ n := by
  intro n h
  induction h generalizing n with
  | nil =>
    cases n <;> simp [snapSide]
  | cons e t ih =>
    obtain ⟨p, q⟩ := e
    cases n with
    | zero => simp [snapSide]
    | succ m =>
      rw [snapSide]
      by_cases hv : 0 < vget vm (p, side)
      · rw [if_pos hv]
        rw [List.length_cons]
        exact Nat.succ_le_succ (ih m)
      · rw [if_neg hv]
        exact ih (m + 1)

theorem snapSide_prices_sublist (vm : List ((Rat × Side) × Int)) (side : Side) :
    ∀ (n : Nat) (h : List (Rat × Nat)),
      List.Sublist ((snapSide vm side n h).map Prod.fst) (h.map Prod.fst) := by
  intro n h
  induction h generalizing n with
  | nil =>
    cases n <;> simp [snapSide]
  | cons e t ih =>
    obtain ⟨p, q⟩ := e
    cases n with
    | zero => simp [snapSide]
    | succ m =>
      rw [snapSide]
      by_cases hv : 0 < vget vm (p, side)
      · rw [if_pos hv]
        rw [List.map_cons, List.map_cons]
        exact (ih m).cons₂ p
      · rw [if_neg hv]
        rw [List.map_cons]
        exact (ih (m + 1)).cons p

/-- C4, amended: for every reachable state and depth, each snapshot
side reports only levels whose current aggregate volume is strictly
positive (never a stale zero-volume level), with exactly that aggregate
volume, at most `levels` rows per side, bids in descending and asks in
ascending price order.  The original claim's "exactly the min(levels,
live) best levels" part is refuted by C4_snapshot_duplicate_level: a
price can be reported twice through duplicate heap entries. -/
theorem C4_snapshot_amended (b : Book) (hb : Reachable b) (levels : Nat) :
    (∀ pv ∈ (get_order_book_snapshot b levels).1,
      pv.2 = get_volume_at_price b pv.1 Side.BUY ∧ 0 < pv.2) ∧
    (∀ pv ∈ (get_order_book_snapshot b levels).2,
      pv.2 = get_volume_at_price b pv.1 Side.SELL ∧ 0 < pv.2) ∧
    (get_order_book_snapshot b levels).1.length ≤ levels ∧
    (get_order_book_snapshot b levels).2.length ≤ levels ∧
    List.Pairwise (fun x y : Rat × Int => y.1 ≤ x.1) (get_order_book_snapshot b levels).1 ∧
    List.Pairwise (fun x y : Rat × Int => x.1 ≤ y.1) (get_order_book_snapshot b levels).2 := by
  obtain ⟨ws1, ws2, _⟩ := heapsWF_reachable b hb
  refine ⟨?_, ?_, ?_, ?_, ?_, ?_⟩
  · intro pv hpv
    exact snapSide_sound b.volume_map Side.BUY levels (b.bids_heap.take (levels * 2 + 5))
      pv hpv
  · intro pv hpv
    exact snapSide_sound b.volume_map Side.SELL levels (b.asks_heap.take (levels * 2 + 5))
      pv hpv
  · exact snapSide_length b.volume_map Side.BUY levels (b.bids_heap.take (levels * 2 + 5))
  · exact snapSide_length b.volume_map Side.SELL levels (b.asks_heap.take (levels * 2 + 5))
  · have h1 : List.Pairwise (fun x y : Rat × Nat => y.1 ≤ x.1)
        (b.bids_heap.take (levels * 2 + 5)) := ws2.sublist (List.take_sublist _ _)
    have h2 : List.Pairwise (fun x y : Rat => y ≤ x)
        ((b.bids_heap.take (levels * 2 + 5)).map Prod.fst) := by
      rw [List.pairwise_map]
      exact h1
    have h3 := h2.sublist (snapSide_prices_sublist b.volume_map Side.BUY levels
      (b.bids_heap.take (levels * 2 + 5)))
    rw [List.pairwise_map] at h3
    exact h3
  · have h1 : List.Pairwise (fun x y : Rat × Nat => x.1 ≤ y.1)
        (b.asks_heap.take (levels * 2 + 5)) := ws1.sublist (List.take_sublist _ _)
    have h2 : List.Pairwise (fun x y : Rat => x ≤ y)
        ((b.asks_heap.take (levels * 2 + 5)).map Prod.fst) := by
      rw [List.pairwise_map]
      exact h1
    have h3 := h2.sublist (snapSide_prices_sublist b.volume_map Side.SELL levels
      (b.asks_heap.take (levels * 2 + 5)))
    rw [List.pairwise_map] at h3
    exact h3

/-- Witness for the amended C4 theorem at the duplicate-level state:
the reported ask row (101, 5) carries the true aggregate volume. -/
theorem C4_witness :
    (5 : Int) = get_volume_at_price (runOps 200 [Op.place "A" Side.SELL 100 5,
      Op.place "B" Side.SELL 101 5, Op.cancel 2, Op.place "C" Side.SELL 101 5])
      101 Side.SELL ∧ (0 : Int) < 5 :=
  (C4_snapshot_amended (runOps 200 [Op.place "A" Side.SELL 100 5,
      Op.place "B" Side.SELL 101 5, Op.cancel 2, Op.place "C" Side.SELL 101 5])
    ⟨200, [Op.place "A" Side.SELL 100 5, Op.place "B" Side.SELL 101 5, Op.cancel 2,
      Op.place "C" Side.SELL 101 5], rfl⟩ 5).2.1 (101, 5) (by decide)

/-! Claim C8: the trade log retains one entry per executed trade. -/

theorem runQueueGo_log (takerId qid : Nat) (q : List Nat) : ∀ b : Book,
    (runQueueGo takerId qid b q).1.trade_log =
      b.trade_log ++ (runQueueGo takerId qid b q).2.map tradeToLog := by
  induction q with
  | nil =>
    intro b
    show b.trade_log = b.trade_log ++ List.map tradeToLog []
    simp
  | cons makerId rest ih =>
    intro b
    by_cases hv : 0 < (getOrder b takerId).volume
    · have hlog : (tradeUpdates b takerId makerId).1.trade_log =
          b.trade_log ++ [tradeToLog (tradeUpdates b takerId makerId).2] := rfl
      by_cases hm : (getOrder (tradeUpdates b takerId makerId).1 makerId).volume = 0
      · simp only [runQueueGo, if_pos hv, hm, if_true]
        rw [List.map_cons]
        have h2 := ih (popMaker (tradeUpdates b takerId makerId).1 makerId qid rest)
        rw [h2, (popMaker_frame _ _ _ _).2.2.2.2.2.2.2.2.2.2.2, hlog]
        simp
      · simp only [runQueueGo, if_pos hv, hm, if_false]
        rw [hlog]
        rfl
    · have hr : runQueueGo takerId qid b (makerId :: rest) = (b, []) := by
        simp only [runQueueGo, if_neg hv]
      rw [hr]
      simp

theorem matchBuyGo_log (takerId : Nat) (h : List (Rat × Nat)) : ∀ b : Book,
    (matchBuyGo takerId b h).1.trade_log =
      b.trade_log ++ (matchBuyGo takerId b h).2.map tradeToLog := by
  induction h with
  | nil =>
    intro b
    show b.trade_log = b.trade_log ++ List.map tradeToLog []
    simp
  | cons e rest ih =>
    intro b
    obtain ⟨price, qid⟩ := e
    by_cases hc : 0 < (getOrder b takerId).volume ∧ price ≤ (getOrder b takerId).price
    · rcases hq : queueOf b qid with _ | ⟨head, tail⟩
      · simp only [matchBuyGo, if_pos hc, hq]
        rw [ih]
      · simp only [matchBuyGo, if_pos hc, hq]
        simp only [runQueue]
        by_cases hq2 : queueOf (runQueueGo takerId qid b (queueOf b qid)).1 qid = []
        · rw [if_pos hq2]
          dsimp only
          rw [ih, List.map_append, ← List.append_assoc]
          have h1 := runQueueGo_log takerId qid (queueOf b qid) b
          show (runQueueGo takerId qid b (queueOf b qid)).1.trade_log ++ _ = _
          rw [h1]
        · rw [if_neg hq2]
          exact runQueueGo_log takerId qid (queueOf b qid) b
    · have hr : matchBuyGo takerId b ((price, qid) :: rest) = (b, []) := by
        simp only [matchBuyGo, if_neg hc]
      rw [hr]
      simp

theorem matchSellGo_log (takerId : Nat) (h : List (Rat × Nat)) : ∀ b : Book,
    (matchSellGo takerId b h).1.trade_log =
      b.trade_log ++ (matchSellGo takerId b h).2.map tradeToLog := by
  induction h with
  | nil =>
    intro b
    show b.trade_log = b.trade_log ++ List.map tradeToLog []
    simp
  | cons e rest ih =>
    intro b
    obtain ⟨price, qid⟩ := e
    by_cases hc : 0 < (getOrder b takerId).volume ∧ (getOrder b takerId).price ≤ price
    · rcases hq : queueOf b qid with _ | ⟨head, tail⟩
      · simp only [matchSellGo, if_pos hc, hq]
        rw [ih]
      · simp only [matchSellGo, if_pos hc, hq]
        simp only [runQueue]
        by_cases hq2 : queueOf (runQueueGo takerId qid b (queueOf b qid)).1 qid = []
        · rw [if_pos hq2]
          dsimp only
          rw [ih, List.map_append, ← List.append_assoc]
          have h1 := runQueueGo_log takerId qid (queueOf b qid) b
          show (runQueueGo takerId qid b (queueOf b qid)).1.trade_log ++ _ = _
          rw [h1]
        · rw [if_neg hq2]
          exact runQueueGo_log takerId qid (queueOf b qid) b
    · have hr : matchSellGo takerId b ((price, qid) :: rest) = (b, []) := by
        simp only [matchSellGo, if_neg hc]
      rw [hr]
      simp

theorem place_order_log (b : Book) (c : String) (s : Side) (p : Rat) (v : Int) :
    (place_order b c s p v).1.trade_log =
      b.trade_log ++ (place_order b c s p v).2.2.map tradeToLog := by
  cases s with
  | BUY =>
    show (update_price_history (placeRest (matchBuyGo b.order_id_counter
      (placeStart b c Side.BUY p v) (placeStart b c Side.BUY p v).asks_heap).1
      b.order_id_counter)).trade_log = _
    rw [update_price_history_trade_log]
    have h2 : (placeRest (matchBuyGo b.order_id_counter (placeStart b c Side.BUY p v)
        (placeStart b c Side.BUY p v).asks_heap).1 b.order_id_counter).trade_log =
        (matchBuyGo b.order_id_counter (placeStart b c Side.BUY p v)
          (placeStart b c Side.BUY p v).asks_heap).1.trade_log := by
      rw [placeRest]
      split
      · exact (add_order_to_book_frame _ _).2.2.2.2.2.2.1
      · rfl
    rw [h2, matchBuyGo_log]
    rfl
  | SELL =>
    show (update_price_history (placeRest (matchSellGo b.order_id_counter
      (placeStart b c Side.SELL p v) (placeStart b c Side.SELL p v).bids_heap).1
      b.order_id_counter)).trade_log = _
    rw [update_price_history_trade_log]
    have h2 : (placeRest (matchSellGo b.order_id_counter (placeStart b c Side.SELL p v)
        (placeStart b c Side.SELL p v).bids_heap).1 b.order_id_counter).trade_log =
        (matchSellGo b.order_id_counter (placeStart b c Side.SELL p v)
          (placeStart b c Side.SELL p v).bids_heap).1.trade_log := by
      rw [placeRest]
      split
      · exact (add_order_to_book_frame _ _).2.2.2.2.2.2.1
      · rfl
    rw [h2, matchSellGo_log]
    rfl

theorem cancel_order_log (b : Book) (oid : Nat) :
    (cancel_order b oid).1.trade_log = b.trade_log := by
  rw [cancel_order]
  by_cases hn : oid ∉ b.order_map
  · rw [if_pos hn]
  · rw [if_neg hn]
    by_cases hz : (getOrder b oid).volume ≤ 0
    · rw [if_pos hz]
    · rw [if_neg hz]
      dsimp only
      have h1 : (cancelVolumeStep b ((getOrder b oid).price, (getOrder b oid).side)
          (getOrder b oid).volume).1.trade_log = b.trade_log :=
        (cancelVolumeStep_frame _ _ _).2.2.2.2.2.2.2.2.2.2.2.2
      have h2 : (cancelQueueStep (cancelVolumeStep b
          ((getOrder b oid).price, (getOrder b oid).side) (getOrder b oid).volume).1
          ((getOrder b oid).price, (getOrder b oid).side) oid).1.trade_log =
          b.trade_log := by
        rw [(cancelQueueStep_frame _ _ _).2.2.2.2.2.2.2.2.2.2.2, h1]
      split
      · rw [update_price_history_trade_log]
        exact h2
      · exact h2

/-- C8: every trade returned by place_order is also retained, in order,
as one entry of the in-memory trade log; the old log is kept unchanged
as a prefix (append-only, nothing removed or modified), the log grows
by exactly the number of executed trades, and cancel_order never
touches it.  Hence after any operation sequence the log length is the
total number of trades executed. -/
theorem C8_trade_log_retention (b : Book) (c : String) (s : Side) (p : Rat) (v : Int)
    (oid : Nat) :
    (place_order b c s p v).1.trade_log =
      b.trade_log ++ (place_order b c s p v).2.2.map tradeToLog ∧
    b.trade_log <+: (place_order b c s p v).1.trade_log ∧
    (place_order b c s p v).1.trade_log.length =
      b.trade_log.length + (place_order b c s p v).2.2.length ∧
    (cancel_order b oid).1.trade_log = b.trade_log := by
  refine ⟨place_order_log b c s p v, ?_, ?_, cancel_order_log b oid⟩
  · rw [place_order_log b c s p v]
    exact List.prefix_append _ _
  · rw [place_order_log b c s p v]
    rw [List.length_append, List.length_map]

/-! Store coherence: preservation lemmas for claim C5. -/

theorem storeCoh_congr (b b' : Book) (ho : b'.orders = b.orders)
    (hq : b'.queues = b.queues) (h : StoreCoh b) : StoreCoh b' := by
  refine ⟨fun oid r hr => h.1 oid r (ho ▸ hr), fun qid oid hm => ?_⟩
  rw [queueOf, hq] at hm
  obtain ⟨r, hr⟩ := h.2 qid oid hm
  exact ⟨r, ho ▸ hr⟩

theorem alookup_isSome_ainsert {α β : Type} [DecidableEq α] (l : List (α × β)) (k : α)
    (v : β) (x : α) (h : ∃ r, alookup l x = some r) :
    ∃ r, alookup (ainsert l k v) x = some r := by
  by_cases hx : x = k
  · subst hx
    exact ⟨v, alookup_ainsert_self _ _ _⟩
  · rw [alookup_ainsert_ne _ _ _ _ (Ne.symm hx)]
    exact h

theorem storeCoh_orders_ainsert (b : Book) (k : Nat) (v : Order) (hv : v.order_id = k)
    (h : StoreCoh b) : StoreCoh { b with orders := ainsert b.orders k v } := by
  constructor
  · intro oid r hr
    by_cases hx : oid = k
    · subst hx
      rw [show alookup (ainsert b.orders oid v) oid = some v from
        alookup_ainsert_self _ _ _] at hr
      cases hr
      exact hv
    · rw [show alookup (ainsert b.orders k v) oid = alookup b.orders oid from
        alookup_ainsert_ne _ _ _ _ (Ne.symm hx)] at hr
      exact h.1 oid r hr
  · intro qid oid hm
    exact alookup_isSome_ainsert _ _ _ _ (h.2 qid oid hm)

theorem storeCoh_queue_oid (b : Book) (h : StoreCoh b) (qid oid : Nat)
    (hm : oid ∈ queueOf b qid) : (getOrder b oid).order_id = oid := by
  obtain ⟨r, hr⟩ := h.2 qid oid hm
  rw [getOrder, hr, Option.getD_some]
  exact h.1 oid r hr

theorem storeCoh_getOrder_present (b : Book) (h : StoreCoh b) (oid : Nat)
    (hp : ∃ r, alookup b.orders oid = some r) : (getOrder b oid).order_id = oid := by
  obtain ⟨r, hr⟩ := hp
  rw [getOrder, hr, Option.getD_some]
  exact h.1 oid r hr

theorem setVolume_StoreCoh (b : Book) (oid : Nat) (v : Int) (h : StoreCoh b)
    (hp : ∃ r, alookup b.orders oid = some r) : StoreCoh (setVolume b oid v) :=
  storeCoh_orders_ainsert b oid _ (storeCoh_getOrder_present b h oid hp) h

theorem exists_alookup_ainsert_inv {α β : Type} [DecidableEq α] (l : List (α × β))
    (k : α) (v : β) (x : α) (h : ∃ r, alookup (ainsert l k v) x = some r) :
    x = k ∨ ∃ r, alookup l x = some r := by
  by_cases hx : x = k
  · exact Or.inl hx
  · right
    rw [alookup_ainsert_ne _ _ _ _ (Ne.symm hx)] at h
    exact h

theorem tradeUpdates_StoreCoh (b : Book) (t m : Nat) (h : StoreCoh b)
    (hpt : ∃ r, alookup b.orders t = some r) (hpm : ∃ r, alookup b.orders m = some r) :
    StoreCoh (tradeUpdates b t m).1 ∧
    (∀ oid, (∃ r, alookup b.orders oid = some r) →
      ∃ r, alookup (tradeUpdates b t m).1.orders oid = some r) := by
  have hmono : ∀ oid, (∃ r, alookup b.orders oid = some r) →
      ∃ r, alookup (tradeUpdates b t m).1.orders oid = some r := by
    intro oid hp
    exact alookup_isSome_ainsert _ _ _ _ (alookup_isSome_ainsert _ _ _ _ hp)
  refine ⟨⟨?_, ?_⟩, hmono⟩
  · intro oid r hr
    have hpres : ∃ r0, alookup b.orders oid = some r0 := by
      rcases exists_alookup_ainsert_inv _ _ _ _ ⟨r, hr⟩ with he | hrest
      · exact he.symm ▸ hpm
      · rcases exists_alookup_ainsert_inv _ _ _ _ hrest with he | hb
        · exact he.symm ▸ hpt
        · exact hb
    have hid : (getOrder (tradeUpdates b t m).1 oid).order_id = oid :=
      (tradeUpdates_priceSide b t m oid).2.2.trans
        (storeCoh_getOrder_present b h oid hpres)
    rw [getOrder, hr, Option.getD_some] at hid
    exact hid
  · intro qid oid hm2
    rw [queueOf_tradeUpdates b t m qid] at hm2
    exact hmono oid (h.2 qid oid hm2)

theorem popMaker_StoreCoh (b : Book) (makerId qid : Nat) (rest : List Nat)
    (h : StoreCoh b) (hrest : ∀ oid ∈ rest, ∃ r, alookup b.orders oid = some r) :
    StoreCoh (popMaker b makerId qid rest) := by
  refine ⟨h.1, fun qid2 oid hm => ?_⟩
  by_cases hq : qid2 = qid
  · subst hq
    rw [queueOf, popMaker] at hm
    dsimp only at hm
    rw [alookup_ainsert_self, Option.getD_some] at hm
    exact hrest oid hm
  · rw [queueOf, popMaker] at hm
    dsimp only at hm
    rw [alookup_ainsert_ne _ _ _ _ (Ne.symm hq)] at hm
    exact h.2 qid2 oid hm

theorem runQueueGo_getOrder_outside (takerId qid : Nat) (q : List Nat) : ∀ b : Book,
    ∀ oid : Nat, oid ≠ takerId → oid ∉ q →
    getOrder (runQueueGo takerId qid b q).1 oid = getOrder b oid := by
  induction q with
  | nil => intro b oid _ _; rfl
  | cons makerId rest ih =>
    intro b oid ht hq
    have hm : oid ≠ makerId := fun he => hq (he ▸ List.mem_cons_self _ _)
    have hrest : oid ∉ rest := fun he => hq (List.mem_cons_of_mem _ he)
    by_cases hv : 0 < (getOrder b takerId).volume
    · by_cases hfil : (getOrder (tradeUpdates b takerId makerId).1 makerId).volume = 0
      · simp only [runQueueGo, if_pos hv, hfil, if_true]
        rw [ih _ oid ht hrest]
        rw [getOrder_congr (tradeUpdates b takerId makerId).1
          (popMaker (tradeUpdates b takerId makerId).1 makerId qid rest)
          (popMaker_frame _ _ _ _).2.2.2.2.2.2.2.2.1 oid]
        exact tradeUpdates_getOrder_other b takerId makerId oid ht hm
      · simp only [runQueueGo, if_pos hv, hfil, if_false]
        exact tradeUpdates_getOrder_other b takerId makerId oid ht hm
    · have hr : runQueueGo takerId qid b (makerId :: rest) = (b, []) := by
        simp only [runQueueGo, if_neg hv]
      rw [hr]

theorem queueOf_popMaker_self (b : Book) (makerId qid : Nat) (rest : List Nat) :
    queueOf (popMaker b makerId qid rest) qid = rest := by
  rw [queueOf, popMaker]
  dsimp only
  rw [alookup_ainsert_self, Option.getD_some]

theorem runQueueGo_StoreCoh (takerId qid : Nat) (q : List Nat) : ∀ b : Book,
    queueOf b qid = q → StoreCoh b →
    (∃ r, alookup b.orders takerId = some r) →
    StoreCoh (runQueueGo takerId qid b q).1 ∧
    (∀ oid, (∃ r, alookup b.orders oid = some r) →
      ∃ r, alookup (runQueueGo takerId qid b q).1.orders oid = some r) := by
  induction q with
  | nil => intro b _ hsc _; exact ⟨hsc, fun _ hp => hp⟩
  | cons makerId rest ih =>
    intro b hq hsc hpt
    by_cases hv : 0 < (getOrder b takerId).volume
    · have hpm : ∃ r, alookup b.orders makerId = some r :=
        hsc.2 qid makerId (hq ▸ List.mem_cons_self _ _)
      obtain ⟨htc, htm⟩ := tradeUpdates_StoreCoh b takerId makerId hsc hpt hpm
      by_cases hfil : (getOrder (tradeUpdates b takerId makerId).1 makerId).volume = 0
      · simp only [runQueueGo, if_pos hv, hfil, if_true]
        have hqt : queueOf (tradeUpdates b takerId makerId).1 qid = makerId :: rest :=
          (queueOf_tradeUpdates b takerId makerId qid).trans hq
        have hpop : StoreCoh (popMaker (tradeUpdates b takerId makerId).1 makerId qid rest) :=
          popMaker_StoreCoh _ makerId qid rest htc
            (fun oid ho => htc.2 qid oid (hqt ▸ List.mem_cons_of_mem _ ho))
        have hordeq : (popMaker (tradeUpdates b takerId makerId).1 makerId qid rest).orders =
            (tradeUpdates b takerId makerId).1.orders :=
          (popMaker_frame _ _ _ _).2.2.2.2.2.2.2.2.1
        obtain ⟨hrec, hrecmono⟩ := ih (popMaker (tradeUpdates b takerId makerId).1 makerId qid rest)
          (queueOf_popMaker_self _ _ _ _) hpop
          (by rw [hordeq]; exact htm takerId hpt)
        refine ⟨hrec, fun oid hp => ?_⟩
        refine hrecmono oid ?_
        rw [hordeq]
        exact htm oid hp
      · simp only [runQueueGo, if_pos hv, hfil, if_false]
        exact ⟨htc, htm⟩
    · have hr : runQueueGo takerId qid b (makerId :: rest) = (b, []) := by
        simp only [runQueueGo, if_neg hv]
      rw [hr]
      exact ⟨hsc, fun _ hp => hp⟩

/-- Per-level trade-terms lemma behind claim C5 (source lines 133-170 /
197-235): running the inner loop over one level queue emits trades
whose maker ids are exactly the consumed prefix of the queue, each with
positive volume, the taker's id, the level price (the maker's posted
price, also the price still on the maker's record afterwards), a
nonnegative residual maker volume; the taker's volume drops by exactly
the total traded, stays nonnegative, and each trade's volume is the
minimum of the taker's and the maker's residual volumes at the moment
of the trade. -/
theorem runQueueGo_trades (takerId qid : Nat) (price : Rat) (s : Side) (q : List Nat) :
    ∀ b : Book, queueOf b qid = q →
    (∀ oid ∈ q, (getOrder b oid).price = price ∧ (getOrder b oid).side = s ∧
      0 < (getOrder b oid).volume) →
    takerId ∉ q → q.Nodup →
    (∀ oid ∈ q, (getOrder b oid).order_id = oid) →
    (getOrder b takerId).order_id = takerId →
    ((runQueueGo takerId qid b q).2.map Trade.maker_order_id =
      q.take (runQueueGo takerId qid b q).2.length) ∧
    (∀ tr ∈ (runQueueGo takerId qid b q).2,
      0 < tr.volume ∧ tr.taker_order_id = takerId ∧ tr.price = price ∧
      tr.price = (getOrder (runQueueGo takerId qid b q).1 tr.maker_order_id).price ∧
      0 ≤ (getOrder (runQueueGo takerId qid b q).1 tr.maker_order_id).volume) ∧
    ((getOrder (runQueueGo takerId qid b q).1 takerId).volume =
      (getOrder b takerId).volume -
        ((runQueueGo takerId qid b q).2.map Trade.volume).sum) ∧
    (0 ≤ (getOrder b takerId).volume →
      0 ≤ (getOrder (runQueueGo takerId qid b q).1 takerId).volume) ∧
    (∀ pre tr post, (runQueueGo takerId qid b q).2 = pre ++ tr :: post →
      tr.volume = min ((getOrder b takerId).volume - (pre.map Trade.volume).sum)
        ((getOrder (runQueueGo takerId qid b q).1 tr.maker_order_id).volume +
          tr.volume)) := by
  induction q with
  | nil =>
    intro b hq hcoh hT hnd hqid htid
    refine ⟨rfl, fun tr htr => absurd htr (List.not_mem_nil _), ?_, fun h0 => h0, ?_⟩
    · show (getOrder b takerId).volume =
        (getOrder b takerId).volume - (List.map Trade.volume ([] : List Trade)).sum
      rw [List.map_nil, List.sum_nil, sub_zero]
    · intro pre tr post hdec
      rw [show (runQueueGo takerId qid b ([] : List Nat)).2 = [] from rfl] at hdec
      cases pre <;> simp at hdec
  | cons makerId rest ih =>
    intro b hq hcoh hT hnd hqid htid
    have hcm := hcoh makerId (List.mem_cons_self _ _)
    have hmid := hqid makerId (List.mem_cons_self _ _)
    have htm : takerId ≠ makerId := fun he => hT (he ▸ List.mem_cons_self _ _)
    by_cases hv : 0 < (getOrder b takerId).volume
    · have hvolT : Trade.volume (tradeUpdates b takerId makerId).2 =
          min (getOrder b takerId).volume (getOrder b makerId).volume := rfl
      have hposμ : 0 < min (getOrder b takerId).volume (getOrder b makerId).volume :=
        lt_min hv hcm.2.2
      have hmk0 : (tradeUpdates b takerId makerId).2.maker_order_id = makerId := hmid
      have htk0 : (tradeUpdates b takerId makerId).2.taker_order_id = takerId := htid
      have hpr0 : (tradeUpdates b takerId makerId).2.price =
          (getOrder b makerId).price := rfl
      have htaker1 := tradeUpdates_getOrder_taker b takerId makerId htm
      have hmaker1 := tradeUpdates_getOrder_maker b takerId makerId htm
      by_cases hfil : (getOrder (tradeUpdates b takerId makerId).1 makerId).volume = 0
      · simp only [runQueueGo, if_pos hv, hfil, if_true]
        have hordeq : (popMaker (tradeUpdates b takerId makerId).1 makerId qid
              rest).orders = (tradeUpdates b takerId makerId).1.orders :=
          (popMaker_frame _ _ _ _).2.2.2.2.2.2.2.2.1
        have hsame : ∀ oid ∈ rest,
            getOrder (popMaker (tradeUpdates b takerId makerId).1 makerId qid rest) oid =
              getOrder b oid := by
          intro oid ho
          have h1 : oid ≠ takerId := fun he => hT (he ▸ List.mem_cons_of_mem _ ho)
          have h2 : oid ≠ makerId := fun he => (List.nodup_cons.mp hnd).1 (he ▸ ho)
          rw [getOrder_congr _ _ hordeq oid]
          exact tradeUpdates_getOrder_other b takerId makerId oid h1 h2
        have hbt : (getOrder (popMaker (tradeUpdates b takerId makerId).1 makerId qid
              rest) takerId).volume =
            (getOrder b takerId).volume -
              min (getOrder b takerId).volume (getOrder b makerId).volume := by
          rw [getOrder_congr _ _ hordeq takerId, htaker1]
        obtain ⟨i1, i2, i3, i4, i5⟩ :=
          ih (popMaker (tradeUpdates b takerId makerId).1 makerId qid rest)
            (queueOf_popMaker_self _ _ _ _)
            (fun oid ho => by rw [hsame oid ho]; exact hcoh oid (List.mem_cons_of_mem _ ho))
            (fun he => hT (List.mem_cons_of_mem _ he))
            (List.nodup_cons.mp hnd).2
            (fun oid ho => by rw [hsame oid ho]; exact hqid oid (List.mem_cons_of_mem _ ho))
            (by rw [getOrder_congr _ _ hordeq takerId, htaker1]; exact htid)
        have hmfin : getOrder (runQueueGo takerId qid
              (popMaker (tradeUpdates b takerId makerId).1 makerId qid rest) rest).1
              makerId = getOrder (tradeUpdates b takerId makerId).1 makerId := by
          rw [runQueueGo_getOrder_outside takerId qid rest _ makerId
            (fun he => htm he.symm) (List.nodup_cons.mp hnd).1]
          exact getOrder_congr _ _ hordeq makerId
        refine ⟨?_, ?_, ?_, ?_, ?_⟩
        · rw [List.map_cons, hmk0, i1, List.length_cons, List.take_succ_cons]
        · intro tr htr
          rcases List.mem_cons.mp htr with he | htr'
          · subst he
            refine ⟨hposμ, htk0, hpr0.trans hcm.1, ?_, ?_⟩
            · rw [hmk0, hmfin, hmaker1]
              exact hpr0.trans rfl
            · rw [hmk0, hmfin, hfil]
          · exact i2 tr htr'
        · rw [i3, hbt, List.map_cons, List.sum_cons, hvolT, sub_sub]
        · intro h0
          exact i4 (by rw [hbt]; exact sub_nonneg.mpr (min_le_left _ _))
        · intro pre tr post hdec
          cases pre with
          | nil =>
            rw [List.nil_append] at hdec
            injection hdec with h1 h2
            subst h1
            rw [List.map_nil, List.sum_nil, sub_zero, hmk0, hmfin, hfil, zero_add, hvolT]
            exact (min_eq_right (min_le_left _ _)).symm
          | cons p ps =>
            rw [List.cons_append] at hdec
            injection hdec with h1 h2
            have h5 := i5 ps tr post h2
            rw [hbt, sub_sub] at h5
            rw [List.map_cons, List.sum_cons, ← h1, hvolT]
            exact h5
      · simp only [runQueueGo, if_pos hv, hfil, if_false]
        refine ⟨?_, ?_, ?_, ?_, ?_⟩
        · simp only [List.map_cons, List.map_nil, List.length_cons, List.length_nil,
            List.take_succ_cons, List.take_zero, hmk0]
        · intro tr htr
          rw [List.mem_singleton] at htr
          subst htr
          refine ⟨hposμ, htk0, hpr0.trans hcm.1, ?_, ?_⟩
          · rw [hmk0, hmaker1]
            exact hpr0.trans rfl
          · rw [hmk0, hmaker1]
            show 0 ≤ (getOrder b makerId).volume -
              min (getOrder b takerId).volume (getOrder b makerId).volume
            exact sub_nonneg.mpr (min_le_right _ _)
        · rw [htaker1, List.map_cons, List.map_nil, List.sum_cons, List.sum_nil,
            add_zero, hvolT]
        · intro h0
          rw [htaker1]
          show 0 ≤ (getOrder b takerId).volume -
            min (getOrder b takerId).volume (getOrder b makerId).volume
          exact sub_nonneg.mpr (min_le_left _ _)
        · intro pre tr post hdec
          cases pre with
          | nil =>
            rw [List.nil_append] at hdec
            injection hdec with h1 h2
            subst h1
            rw [List.map_nil, List.sum_nil, sub_zero, hmk0, hmaker1, hvolT]
            show min (getOrder b takerId).volume (getOrder b makerId).volume =
              min (getOrder b takerId).volume (((getOrder b makerId).volume -
                min (getOrder b takerId).volume (getOrder b makerId).volume) +
                min (getOrder b takerId).volume (getOrder b makerId).volume)
            omega
          | cons p ps =>
            rw [List.cons_append] at hdec
            injection hdec with h1 h2
            cases ps <;> simp at h2
    · have hr : runQueueGo takerId qid b (makerId :: rest) = (b, []) := by
        simp only [runQueueGo, if_neg hv]
      rw [hr]
      refine ⟨rfl, fun tr htr => absurd htr (List.not_mem_nil _), ?_, fun h0 => h0, ?_⟩
      · rw [List.map_nil, List.sum_nil, sub_zero]
      · intro pre tr post hdec
        cases pre <;> simp at hdec

theorem matchBuy_tomb_WF (b : Book) (price : Rat) (qid : Nat)
    (rest : List (Rat × Nat)) (hh : b.asks_heap = (price, qid) :: rest)
    (hwf : HeapsWF b) :
    HeapsWF { b with asks_heap := rest
                     queue_map := aerase b.queue_map (price, Side.SELL) } := by
  obtain ⟨ws1, ws2, wn, wca, wcb, wqm, wqs, wqb, wnc, wvm⟩ := hwf
  have hsubl : List.Sublist ((rest ++ b.bids_heap).map Prod.snd)
      ((b.asks_heap ++ b.bids_heap).map Prod.snd) := by
    rw [hh, List.cons_append]
    exact (List.sublist_cons_self _ _).map Prod.snd
  have ws1' : List.Pairwise (fun x y : Rat × Nat => x.1 ≤ y.1)
      (((price, qid) : Rat × Nat) :: rest) := hh ▸ ws1
  refine ⟨ws1'.of_cons, ws2, wn.sublist hsubl, ?_, ?_, ?_, wqs, ?_, ?_, wvm⟩
  · intro e2 he2
    exact wca e2 (hh ▸ List.mem_cons_of_mem _ he2)
  · intro e2 he2
    exact wcb e2 he2
  · intro kv hk
    obtain ⟨hx, hy⟩ := wqm kv (mem_aerase _ _ _ hk)
    exact ⟨fun e2 he2 => hx e2 (hh ▸ List.mem_cons_of_mem _ he2), hy⟩
  · obtain ⟨q1, q2, q3, q4⟩ := wqb
    refine ⟨?_, q2, ?_, q4⟩
    · intro e2 he2
      exact q1 e2 (hh ▸ List.mem_cons_of_mem _ he2)
    · intro kv hk
      exact q3 kv (mem_aerase _ _ _ hk)
  · intro eb heb ea hea hb1 ha1
    exact wnc eb heb ea (hh ▸ List.mem_cons_of_mem _ hea) hb1 ha1

theorem matchSell_tomb_WF (b : Book) (price : Rat) (qid : Nat)
    (rest : List (Rat × Nat)) (hh : b.bids_heap = (price, qid) :: rest)
    (hwf : HeapsWF b) :
    HeapsWF { b with bids_heap := rest
                     queue_map := aerase b.queue_map (price, Side.BUY) } := by
  obtain ⟨ws1, ws2, wn, wca, wcb, wqm, wqs, wqb, wnc, wvm⟩ := hwf
  have hsubl : List.Sublist ((b.asks_heap ++ rest).map Prod.snd)
      ((b.asks_heap ++ b.bids_heap).map Prod.snd) := by
    rw [hh]
    exact ((List.sublist_cons_self _ _).append_left b.asks_heap).map Prod.snd
  have ws2' : List.Pairwise (fun x y : Rat × Nat => y.1 ≤ x.1)
      (((price, qid) : Rat × Nat) :: rest) := hh ▸ ws2
  refine ⟨ws1, ws2'.of_cons, wn.sublist hsubl, ?_, ?_, ?_, wqs, ?_, ?_, wvm⟩
  · intro e2 he2
    exact wca e2 he2
  · intro e2 he2
    exact wcb e2 (hh ▸ List.mem_cons_of_mem _ he2)
  · intro kv hk
    obtain ⟨hx, hy⟩ := wqm kv (mem_aerase _ _ _ hk)
    exact ⟨hx, fun e2 he2 => hy e2 (hh ▸ List.mem_cons_of_mem _ he2)⟩
  · obtain ⟨q1, q2, q3, q4⟩ := wqb
    refine ⟨q1, ?_, ?_, q4⟩
    · intro e2 he2
      exact q2 e2 (hh ▸ List.mem_cons_of_mem _ he2)
    · intro kv hk
      exact q3 kv (mem_aerase _ _ _ hk)
  · intro eb heb ea hea hb1 ha1
    exact wnc eb (hh ▸ List.mem_cons_of_mem _ heb) ea hea hb1 ha1

theorem matchBuyGo_getOrder_outside (takerId : Nat) (h : List (Rat × Nat)) :
    ∀ b : Book, ∀ oid : Nat, oid ≠ takerId → (∀ e ∈ h, oid ∉ queueOf b e.2) →
    getOrder (matchBuyGo takerId b h).1 oid = getOrder b oid := by
  induction h with
  | nil => intro b oid _ _; rfl
  | cons e rest ih =>
    intro b oid ht hq
    obtain ⟨price, qid⟩ := e
    by_cases hc : 0 < (getOrder b takerId).volume ∧ price ≤ (getOrder b takerId).price
    · rcases hqe : queueOf b qid with _ | ⟨head, tail⟩
      · simp only [matchBuyGo, if_pos hc, hqe]
        exact ih { b with asks_heap := rest
                          queue_map := aerase b.queue_map (price, Side.SELL) } oid ht
          (fun e2 he2 => hq e2 (List.mem_cons_of_mem _ he2))
      · simp only [matchBuyGo, if_pos hc, hqe]
        simp only [runQueue]
        have h1 : getOrder (runQueueGo takerId qid b (queueOf b qid)).1 oid =
            getOrder b oid :=
          runQueueGo_getOrder_outside takerId qid (queueOf b qid) b oid ht
            (hq (price, qid) (List.mem_cons_self _ _))
        obtain ⟨qne, kd, qdrop⟩ := runQueueGo_queueOf takerId qid (queueOf b qid) b rfl
        by_cases hq2 : queueOf (runQueueGo takerId qid b (queueOf b qid)).1 qid = []
        · rw [if_pos hq2]
          refine (ih { (runQueueGo takerId qid b (queueOf b qid)).1 with
              asks_heap := rest
              queue_map := aerase (runQueueGo takerId qid b (queueOf b qid)).1.queue_map
                (price, Side.SELL)
              volume_map := if vget (runQueueGo takerId qid b (queueOf b qid)).1.volume_map
                    (price, Side.SELL) ≤ 0
                  then aerase (runQueueGo takerId qid b (queueOf b qid)).1.volume_map
                    (price, Side.SELL)
                  else (runQueueGo takerId qid b (queueOf b qid)).1.volume_map }
              oid ht ?_).trans h1
          intro e2 he2
          by_cases hq2e : e2.2 = qid
          · show oid ∉ queueOf (runQueueGo takerId qid b (queueOf b qid)).1 e2.2
            rw [hq2e, hq2]
            exact List.not_mem_nil _
          · show oid ∉ queueOf (runQueueGo takerId qid b (queueOf b qid)).1 e2.2
            rw [qne e2.2 hq2e]
            exact hq e2 (List.mem_cons_of_mem _ he2)
        · rw [if_neg hq2]
          exact h1
    · have hr : matchBuyGo takerId b ((price, qid) :: rest) = (b, []) := by
        simp only [matchBuyGo, if_neg hc]
      rw [hr]

theorem matchSellGo_getOrder_outside (takerId : Nat) (h : List (Rat × Nat)) :
    ∀ b : Book, ∀ oid : Nat, oid ≠ takerId → (∀ e ∈ h, oid ∉ queueOf b e.2) →
    getOrder (matchSellGo takerId b h).1 oid = getOrder b oid := by
  induction h with
  | nil => intro b oid _ _; rfl
  | cons e rest ih =>
    intro b oid ht hq
    obtain ⟨price, qid⟩ := e
    by_cases hc : 0 < (getOrder b takerId).volume ∧ (getOrder b takerId).price ≤ price
    · rcases hqe : queueOf b qid with _ | ⟨head, tail⟩
      · simp only [matchSellGo, if_pos hc, hqe]
        exact ih { b with bids_heap := rest
                          queue_map := aerase b.queue_map (price, Side.BUY) } oid ht
          (fun e2 he2 => hq e2 (List.mem_cons_of_mem _ he2))
      · simp only [matchSellGo, if_pos hc, hqe]
        simp only [runQueue]
        have h1 : getOrder (runQueueGo takerId qid b (queueOf b qid)).1 oid =
            getOrder b oid :=
          runQueueGo_getOrder_outside takerId qid (queueOf b qid) b oid ht
            (hq (price, qid) (List.mem_cons_self _ _))
        obtain ⟨qne, kd, qdrop⟩ := runQueueGo_queueOf takerId qid (queueOf b qid) b rfl
        by_cases hq2 : queueOf (runQueueGo takerId qid b (queueOf b qid)).1 qid = []
        · rw [if_pos hq2]
          refine (ih { (runQueueGo takerId qid b (queueOf b qid)).1 with
              bids_heap := rest
              queue_map := aerase (runQueueGo takerId qid b (queueOf b qid)).1.queue_map
                (price, Side.BUY)
              volume_map := if vget (runQueueGo takerId qid b (queueOf b qid)).1.volume_map
                    (price, Side.BUY) ≤ 0
                  then aerase (runQueueGo takerId qid b (queueOf b qid)).1.volume_map
                    (price, Side.BUY)
                  else (runQueueGo takerId qid b (queueOf b qid)).1.volume_map }
              oid ht ?_).trans h1
          intro e2 he2
          by_cases hq2e : e2.2 = qid
          · show oid ∉ queueOf (runQueueGo takerId qid b (queueOf b qid)).1 e2.2
            rw [hq2e, hq2]
            exact List.not_mem_nil _
          · show oid ∉ queueOf (runQueueGo takerId qid b (queueOf b qid)).1 e2.2
            rw [qne e2.2 hq2e]
            exact hq e2 (List.mem_cons_of_mem _ he2)
        · rw [if_neg hq2]
          exact h1
    · have hr : matchSellGo takerId b ((price, qid) :: rest) = (b, []) := by
        simp only [matchSellGo, if_neg hc]
      rw [hr]

theorem append_decomp {α : Type} (l1 : List α) : ∀ (l2 pre post : List α) (x : α),
    l1 ++ l2 = pre ++ x :: post →
    (∃ post1, l1 = pre ++ x :: post1 ∧ post = post1 ++ l2) ∨
    (∃ pre2, pre = l1 ++ pre2 ∧ l2 = pre2 ++ x :: post) := by
  induction l1 with
  | nil =>
    intro l2 pre post x hh
    rw [List.nil_append] at hh
    exact Or.inr ⟨pre, (List.nil_append pre).symm, hh⟩
  | cons a t ih =>
    intro l2 pre post x hh
    cases pre with
    | nil =>
      rw [List.cons_append, List.nil_append] at hh
      injection hh with h1 h2
      subst h1
      exact Or.inl ⟨t, by rw [List.nil_append], h2.symm⟩
    | cons p ps =>
      rw [List.cons_append, List.cons_append] at hh
      injection hh with h1 h2
      subst h1
      rcases ih l2 ps post x h2 with ⟨post1, ht, hpost⟩ | ⟨pre2, hps, hl2⟩
      · exact Or.inl ⟨post1, by rw [List.cons_append, ht], hpost⟩
      · exact Or.inr ⟨pre2, by rw [List.cons_append, hps], hl2⟩

/-- Trade-terms preservation through the outer BUY matching loop:
store coherence is kept and order records only accumulate, and the
emitted trades carry the taker's id, positive volumes, the maker's
posted price, nonnegative residual maker volumes, exact taker
decrements, and the min rule at the moment of each trade. -/
theorem matchBuyGo_trades (takerId : Nat) (h : List (Rat × Nat)) : ∀ b : Book,
    b.asks_heap = h → HeapsWF b → (∀ qid, takerId ∉ queueOf b qid) →
    StoreCoh b → (∃ r, alookup b.orders takerId = some r) →
    (StoreCoh (matchBuyGo takerId b h).1 ∧
      (∀ oid, (∃ r, alookup b.orders oid = some r) →
        ∃ r, alookup (matchBuyGo takerId b h).1.orders oid = some r)) ∧
    (∀ tr ∈ (matchBuyGo takerId b h).2,
      0 < tr.volume ∧ tr.taker_order_id = takerId ∧
      tr.price = (getOrder (matchBuyGo takerId b h).1 tr.maker_order_id).price ∧
      0 ≤ (getOrder (matchBuyGo takerId b h).1 tr.maker_order_id).volume) ∧
    ((getOrder (matchBuyGo takerId b h).1 takerId).volume =
      (getOrder b takerId).volume -
        ((matchBuyGo takerId b h).2.map Trade.volume).sum) ∧
    (0 ≤ (getOrder b takerId).volume →
      0 ≤ (getOrder (matchBuyGo takerId b h).1 takerId).volume) ∧
    (∀ pre tr post, (matchBuyGo takerId b h).2 = pre ++ tr :: post →
      tr.volume = min ((getOrder b takerId).volume - (pre.map Trade.volume).sum)
        ((getOrder (matchBuyGo takerId b h).1 tr.maker_order_id).volume +
          tr.volume)) := by
  induction h with
  | nil =>
    intro b hh hwf hT hsc hpt
    refine ⟨⟨hsc, fun _ hp => hp⟩, fun tr htr => absurd htr (List.not_mem_nil _),
      ?_, fun h0 => h0, ?_⟩
    · show (getOrder b takerId).volume =
        (getOrder b takerId).volume - (List.map Trade.volume ([] : List Trade)).sum
      rw [List.map_nil, List.sum_nil, sub_zero]
    · intro pre tr post hdec
      rw [show (matchBuyGo takerId b []).2 = [] from rfl] at hdec
      cases pre <;> simp at hdec
  | cons e rest ih =>
    intro b hh hwf hT hsc hpt
    obtain ⟨price, qid⟩ := e
    by_cases hc : 0 < (getOrder b takerId).volume ∧ price ≤ (getOrder b takerId).price
    · rcases hqe : queueOf b qid with _ | ⟨head, tail⟩
      · simp only [matchBuyGo, if_pos hc, hqe]
        exact ih { b with asks_heap := rest
                          queue_map := aerase b.queue_map (price, Side.SELL) } rfl
          (matchBuy_tomb_WF b price qid rest hh hwf) hT
          (storeCoh_congr b _ rfl rfl hsc) hpt
      · simp only [matchBuyGo, if_pos hc, hqe]
        simp only [runQueue]
        obtain ⟨ws1, ws2, wn, wca, wcb, wqm, wqs, wqb, wnc, wvm⟩ := hwf
        have hmemh : ((price, qid) : Rat × Nat) ∈ b.asks_heap := by
          rw [hh]
          exact List.mem_cons_self _ _
        obtain ⟨q1, q2, q3, q4, q5⟩ :=
          runQueueGo_trades takerId qid price Side.SELL (queueOf b qid) b rfl
            (wca (price, qid) hmemh) (hT qid) (wqs.1 qid)
            (fun oid ho => storeCoh_queue_oid b hsc qid oid ho)
            (storeCoh_getOrder_present b hsc takerId hpt)
        obtain ⟨hscR, hmonoR⟩ :=
          runQueueGo_StoreCoh takerId qid (queueOf b qid) b rfl hsc hpt
        have hTR := runQueueGo_taker_notin takerId qid b hT
        obtain ⟨qne, kd, qdrop⟩ := runQueueGo_queueOf takerId qid (queueOf b qid) b rfl
        by_cases hq2 : queueOf (runQueueGo takerId qid b (queueOf b qid)).1 qid = []
        · rw [if_pos hq2]
          obtain ⟨ihE, ihA, ihB, ihD, ihC⟩ := ih
            { (runQueueGo takerId qid b (queueOf b qid)).1 with
              asks_heap := rest
              queue_map := aerase (runQueueGo takerId qid b (queueOf b qid)).1.queue_map
                (price, Side.SELL)
              volume_map := if vget (runQueueGo takerId qid b (queueOf b qid)).1.volume_map
                    (price, Side.SELL) ≤ 0
                  then aerase (runQueueGo takerId qid b (queueOf b qid)).1.volume_map
                    (price, Side.SELL)
                  else (runQueueGo takerId qid b (queueOf b qid)).1.volume_map }
            rfl
            (matchBuy_step_WF takerId b price qid rest hh
              ⟨ws1, ws2, wn, wca, wcb, wqm, wqs, wqb, wnc, wvm⟩ hT)
            hTR (storeCoh_congr _ _ rfl rfl hscR) (hmonoR takerId hpt)
          have hb2t : (getOrder ({ (runQueueGo takerId qid b (queueOf b qid)).1 with
              asks_heap := rest
              queue_map := aerase (runQueueGo takerId qid b (queueOf b qid)).1.queue_map
                (price, Side.SELL)
              volume_map := if vget (runQueueGo takerId qid b (queueOf b qid)).1.volume_map
                    (price, Side.SELL) ≤ 0
                  then aerase (runQueueGo takerId qid b (queueOf b qid)).1.volume_map
                    (price, Side.SELL)
                  else (runQueueGo takerId qid b (queueOf b qid)).1.volume_map } : Book)
              takerId).volume =
              (getOrder b takerId).volume -
                (List.map Trade.volume
                  (runQueueGo takerId qid b (queueOf b qid)).2).sum := q3
          have hmout : ∀ tr ∈ (runQueueGo takerId qid b (queueOf b qid)).2,
              getOrder (matchBuyGo takerId
                { (runQueueGo takerId qid b (queueOf b qid)).1 with
                  asks_heap := rest
                  queue_map := aerase
                    (runQueueGo takerId qid b (queueOf b qid)).1.queue_map
                    (price, Side.SELL)
                  volume_map := if vget
                        (runQueueGo takerId qid b (queueOf b qid)).1.volume_map
                        (price, Side.SELL) ≤ 0
                      then aerase (runQueueGo takerId qid b (queueOf b qid)).1.volume_map
                        (price, Side.SELL)
                      else (runQueueGo takerId qid b (queueOf b qid)).1.volume_map }
                rest).1 tr.maker_order_id =
              getOrder (runQueueGo takerId qid b (queueOf b qid)).1
                tr.maker_order_id := by
            intro tr htr
            have hmem : tr.maker_order_id ∈ queueOf b qid := by
              have h1 : tr.maker_order_id ∈
                  List.map Trade.maker_order_id
                    (runQueueGo takerId qid b (queueOf b qid)).2 :=
                List.mem_map_of_mem _ htr
              rw [q1] at h1
              exact (List.take_sublist _ _).subset h1
            have hne : tr.maker_order_id ≠ takerId := fun he => hT qid (he ▸ hmem)
            refine (matchBuyGo_getOrder_outside takerId rest _ tr.maker_order_id
              hne ?_).trans (getOrder_congr _ _ rfl _)
            intro e2 he2
            by_cases hq2e : e2.2 = qid
            · show tr.maker_order_id ∉
                queueOf (runQueueGo takerId qid b (queueOf b qid)).1 e2.2
              rw [hq2e, hq2]
              exact List.not_mem_nil _
            · show tr.maker_order_id ∉
                queueOf (runQueueGo takerId qid b (queueOf b qid)).1 e2.2
              rw [qne e2.2 hq2e]
              exact wqs.2 qid e2.2 (fun heq => hq2e heq.symm) tr.maker_order_id hmem
          refine ⟨⟨ihE.1, fun oid hp => ihE.2 oid (hmonoR oid hp)⟩, ?_, ?_, ?_, ?_⟩
          · intro tr htr
            rcases List.mem_append.mp htr with htr' | htr'
            · obtain ⟨p1, p2, p3, p4, p5⟩ := q2 tr htr'
              refine ⟨p1, p2, ?_, ?_⟩
              · rw [hmout tr htr']
                exact p4
              · rw [hmout tr htr']
                exact p5
            · exact ihA tr htr'
          · rw [List.map_append, List.sum_append, ihB, hb2t, sub_sub]
          · intro h0
            exact ihD (q4 h0)
          · intro pre tr post hdec
            rcases append_decomp _ _ _ _ _ hdec with ⟨post1, hr2, hpost⟩ |
              ⟨pre2, hpre, hm2⟩
            · have htr' : tr ∈ (runQueueGo takerId qid b (queueOf b qid)).2 := by
                rw [hr2]
                exact List.mem_append_right _ (List.mem_cons_self _ _)
              rw [hmout tr htr']
              exact q5 pre tr post1 hr2
            · have h5 := ihC pre2 tr post hm2
              rw [hb2t, sub_sub] at h5
              rw [hpre, List.map_append, List.sum_append]
              exact h5
        · rw [if_neg hq2]
          refine ⟨⟨hscR, hmonoR⟩, ?_, q3, q4, q5⟩
          intro tr htr
          obtain ⟨p1, p2, p3, p4, p5⟩ := q2 tr htr
          exact ⟨p1, p2, p4, p5⟩
    · have hr : matchBuyGo takerId b ((price, qid) :: rest) = (b, []) := by
        simp only [matchBuyGo, if_neg hc]
      rw [hr]
      refine ⟨⟨hsc, fun _ hp => hp⟩, fun tr htr => absurd htr (List.not_mem_nil _),
        ?_, fun h0 => h0, ?_⟩
      · rw [List.map_nil, List.sum_nil, sub_zero]
      · intro pre tr post hdec
        cases pre <;> simp at hdec

/-- Trade-terms preservation through the outer SELL matching loop:
store coherence is kept and order records only accumulate, and the
emitted trades carry the taker's id, positive volumes, the maker's
posted price, nonnegative residual maker volumes, exact taker
decrements, and the min rule at the moment of each trade. -/
theorem matchSellGo_trades (takerId : Nat) (h : List (Rat × Nat)) : ∀ b : Book,
    b.bids_heap = h → HeapsWF b → (∀ qid, takerId ∉ queueOf b qid) →
    StoreCoh b → (∃ r, alookup b.orders takerId = some r) →
    (StoreCoh (matchSellGo takerId b h).1 ∧
      (∀ oid, (∃ r, alookup b.orders oid = some r) →
        ∃ r, alookup (matchSellGo takerId b h).1.orders oid = some r)) ∧
    (∀ tr ∈ (matchSellGo takerId b h).2,
      0 < tr.volume ∧ tr.taker_order_id = takerId ∧
      tr.price = (getOrder (matchSellGo takerId b h).1 tr.maker_order_id).price ∧
      0 ≤ (getOrder (matchSellGo takerId b h).1 tr.maker_order_id).volume) ∧
    ((getOrder (matchSellGo takerId b h).1 takerId).volume =
      (getOrder b takerId).volume -
        ((matchSellGo takerId b h).2.map Trade.volume).sum) ∧
    (0 ≤ (getOrder b takerId).volume →
      0 ≤ (getOrder (matchSellGo takerId b h).1 takerId).volume) ∧
    (∀ pre tr post, (matchSellGo takerId b h).2 = pre ++ tr :: post →
      tr.volume = min ((getOrder b takerId).volume - (pre.map Trade.volume).sum)
        ((getOrder (matchSellGo takerId b h).1 tr.maker_order_id).volume +
          tr.volume)) := by
  induction h with
  | nil =>
    intro b hh hwf hT hsc hpt
    refine ⟨⟨hsc, fun _ hp => hp⟩, fun tr htr => absurd htr (List.not_mem_nil _),
      ?_, fun h0 => h0, ?_⟩
    · show (getOrder b takerId).volume =
        (getOrder b takerId).volume - (List.map Trade.volume ([] : List Trade)).sum
      rw [List.map_nil, List.sum_nil, sub_zero]
    · intro pre tr post hdec
      rw [show (matchSellGo takerId b []).2 = [] from rfl] at hdec
      cases pre <;> simp at hdec
  | cons e rest ih =>
    intro b hh hwf hT hsc hpt
    obtain ⟨price, qid⟩ := e
    by_cases hc : 0 < (getOrder b takerId).volume ∧ (getOrder b takerId).price ≤ price
    · rcases hqe : queueOf b qid with _ | ⟨head, tail⟩
      · simp only [matchSellGo, if_pos hc, hqe]
        exact ih { b with bids_heap := rest
                          queue_map := aerase b.queue_map (price, Side.BUY) } rfl
          (matchSell_tomb_WF b price qid rest hh hwf) hT
          (storeCoh_congr b _ rfl rfl hsc) hpt
      · simp only [matchSellGo, if_pos hc, hqe]
        simp only [runQueue]
        obtain ⟨ws1, ws2, wn, wca, wcb, wqm, wqs, wqb, wnc, wvm⟩ := hwf
        have hmemh : ((price, qid) : Rat × Nat) ∈ b.bids_heap := by
          rw [hh]
          exact List.mem_cons_self _ _
        obtain ⟨q1, q2, q3, q4, q5⟩ :=
          runQueueGo_trades takerId qid price Side.BUY (queueOf b qid) b rfl
            (wcb (price, qid) hmemh) (hT qid) (wqs.1 qid)
            (fun oid ho => storeCoh_queue_oid b hsc qid oid ho)
            (storeCoh_getOrder_present b hsc takerId hpt)
        obtain ⟨hscR, hmonoR⟩ :=
          runQueueGo_StoreCoh takerId qid (queueOf b qid) b rfl hsc hpt
        have hTR := runQueueGo_taker_notin takerId qid b hT
        obtain ⟨qne, kd, qdrop⟩ := runQueueGo_queueOf takerId qid (queueOf b qid) b rfl
        by_cases hq2 : queueOf (runQueueGo takerId qid b (queueOf b qid)).1 qid = []
        · rw [if_pos hq2]
          obtain ⟨ihE, ihA, ihB, ihD, ihC⟩ := ih
            { (runQueueGo takerId qid b (queueOf b qid)).1 with
              bids_heap := rest
              queue_map := aerase (runQueueGo takerId qid b (queueOf b qid)).1.queue_map
                (price, Side.BUY)
              volume_map := if vget (runQueueGo takerId qid b (queueOf b qid)).1.volume_map
                    (price, Side.BUY) ≤ 0
                  then aerase (runQueueGo takerId qid b (queueOf b qid)).1.volume_map
                    (price, Side.BUY)
                  else (runQueueGo takerId qid b (queueOf b qid)).1.volume_map }
            rfl
            (matchSell_step_WF takerId b price qid rest hh
              ⟨ws1, ws2, wn, wca, wcb, wqm, wqs, wqb, wnc, wvm⟩ hT)
            hTR (storeCoh_congr _ _ rfl rfl hscR) (hmonoR takerId hpt)
          have hb2t : (getOrder ({ (runQueueGo takerId qid b (queueOf b qid)).1 with
              bids_heap := rest
              queue_map := aerase (runQueueGo takerId qid b (queueOf b qid)).1.queue_map
                (price, Side.BUY)
              volume_map := if vget (runQueueGo takerId qid b (queueOf b qid)).1.volume_map
                    (price, Side.BUY) ≤ 0
                  then aerase (runQueueGo takerId qid b (queueOf b qid)).1.volume_map
                    (price, Side.BUY)
                  else (runQueueGo takerId qid b (queueOf b qid)).1.volume_map } : Book)
              takerId).volume =
              (getOrder b takerId).volume -
                (List.map Trade.volume
                  (runQueueGo takerId qid b (queueOf b qid)).2).sum := q3
          have hmout : ∀ tr ∈ (runQueueGo takerId qid b (queueOf b qid)).2,
              getOrder (matchSellGo takerId
                { (runQueueGo takerId qid b (queueOf b qid)).1 with
                  bids_heap := rest
                  queue_map := aerase
                    (runQueueGo takerId qid b (queueOf b qid)).1.queue_map
                    (price, Side.BUY)
                  volume_map := if vget
                        (runQueueGo takerId qid b (queueOf b qid)).1.volume_map
                        (price, Side.BUY) ≤ 0
                      then aerase (runQueueGo takerId qid b (queueOf b qid)).1.volume_map
                        (price, Side.BUY)
                      else (runQueueGo takerId qid b (queueOf b qid)).1.volume_map }
                rest).1 tr.maker_order_id =
              getOrder (runQueueGo takerId qid b (queueOf b qid)).1
                tr.maker_order_id := by
            intro tr htr
            have hmem : tr.maker_order_id ∈ queueOf b qid := by
              have h1 : tr.maker_order_id ∈
                  List.map Trade.maker_order_id
                    (runQueueGo takerId qid b (queueOf b qid)).2 :=
                List.mem_map_of_mem _ htr
              rw [q1] at h1
              exact (List.take_sublist _ _).subset h1
            have hne : tr.maker_order_id ≠ takerId := fun he => hT qid (he ▸ hmem)
            refine (matchSellGo_getOrder_outside takerId rest _ tr.maker_order_id
              hne ?_).trans (getOrder_congr _ _ rfl _)
            intro e2 he2
            by_cases hq2e : e2.2 = qid
            · show tr.maker_order_id ∉
                queueOf (runQueueGo takerId qid b (queueOf b qid)).1 e2.2
              rw [hq2e, hq2]
              exact List.not_mem_nil _
            · show tr.maker_order_id ∉
                queueOf (runQueueGo takerId qid b (queueOf b qid)).1 e2.2
              rw [qne e2.2 hq2e]
              exact wqs.2 qid e2.2 (fun heq => hq2e heq.symm) tr.maker_order_id hmem
          refine ⟨⟨ihE.1, fun oid hp => ihE.2 oid (hmonoR oid hp)⟩, ?_, ?_, ?_, ?_⟩
          · intro tr htr
            rcases List.mem_append.mp htr with htr' | htr'
            · obtain ⟨p1, p2, p3, p4, p5⟩ := q2 tr htr'
              refine ⟨p1, p2, ?_, ?_⟩
              · rw [hmout tr htr']
                exact p4
              · rw [hmout tr htr']
                exact p5
            · exact ihA tr htr'
          · rw [List.map_append, List.sum_append, ihB, hb2t, sub_sub]
          · intro h0
            exact ihD (q4 h0)
          · intro pre tr post hdec
            rcases append_decomp _ _ _ _ _ hdec with ⟨post1, hr2, hpost⟩ |
              ⟨pre2, hpre, hm2⟩
            · have htr' : tr ∈ (runQueueGo takerId qid b (queueOf b qid)).2 := by
                rw [hr2]
                exact List.mem_append_right _ (List.mem_cons_self _ _)
              rw [hmout tr htr']
              exact q5 pre tr post1 hr2
            · have h5 := ihC pre2 tr post hm2
              rw [hb2t, sub_sub] at h5
              rw [hpre, List.map_append, List.sum_append]
              exact h5
        · rw [if_neg hq2]
          refine ⟨⟨hscR, hmonoR⟩, ?_, q3, q4, q5⟩
          intro tr htr
          obtain ⟨p1, p2, p3, p4, p5⟩ := q2 tr htr
          exact ⟨p1, p2, p4, p5⟩
    · have hr : matchSellGo takerId b ((price, qid) :: rest) = (b, []) := by
        simp only [matchSellGo, if_neg hc]
      rw [hr]
      refine ⟨⟨hsc, fun _ hp => hp⟩, fun tr htr => absurd htr (List.not_mem_nil _),
        ?_, fun h0 => h0, ?_⟩
      · rw [List.map_nil, List.sum_nil, sub_zero]
      · intro pre tr post hdec
        cases pre <;> simp at hdec

theorem queueOf_of_queues_ainsert (b b' : Book) (k : Nat) (v : List Nat)
    (h : b'.queues = ainsert b.queues k v) (qid2 : Nat) :
    queueOf b' qid2 = if qid2 = k then v else queueOf b qid2 := by
  rw [queueOf, h]
  by_cases hq : qid2 = k
  · rw [if_pos hq, hq, alookup_ainsert_self, Option.getD_some]
  · rw [if_neg hq, alookup_ainsert_ne _ _ _ _ (Ne.symm hq), queueOf]

theorem add_order_queues (b : Book) (oid : Nat) :
    (add_order_to_book b oid).queues = ainsert b.queues b.next_queue [oid] ∨
    ∃ qid, alookup b.queue_map ((getOrder b oid).price, (getOrder b oid).side) =
        some qid ∧
      (add_order_to_book b oid).queues = ainsert b.queues qid (queueOf b qid ++ [oid]) := by
  unfold add_order_to_book
  cases halo : alookup b.queue_map ((getOrder b oid).price, (getOrder b oid).side) with
  | none => cases hs : (getOrder b oid).side <;> simp_all
  | some qid => simp_all [queueOf]

theorem add_order_StoreCoh (b : Book) (oid : Nat) (hsc : StoreCoh b)
    (hp : ∃ r, alookup b.orders oid = some r) : StoreCoh (add_order_to_book b oid) := by
  have hord : (add_order_to_book b oid).orders = b.orders :=
    (add_order_to_book_frame b oid).2.2.2.2.2.2.2
  constructor
  · intro x r hr
    exact hsc.1 x r (hord ▸ hr)
  · intro qid2 x hx
    rcases add_order_queues b oid with hq | ⟨qid, halo, hq⟩
    · rw [queueOf_of_queues_ainsert b _ _ _ hq qid2] at hx
      by_cases h2 : qid2 = b.next_queue
      · rw [if_pos h2, List.mem_singleton] at hx
        subst hx
        exact hord.symm ▸ hp
      · rw [if_neg h2] at hx
        exact hord.symm ▸ hsc.2 qid2 x hx
    · rw [queueOf_of_queues_ainsert b _ _ _ hq qid2] at hx
      by_cases h2 : qid2 = qid
      · rw [if_pos h2] at hx
        rcases List.mem_append.mp hx with hx' | hx'
        · exact hord.symm ▸ hsc.2 qid x hx'
        · rw [List.mem_singleton] at hx'
          subst hx'
          exact hord.symm ▸ hp
      · rw [if_neg h2] at hx
        exact hord.symm ▸ hsc.2 qid2 x hx

theorem placeRest_StoreCoh (b2 : Book) (oid : Nat) (hsc : StoreCoh b2)
    (hp : ∃ r, alookup b2.orders oid = some r) : StoreCoh (placeRest b2 oid) := by
  by_cases hvr : 0 < (getOrder b2 oid).volume
  · rw [placeRest, if_pos hvr]
    exact add_order_StoreCoh b2 oid hsc hp
  · rw [placeRest, if_neg hvr]
    exact storeCoh_congr b2 _ rfl rfl hsc

theorem placeStart_StoreCoh (b : Book) (c : String) (s : Side) (p : Rat) (v : Int)
    (hsc : StoreCoh b) : StoreCoh (placeStart b c s p v) := by
  have h1 := storeCoh_orders_ainsert b b.order_id_counter
    { order_id := b.order_id_counter
      client := c
      side := s
      price := p
      volume := v
      timestamp := b.clock } rfl hsc
  exact storeCoh_congr _ _ rfl rfl h1

theorem placeStart_taker_present (b : Book) (c : String) (s : Side) (p : Rat) (v : Int) :
    ∃ r, alookup (placeStart b c s p v).orders b.order_id_counter = some r :=
  ⟨_, alookup_ainsert_self _ _ _⟩

theorem storeCoh_place (b : Book) (c : String) (s : Side) (p : Rat) (v : Int)
    (hsc : StoreCoh b) (hwf : HeapsWF b) (hids : IdsBound b) :
    StoreCoh (place_order b c s p v).1 := by
  have hwf1 := placeStart_WF b c s p v hwf hids
  have hT1 := placeStart_taker_fresh b c s p v hids
  have hsc1 := placeStart_StoreCoh b c s p v hsc
  have hpt1 := placeStart_taker_present b c s p v
  cases s with
  | BUY =>
    obtain ⟨⟨hscM, hmono⟩, -, -, -, -⟩ := matchBuyGo_trades b.order_id_counter
      (placeStart b c Side.BUY p v).asks_heap (placeStart b c Side.BUY p v) rfl
      hwf1 hT1 hsc1 hpt1
    show StoreCoh (update_price_history (placeRest (matchBuyGo b.order_id_counter
      (placeStart b c Side.BUY p v) (placeStart b c Side.BUY p v).asks_heap).1
      b.order_id_counter))
    exact storeCoh_congr _ _ (update_price_history_orders _)
      (update_price_history_queues _)
      (placeRest_StoreCoh _ _ hscM (hmono _ hpt1))
  | SELL =>
    obtain ⟨⟨hscM, hmono⟩, -, -, -, -⟩ := matchSellGo_trades b.order_id_counter
      (placeStart b c Side.SELL p v).bids_heap (placeStart b c Side.SELL p v) rfl
      hwf1 hT1 hsc1 hpt1
    show StoreCoh (update_price_history (placeRest (matchSellGo b.order_id_counter
      (placeStart b c Side.SELL p v) (placeStart b c Side.SELL p v).bids_heap).1
      b.order_id_counter))
    exact storeCoh_congr _ _ (update_price_history_orders _)
      (update_price_history_queues _)
      (placeRest_StoreCoh _ _ hscM (hmono _ hpt1))

theorem cancelVolumeStep_StoreCoh (b : Book) (k : Rat × Side) (vol : Int)
    (hsc : StoreCoh b) : StoreCoh (cancelVolumeStep b k vol).1 := by
  rw [cancelVolumeStep]
  cases halo : alookup b.volume_map k with
  | none => exact hsc
  | some v =>
    dsimp only
    exact storeCoh_congr b _ rfl rfl hsc

theorem cancelQueueStep_StoreCoh (b : Book) (k : Rat × Side) (oid : Nat)
    (hsc : StoreCoh b) : StoreCoh (cancelQueueStep b k oid).1 := by
  rw [cancelQueueStep]
  cases halo : alookup b.queue_map k with
  | none => exact hsc
  | some qid =>
    dsimp only
    by_cases hin : oid ∈ queueOf b qid
    · rw [if_pos hin]
      by_cases hemp : (queueOf b qid).erase oid = []
      · rw [if_pos hemp]
        refine ⟨hsc.1, fun qid2 x hx => ?_⟩
        rw [queueOf_of_queues_ainsert b _ qid ((queueOf b qid).erase oid) rfl qid2] at hx
        by_cases h2 : qid2 = qid
        · rw [if_pos h2] at hx
          exact hsc.2 qid x (((queueOf b qid).erase_sublist oid).subset hx)
        · rw [if_neg h2] at hx
          exact hsc.2 qid2 x hx
      · rw [if_neg hemp]
        refine ⟨hsc.1, fun qid2 x hx => ?_⟩
        rw [queueOf_of_queues_ainsert b _ qid ((queueOf b qid).erase oid) rfl qid2] at hx
        by_cases h2 : qid2 = qid
        · rw [if_pos h2] at hx
          exact hsc.2 qid x (((queueOf b qid).erase_sublist oid).subset hx)
        · rw [if_neg h2] at hx
          exact hsc.2 qid2 x hx
    · rw [if_neg hin]
      exact hsc

theorem storeCoh_cancel (b : Book) (oid : Nat) (hsc : StoreCoh b) :
    StoreCoh (cancel_order b oid).1 := by
  rw [cancel_order]
  by_cases hn : oid ∉ b.order_map
  · rw [if_pos hn]
    exact hsc
  · rw [if_neg hn]
    by_cases hz : (getOrder b oid).volume ≤ 0
    · rw [if_pos hz]
      exact storeCoh_congr b _ rfl rfl hsc
    · rw [if_neg hz]
      dsimp only
      have h1 := cancelVolumeStep_StoreCoh b
        ((getOrder b oid).price, (getOrder b oid).side) (getOrder b oid).volume hsc
      have h2 := cancelQueueStep_StoreCoh (cancelVolumeStep b
        ((getOrder b oid).price, (getOrder b oid).side) (getOrder b oid).volume).1
        ((getOrder b oid).price, (getOrder b oid).side) oid h1
      have h3 := storeCoh_congr _ _ rfl rfl h2
      split
      · exact storeCoh_congr _ _ (update_price_history_orders _)
          (update_price_history_queues _) h3
      · exact h3

theorem storeCoh_init (limit : Nat) : StoreCoh (initBook limit) := by
  constructor
  · intro oid r hr
    exact absurd hr (by rw [show (initBook limit).orders = [] from rfl, alookup_nil]; exact Option.noConfusion)
  · intro qid oid hm
    exact absurd hm (List.not_mem_nil _)

theorem storeCoh_applyOp (b : Book) (op : Op) (hsc : StoreCoh b) (hwf : HeapsWF b)
    (hids : IdsBound b) : StoreCoh (applyOp b op) := by
  cases op with
  | place c s p v => exact storeCoh_place b c s p v hsc hwf hids
  | cancel oid => exact storeCoh_cancel b oid hsc

theorem storeCoh_reachable (b : Book) (hb : Reachable b) : StoreCoh b := by
  obtain ⟨limit, ops, hops⟩ := hb
  subst hops
  rw [runOps]
  induction ops using List.reverseRecOn with
  | nil => exact storeCoh_init limit
  | append_singleton ops op ih =>
    rw [List.foldl_append, List.foldl_cons, List.foldl_nil]
    exact storeCoh_applyOp _ op ih
      (heapsWF_reachable _ ⟨limit, ops, rfl⟩)
      (idsBound_reachable _ ⟨limit, ops, rfl⟩)

/-- C5 (trade terms): for every reachable book, every trade emitted by
place_order carries strictly positive volume, the incoming (taker)
order's id, and the maker's posted price — the price still recorded on
the maker's order afterwards, never an average; the maker's residual
volume never goes negative; the taker's residual volume is its placed
volume minus exactly the total traded volume (and stays nonnegative
when the placed volume was nonnegative); and each trade's volume is
min(taker residual, maker residual) at the moment of the trade: the
taker residual then is the placed volume minus the volumes of the
earlier trades of this call, the maker residual is the maker's final
volume plus what this trade took from it. -/
theorem C5_trade_terms (b : Book) (c : String) (s : Side) (p : Rat) (v : Int)
    (hb : Reachable b) :
    (∀ tr ∈ (place_order b c s p v).2.2,
      0 < tr.volume ∧ tr.taker_order_id = b.order_id_counter ∧
      tr.price = (getOrder (place_order b c s p v).1 tr.maker_order_id).price ∧
      0 ≤ (getOrder (place_order b c s p v).1 tr.maker_order_id).volume) ∧
    ((getOrder (place_order b c s p v).1 b.order_id_counter).volume =
      v - ((place_order b c s p v).2.2.map Trade.volume).sum) ∧
    (0 ≤ v →
      0 ≤ (getOrder (place_order b c s p v).1 b.order_id_counter).volume) ∧
    (∀ pre tr post, (place_order b c s p v).2.2 = pre ++ tr :: post →
      tr.volume = min (v - (pre.map Trade.volume).sum)
        ((getOrder (place_order b c s p v).1 tr.maker_order_id).volume +
          tr.volume)) := by
  have hwf := heapsWF_reachable b hb
  have hids := idsBound_reachable b hb
  have hsc := storeCoh_reachable b hb
  have hwf1 := placeStart_WF b c s p v hwf hids
  have hT1 := placeStart_taker_fresh b c s p v hids
  have hsc1 := placeStart_StoreCoh b c s p v hsc
  have hpt1 := placeStart_taker_present b c s p v
  have hvol1 : (getOrder (placeStart b c s p v) b.order_id_counter).volume = v := by
    rw [placeStart_getOrder_self]
  cases s with
  | BUY =>
    obtain ⟨hE, hA, hB, hD, hC⟩ := matchBuyGo_trades b.order_id_counter
      (placeStart b c Side.BUY p v).asks_heap (placeStart b c Side.BUY p v) rfl
      hwf1 hT1 hsc1 hpt1
    have hfin : ∀ x, getOrder (place_order b c Side.BUY p v).1 x =
        getOrder (matchBuyGo b.order_id_counter (placeStart b c Side.BUY p v)
          (placeStart b c Side.BUY p v).asks_heap).1 x := by
      intro x
      exact getOrder_congr _ _
        ((update_price_history_orders _).trans (placeRest_orders _ _)) x
    have htr : (place_order b c Side.BUY p v).2.2 =
        (matchBuyGo b.order_id_counter (placeStart b c Side.BUY p v)
          (placeStart b c Side.BUY p v).asks_heap).2 := rfl
    refine ⟨?_, ?_, ?_, ?_⟩
    · intro tr hmem
      rw [htr] at hmem
      obtain ⟨p1, p2, p3, p4⟩ := hA tr hmem
      exact ⟨p1, p2, by rw [hfin tr.maker_order_id]; exact p3,
        by rw [hfin tr.maker_order_id]; exact p4⟩
    · rw [hfin b.order_id_counter, htr, hB, hvol1]
    · intro h0
      rw [hfin b.order_id_counter]
      exact hD (by rw [hvol1]; exact h0)
    · intro pre tr post hdec
      rw [htr] at hdec
      have h5 := hC pre tr post hdec
      rw [hvol1] at h5
      rw [hfin tr.maker_order_id]
      exact h5
  | SELL =>
    obtain ⟨hE, hA, hB, hD, hC⟩ := matchSellGo_trades b.order_id_counter
      (placeStart b c Side.SELL p v).bids_heap (placeStart b c Side.SELL p v) rfl
      hwf1 hT1 hsc1 hpt1
    have hfin : ∀ x, getOrder (place_order b c Side.SELL p v).1 x =
        getOrder (matchSellGo b.order_id_counter (placeStart b c Side.SELL p v)
          (placeStart b c Side.SELL p v).bids_heap).1 x := by
      intro x
      exact getOrder_congr _ _
        ((update_price_history_orders _).trans (placeRest_orders _ _)) x
    have htr : (place_order b c Side.SELL p v).2.2 =
        (matchSellGo b.order_id_counter (placeStart b c Side.SELL p v)
          (placeStart b c Side.SELL p v).bids_heap).2 := rfl
    refine ⟨?_, ?_, ?_, ?_⟩
    · intro tr hmem
      rw [htr] at hmem
      obtain ⟨p1, p2, p3, p4⟩ := hA tr hmem
      exact ⟨p1, p2, by rw [hfin tr.maker_order_id]; exact p3,
        by rw [hfin tr.maker_order_id]; exact p4⟩
    · rw [hfin b.order_id_counter, htr, hB, hvol1]
    · intro h0
      rw [hfin b.order_id_counter]
      exact hD (by rw [hvol1]; exact h0)
    · intro pre tr post hdec
      rw [htr] at hdec
      have h5 := hC pre tr post hdec
      rw [hvol1] at h5
      rw [hfin tr.maker_order_id]
      exact h5

/-- Concrete instance of C5: a SELL maker rests 5 at 100, a BUY taker
for 3 at 101 trades once, volume 3, and the taker ends fully filled. -/
theorem C5_witness :
    ((place_order (runOps 10 [Op.place "A" Side.SELL 100 5]) "B" Side.BUY 101 3).2.2.map
        Trade.volume = [(3 : Int)]) ∧
    (getOrder (place_order (runOps 10 [Op.place "A" Side.SELL 100 5]) "B" Side.BUY
          101 3).1
        (runOps 10 [Op.place "A" Side.SELL 100 5]).order_id_counter).volume =
      3 - ((place_order (runOps 10 [Op.place "A" Side.SELL 100 5]) "B" Side.BUY
          101 3).2.2.map Trade.volume).sum :=
  ⟨by decide,
   (C5_trade_terms (runOps 10 [Op.place "A" Side.SELL 100 5]) "B" Side.BUY 101 3
     ⟨10, [Op.place "A" Side.SELL 100 5], rfl⟩).2.1⟩

/-- FIFO consumption of one level queue by the inner loop: the queue is
only consumed from the front; every popped order has volume 0 in the
result, and every order strictly behind the current head keeps its
record untouched. -/
theorem runQueueGo_consume (takerId qid : Nat) (q : List Nat) : ∀ b : Book,
    queueOf b qid = q → takerId ∉ q → q.Nodup →
    ∃ k, queueOf (runQueueGo takerId qid b q).1 qid = q.drop k ∧
      (∀ oid ∈ q.take k, (getOrder (runQueueGo takerId qid b q).1 oid).volume = 0) ∧
      (∀ oid ∈ q.drop (k+1),
        getOrder (runQueueGo takerId qid b q).1 oid = getOrder b oid) := by
  induction q with
  | nil =>
    intro b hq hT hnd
    exact ⟨0, hq, fun oid ho => absurd ho (List.not_mem_nil _), fun oid _ => rfl⟩
  | cons makerId rest ih =>
    intro b hq hT hnd
    have htm : takerId ≠ makerId := fun he => hT (he ▸ List.mem_cons_self _ _)
    by_cases hv : 0 < (getOrder b takerId).volume
    · by_cases hfil : (getOrder (tradeUpdates b takerId makerId).1 makerId).volume = 0
      · simp only [runQueueGo, if_pos hv, hfil, if_true]
        have hordeq : (popMaker (tradeUpdates b takerId makerId).1 makerId qid
              rest).orders = (tradeUpdates b takerId makerId).1.orders :=
          (popMaker_frame _ _ _ _).2.2.2.2.2.2.2.2.1
        obtain ⟨k0, hk1, hk2, hk3⟩ :=
          ih (popMaker (tradeUpdates b takerId makerId).1 makerId qid rest)
            (queueOf_popMaker_self _ _ _ _)
            (fun he => hT (List.mem_cons_of_mem _ he)) (List.nodup_cons.mp hnd).2
        refine ⟨k0 + 1, ?_, ?_, ?_⟩
        · rw [List.drop_succ_cons]
          exact hk1
        · intro oid ho
          rw [List.take_succ_cons] at ho
          rcases List.mem_cons.mp ho with he | ho'
          · subst he
            rw [runQueueGo_getOrder_outside takerId qid rest _ oid
              (fun he2 => htm he2.symm) (List.nodup_cons.mp hnd).1,
              getOrder_congr _ _ hordeq oid]
            exact hfil
          · exact hk2 oid ho'
        · intro oid ho
          rw [List.drop_succ_cons] at ho
          have hom : oid ∈ rest := List.drop_subset _ _ ho
          have h1 : oid ≠ takerId := fun he => hT (he ▸ List.mem_cons_of_mem _ hom)
          have h2 : oid ≠ makerId := fun he => (List.nodup_cons.mp hnd).1 (he ▸ hom)
          rw [hk3 oid ho, getOrder_congr _ _ hordeq oid]
          exact tradeUpdates_getOrder_other b takerId makerId oid h1 h2
      · simp only [runQueueGo, if_pos hv, hfil, if_false]
        refine ⟨0, ?_, fun oid ho => absurd ho (List.not_mem_nil _), ?_⟩
        · exact (queueOf_tradeUpdates b takerId makerId qid).trans hq
        · intro oid ho
          rw [List.drop_succ_cons, List.drop_zero] at ho
          have h1 : oid ≠ takerId := fun he => hT (he ▸ List.mem_cons_of_mem _ ho)
          have h2 : oid ≠ makerId := fun he => (List.nodup_cons.mp hnd).1 (he ▸ ho)
          exact tradeUpdates_getOrder_other b takerId makerId oid h1 h2
    · have hr : runQueueGo takerId qid b (makerId :: rest) = (b, []) := by
        simp only [runQueueGo, if_neg hv]
      rw [hr]
      exact ⟨0, hq, fun oid ho => absurd ho (List.not_mem_nil _), fun oid _ => rfl⟩

/-- FIFO consumption of level queues by the outer BUY matching loop:
every queue object is only consumed from the front; popped orders end
with volume 0 and orders strictly behind the head keep their records. -/
theorem matchBuyGo_consume (takerId : Nat) (h : List (Rat × Nat)) : ∀ b : Book,
    b.asks_heap = h → HeapsWF b → (∀ qid2, takerId ∉ queueOf b qid2) →
    ∀ qid, ∃ k,
      queueOf (matchBuyGo takerId b h).1 qid = (queueOf b qid).drop k ∧
      (∀ oid ∈ (queueOf b qid).take k,
        (getOrder (matchBuyGo takerId b h).1 oid).volume = 0) ∧
      (∀ oid ∈ (queueOf b qid).drop (k+1),
        getOrder (matchBuyGo takerId b h).1 oid = getOrder b oid) := by
  induction h with
  | nil =>
    intro b hh hwf hT qid
    exact ⟨0, rfl, fun oid ho => absurd ho (List.not_mem_nil _), fun oid _ => rfl⟩
  | cons e rest ih =>
    intro b hh hwf hT qid
    obtain ⟨price, qid0⟩ := e
    by_cases hc : 0 < (getOrder b takerId).volume ∧ price ≤ (getOrder b takerId).price
    · rcases hqe : queueOf b qid0 with _ | ⟨head, tail⟩
      · simp only [matchBuyGo, if_pos hc, hqe]
        exact ih { b with asks_heap := rest
                          queue_map := aerase b.queue_map (price, Side.SELL) } rfl
          (matchBuy_tomb_WF b price qid0 rest hh hwf) hT qid
      · simp only [matchBuyGo, if_pos hc, hqe]
        simp only [runQueue]
        obtain ⟨ws1, ws2, wn, wca, wcb, wqm, wqs, wqb, wnc, wvm⟩ := hwf
        obtain ⟨k0, c1, c2, c3⟩ := runQueueGo_consume takerId qid0 (queueOf b qid0) b
          rfl (hT qid0) (wqs.1 qid0)
        obtain ⟨qne, kd, qdrop⟩ := runQueueGo_queueOf takerId qid0 (queueOf b qid0) b rfl
        have hTR := runQueueGo_taker_notin takerId qid0 b hT
        by_cases hq2 : queueOf (runQueueGo takerId qid0 b (queueOf b qid0)).1 qid0 = []
        · rw [if_pos hq2]
          set b2 : Book := { (runQueueGo takerId qid0 b (queueOf b qid0)).1 with
              asks_heap := rest
              queue_map := aerase (runQueueGo takerId qid0 b (queueOf b qid0)).1.queue_map
                (price, Side.SELL)
              volume_map := if vget (runQueueGo takerId qid0 b (queueOf b qid0)).1.volume_map
                    (price, Side.SELL) ≤ 0
                  then aerase (runQueueGo takerId qid0 b (queueOf b qid0)).1.volume_map
                    (price, Side.SELL)
                  else (runQueueGo takerId qid0 b (queueOf b qid0)).1.volume_map }
            with hb2def
          have hwf2 : HeapsWF b2 := matchBuy_step_WF takerId b price qid0 rest hh
            ⟨ws1, ws2, wn, wca, wcb, wqm, wqs, wqb, wnc, wvm⟩ hT
          have ihAll := ih b2 rfl hwf2 hTR
          have hb2q0 : queueOf b2 qid0 = [] := hq2
          have hb2qne : ∀ x, x ≠ qid0 → queueOf b2 x = queueOf b x :=
            fun x hx => qne x hx
          have hb2ord : ∀ x, getOrder b2 x =
              getOrder (runQueueGo takerId qid0 b (queueOf b qid0)).1 x := fun x => rfl
          have hstay : ∀ oid, oid ≠ takerId →
              (∀ qid2, qid2 ≠ qid0 → oid ∉ queueOf b qid2) →
              getOrder (matchBuyGo takerId b2 rest).1 oid =
                getOrder (runQueueGo takerId qid0 b (queueOf b qid0)).1 oid := by
            intro oid hne hnq
            refine (matchBuyGo_getOrder_outside takerId rest b2 oid hne ?_).trans
              (hb2ord oid)
            intro e2 he2
            by_cases hq2e : e2.2 = qid0
            · rw [hq2e, hb2q0]
              exact List.not_mem_nil _
            · rw [hb2qne e2.2 hq2e]
              exact hnq e2.2 hq2e
          by_cases hqq : qid = qid0
          · subst hqq
            obtain ⟨k2, d1, d2, d3⟩ := ihAll qid
            refine ⟨(queueOf b qid).length, ?_, ?_, ?_⟩
            · rw [List.drop_length, d1, hb2q0, List.drop_nil]
            · intro oid ho
              rw [List.take_length] at ho
              have hdk : (queueOf b qid).drop k0 = [] := c1.symm.trans hq2
              have hot : oid ∈ (queueOf b qid).take k0 := by
                have hta := List.take_append_drop k0 (queueOf b qid)
                rw [hdk, List.append_nil] at hta
                rw [← hta] at ho
                exact ho
              have hne : oid ≠ takerId := fun he => hT qid (he ▸ ho)
              have hnq : ∀ qid2, qid2 ≠ qid → oid ∉ queueOf b qid2 := by
                intro qid2 h2
                exact wqs.2 qid qid2 (fun he => h2 he.symm) oid ho
              rw [hstay oid hne hnq]
              exact c2 oid hot
            · intro oid ho
              rw [List.drop_eq_nil_of_le (Nat.le_succ _)] at ho
              exact absurd ho (List.not_mem_nil _)
          · obtain ⟨k2, d1, d2, d3⟩ := ihAll qid
            have hq12 : queueOf b2 qid = queueOf b qid := hb2qne qid hqq
            rw [hq12] at d1 d2 d3
            refine ⟨k2, d1, d2, ?_⟩
            intro oid ho
            have homem : oid ∈ queueOf b qid := List.drop_subset _ _ ho
            have hne : oid ≠ takerId := fun he => hT qid (he ▸ homem)
            rw [d3 oid ho, hb2ord oid]
            exact runQueueGo_getOrder_outside takerId qid0 (queueOf b qid0) b oid hne
              (wqs.2 qid qid0 hqq oid homem)
        · rw [if_neg hq2]
          by_cases hqq : qid = qid0
          · subst hqq
            exact ⟨k0, c1, c2, c3⟩
          · refine ⟨0, qne qid hqq, fun oid ho => absurd ho (List.not_mem_nil _), ?_⟩
            intro oid ho
            have homem : oid ∈ queueOf b qid := List.drop_subset _ _ ho
            exact runQueueGo_getOrder_outside takerId qid0 (queueOf b qid0) b oid
              (fun he => hT qid (he ▸ homem)) (wqs.2 qid qid0 hqq oid homem)
    · have hr : matchBuyGo takerId b ((price, qid0) :: rest) = (b, []) := by
        simp only [matchBuyGo, if_neg hc]
      rw [hr]
      exact ⟨0, rfl, fun oid ho => absurd ho (List.not_mem_nil _), fun oid _ => rfl⟩

/-- FIFO consumption of level queues by the outer SELL matching loop:
every queue object is only consumed from the front; popped orders end
with volume 0 and orders strictly behind the head keep their records. -/
theorem matchSellGo_consume (takerId : Nat) (h : List (Rat × Nat)) : ∀ b : Book,
    b.bids_heap = h → HeapsWF b → (∀ qid2, takerId ∉ queueOf b qid2) →
    ∀ qid, ∃ k,
      queueOf (matchSellGo takerId b h).1 qid = (queueOf b qid).drop k ∧
      (∀ oid ∈ (queueOf b qid).take k,
        (getOrder (matchSellGo takerId b h).1 oid).volume = 0) ∧
      (∀ oid ∈ (queueOf b qid).drop (k+1),
        getOrder (matchSellGo takerId b h).1 oid = getOrder b oid) := by
  induction h with
  | nil =>
    intro b hh hwf hT qid
    exact ⟨0, rfl, fun oid ho => absurd ho (List.not_mem_nil _), fun oid _ => rfl⟩
  | cons e rest ih =>
    intro b hh hwf hT qid
    obtain ⟨price, qid0⟩ := e
    by_cases hc : 0 < (getOrder b takerId).volume ∧ (getOrder b takerId).price ≤ price
    · rcases hqe : queueOf b qid0 with _ | ⟨head, tail⟩
      · simp only [matchSellGo, if_pos hc, hqe]
        exact ih { b with bids_heap := rest
                          queue_map := aerase b.queue_map (price, Side.BUY) } rfl
          (matchSell_tomb_WF b price qid0 rest hh hwf) hT qid
      · simp only [matchSellGo, if_pos hc, hqe]
        simp only [runQueue]
        obtain ⟨ws1, ws2, wn, wca, wcb, wqm, wqs, wqb, wnc, wvm⟩ := hwf
        obtain ⟨k0, c1, c2, c3⟩ := runQueueGo_consume takerId qid0 (queueOf b qid0) b
          rfl (hT qid0) (wqs.1 qid0)
        obtain ⟨qne, kd, qdrop⟩ := runQueueGo_queueOf takerId qid0 (queueOf b qid0) b rfl
        have hTR := runQueueGo_taker_notin takerId qid0 b hT
        by_cases hq2 : queueOf (runQueueGo takerId qid0 b (queueOf b qid0)).1 qid0 = []
        · rw [if_pos hq2]
          set b2 : Book := { (runQueueGo takerId qid0 b (queueOf b qid0)).1 with
              bids_heap := rest
              queue_map := aerase (runQueueGo takerId qid0 b (queueOf b qid0)).1.queue_map
                (price, Side.BUY)
              volume_map := if vget (runQueueGo takerId qid0 b (queueOf b qid0)).1.volume_map
                    (price, Side.BUY) ≤ 0
                  then aerase (runQueueGo takerId qid0 b (queueOf b qid0)).1.volume_map
                    (price, Side.BUY)
                  else (runQueueGo takerId qid0 b (queueOf b qid0)).1.volume_map }
            with hb2def
          have hwf2 : HeapsWF b2 := matchSell_step_WF takerId b price qid0 rest hh
            ⟨ws1, ws2, wn, wca, wcb, wqm, wqs, wqb, wnc, wvm⟩ hT
          have ihAll := ih b2 rfl hwf2 hTR
          have hb2q0 : queueOf b2 qid0 = [] := hq2
          have hb2qne : ∀ x, x ≠ qid0 → queueOf b2 x = queueOf b x :=
            fun x hx => qne x hx
          have hb2ord : ∀ x, getOrder b2 x =
              getOrder (runQueueGo takerId qid0 b (queueOf b qid0)).1 x := fun x => rfl
          have hstay : ∀ oid, oid ≠ takerId →
              (∀ qid2, qid2 ≠ qid0 → oid ∉ queueOf b qid2) →
              getOrder (matchSellGo takerId b2 rest).1 oid =
                getOrder (runQueueGo takerId qid0 b (queueOf b qid0)).1 oid := by
            intro oid hne hnq
            refine (matchSellGo_getOrder_outside takerId rest b2 oid hne ?_).trans
              (hb2ord oid)
            intro e2 he2
            by_cases hq2e : e2.2 = qid0
            · rw [hq2e, hb2q0]
              exact List.not_mem_nil _
            · rw [hb2qne e2.2 hq2e]
              exact hnq e2.2 hq2e
          by_cases hqq : qid = qid0
          · subst hqq
            obtain ⟨k2, d1, d2, d3⟩ := ihAll qid
            refine ⟨(queueOf b qid).length, ?_, ?_, ?_⟩
            · rw [List.drop_length, d1, hb2q0, List.drop_nil]
            · intro oid ho
              rw [List.take_length] at ho
              have hdk : (queueOf b qid).drop k0 = [] := c1.symm.trans hq2
              have hot : oid ∈ (queueOf b qid).take k0 := by
                have hta := List.take_append_drop k0 (queueOf b qid)
                rw [hdk, List.append_nil] at hta
                rw [← hta] at ho
                exact ho
              have hne : oid ≠ takerId := fun he => hT qid (he ▸ ho)
              have hnq : ∀ qid2, qid2 ≠ qid → oid ∉ queueOf b qid2 := by
                intro qid2 h2
                exact wqs.2 qid qid2 (fun he => h2 he.symm) oid ho
              rw [hstay oid hne hnq]
              exact c2 oid hot
            · intro oid ho
              rw [List.drop_eq_nil_of_le (Nat.le_succ _)] at ho
              exact absurd ho (List.not_mem_nil _)
          · obtain ⟨k2, d1, d2, d3⟩ := ihAll qid
            have hq12 : queueOf b2 qid = queueOf b qid := hb2qne qid hqq
            rw [hq12] at d1 d2 d3
            refine ⟨k2, d1, d2, ?_⟩
            intro oid ho
            have homem : oid ∈ queueOf b qid := List.drop_subset _ _ ho
            have hne : oid ≠ takerId := fun he => hT qid (he ▸ homem)
            rw [d3 oid ho, hb2ord oid]
            exact runQueueGo_getOrder_outside takerId qid0 (queueOf b qid0) b oid hne
              (wqs.2 qid qid0 hqq oid homem)
        · rw [if_neg hq2]
          by_cases hqq : qid = qid0
          · subst hqq
            exact ⟨k0, c1, c2, c3⟩
          · refine ⟨0, qne qid hqq, fun oid ho => absurd ho (List.not_mem_nil _), ?_⟩
            intro oid ho
            have homem : oid ∈ queueOf b qid := List.drop_subset _ _ ho
            exact runQueueGo_getOrder_outside takerId qid0 (queueOf b qid0) b oid
              (fun he => hT qid (he ▸ homem)) (wqs.2 qid qid0 hqq oid homem)
    · have hr : matchSellGo takerId b ((price, qid0) :: rest) = (b, []) := by
        simp only [matchSellGo, if_neg hc]
      rw [hr]
      exact ⟨0, rfl, fun oid ho => absurd ho (List.not_mem_nil _), fun oid _ => rfl⟩

theorem place_order_counter (b : Book) (c : String) (s : Side) (p : Rat) (v : Int) :
    (place_order b c s p v).1.order_id_counter = b.order_id_counter + 1 := by
  cases s with
  | BUY =>
    show (update_price_history (placeRest (matchBuyGo b.order_id_counter
      (placeStart b c Side.BUY p v) (placeStart b c Side.BUY p v).asks_heap).1
      b.order_id_counter)).order_id_counter = b.order_id_counter + 1
    rw [update_price_history_counter, (placeRest_frame _ _).2.2.2.2.1,
      (matchBuyGo_frame _ _ _).2.2.1]
    rfl
  | SELL =>
    show (update_price_history (placeRest (matchSellGo b.order_id_counter
      (placeStart b c Side.SELL p v) (placeStart b c Side.SELL p v).bids_heap).1
      b.order_id_counter)).order_id_counter = b.order_id_counter + 1
    rw [update_price_history_counter, (placeRest_frame _ _).2.2.2.2.1,
      (matchSellGo_frame _ _ _).2.2.1]
    rfl

theorem cancel_order_counter (b : Book) (oid : Nat) :
    (cancel_order b oid).1.order_id_counter = b.order_id_counter := by
  rw [cancel_order]
  by_cases hn : oid ∉ b.order_map
  · rw [if_pos hn]
  · rw [if_neg hn]
    by_cases hz : (getOrder b oid).volume ≤ 0
    · rw [if_pos hz]
    · rw [if_neg hz]
      dsimp only
      split
      · rw [update_price_history_counter]
        exact ((cancelQueueStep_frame _ _ _).2.2.2.2.2.2.1).trans
          ((cancelVolumeStep_frame _ _ _).2.2.2.2.2.2.2.1)
      · exact ((cancelQueueStep_frame _ _ _).2.2.2.2.2.2.1).trans
          ((cancelVolumeStep_frame _ _ _).2.2.2.2.2.2.2.1)

theorem applyOp_counter_mono (b : Book) (op : Op) :
    b.order_id_counter ≤ (applyOp b op).order_id_counter := by
  cases op with
  | place c s p v =>
    have h1 : applyOp b (Op.place c s p v) = (place_order b c s p v).1 := rfl
    rw [h1, place_order_counter]
    exact Nat.le_succ _
  | cancel oid =>
    have h1 : applyOp b (Op.cancel oid) = (cancel_order b oid).1 := rfl
    rw [h1, cancel_order_counter]

theorem reachable_applyOp (b : Book) (op : Op) (hb : Reachable b) :
    Reachable (applyOp b op) := by
  obtain ⟨limit, ops, hops⟩ := hb
  refine ⟨limit, ops ++ [op], ?_⟩
  rw [runOps, List.foldl_append, List.foldl_cons, List.foldl_nil]
  have h1 : List.foldl applyOp (initBook limit) ops = b := hops
  rw [h1]

theorem placeRest_queueOf (b2 : Book) (oid : Nat)
    (hqb : ∀ kv ∈ b2.queues, kv.1 < b2.next_queue) :
    ∀ qid, queueOf (placeRest b2 oid) qid = queueOf b2 qid ∨
      queueOf (placeRest b2 oid) qid = queueOf b2 qid ++ [oid] := by
  intro qid
  by_cases hvr : 0 < (getOrder b2 oid).volume
  · rw [placeRest, if_pos hvr]
    rcases add_order_queues b2 oid with hq | ⟨qid1, halo, hq⟩
    · rw [queueOf_of_queues_ainsert b2 _ _ _ hq qid]
      by_cases h2 : qid = b2.next_queue
      · rw [if_pos h2]
        right
        have hnil : queueOf b2 b2.next_queue = [] := by
          rw [queueOf, alookup_none_of_key_bound b2.queues b2.next_queue hqb]
          rfl
        rw [h2, hnil]
        rfl
      · rw [if_neg h2]
        exact Or.inl rfl
    · rw [queueOf_of_queues_ainsert b2 _ _ _ hq qid]
      by_cases h2 : qid = qid1
      · rw [if_pos h2, h2]
        exact Or.inr rfl
      · rw [if_neg h2]
        exact Or.inl rfl
  · rw [placeRest, if_neg hvr]
    exact Or.inl rfl

theorem place_getOrder_outside (b : Book) (c : String) (s : Side) (p : Rat) (v : Int)
    (A : Nat) (hA : A ≠ b.order_id_counter) (hq : ∀ qid2, A ∉ queueOf b qid2) :
    getOrder (place_order b c s p v).1 A = getOrder b A := by
  cases s with
  | BUY =>
    have hfin : getOrder (place_order b c Side.BUY p v).1 A =
        getOrder (matchBuyGo b.order_id_counter (placeStart b c Side.BUY p v)
          (placeStart b c Side.BUY p v).asks_heap).1 A :=
      getOrder_congr _ _
        ((update_price_history_orders _).trans (placeRest_orders _ _)) A
    rw [hfin, matchBuyGo_getOrder_outside b.order_id_counter
      (placeStart b c Side.BUY p v).asks_heap (placeStart b c Side.BUY p v) A hA
      (fun e2 _ => hq e2.2)]
    exact placeStart_getOrder_ne b c Side.BUY p v A hA
  | SELL =>
    have hfin : getOrder (place_order b c Side.SELL p v).1 A =
        getOrder (matchSellGo b.order_id_counter (placeStart b c Side.SELL p v)
          (placeStart b c Side.SELL p v).bids_heap).1 A :=
      getOrder_congr _ _
        ((update_price_history_orders _).trans (placeRest_orders _ _)) A
    rw [hfin, matchSellGo_getOrder_outside b.order_id_counter
      (placeStart b c Side.SELL p v).bids_heap (placeStart b c Side.SELL p v) A hA
      (fun e2 _ => hq e2.2)]
    exact placeStart_getOrder_ne b c Side.SELL p v A hA

/-- FIFO consumption at the place_order level: every level queue in the
result is the original queue consumed from the front, possibly with the
freshly admitted order appended at the back; popped orders end fully
filled (volume 0) and orders strictly behind the head keep their
records. -/
theorem place_consume (b : Book) (c : String) (s : Side) (p : Rat) (v : Int)
    (hwf : HeapsWF b) (hids : IdsBound b) :
    ∀ qid, ∃ k rest,
      (rest = [] ∨ rest = [b.order_id_counter]) ∧
      queueOf (place_order b c s p v).1 qid = (queueOf b qid).drop k ++ rest ∧
      (∀ oid ∈ (queueOf b qid).take k,
        (getOrder (place_order b c s p v).1 oid).volume = 0) ∧
      (∀ oid ∈ (queueOf b qid).drop (k+1),
        getOrder (place_order b c s p v).1 oid = getOrder b oid) := by
  have hwf1 := placeStart_WF b c s p v hwf hids
  have hT1 := placeStart_taker_fresh b c s p v hids
  have hqupd : ∀ (y : Book) (qid2 : Nat),
      queueOf (update_price_history y) qid2 = queueOf y qid2 := by
    intro y qid2
    show (alookup (update_price_history y).queues qid2).getD [] =
      (alookup y.queues qid2).getD []
    rw [update_price_history_queues]
  cases s with
  | BUY =>
    intro qid
    obtain ⟨m1, m2, m3, m4, m5, m6⟩ := matchBuyGo_WF b.order_id_counter
      (placeStart b c Side.BUY p v).asks_heap (placeStart b c Side.BUY p v) rfl hwf1 hT1
    obtain ⟨k, e1, e2, e3⟩ := matchBuyGo_consume b.order_id_counter
      (placeStart b c Side.BUY p v).asks_heap (placeStart b c Side.BUY p v) rfl
      hwf1 hT1 qid
    have hfin : ∀ x, getOrder (place_order b c Side.BUY p v).1 x =
        getOrder (matchBuyGo b.order_id_counter (placeStart b c Side.BUY p v)
          (placeStart b c Side.BUY p v).asks_heap).1 x := by
      intro x
      exact getOrder_congr _ _
        ((update_price_history_orders _).trans (placeRest_orders _ _)) x
    have hqfin : queueOf (place_order b c Side.BUY p v).1 qid =
        queueOf (placeRest (matchBuyGo b.order_id_counter (placeStart b c Side.BUY p v)
          (placeStart b c Side.BUY p v).asks_heap).1 b.order_id_counter) qid :=
      hqupd _ qid
    have hqb2 := (m1.2.2.2.2.2.2.2.1).2.2.2
    rcases placeRest_queueOf _ b.order_id_counter hqb2 qid with hpr | hpr
    · refine ⟨k, [], Or.inl rfl, ?_, ?_, ?_⟩
      · rw [List.append_nil, hqfin, hpr]
        exact e1
      · intro oid ho
        rw [hfin oid]
        exact e2 oid ho
      · intro oid ho
        rw [hfin oid, e3 oid ho]
        have homem : oid ∈ queueOf b qid := List.drop_subset _ _ ho
        exact placeStart_getOrder_ne b c Side.BUY p v oid
          (Nat.ne_of_lt (queueOf_bound b.order_id_counter b qid hids oid homem))
    · refine ⟨k, [b.order_id_counter], Or.inr rfl, ?_, ?_, ?_⟩
      · rw [hqfin, hpr, e1]
        rfl
      · intro oid ho
        rw [hfin oid]
        exact e2 oid ho
      · intro oid ho
        rw [hfin oid, e3 oid ho]
        have homem : oid ∈ queueOf b qid := List.drop_subset _ _ ho
        exact placeStart_getOrder_ne b c Side.BUY p v oid
          (Nat.ne_of_lt (queueOf_bound b.order_id_counter b qid hids oid homem))
  | SELL =>
    intro qid
    obtain ⟨m1, m2, m3, m4, m5, m6⟩ := matchSellGo_WF b.order_id_counter
      (placeStart b c Side.SELL p v).bids_heap (placeStart b c Side.SELL p v) rfl hwf1 hT1
    obtain ⟨k, e1, e2, e3⟩ := matchSellGo_consume b.order_id_counter
      (placeStart b c Side.SELL p v).bids_heap (placeStart b c Side.SELL p v) rfl
      hwf1 hT1 qid
    have hfin : ∀ x, getOrder (place_order b c Side.SELL p v).1 x =
        getOrder (matchSellGo b.order_id_counter (placeStart b c Side.SELL p v)
          (placeStart b c Side.SELL p v).bids_heap).1 x := by
      intro x
      exact getOrder_congr _ _
        ((update_price_history_orders _).trans (placeRest_orders _ _)) x
    have hqfin : queueOf (place_order b c Side.SELL p v).1 qid =
        queueOf (placeRest (matchSellGo b.order_id_counter (placeStart b c Side.SELL p v)
          (placeStart b c Side.SELL p v).bids_heap).1 b.order_id_counter) qid :=
      hqupd _ qid
    have hqb2 := (m1.2.2.2.2.2.2.2.1).2.2.2
    rcases placeRest_queueOf _ b.order_id_counter hqb2 qid with hpr | hpr
    · refine ⟨k, [], Or.inl rfl, ?_, ?_, ?_⟩
      · rw [List.append_nil, hqfin, hpr]
        exact e1
      · intro oid ho
        rw [hfin oid]
        exact e2 oid ho
      · intro oid ho
        rw [hfin oid, e3 oid ho]
        have homem : oid ∈ queueOf b qid := List.drop_subset _ _ ho
        exact placeStart_getOrder_ne b c Side.SELL p v oid
          (Nat.ne_of_lt (queueOf_bound b.order_id_counter b qid hids oid homem))
    · refine ⟨k, [b.order_id_counter], Or.inr rfl, ?_, ?_, ?_⟩
      · rw [hqfin, hpr, e1]
        rfl
      · intro oid ho
        rw [hfin oid]
        exact e2 oid ho
      · intro oid ho
        rw [hfin oid, e3 oid ho]
        have homem : oid ∈ queueOf b qid := List.drop_subset _ _ ho
        exact placeStart_getOrder_ne b c Side.SELL p v oid
          (Nat.ne_of_lt (queueOf_bound b.order_id_counter b qid hids oid homem))

/-- A fully processed order (out of every level queue, id already
allocated) is never touched again by later place calls. -/
theorem zero_stable (ops : List Op) : ∀ b : Book, Reachable b →
    (∀ op ∈ ops, ∃ c s p v, op = Op.place c s p v) →
    ∀ A, A < b.order_id_counter → (∀ qid2, A ∉ queueOf b qid2) →
    getOrder (ops.foldl applyOp b) A = getOrder b A ∧
    (∀ qid2, A ∉ queueOf (ops.foldl applyOp b) qid2) := by
  induction ops with
  | nil =>
    intro b _ _ A _ hq
    exact ⟨rfl, hq⟩
  | cons op rest ih =>
    intro b hb hops A hA hq
    obtain ⟨c, s, p, v, hop⟩ := hops op (List.mem_cons_self _ _)
    subst hop
    rw [List.foldl_cons]
    have hb1 : Reachable (applyOp b (Op.place c s p v)) := reachable_applyOp _ _ hb
    have hAne : A ≠ b.order_id_counter := Nat.ne_of_lt hA
    have hrec : getOrder (applyOp b (Op.place c s p v)) A = getOrder b A :=
      place_getOrder_outside b c s p v A hAne hq
    have hq1 : ∀ qid2, A ∉ queueOf (applyOp b (Op.place c s p v)) qid2 := by
      intro qid2
      obtain ⟨k, rest2, hrest2, he, -, -⟩ := place_consume b c s p v
        (heapsWF_reachable b hb) (idsBound_reachable b hb) qid2
      show A ∉ queueOf (place_order b c s p v).1 qid2
      rw [he]
      intro hmem
      rcases List.mem_append.mp hmem with hm | hm
      · exact hq qid2 (List.drop_subset _ _ hm)
      · rcases hrest2 with h' | h'
        · rw [h'] at hm
          exact absurd hm (List.not_mem_nil _)
        · rw [h', List.mem_singleton] at hm
          exact hAne hm
    have hA1 : A < (applyOp b (Op.place c s p v)).order_id_counter :=
      lt_of_lt_of_le hA (applyOp_counter_mono b _)
    obtain ⟨r1, r2⟩ := ih (applyOp b (Op.place c s p v)) hb1
      (fun op2 h2 => hops op2 (List.mem_cons_of_mem _ h2)) A hA1 hq1
    exact ⟨r1.trans hrec, r2⟩

/-- Price-time priority along a sequence of place calls: if A sits
ahead of B in a level queue, then afterwards either B's record is
completely untouched and A is still queued ahead of B, or A has been
fully filled (volume 0) and removed from every queue. -/
theorem priority_seq (ops : List Op) : ∀ b : Book, Reachable b →
    (∀ op ∈ ops, ∃ c s p v, op = Op.place c s p v) →
    ∀ qid A B, (∃ l1 l2 l3, queueOf b qid = l1 ++ A :: l2 ++ B :: l3) →
    (getOrder (ops.foldl applyOp b) B = getOrder b B ∧
      ∃ l1 l2 l3, queueOf (ops.foldl applyOp b) qid = l1 ++ A :: l2 ++ B :: l3) ∨
    ((getOrder (ops.foldl applyOp b) A).volume = 0 ∧
      ∀ qid2, A ∉ queueOf (ops.foldl applyOp b) qid2) := by
  induction ops with
  | nil =>
    intro b _ _ qid A B hdec
    exact Or.inl ⟨rfl, hdec⟩
  | cons op rest ih =>
    intro b hb hops qid A B hdec
    obtain ⟨l1, l2, l3, hq⟩ := hdec
    obtain ⟨c, s, p, v, hop⟩ := hops op (List.mem_cons_self _ _)
    subst hop
    rw [List.foldl_cons]
    have hb1 : Reachable (applyOp b (Op.place c s p v)) := reachable_applyOp _ _ hb
    have hwf := heapsWF_reachable b hb
    have hids := idsBound_reachable b hb
    have hAmem : A ∈ queueOf b qid := by
      rw [hq]
      exact List.mem_append_left _
        (List.mem_append_right _ (List.mem_cons_self _ _))
    have hBmem : B ∈ queueOf b qid := by
      rw [hq]
      exact List.mem_append_right _ (List.mem_cons_self _ _)
    have hAlt := queueOf_bound b.order_id_counter b qid hids A hAmem
    obtain ⟨k, rest2, hrest2, he, hzero, hunch⟩ := place_consume b c s p v hwf hids qid
    by_cases hk : k ≤ l1.length
    · -- A is still queued: recurse with the shifted decomposition
      have hk' : k ≤ (l1 ++ A :: l2).length := by
        rw [List.length_append]
        exact le_trans hk (Nat.le_add_right _ _)
      have hq1 : queueOf (place_order b c s p v).1 qid =
          l1.drop k ++ A :: l2 ++ B :: (l3 ++ rest2) := by
        rw [he, hq, List.drop_append_eq_append_drop, Nat.sub_eq_zero_of_le hk',
          List.drop_zero, List.drop_append_eq_append_drop, Nat.sub_eq_zero_of_le hk,
          List.drop_zero]
        simp [List.cons_append, List.append_assoc]
      have hBun : getOrder (place_order b c s p v).1 B = getOrder b B := by
        apply hunch
        rw [hq]
        have hlen : k + 1 ≤ (l1 ++ A :: l2).length := by
          rw [List.length_append, List.length_cons]
          omega
        rw [List.drop_append_eq_append_drop, Nat.sub_eq_zero_of_le hlen,
          List.drop_zero]
        exact List.mem_append_right _ (List.mem_cons_self _ _)
      rcases ih (applyOp b (Op.place c s p v)) hb1
          (fun op2 h2 => hops op2 (List.mem_cons_of_mem _ h2)) qid A B
          ⟨l1.drop k, l2, l3 ++ rest2, hq1⟩ with ⟨hB2, hdec2⟩ | hr
      · exact Or.inl ⟨hB2.trans hBun, hdec2⟩
      · exact Or.inr hr
    · -- A was popped by this call: fully filled, out of every queue
      right
      push_neg at hk
      have hAtake : A ∈ (queueOf b qid).take k := by
        rw [hq, List.take_append_eq_append_take]
        refine List.mem_append_left _ ?_
        rw [List.take_append_eq_append_take]
        refine List.mem_append_right _ ?_
        obtain ⟨m, hm⟩ : ∃ m, k - l1.length = m + 1 :=
          ⟨k - l1.length - 1, by omega⟩
        rw [hm, List.take_succ_cons]
        exact List.mem_cons_self _ _
      have hzA : (getOrder (place_order b c s p v).1 A).volume = 0 := hzero A hAtake
      have hnotin : ∀ qid2, A ∉ queueOf (applyOp b (Op.place c s p v)) qid2 := by
        intro qid2
        show A ∉ queueOf (place_order b c s p v).1 qid2
        by_cases hqq : qid2 = qid
        · subst hqq
          rw [he]
          intro hmem
          have hnd : (queueOf b qid2).Nodup := hwf.2.2.2.2.2.2.1.1 qid2
          rcases List.mem_append.mp hmem with hm | hm
          · have hnd2 : ((queueOf b qid2).take k ++ (queueOf b qid2).drop k).Nodup := by
              rw [List.take_append_drop]
              exact hnd
            exact List.disjoint_of_nodup_append hnd2 hAtake hm
          · rcases hrest2 with h' | h'
            · rw [h'] at hm
              exact absurd hm (List.not_mem_nil _)
            · rw [h', List.mem_singleton] at hm
              exact Nat.ne_of_lt hAlt hm
        · obtain ⟨k2, rest3, hrest3, he2, -, -⟩ := place_consume b c s p v hwf hids qid2
          rw [he2]
          intro hmem
          rcases List.mem_append.mp hmem with hm | hm
          · exact hwf.2.2.2.2.2.2.1.2 qid qid2 (fun heq => hqq heq.symm) A hAmem
              (List.drop_subset _ _ hm)
          · rcases hrest3 with h' | h'
            · rw [h'] at hm
              exact absurd hm (List.not_mem_nil _)
            · rw [h', List.mem_singleton] at hm
              exact Nat.ne_of_lt hAlt hm
      have hA1 : A < (applyOp b (Op.place c s p v)).order_id_counter :=
        lt_of_lt_of_le hAlt (applyOp_counter_mono b _)
      obtain ⟨r1, r2⟩ := zero_stable rest (applyOp b (Op.place c s p v)) hb1
        (fun op2 h2 => hops op2 (List.mem_cons_of_mem _ h2)) A hA1 hnotin
      constructor
      · rw [r1]
        exact hzA
      · exact r2

/-- C2 (price-time priority): in every reachable book, (1) if order A
was admitted to a level queue ahead of order B (same price and side,
so same queue object) then after any further sequence of place_order
calls, if B has filled any volume at all then A has been completely
filled (residual volume 0); and (2) within one place_order call every
level queue is consumed only from its FIFO front — the result queue is
the original queue with some prefix popped (plus possibly the fresh
order appended at the back), every popped order ends fully filled, and
every order strictly behind the current head keeps its record
untouched, so no later order in a level can trade before an earlier
one, whatever its volume. -/
theorem C2_price_time_priority (b : Book) (hb : Reachable b) :
    (∀ ops : List Op, (∀ op ∈ ops, ∃ c s p v, op = Op.place c s p v) →
      ∀ qid A B, ∀ l1 l2 l3 : List Nat, queueOf b qid = l1 ++ A :: l2 ++ B :: l3 →
      (getOrder (ops.foldl applyOp b) B).volume < (getOrder b B).volume →
      (getOrder (ops.foldl applyOp b) A).volume = 0) ∧
    (∀ (c : String) (s : Side) (p : Rat) (v : Int) (qid : Nat), ∃ k rest,
      (rest = [] ∨ rest = [b.order_id_counter]) ∧
      queueOf (place_order b c s p v).1 qid = (queueOf b qid).drop k ++ rest ∧
      (∀ oid ∈ (queueOf b qid).take k,
        (getOrder (place_order b c s p v).1 oid).volume = 0) ∧
      (∀ oid ∈ (queueOf b qid).drop (k+1),
        getOrder (place_order b c s p v).1 oid = getOrder b oid)) := by
  refine ⟨?_, fun c s p v qid => place_consume b c s p v
    (heapsWF_reachable b hb) (idsBound_reachable b hb) qid⟩
  intro ops hops qid A B l1 l2 l3 hq hBlt
  rcases priority_seq ops b hb hops qid A B ⟨l1, l2, l3, hq⟩ with ⟨hB2, -⟩ | ⟨hz, -⟩
  · rw [hB2] at hBlt
    exact absurd hBlt (lt_irrefl _)
  · exact hz

/-- Concrete instance of C2: two SELL makers queue at price 100 (ids 1
then 2); a BUY taker for 6 fills order 1 completely (5) and order 2
only partially (1), never the other way around. -/
theorem C2_witness :
    queueOf (runOps 10 [Op.place "A" Side.SELL 100 5, Op.place "B" Side.SELL 100 7]) 0 =
      [] ++ 1 :: [] ++ 2 :: [] ∧
    (getOrder (([Op.place "C" Side.BUY 100 6] : List Op).foldl applyOp
        (runOps 10 [Op.place "A" Side.SELL 100 5,
          Op.place "B" Side.SELL 100 7])) 2).volume <
      (getOrder (runOps 10 [Op.place "A" Side.SELL 100 5,
        Op.place "B" Side.SELL 100 7]) 2).volume ∧
    (getOrder (([Op.place "C" Side.BUY 100 6] : List Op).foldl applyOp
        (runOps 10 [Op.place "A" Side.SELL 100 5,
          Op.place "B" Side.SELL 100 7])) 1).volume = 0 :=
  ⟨by decide, by decide,
   (C2_price_time_priority
     (runOps 10 [Op.place "A" Side.SELL 100 5, Op.place "B" Side.SELL 100 7])
     ⟨10, [Op.place "A" Side.SELL 100 5, Op.place "B" Side.SELL 100 7], rfl⟩).1
     [Op.place "C" Side.BUY 100 6]
     (by
       intro op hop
       rw [List.mem_singleton] at hop
       exact ⟨"C", Side.BUY, 100, 6, hop⟩)
     0 1 2 [] [] [] (by decide) (by decide)⟩

end LOB
